import Mathlib

/-!
# dnbd3: copy-on-write store, CRC-32 and server discovery

A shallow embedding of `src/fuse/cowfile.c` (the copy-on-write store of the
FUSE client), `src/shared/crc32.c` and the handshake and discovery thread of
`src/kernel/net.c`, together with theorems about them.

Conventions of the embedding.

* C integers are `Int`; conversions that can change a value are explicit
  (`i32`, `i64`, `u64`).  C division and remainder on `int` are `Int.tdiv`
  and `Int.tmod`.
* Bytes are `Nat` below 256.  A `char *` is a function from the (signed)
  index relative to the pointer to the byte stored there.
* A `cow_block_metadata_t *` is the pair (index of the L2 block in
  `cow.firstL2`, index of the entry in that block); `NULL` is `none`.
* The arrays `cow.l1` and `cow.firstL2` are separate maps from indices to
  values.  Effects that depend on the layout of the mapped file (entries that
  are adjacent in memory) are outside the embedding.
* The constants of the header `cowfile.h` are the fields of `CowConst`, those of
  the kernel client the fields of `NetConst`.
* System calls take their outcome from an `Env`.  A request handed to
  `connection_read` is queued in `World.pending`; it is completed by
  `cowfile_handleCallback`, after the call that issued it has returned.
-/

namespace Dnbd3

/-! ## Integer conversions -/

/-- Conversion to `int` (32 bit, two's complement). -/
def i32 (x : Int) : Int := (x + 2 ^ 31) % 2 ^ 32 - 2 ^ 31

/-- Conversion to `off_t` / `ssize_t` / `long` (64 bit, two's complement). -/
def i64 (x : Int) : Int := (x + 2 ^ 63) % 2 ^ 64 - 2 ^ 63

/-- Conversion to `size_t` / `uint64_t`. -/
def u64 (x : Int) : Int := x % 2 ^ 64

/-! ## Constants -/

/-- Constant `DNBD3_BLOCK_SIZE`: the 4 KiB frame (`cowfile_setSize` writes it as the literal 4096). -/
def DNBD3_BLOCK_SIZE : Int := 4096

/-- Constant `EIO` of `errno.h`. -/
def EIO : Int := 5

/-- Modelled from the spec: the constants of the missing header `cowfile.h`.
`COW_BITFIELD_SIZE` is the number of bytes of an entry's bitmap, `COW_L2_SIZE`
the number of metadata entries of an L2 block, `COW_MAX_IMAGE_SIZE` the largest
virtual disk. -/
structure CowConst where
  COW_BITFIELD_SIZE : Int
  COW_L2_SIZE : Int
  COW_MAX_IMAGE_SIZE : Int

/-- Modelled from the spec: a metadata entry describes one region of
`COW_METADATA_STORAGE_CAPACITY` bytes, with one bitmap bit per 4 KiB. -/
def CowConst.COW_METADATA_STORAGE_CAPACITY (K : CowConst) : Int :=
  K.COW_BITFIELD_SIZE * 8 * DNBD3_BLOCK_SIZE

/-- Modelled from the spec: an L2 block (`COW_L2_SIZE` entries) describes one
region of `COW_L2_STORAGE_CAPACITY` bytes. -/
def CowConst.COW_L2_STORAGE_CAPACITY (K : CowConst) : Int :=
  K.COW_L2_SIZE * K.COW_METADATA_STORAGE_CAPACITY

/-- The usual values of the constants: a bitmap of 40 bytes (`getBitfieldOffset` documents
the bit indices 0-319), 1024 entries in an L2 block, images of up to 10^12 bytes. -/
def stdConst : CowConst :=
  { COW_BITFIELD_SIZE := 40, COW_L2_SIZE := 1024, COW_MAX_IMAGE_SIZE := 1000000000000 }

/-- The constants are usable: positive sizes, and every frame number, bit count and index
of the largest image fits an `int`. -/
structure CowConst.WF (K : CowConst) : Prop where
  bitfield_pos : 0 < K.COW_BITFIELD_SIZE
  l2_pos : 0 < K.COW_L2_SIZE
  bits_int : K.COW_BITFIELD_SIZE * 8 < 2 ^ 31
  l2_int : K.COW_L2_SIZE < 2 ^ 31
  max_int : K.COW_MAX_IMAGE_SIZE ≤ 2 ^ 31 * DNBD3_BLOCK_SIZE

/-! ## Addressing (`cowfile.c`, lines 39-64) -/

/-- Source `getL1Offset`. -/
def getL1Offset (K : CowConst) (offset : Int) : Int :=
  i32 (offset / K.COW_L2_STORAGE_CAPACITY)

/-- Source `getL2Offset`. -/
def getL2Offset (K : CowConst) (offset : Int) : Int :=
  i32 ((offset % K.COW_L2_STORAGE_CAPACITY) / K.COW_METADATA_STORAGE_CAPACITY)

/-- Source `getBitfieldOffset`: the cast to `int` applies to the frame number, the remainder
is taken afterwards. -/
def getBitfieldOffset (K : CowConst) (offset : Int) : Int :=
  Int.tmod (i32 (offset / DNBD3_BLOCK_SIZE)) (K.COW_BITFIELD_SIZE * 8)

/-! ## Bitmaps (`cowfile.c`, lines 66-113) -/

/-- Source `setBits`: the mask is computed in `int` and truncated to a `char`; the byte is
updated by fetch-or (`value`) or fetch-and with the complement. -/
def setBits (byte : Nat) (fromBit toBit : Int) (value : Bool) : Nat :=
  let mask := ((255 >>> (7 - (toBit - fromBit)).toNat) <<< fromBit.toNat) % 256
  if value then byte ||| mask else byte &&& (255 - mask)

/-- The `for` loop of `setBitsInBitfield`: `n` iterations starting at byte `i`. -/
def setBitsLoop (toBit : Int) (value : Bool) : Nat → Int → Int → (Int → Nat) → (Int → Nat)
  | 0, _, _, bitfield => bitfield
  | n + 1, i, fromBit, bitfield =>
    setBitsLoop toBit value n (i + 1) ((i + 1) * 8)
      (Function.update bitfield i
        (setBits (bitfield i) (fromBit - i * 8) (min 7 (toBit - i * 8)) value))

/-- Source `setBitsInBitfield`: bytes `from / 8` to `to / 8`, both included. (Its `assert`
holds whenever `from` is not negative.) -/
def setBitsInBitfield (bitfield : Int → Nat) (fromBit toBit : Int) (value : Bool) : Int → Nat :=
  let start := Int.tdiv fromBit 8
  let stop := Int.tdiv toBit 8
  setBitsLoop toBit value (stop - start + 1).toNat start fromBit bitfield

/-- Source `checkBit`. -/
def checkBit (bitfield : Int → Nat) (n : Int) : Bool :=
  (bitfield (Int.tdiv n 8) >>> (Int.tmod n 8).toNat) % 2 == 1

/-! ## The store -/

/-- Type `cow_block_metadata_t`. -/
structure cow_block_metadata_t where
  offset : Int
  timeChanged : Int
  uploads : Int
  bitfield : Int → Nat

/-- Type `cow_request_t`. -/
structure cow_request_t where
  fuseRequestSize : Int
  workCounter : Int
  writeBuffer : Int → Nat
  readBuffer : Int → Nat
  bytesWorkedOn : Int
  errorCode : Int
  fuseRequestOffset : Int

/-- The two callbacks a `cow_sub_request_t` can carry. -/
inductive cow_callback where
  | writePaddedBlock
  | readRemoteData
  deriving DecidableEq, Repr

/-- Type `cow_sub_request_t`, with the fields `offset` and `length` of its `dRequest`.
`buffer` is the position in the parent's `readBuffer` that a remote read fills. -/
structure cow_sub_request_t where
  size : Int
  inBlockOffset : Int
  writeSrc : Int → Nat
  buffer : Int
  block : Int × Int
  callback : cow_callback
  dOffset : Int
  dLength : Int
  writeBuffer : Int → Nat

/-- What is sent back to the FUSE layer. -/
inductive FuseReply where
  | err (code : Int)
  | write (count : Int)
  | buf (data : Int → Nat) (len : Int)
  | attr

/-- Type `enum dataSource`. -/
inductive dataSource where
  | local_
  | zero
  | remote
  deriving DecidableEq, Repr

/-- The mutable state: the mapped metadata (`metadata->...`, `cow.l1`, `cow.firstL2`), the
data file `cow.fhd`, the request being served, the sub-requests in flight, the replies
sent so far, the segments `cowfile_read` has served (source, start, length) and the number
of system calls made. -/
structure World where
  l1 : Int → Int
  firstL2 : Int → Int → cow_block_metadata_t
  nextL2 : Int
  dataFileSize : Int
  originalImageSize : Int
  imageSize : Int
  fhd : Int → Nat
  req : cow_request_t
  pending : List cow_sub_request_t
  replies : List FuseReply
  served : List (dataSource × Int × Int)
  calls : Nat

/-- The surroundings of the store: the constants, the origin image, the clock, the
content of fresh memory and the outcome of each system call (by its number). -/
structure Env where
  K : CowConst
  origin : Int → Nat
  now : Int
  fresh : Int → Nat
  errno : Int
  pwriteRet : Nat → Int → Int
  preadRet : Nat → Int → Int
  connOk : Nat → Bool

/-- An environment in which every system call succeeds and completes. -/
def okEnv (K : CowConst) (origin : Int → Nat) (now : Int) (fresh : Int → Nat) : Env :=
  { K := K, origin := origin, now := now, fresh := fresh, errno := EIO,
    pwriteRet := fun _ n => n, preadRet := fun _ n => n, connOk := fun _ => true }


/-- Conversion to `uint32_t`. -/
def u32 (x : Int) : Int := x % 2 ^ 32

/-- The entry a pointer refers to. -/
def World.entry (w : World) (p : Int × Int) : cow_block_metadata_t := w.firstL2 p.1 p.2

/-- Store through a pointer to an entry. -/
def World.setEntry (w : World) (p : Int × Int) (e : cow_block_metadata_t) : World :=
  { w with firstL2 := Function.update w.firstL2 p.1 (Function.update (w.firstL2 p.1) p.2 e) }

/-- System call `pwrite` on the data file: `buf` is the source, the result is -1 or the
number of bytes written (at most `count`). A negative file offset is an error. -/
def pwrite (env : Env) (w : World) (buf : Int → Nat) (count offset : Int) : World × Int :=
  let r := env.pwriteRet w.calls count
  let w1 := { w with calls := w.calls + 1 }
  if offset < 0 ∨ r < 0 then (w1, -1)
  else
    let stored : Int → Nat := fun p =>
      if offset ≤ p ∧ p < offset + min r count then buf (p - offset) else w.fhd p
    ({ w1 with fhd := stored }, min r count)

/-- System call `pread` on the data file into `readBuffer + dst`. -/
def pread (env : Env) (w : World) (dst count offset : Int) : World × Int :=
  let r := env.preadRet w.calls count
  let w1 := { w with calls := w.calls + 1 }
  if offset < 0 ∨ r < 0 then (w1, -1)
  else
    let filled : Int → Nat := fun i =>
      if dst ≤ i ∧ i < dst + min r count then w.fhd (offset + (i - dst)) else w.req.readBuffer i
    ({ w1 with req := { w1.req with readBuffer := filled } }, min r count)

/-- Function `connection_read`: on success the request is on its way to the server. -/
def connection_read (env : Env) (w : World) (s : cow_sub_request_t) : World × Bool :=
  let w1 := { w with calls := w.calls + 1 }
  if env.connOk w.calls then ({ w1 with pending := w1.pending ++ [s] }, true) else (w1, false)

/-- State left by a successful `cowfile_init` for an image of `imageSize` bytes: no L2 block,
every L1 slot -1, the data file size counter past the header (the eight magic bytes of the
data file are not represented; no operation reads them). -/
def cowfile_init (env : Env) (imageSize : Int) : World :=
  { l1 := fun _ => -1
    firstL2 := fun _ _ => { offset := 0, timeChanged := 0, uploads := 0, bitfield := fun _ => 0 }
    nextL2 := 0
    dataFileSize := env.K.COW_METADATA_STORAGE_CAPACITY
    originalImageSize := imageSize
    imageSize := imageSize
    fhd := fun _ => 0
    req := { fuseRequestSize := 0, workCounter := 0, writeBuffer := env.fresh,
             readBuffer := env.fresh, bytesWorkedOn := 0, errorCode := 0, fuseRequestOffset := 0 }
    pending := []
    replies := []
    served := []
    calls := 0 }

/-- Size of the L1 array, `cow.l1Size`. -/
def l1Size (K : CowConst) : Int :=
  (K.COW_MAX_IMAGE_SIZE + K.COW_L2_STORAGE_CAPACITY - 1) / K.COW_L2_STORAGE_CAPACITY

/-- The `while` loop of `writeData`: `total` is `totalBytesWritten`. Every turn that goes on
adds at least one byte, so `size` turns are enough. -/
def writeDataLoop (env : Env) (buffer : Int → Nat) (size : Int) (block : Int × Int)
    (inBlockOffset : Int) : Nat → World → Int → World × Int
  | 0, w, total => (w, total)
  | fuel + 1, w, total =>
    if total < size then
      let r := pwrite env w (fun i => buffer (i + total)) (size - total)
        ((w.entry block).offset + inBlockOffset + total)
      if r.2 = -1 then ({ r.1 with req := { r.1.req with errorCode := env.errno } }, total)
      else if r.2 = 0 then ({ r.1 with req := { r.1.req with errorCode := EIO } }, total)
      else writeDataLoop env buffer size block inBlockOffset fuel r.1 (total + r.2)
    else (w, total)

/-- Source `writeData`. The bit indices are computed in `uint64_t` and cast to `int`. -/
def writeData (env : Env) (w : World) (buffer : Int → Nat) (size netSize : Int)
    (block : Int × Int) (inBlockOffset : Int) : World :=
  let r := writeDataLoop env buffer size block inBlockOffset size.toNat w 0
  let w1 := { r.1 with req := { r.1.req with bytesWorkedOn := r.1.req.bytesWorkedOn + netSize } }
  let e := w1.entry block
  let bits := setBitsInBitfield e.bitfield (i32 (u64 inBlockOffset / DNBD3_BLOCK_SIZE))
    (i32 (u64 (inBlockOffset + r.2 - 1) / DNBD3_BLOCK_SIZE)) true
  w1.setEntry block { e with bitfield := bits, timeChanged := env.now }

/-- Source `allocateMetaBlockData`. The cast of the old counter value to `atomic_long` keeps
the value: the counter stays far below 2^63. -/
def allocateMetaBlockData (env : Env) (w : World) (block : Int × Int) : World :=
  { (w.setEntry block { w.entry block with offset := w.dataFileSize }) with
      dataFileSize := w.dataFileSize + env.K.COW_METADATA_STORAGE_CAPACITY }

/-- Source `getBlock`. -/
def getBlock (env : Env) (w : World) (l1Offset l2Offset : Int) : World × (Int × Int) :=
  let block := (w.l1 l1Offset, l2Offset)
  if (w.entry block).offset = -1 then (allocateMetaBlockData env w block, block) else (w, block)

/-- Source `createL2Block`. -/
def createL2Block (env : Env) (w : World) (l1Offset : Int) : World :=
  if w.l1 l1Offset = -1 then
    { w with
      firstL2 := Function.update w.firstL2 w.nextL2 (fun i =>
        if 0 ≤ i ∧ i < env.K.COW_L2_SIZE then
          { offset := -1, timeChanged := 0, uploads := 0,
            bitfield := fun j => if 0 ≤ j ∧ j < env.K.COW_BITFIELD_SIZE then 0
                                 else (w.firstL2 w.nextL2 i).bitfield j }
        else w.firstL2 w.nextL2 i)
      l1 := Function.update w.l1 l1Offset w.nextL2
      nextL2 := w.nextL2 + 1 }
  else w

/-- Source `finishWriteRequest`. -/
def finishWriteRequest (w : World) : World :=
  if w.req.errorCode ≠ 0 then { w with replies := w.replies ++ [FuseReply.err w.req.errorCode] }
  else
    { w with
      imageSize := max w.imageSize (u64 (w.req.bytesWorkedOn + w.req.fuseRequestOffset))
      replies := w.replies ++ [FuseReply.write w.req.bytesWorkedOn] }

/-- The idiom `if ( atomic_fetch_sub( &workCounter, 1 ) == 1 ) finishWriteRequest( ... )`. -/
def releaseWrite (w : World) : World :=
  let w1 := { w with req := { w.req with workCounter := w.req.workCounter - 1 } }
  if w.req.workCounter = 1 then finishWriteRequest w1 else w1

/-- Source `writePaddedBlock`. -/
def writePaddedBlock (env : Env) (w : World) (s : cow_sub_request_t) : World :=
  let at_ := s.inBlockOffset % DNBD3_BLOCK_SIZE
  let merged : Int → Nat := fun i =>
    if at_ ≤ i ∧ i < at_ + s.size then s.writeSrc (i - at_) else s.writeBuffer i
  releaseWrite (writeData env w merged DNBD3_BLOCK_SIZE s.size s.block
    (s.inBlockOffset - s.inBlockOffset % DNBD3_BLOCK_SIZE))

/-- Source `padBlockFromRemote`. -/
def padBlockFromRemote (env : Env) (w : World) (offset : Int) (buffer : Int → Nat) (size : Int)
    (block : Int × Int) (inBlockOffset : Int) : World :=
  if offset > i64 w.originalImageSize then
    writeData env w (fun i => if 0 ≤ i ∧ i < size then buffer i else 0) DNBD3_BLOCK_SIZE size
      block inBlockOffset
  else
    let start := offset - offset % DNBD3_BLOCK_SIZE
    let length :=
      if u64 (offset + DNBD3_BLOCK_SIZE) > w.originalImageSize then
        u32 (min DNBD3_BLOCK_SIZE (u64 (offset + DNBD3_BLOCK_SIZE - w.originalImageSize)))
      else DNBD3_BLOCK_SIZE
    let s : cow_sub_request_t :=
      { size := size, inBlockOffset := inBlockOffset, writeSrc := buffer, buffer := 0,
        block := block, callback := cow_callback.writePaddedBlock, dOffset := start,
        dLength := length, writeBuffer := env.fresh }
    let w1 := { w with req := { w.req with workCounter := w.req.workCounter + 1 } }
    let r := connection_read env w1 s
    if r.2 then r.1
    else releaseWrite { r.1 with req := { r.1.req with errorCode := EIO } }

/-- The inner `while` loop of `cowfile_write` (over the entries of one L2 block). The result
is the state with `currentOffset` and `l2Offset`; `none` when the fuel does not suffice. -/
def writeInner (env : Env) (offset endOffset l1Offset : Int) :
    Nat → World → Int → Int → Option (World × Int × Int)
  | 0, _, _, _ => none
  | fuel + 1, w, currentOffset, l2Offset =>
    if currentOffset < endOffset ∧ l2Offset < env.K.COW_L2_SIZE then
      let g := getBlock env w l1Offset l2Offset
      let metaBlock := g.2
      let metaBlockStartOffset := l1Offset * env.K.COW_L2_STORAGE_CAPACITY
        + l2Offset * env.K.COW_METADATA_STORAGE_CAPACITY
      let inBlockOffset := currentOffset - metaBlockStartOffset
      let sizeToWriteToBlock := min (endOffset - currentOffset)
        (env.K.COW_METADATA_STORAGE_CAPACITY - inBlockOffset)
      if currentOffset % DNBD3_BLOCK_SIZE ≠ 0
          ∧ checkBit (g.1.entry metaBlock).bitfield (i32 (inBlockOffset / DNBD3_BLOCK_SIZE)) = false then
        let padSize := min sizeToWriteToBlock (DNBD3_BLOCK_SIZE - currentOffset % DNBD3_BLOCK_SIZE)
        let sbuf : Int → Nat := fun i => g.1.req.writeBuffer (i + (currentOffset - offset))
        let w1 := padBlockFromRemote env g.1 offset sbuf padSize metaBlock inBlockOffset
        writeInner env offset endOffset l1Offset fuel w1 (currentOffset + padSize) l2Offset
      else
        let currentEndOffset := currentOffset + sizeToWriteToBlock
        let padStartOffset := currentEndOffset - currentEndOffset % 4096
        let inBlockPadStartOffset := padStartOffset - metaBlockStartOffset
        let padEnd : Bool := decide (currentEndOffset % DNBD3_BLOCK_SIZE ≠ 0)
          && !checkBit (g.1.entry metaBlock).bitfield (i32 (inBlockPadStartOffset / DNBD3_BLOCK_SIZE))
        let w1 :=
          if padEnd then
            padBlockFromRemote env g.1 padStartOffset
              (fun i => g.1.req.writeBuffer (i + (padStartOffset - offset)))
              (currentEndOffset - padStartOffset) metaBlock inBlockPadStartOffset
          else g.1
        let endPaddedSize := if padEnd then currentEndOffset - padStartOffset else 0
        let sizeToWrite := sizeToWriteToBlock - endPaddedSize
        let w2 := writeData env w1 (fun i => w1.req.writeBuffer (i + (currentOffset - offset)))
          sizeToWrite sizeToWrite metaBlock inBlockOffset
        writeInner env offset endOffset l1Offset fuel w2
          (currentOffset + sizeToWrite + endPaddedSize) (l2Offset + 1)
    else some (w, currentOffset, l2Offset)

/-- The outer `while` loop of `cowfile_write` (over the L1 slots). -/
def writeOuter (env : Env) (offset endOffset : Int) (fuel : Nat) :
    Nat → World → Int → Int → Int → Option World
  | 0, _, _, _, _ => none
  | n + 1, w, currentOffset, l1Offset, l2Offset =>
    if currentOffset < endOffset then
      let w1 := if w.l1 l1Offset = -1 then createL2Block env w l1Offset else w
      match writeInner env offset endOffset l1Offset fuel w1 currentOffset l2Offset with
      | none => none
      | some r => writeOuter env offset endOffset fuel n r.1 r.2.1 (l1Offset + 1) 0
    else some w

/-- Source `cowfile_write` from the line `off_t currentOffset = offset;` on. -/
def cowfile_write_data (fuel : Nat) (env : Env) (w : World) (offset size : Int) : Option World :=
  (writeOuter env offset (i64 (offset + size)) fuel fuel w offset
    (getL1Offset env.K offset) (getL2Offset env.K offset)).map releaseWrite

/-- Source `cowfile_write`. The request `w.req` is the one the FUSE layer passes in. The fuel
bounds the loops and the depth of the call the function makes to itself (that call starts
at `imageSize`, so it does not call again). -/
def cowfile_write : Nat → Env → World → Int → Int → Option World
  | 0, _, _, _, _ => none
  | fuel + 1, env, w, offset, size =>
    let padded : Option World :=
      if offset > i64 w.imageSize then
        let pSize0 := u64 (offset - w.imageSize)
        let pSize := u64 (pSize0 - u64 (pSize0 + offset) % DNBD3_BLOCK_SIZE)
        let w1 := { w with req := { w.req with workCounter := w.req.workCounter + 1 } }
        cowfile_write fuel env w1 (i64 w1.imageSize) pSize
      else some w
    padded.bind (fun w2 => cowfile_write_data (fuel + 1) env w2 offset size)

/-- The request the FUSE layer builds for a write of `size` bytes of `data` at `offset`
(its `image_ll_write` is outside `cowfile.c`). -/
def writeRequest (data : Int → Nat) (offset size : Int) (fresh : Int → Nat) : cow_request_t :=
  { fuseRequestSize := size, workCounter := 1, writeBuffer := data, readBuffer := fresh,
    bytesWorkedOn := 0, errorCode := 0, fuseRequestOffset := offset }

/-- Source `readRemoteData`. -/
def readRemoteData (w : World) (s : cow_sub_request_t) : World :=
  let w1 := { w with req := { w.req with bytesWorkedOn := w.req.bytesWorkedOn + s.dLength } }
  let w2 := { w1 with req := { w1.req with workCounter := w1.req.workCounter - 1 } }
  if w1.req.workCounter = 1 then
    { w2 with replies := w2.replies ++ [FuseReply.buf w2.req.readBuffer w2.req.bytesWorkedOn] }
  else w2

/-- Source `cowfile_handleCallback`, run when the server has answered the request `s`.
Modelled from the spec: the answer carries `length` bytes of the origin starting at `offset`;
they are in the buffer of the sub-request when its callback runs. -/
def cowfile_handleCallback (env : Env) (w : World) (s : cow_sub_request_t) : World :=
  match s.callback with
  | cow_callback.writePaddedBlock =>
    writePaddedBlock env w { s with writeBuffer := fun i =>
      if 0 ≤ i ∧ i < s.dLength then env.origin (s.dOffset + i) else s.writeBuffer i }
  | cow_callback.readRemoteData =>
    let filled : Int → Nat := fun i =>
      if s.buffer ≤ i ∧ i < s.buffer + s.dLength then env.origin (s.dOffset + (i - s.buffer))
      else w.req.readBuffer i
    readRemoteData { w with req := { w.req with readBuffer := filled } } s

/-- All requests in flight are answered, in the order in which they were issued. -/
def completePending (env : Env) (w : World) : World :=
  w.pending.foldl (cowfile_handleCallback env) { w with pending := [] }

/-- Source `readRemote`. -/
def readRemote (env : Env) (w : World) (offset size buffer : Int) : World :=
  let s : cow_sub_request_t :=
    { size := 0, inBlockOffset := 0, writeSrc := env.fresh, buffer := buffer, block := (0, 0),
      callback := cow_callback.readRemoteData, dOffset := offset, dLength := u32 size,
      writeBuffer := env.fresh }
  let w1 := { w with req := { w.req with workCounter := w.req.workCounter + 1 } }
  let r := connection_read env w1 s
  if r.2 then r.1
  else
    let w2 : World := { r.1 with req := { r.1.req with errorCode := EIO } }
    let w3 : World := { w2 with req := { w2.req with workCounter := w2.req.workCounter - 1 } }
    if w2.req.workCounter = 1 then
      { w3 with replies := w3.replies ++ [FuseReply.buf w3.req.readBuffer w3.req.bytesWorkedOn] }
    else w3

/-- Source `getBlockDataSource`; `block = none` is the `NULL` pointer. -/
def getBlockDataSource (w : World) (block : Option (Int × Int)) (bitfieldOffset offset : Int) :
    dataSource :=
  if (match block with
      | none => false
      | some p => checkBit (w.entry p).bitfield (i32 bitfieldOffset)) = true then dataSource.local_
  else if u64 offset ≥ w.originalImageSize then dataSource.zero
  else dataSource.remote

/-- The local variables of the loop of `cowfile_read`. -/
structure ReadLoop where
  searchOffset : Int
  lastReadOffset : Int
  l1Offset : Int
  l2Offset : Int
  bitfieldOffset : Int
  dataState : dataSource
  block : Option (Int × Int)
  doRead : Bool
  firstLoop : Bool
  updateBlock : Bool

/-- The `pread` loop of `cowfile_read`; the flag tells whether it ended without `goto fail`. -/
def readLocalLoop (env : Env) (dst sizeToRead localRead : Int) : Nat → World → Int → World × Int × Bool
  | 0, w, total => (w, total, true)
  | fuel + 1, w, total =>
    if total < sizeToRead then
      let r := pread env w dst sizeToRead localRead
      if r.2 = -1 then ({ r.1 with req := { r.1.req with errorCode := env.errno } }, total, false)
      else if r.2 ≤ 0 then ({ r.1 with req := { r.1.req with errorCode := EIO } }, total, false)
      else readLocalLoop env dst sizeToRead localRead fuel r.1 (total + r.2)
    else (w, total, true)

/-- One segment of `cowfile_read` is served: the body of `if ( doRead || searchOffset >= endOffset )`
up to the `goto fail`. The flag is false after `goto fail`; `none` is a crash (a `memset` with a
negative length, or a local read through the `NULL` pointer). -/
def serveSegment (env : Env) (w : World) (offset : Int) (st : ReadLoop) (sizeToRead : Int) :
    Option (World × Bool) :=
  let w0 := { w with served := w.served ++ [(st.dataState, st.lastReadOffset, sizeToRead)] }
  match st.dataState with
  | dataSource.remote =>
    some (readRemote env w0 st.lastReadOffset sizeToRead (st.lastReadOffset - offset), true)
  | dataSource.zero =>
    if sizeToRead < 0 then none
    else
      let dst := st.lastReadOffset - offset
      let zeroed : Int → Nat := fun i => if dst ≤ i ∧ i < dst + sizeToRead then 0 else w0.req.readBuffer i
      some ({ w0 with req := { w0.req with readBuffer := zeroed,
                                            bytesWorkedOn := w0.req.bytesWorkedOn + sizeToRead } }, true)
  | dataSource.local_ =>
    match st.block with
    | none => none
    | some p =>
      let localRead := (w0.entry p).offset
        + (st.lastReadOffset % env.K.COW_L2_STORAGE_CAPACITY) % env.K.COW_METADATA_STORAGE_CAPACITY
      let r := readLocalLoop env (st.lastReadOffset - offset) sizeToRead localRead sizeToRead.toNat w0 0
      if r.2.2 then
        some ({ r.1 with req := { r.1.req with bytesWorkedOn := r.1.req.bytesWorkedOn + r.2.1 } }, true)
      else some (r.1, false)

/-- The `while ( searchOffset < endOffset )` loop of `cowfile_read`. -/
def readLoop (env : Env) (offset endOffset : Int) : Nat → World → ReadLoop → Option World
  | 0, _, _ => none
  | fuel + 1, w, st =>
    if st.searchOffset < endOffset then
      let st1 : ReadLoop :=
        if st.firstLoop then
          { st with firstLoop := false, lastReadOffset := st.searchOffset,
                    dataState := getBlockDataSource w st.block st.bitfieldOffset st.searchOffset }
        else if getBlockDataSource w st.block st.bitfieldOffset st.searchOffset ≠ st.dataState then
          { st with doRead := true }
        else { st with bitfieldOffset := st.bitfieldOffset + 1 }
      let st2 : ReadLoop :=
        if st1.bitfieldOffset ≥ env.K.COW_BITFIELD_SIZE * 8 then
          { st1 with bitfieldOffset := 0,
                     l2Offset := if st1.l2Offset + 1 ≥ env.K.COW_L2_SIZE then 0 else st1.l2Offset + 1,
                     l1Offset := if st1.l2Offset + 1 ≥ env.K.COW_L2_SIZE then st1.l1Offset + 1
                                 else st1.l1Offset,
                     updateBlock := true,
                     doRead := st1.doRead || decide (st1.dataState = dataSource.local_) }
        else st1
      let st3 : ReadLoop :=
        { st2 with searchOffset := DNBD3_BLOCK_SIZE * st2.bitfieldOffset
            + st2.l2Offset * env.K.COW_METADATA_STORAGE_CAPACITY
            + st2.l1Offset * env.K.COW_L2_STORAGE_CAPACITY }
      let afterRead : Option (World × ReadLoop × Bool) :=
        if st3.doRead = true ∨ st3.searchOffset ≥ endOffset then
          (serveSegment env w offset st3 (min st3.searchOffset endOffset - st3.lastReadOffset)).map
            (fun r => (r.1, { st3 with lastReadOffset := st3.searchOffset, doRead := false,
                                       firstLoop := true }, r.2))
        else some (w, st3, true)
      match afterRead with
      | none => none
      | some (w1, st4, ok) =>
        if ok then
          if st4.updateBlock then
            if w1.l1 st4.l1Offset ≠ -1 then
              let g := getBlock env w1 st4.l1Offset st4.l2Offset
              readLoop env offset endOffset fuel g.1 { st4 with block := some g.2, updateBlock := false }
            else readLoop env offset endOffset fuel w1 { st4 with block := none, updateBlock := false }
          else readLoop env offset endOffset fuel w1 st4
        else some w1
    else some w

/-- Source `cowfile_read`. -/
def cowfile_read (fuel : Nat) (env : Env) (w : World) (size offset : Int) : Option World :=
  let rq : cow_request_t :=
    { fuseRequestSize := size, workCounter := 1, writeBuffer := env.fresh, readBuffer := env.fresh,
      bytesWorkedOn := 0, errorCode := 0, fuseRequestOffset := offset }
  let w0 := { w with req := rq }
  let l1Offset := getL1Offset env.K offset
  let l2Offset := getL2Offset env.K offset
  let g : World × Option (Int × Int) :=
    if w0.l1 l1Offset ≠ -1 then ((getBlock env w0 l1Offset l2Offset).1, some (getBlock env w0 l1Offset l2Offset).2)
    else (w0, none)
  let st : ReadLoop :=
    { searchOffset := offset, lastReadOffset := offset, l1Offset := l1Offset, l2Offset := l2Offset,
      bitfieldOffset := getBitfieldOffset env.K offset, dataState := dataSource.remote,
      block := g.2, doRead := false, firstLoop := true, updateBlock := false }
  (readLoop env offset (i64 (offset + size)) fuel g.1 st).map (fun w1 =>
    let w2 := { w1 with req := { w1.req with workCounter := w1.req.workCounter - 1 } }
    if w1.req.workCounter = 1 then
      if w1.req.errorCode ≠ 0 then { w2 with replies := w2.replies ++ [FuseReply.err w2.req.errorCode] }
      else { w2 with replies := w2.replies ++ [FuseReply.buf w2.req.readBuffer w2.req.bytesWorkedOn] }
    else w2)

/-- The `while` loop of `cowfile_setSize` that clears the bitmaps up to the new end. -/
def setSizeLoop (env : Env) (l1EndOffset l2EndOffset : Int) : Nat → World → Int → Int → Option World
  | 0, _, _, _ => none
  | fuel + 1, w, l1Offset, l2Offset =>
    if ¬ (l1Offset > l1EndOffset ∨ (l1Offset = l1EndOffset ∧ l2EndOffset < l2Offset)) then
      if w.l1 l1Offset = -1 then setSizeLoop env l1EndOffset l2EndOffset fuel w (l1Offset + 1) 0
      else
        let g := getBlock env w l1Offset l2Offset
        let e := g.1.entry g.2
        let w1 := g.1.setEntry g.2
          { e with bitfield := setBitsInBitfield e.bitfield 0 (env.K.COW_BITFIELD_SIZE * 8) false }
        if l2Offset + 1 ≥ env.K.COW_L2_SIZE then
          setSizeLoop env l1EndOffset l2EndOffset fuel w1 (l1Offset + 1) 0
        else setSizeLoop env l1EndOffset l2EndOffset fuel w1 l1Offset (l2Offset + 1)
    else some w

/-- The last three statements of `cowfile_setSize`. -/
def setSizeTail (w : World) (size : Int) : World :=
  { w with
    originalImageSize := if size < w.originalImageSize then size else w.originalImageSize
    imageSize := size
    replies := w.replies ++ [FuseReply.attr] }

/-- Source `cowfile_setSize`. -/
def cowfile_setSize (fuel : Nat) (env : Env) (w : World) (size : Int) : Option World :=
  if w.imageSize < size then
    let l1EndOffset := getL1Offset env.K size
    let l2EndOffset := getL2Offset env.K size
    let l1Offset := getL1Offset env.K w.imageSize
    let l2Offset := getL2Offset env.K w.imageSize
    if size % 4096 ≠ 0 ∧ w.l1 l1Offset ≠ -1 then
      let inBlockOffset := size % 4096
      let sizeToWrite := 4096 - inBlockOffset
      let g := getBlock env w l1Offset l2Offset
      let r := pwrite env g.1 (fun _ => 0) sizeToWrite ((g.1.entry g.2).offset + inBlockOffset)
      if r.2 < sizeToWrite then
        some { r.1 with replies := r.1.replies ++ [FuseReply.err (if r.2 = -1 then env.errno else EIO)] }
      else
        let blockOffset := l1Offset * env.K.COW_L2_STORAGE_CAPACITY
          + l2Offset * env.K.COW_METADATA_STORAGE_CAPACITY
        let start := min (i32 (u64 (r.1.imageSize - blockOffset) / DNBD3_BLOCK_SIZE)) 0
        let e := r.1.entry g.2
        let w1 := r.1.setEntry g.2
          { e with bitfield := setBitsInBitfield e.bitfield start (env.K.COW_BITFIELD_SIZE * 8) false }
        (if l2Offset + 1 ≥ env.K.COW_L2_SIZE then
          setSizeLoop env l1EndOffset l2EndOffset fuel w1 (l1Offset + 1) 0
        else setSizeLoop env l1EndOffset l2EndOffset fuel w1 l1Offset (l2Offset + 1)).map
          (fun w2 => setSizeTail w2 size)
    else
      (setSizeLoop env l1EndOffset l2EndOffset fuel w l1Offset l2Offset).map
        (fun w2 => setSizeTail w2 size)
  else some (setSizeTail w size)

/-! ## The uploader (`cowfile.c`, lines 198-591) -/

/-- Constants of `cowfile.h` that the uploader uses: the quiescence window in seconds and
the switch for the speed display. -/
structure UploadConst where
  COW_MIN_UPLOAD_DELAY : Int
  COW_SHOW_UL_SPEED : Bool

/-- Type `cow_curl_read_upload_t` (declared in `cowfile.h`), with the fields `cowfile.c` uses.
`time` is the value of `timeChanged` captured when the upload was enqueued. -/
structure cow_curl_read_upload_t where
  time : Int
  block : Int × Int
  position : Int
  blocknumber : Int
  fails : Int
  ulLast : Int

/-- The state of the uploader thread: the records of the transfers attached to the multi
handle `cm`, and the counter `totalBlocksUploaded`. -/
structure Uploader where
  cm : List cow_curl_read_upload_t
  totalBlocksUploaded : Int

/-- Constant `CURLE_OK` of `curl.h`. -/
def CURLE_OK : Int := 0

/-- Constant `CURLMSG_DONE` of `curl.h`. -/
def CURLMSG_DONE : Int := 1

/-- Type `CURLMsg`, with what `finishUpload` reads from it and from its easy handle: the kind
of message, the position of the handle among the transfers of `cm`, the results of the two
calls of `curl_easy_getinfo`, the response code and the record attached to the handle. -/
structure CURLMsg where
  msg : Int
  easy_handle : Nat
  res : Int
  res2 : Int
  http_code : Int
  curlUploadBlock : cow_curl_read_upload_t

/-- System call `pread` on the data file into the buffer `buf` at index `dst`. -/
def preadInto (env : Env) (w : World) (buf : Int → Nat) (dst count offset : Int) :
    World × (Int → Nat) × Int :=
  let r := env.preadRet w.calls count
  let w1 := { w with calls := w.calls + 1 }
  if offset < 0 ∨ r < 0 then (w1, buf, -1)
  else
    let filled : Int → Nat := fun i =>
      if dst ≤ i ∧ i < dst + min r count then w.fhd (offset + (i - dst)) else buf i
    (w1, filled, min r count)

/-- Source `curlReadCallbackUploadBlock`. `metadata->bitfieldSize` is `COW_BITFIELD_SIZE`
(`cowfile_init` stores it and nothing changes it). The result is the state, the record with
its new position, the buffer `ptr` and the number of bytes put into it. -/
def curlReadCallbackUploadBlock (env : Env) (w : World) (ptr : Int → Nat) (size nmemb : Int)
    (uploadBlock : cow_curl_read_upload_t) :
    World × cow_curl_read_upload_t × (Int → Nat) × Int :=
  let bitfieldSize := env.K.COW_BITFIELD_SIZE
  let block := w.entry uploadBlock.block
  let first : (Int → Nat) × Int × Int :=
    if uploadBlock.position < u64 bitfieldSize then
      let lenCpy := min (u64 (bitfieldSize - uploadBlock.position)) (u64 (size * nmemb))
      let copied : Int → Nat := fun i =>
        if 0 ≤ i ∧ i < lenCpy then block.bitfield (uploadBlock.position + i) else ptr i
      (copied, u64 (uploadBlock.position + lenCpy), lenCpy)
    else (ptr, uploadBlock.position, 0)
  if first.2.1 ≥ u64 bitfieldSize then
    let lenRead := min (u64 (env.K.COW_METADATA_STORAGE_CAPACITY - (first.2.1 - bitfieldSize)))
      (u64 (size * nmemb - first.2.2))
    let inBlockOffset := i64 (first.2.1 - bitfieldSize)
    let r := preadInto env w first.1 first.2.2 lenRead (block.offset + inBlockOffset)
    let lengthRead := if lenRead ≠ u64 r.2.2 then lenRead else u64 r.2.2
    (r.1, { uploadBlock with position := u64 (first.2.1 + lengthRead) }, r.2.1,
      u64 (first.2.2 + lengthRead))
  else (w, { uploadBlock with position := first.2.1 }, first.1, first.2.2)

/-- Source `addUpload`: the record is attached to a new transfer of the multi handle. -/
def addUpload (U : UploadConst) (u : Uploader) (curlUploadBlock : cow_curl_read_upload_t) :
    Uploader :=
  { u with cm := u.cm ++
      [if U.COW_SHOW_UL_SPEED then { curlUploadBlock with ulLast := 0 } else curlUploadBlock] }

/-- Source `finishUpload`. The counters `uploads` and `totalBlocksUploaded` are unsigned
64-bit; `fails` is an `int`. The result is the state, the uploader and the returned status. -/
def finishUpload (U : UploadConst) (w : World) (u : Uploader) (msg : CURLMsg) :
    World × Uploader × Bool :=
  let removed : Uploader := { u with cm := u.cm.eraseIdx msg.easy_handle }
  if msg.res ≠ CURLE_OK ∨ msg.res2 ≠ CURLE_OK ∨ msg.http_code ≠ 200 ∨ msg.msg ≠ CURLMSG_DONE then
    let b : cow_curl_read_upload_t :=
      { msg.curlUploadBlock with fails := i32 (msg.curlUploadBlock.fails + 1) }
    if b.fails ≤ 5 then
      let added := addUpload U u b
      (w, { added with cm := added.cm.eraseIdx msg.easy_handle }, true)
    else (w, removed, false)
  else
    let e := w.entry msg.curlUploadBlock.block
    let e1 : cow_block_metadata_t := if e.timeChanged = msg.curlUploadBlock.time then { e with timeChanged := 0 } else e
    let e2 := { e1 with uploads := u64 (e1.uploads + 1) }
    (w.setEntry msg.curlUploadBlock.block e2,
      { removed with totalBlocksUploaded := u64 (u.totalBlocksUploaded + 1) }, true)

/-- The body of the inner loop of `uploaderLoop` for one entry (lines 558-577), at the clock
value `now` (`time(NULL)`), without the wait for a free transfer slot: an entry that has data,
is marked as changed and is quiet for long enough (or any changed entry, in the final
drain) gets a record with the captured `timeChanged`. `timeChanged` is unsigned, so is the
difference; the field `ulLast`, which the source leaves unset, is taken as 0. -/
def uploaderLoop_entry (U : UploadConst) (now : Int) (ignoreMinUploadDelay : Bool) (w : World)
    (u : Uploader) (block : Int × Int) (blocknumber : Int) : Uploader :=
  if (w.entry block).offset = -1 then u
  else if (w.entry block).timeChanged ≠ 0 then
    if u64 (now - (w.entry block).timeChanged) > U.COW_MIN_UPLOAD_DELAY ∨ ignoreMinUploadDelay then
      addUpload U u { block := block, blocknumber := blocknumber, fails := 0, position := 0,
                      time := (w.entry block).timeChanged, ulLast := 0 }
    else u
  else u

/-! ## The kernel client (`net.c`) -/

/-- Constants and macros of the headers `dnbd3/config/client.h` and `dnbd3/types.h`, which
`net.c` includes: the number of slots of the alt-server list, the length of the startup
phase in heartbeats, the RTT value of a server that did not answer, the number of panic
probes before requests fail, the oldest protocol version accepted, the magic of a packet,
the command number of `SELECT_IMAGE` and the macro `RTT_THRESHOLD_FACTOR`. -/
structure NetConst where
  NUMBER_SERVERS : Nat
  STARTUP_MODE_DURATION : Int
  RTT_UNREACHABLE : Int
  PROBE_COUNT_TIMEOUT : Int
  MIN_SUPPORTED_SERVER : Int
  dnbd3_packet_magic : Int
  CMD_SELECT_IMAGE : Int
  RTT_THRESHOLD_FACTOR : Int → Int

/-- Type `struct sockaddr_storage`: the address family (0 in an empty slot) and the rest. -/
structure sockaddr_storage where
  ss_family : Nat
  data : Nat
  deriving DecidableEq

/-- Modelled from the spec: `is_same_server` (declared in a header that is not among the
sources) tells whether two hosts agree in address and port. In `net.c` one of its arguments
always has a family other than 0. -/
def is_same_server (x y : sockaddr_storage) : Bool := decide (x = y)

/-- Type `dnbd3_alt_server_t` (declared in `dnbd3_main.h`), with the fields `net.c` uses. The
counter `failures` is taken as 8 bits wide. -/
structure dnbd3_alt_server_t where
  host : sockaddr_storage
  rtts : Int → Int
  protocol_version : Int
  failures : Int
  best_count : Int

/-- An empty slot of the list. -/
def emptySlot : dnbd3_alt_server_t :=
  { host := { ss_family := 0, data := 0 }, rtts := fun _ => 0, protocol_version := 0,
    failures := 0, best_count := 0 }

/-- Type `dnbd3_device_t` (declared in `dnbd3_main.h`), with the fields `net.c` uses in the
handshake and in the discovery thread. `thread_discover` tells whether the pointer is set,
`failed_all` whether `dnbd3_blk_fail_all_requests` was called. -/
structure dnbd3_device_t where
  alt_servers : List dnbd3_alt_server_t
  cur_server_host : sockaddr_storage
  cur_server_rtt : Int
  panic : Bool
  panic_count : Int
  heartbeat_count : Int
  discover : Bool
  reported_size : Int
  imgname : Option (List Nat)
  rid : Int
  update_available : Bool
  capacity : Int
  thread_discover : Bool
  better_sock : Option Nat
  failed_all : Bool

/-- The payload of a `SELECT_IMAGE` reply as the serializer hands it out (the serializer is not
among the sources): protocol version, image name (`none`: no string), revision id, file
size. -/
structure SelectReply where
  remote_version : Int
  name : Option (List Nat)
  rid : Int
  filesize : Int

/-- What the kernel and the network do during one `dnbd3_execute_handshake`: whether `kmalloc`
gave a buffer, whether the request was sent whole, the reply header received whole (magic,
command, size), the payload received whole, and whether `krealloc` gave a buffer. -/
structure HandshakeIO where
  payload_alloc : Bool
  sent : Bool
  header : Option (Int × Int × Int)
  payload : Option SelectReply
  realloc_ok : Bool

/-- Source `dnbd3_execute_handshake`. The result is the device, the return value and what is
stored in `*remote_version` (`old` when nothing is stored). -/
def dnbd3_execute_handshake (C : NetConst) (dev : dnbd3_device_t) (io : HandshakeIO) (old : Int) :
    dnbd3_device_t × Int × Int :=
  if ¬ io.payload_alloc then (dev, 0, old)
  else
    let initial_connect : Bool := decide (dev.reported_size = 0)
    if ¬ io.sent then (dev, 0, old)
    else
      match io.header with
      | none => (dev, 0, old)
      | some (magic, cmd, size) =>
        if magic ≠ C.dnbd3_packet_magic ∨ cmd ≠ C.CMD_SELECT_IMAGE ∨ size < 4 then (dev, 0, old)
        else
          match io.payload with
          | none => (dev, 0, old)
          | some p =>
            if p.remote_version < C.MIN_SUPPORTED_SERVER then (dev, 0, p.remote_version)
            else
              match p.name with
              | none => (dev, 0, p.remote_version)
              | some name =>
                if p.rid = 0 then (dev, 0, p.remote_version)
                else if initial_connect ∧ dev.rid ≠ 0 ∧ some name ≠ dev.imgname then
                  (dev, 0, p.remote_version)
                else if initial_connect then
                  if p.filesize < 4096 then (dev, 0, p.remote_version)
                  else if (dev.imgname.getD []).length < name.length ∧ ¬ io.realloc_ok then
                    ({ dev with imgname := none }, 0, p.remote_version)
                  else
                    ({ dev with imgname := some name, rid := p.rid, reported_size := p.filesize,
                                capacity := p.filesize / 512, update_available := false },
                      1, p.remote_version)
                else if p.rid ≠ dev.rid then (dev, 0, p.remote_version)
                else if p.filesize ≠ dev.reported_size then (dev, 0, p.remote_version)
                else (dev, 1, p.remote_version)

/-- The local variables of `dnbd3_net_discover` that live across the turns of its loop.
Sockets are named by the slot they were opened for; `last_request` and `cur_request` are
pointer values. -/
structure DiscoverLocals where
  best_sock : Option Nat
  best_server : sockaddr_storage
  remote_version : Int
  start : Int
  stop : Int
  rtt : Int
  best_rtt : Int
  i : Int
  j : Int
  isize : Int
  turn : Int
  ready : Int
  do_change : Int
  check_order : List Int
  last_request : Int
  cur_request : Int

/-- What the network and the clock do for one server that is contacted: whether `dnbd3_connect`
gave a socket, the handshake, the clock before the test block, whether
`dnbd3_request_test_block` succeeded, and the clock after it. -/
structure ProbeIO where
  connected : Bool
  hs : HandshakeIO
  start : Int
  block : Bool
  stop : Int

/-- What the surroundings do during one turn of the loop of `dnbd3_net_discover`: the answers
of `kthread_should_stop` at the top and after the probes, the probe of the server at each
position of the check order, the first request of `request_queue_send` (if any) and whether
the connection lock is free when a change is wanted. -/
structure CycleIO where
  stop_top : Bool
  stop_end : Bool
  probe : Nat → ProbeIO
  queue_head : Option Int
  lock_free : Bool

/-- The locals when the thread starts: `turn = 0`, `ready = 0`, the identity as check order,
the two request pointers 123 and 456; `j0` is what the unset variable `j` happens to hold. -/
def discoverStart (C : NetConst) (j0 : Int) : DiscoverLocals :=
  { best_sock := none, best_server := { ss_family := 0, data := 0 }, remote_version := 0,
    start := 0, stop := 0, rtt := 0, best_rtt := 0, i := C.NUMBER_SERVERS, j := j0, isize := 0,
    turn := 0, ready := 0, do_change := 0,
    check_order := (List.range C.NUMBER_SERVERS).map (fun k => (k : Int)),
    last_request := 123, cur_request := 456 }

/-- Macro `ktime_to_us` (and `ktime_to_s`): signed division of nanoseconds. -/
def ktime_to_us (t : Int) : Int := Int.tdiv t 1000

/-- Macro `ktime_to_s`. -/
def ktime_to_s (t : Int) : Int := Int.tdiv t 1000000000

/-- Bitwise exclusive or of two 64-bit signed values. -/
def xor64 (a b : Int) : Int := i64 (((u64 a).toNat ^^^ (u64 b).toNat : Nat) : Int)

/-- The `for` loop that permutes `check_order` (lines 179-186), from `i` on; `n` turns are
left at most. The shift by the old value of `j` is taken as a division by `2 ^ j`. -/
def shuffleLoop (C : NetConst) : Nat → DiscoverLocals → DiscoverLocals
  | 0, l => l
  | n + 1, l =>
    if l.i < l.isize then
      let j := i32 (Int.tmod (xor64 (ktime_to_s l.start / 2 ^ l.i.toNat)
        (ktime_to_us l.start / 2 ^ l.j.toNat)) C.NUMBER_SERVERS)
      let order :=
        if j ≠ l.i then
          (l.check_order.set l.i.toNat (l.check_order.getD j.toNat 0)).set j.toNat
            (l.check_order.getD l.i.toNat 0)
        else l.check_order
      shuffleLoop C n { l with j := j, check_order := order, i := l.i + 1 }
    else l

/-- The state of the thread: the device, the locals, the hosts contacted in the current turn of
the outer loop (in the order of the calls of `dnbd3_connect`), how often the end of the loop
body (lines 370-374) was reached, and whether the thread has returned. The list and the
counter are bookkeeping of the statements, not of the code. -/
structure DiscoverState where
  dev : dnbd3_device_t
  loc : DiscoverLocals
  contacted : List sockaddr_storage
  rounds : Nat
  returned : Bool

/-- The update of an alt server after a probe that failed (label `error`, lines 285-291). -/
def probeFailed (C : NetConst) (turn : Int) (a : dnbd3_alt_server_t) : dnbd3_alt_server_t :=
  { a with failures := (a.failures + 1) % 256
           rtts := Function.update a.rtts turn C.RTT_UNREACHABLE
           best_count := if a.best_count > 2 then a.best_count - 3 else a.best_count }

/-- The update of an alt server after a probe that succeeded (lines 248-256). -/
def probeAnswered (turn remote_version start stop : Int) (a : dnbd3_alt_server_t) :
    dnbd3_alt_server_t :=
  { a with protocol_version := remote_version
           rtts := Function.update a.rtts turn (u64 (Int.tdiv (stop - start) 1000))
           failures := 0
           best_count := if a.best_count > 1 then a.best_count - 2 else a.best_count }

/-- The average the thread takes over the window of a server (lines 251-253). -/
def rttOf (a : dnbd3_alt_server_t) : Int := u64 (a.rtts 0 + a.rtts 1 + a.rtts 2 + a.rtts 3) / 4

/-- The part of the loop body after the label `error` (lines 280-294) for slot `i`. -/
def probeError (C : NetConst) (s : DiscoverState) (i : Nat) (host_compare : sockaddr_storage) :
    DiscoverState :=
  let a := s.dev.alt_servers.getD i emptySlot
  let alts :=
    if is_same_server a.host host_compare then s.dev.alt_servers.set i (probeFailed C s.loc.turn a)
    else s.dev.alt_servers
  let rtt := if is_same_server s.dev.cur_server_host host_compare then C.RTT_UNREACHABLE
    else s.dev.cur_server_rtt
  { s with dev := { s.dev with alt_servers := alts, cur_server_rtt := rtt } }

/-- Lines 244-278: the test block has arrived; the window, the average, the best server so
far and the RTT of the current server are updated. -/
def probeSucceeded (s : DiscoverState) (i : Nat) (host_compare : sockaddr_storage) (p : ProbeIO) :
    DiscoverState :=
  let a := s.dev.alt_servers.getD i emptySlot
  let same := is_same_server a.host host_compare
  let a1 := probeAnswered s.loc.turn s.loc.remote_version p.start p.stop a
  let alts := if same then s.dev.alt_servers.set i a1 else s.dev.alt_servers
  let rtt := if same then rttOf a1 else s.loc.rtt
  let better : Bool := decide (s.loc.best_rtt > rtt)
  let loc5 : DiscoverLocals :=
    { s.loc with
      stop := p.stop
      rtt := rtt
      best_rtt := if better then rtt else s.loc.best_rtt
      best_server := if better then host_compare else s.loc.best_server
      best_sock := if better then some i else s.loc.best_sock }
  let cur_rtt := if is_same_server s.dev.cur_server_host host_compare then rtt
    else s.dev.cur_server_rtt
  { s with dev := { s.dev with alt_servers := alts, cur_server_rtt := cur_rtt }, loc := loc5 }

/-- Lines 212-236 in panic mode: the first server that answers the handshake is taken and the
thread returns (the calls of `dnbd3_net_disconnect` and `dnbd3_net_connect` are not
followed). -/
def probeTaken (s : DiscoverState) (i : Nat) (host_compare : sockaddr_storage) : DiscoverState :=
  { s with
    dev := { s.dev with panic := false, better_sock := some i, thread_discover := false,
                        cur_server_host := host_compare }
    loc := { s.loc with best_sock := none }
    returned := true }

/-- Lines 203-294: the server of slot `i` is contacted; `p` is what the network does. -/
def probeContact (C : NetConst) (s : DiscoverState) (i : Nat) (host_compare : sockaddr_storage)
    (p : ProbeIO) : DiscoverState :=
  let s2 := { s with contacted := s.contacted ++ [host_compare] }
  if ¬ p.connected then probeError C s2 i host_compare
  else
    let h := dnbd3_execute_handshake C s2.dev p.hs s2.loc.remote_version
    let s3 := { s2 with dev := h.1, loc := { s2.loc with remote_version := h.2.2 } }
    if h.2.1 = 0 then probeError C s3 i host_compare
    else if s3.dev.panic then probeTaken s3 i host_compare
    else
      let s4 := { s3 with loc := { s3.loc with start := p.start } }
      if ¬ p.block then probeError C s4 i host_compare
      else probeSucceeded s4 i host_compare p

/-- One turn of the `for` loop over the alt servers (lines 189-295), at position `j` of the
check order: empty slots, servers that failed more than 50 times (seven times out of eight,
outside panic mode) and servers beyond the budget `isize` other than the current server
are passed over. -/
def probeOne (C : NetConst) (io : CycleIO) (s : DiscoverState) (j : Nat) : DiscoverState :=
  if s.returned then s
  else
    let i := (s.loc.check_order.getD j 0).toNat
    let s0 := { s with loc := { s.loc with j := j, i := i } }
    let host_compare := (s0.dev.alt_servers.getD i emptySlot).host
    let fails := (s0.dev.alt_servers.getD i emptySlot).failures
    if host_compare.ss_family = 0 then s0
    else if ¬ s0.dev.panic ∧ fails > 50 ∧ ktime_to_us s0.loc.start % 8 ≠ 0 then s0
    else
      let s1 := { s0 with loc := { s0.loc with isize := i32 (s0.loc.isize - 1) } }
      if s0.loc.isize ≤ 0 ∧ ¬ is_same_server s0.dev.cur_server_host host_compare then s1
      else probeContact C s1 i host_compare (io.probe j)

/-- Modelled from the spec: `get_existing_alt_from_addr` (declared in a header that is not among
the sources) finds the slot of the list that holds the host, if there is one. -/
def get_existing_alt_from_addr (addr : sockaddr_storage) (dev : dnbd3_device_t) : Option Nat :=
  (List.range dev.alt_servers.length).find?
    (fun k => is_same_server (dev.alt_servers.getD k emptySlot).host addr)

/-- The `for` loop over the alt servers (lines 189-295). After it `j` is `NUMBER_SERVERS`. -/
def probeAll (C : NetConst) (io : CycleIO) (s : DiscoverState) : DiscoverState :=
  let r := (List.range C.NUMBER_SERVERS).foldl (probeOne C io) s
  if r.returned then r else { r with loc := { r.loc with j := C.NUMBER_SERVERS } }

/-- Lines 170-187: the best server is reset, `isize` is chosen and, in steady state, the check
order is permuted. -/
def probeSetup (C : NetConst) (s : DiscoverState) : DiscoverState :=
  let isize : Int :=
    if s.dev.heartbeat_count < C.STARTUP_MODE_DURATION ∨ s.dev.panic then C.NUMBER_SERVERS else 3
  let loc : DiscoverLocals :=
    { s.loc with best_server := { s.loc.best_server with ss_family := 0 }, best_rtt := 0xFFFFFFF,
                 isize := isize }
  if (C.NUMBER_SERVERS : Int) > isize then
    { s with loc := shuffleLoop C isize.toNat { loc with i := 0 } }
  else { s with loc := loc }

/-- Lines 297-303: in panic mode the probe cycles are counted, and when the count passes
`PROBE_COUNT_TIMEOUT` the requests are failed. -/
def panicStep (C : NetConst) (dev : dnbd3_device_t) : dnbd3_device_t :=
  if dev.panic then
    let pc := if dev.panic_count < 255 then dev.panic_count + 1 else dev.panic_count
    { dev with panic_count := pc
               failed_all := dev.failed_all ||
                 (decide (C.PROBE_COUNT_TIMEOUT > 0) && decide (pc = C.PROBE_COUNT_TIMEOUT + 1)) }
  else dev

/-- Lines 316-325: the best server of the turn, if it is still in the list, gets its win, and
the threshold is lowered by ten for each point of its `best_count`. The result is the list
and `rtt_threshold`. -/
def bestWins (dev : dnbd3_device_t) (best_server : sockaddr_storage) :
    List dnbd3_alt_server_t × Int :=
  match get_existing_alt_from_addr best_server dev with
  | some k =>
    let a := dev.alt_servers.getD k emptySlot
    let a1 := { a with best_count := if a.best_count < 148 then a.best_count + 3 else a.best_count }
    (dev.alt_servers.set k a1, i32 (1500 - a1.best_count * 10))
  | none => (dev.alt_servers, 1500)

/-- Lines 327-329: the change to the best server on grounds of the RTT. The sum on the right
is taken in `unsigned long`. -/
def rttChange (C : NetConst) (loc : DiscoverLocals) (dev : dnbd3_device_t) (rtt_threshold : Int) :
    Bool :=
  decide (loc.ready ≠ 0) && !is_same_server loc.best_server dev.cur_server_host
    && decide (ktime_to_us loc.start % 4 ≠ 0)
    && decide (C.RTT_THRESHOLD_FACTOR dev.cur_server_rtt > u64 (loc.best_rtt + rtt_threshold))

/-- Lines 331-343: without a change on grounds of the RTT, a request that heads the send queue
for the second time forces the change. -/
def hungCheck (io : CycleIO) (loc : DiscoverLocals) (do_change : Bool) : DiscoverLocals :=
  if loc.ready ≠ 0 ∧ do_change = false ∧ loc.best_sock ≠ none then
    match io.queue_head with
    | some r =>
      { loc with cur_request := r, last_request := r,
                 do_change := if r = loc.last_request then 1 else 0 }
    | none => { loc with cur_request := 123, last_request := 123, do_change := 0 }
  else { loc with do_change := if do_change then 1 else 0 }

/-- Lines 297-343, reached when the `for` loop is through: the panic counter, the test whether
any server answered, the win of the best server and the decision `do_change`. The flag of
the result tells whether the turn goes on after line 343 (it does not after the `continue`
of line 312). -/
def discoverDecide (C : NetConst) (io : CycleIO) (s : DiscoverState) : DiscoverState × Bool :=
  let dev1 := panicStep C s.dev
  if s.loc.best_server.ss_family = 0 ∨ io.stop_end ∨ ¬ dev1.thread_discover then
    ({ s with dev := dev1, loc := { s.loc with best_sock := none } }, false)
  else
    let w := bestWins dev1 s.loc.best_server
    ({ s with dev := { dev1 with alt_servers := w.1 }
              loc := hungCheck io s.loc (rttChange C s.loc dev1 w.2) }, true)

/-- Lines 345-374: the change of server, or the step of the window index `turn` and of
`ready`. The calls of `dnbd3_net_disconnect` and `dnbd3_net_connect` that follow a change are
not followed: the thread has returned. -/
def discoverFinish (io : CycleIO) (s : DiscoverState) : DiscoverState :=
  if s.loc.do_change ≠ 0 ∧ io.lock_free then
    { s with
      dev := { s.dev with better_sock := s.loc.best_sock, thread_discover := false,
                          cur_server_host := s.loc.best_server, cur_server_rtt := s.loc.best_rtt }
      returned := true }
  else
    let turn1 := if s.loc.ready = 0 ∨ ktime_to_us s.loc.start % 16 ≠ 0
      then Int.tmod (s.loc.turn + 1) 4 else s.loc.turn
    { s with loc := { s.loc with best_sock := none, turn := turn1,
                                 ready := if turn1 = 2 then 1 else s.loc.ready }
             rounds := s.rounds + 1 }

/-- One turn of the `while` loop of `dnbd3_net_discover` (lines 156-375), entered when the wait
is over. -/
def discoverCycle (C : NetConst) (io : CycleIO) (s : DiscoverState) : DiscoverState :=
  if s.returned then s
  else if io.stop_top ∨ s.dev.imgname = none ∨ ¬ s.dev.thread_discover then
    { s with returned := true }
  else if ¬ s.dev.discover then s
  else
    let s1 := { s with dev := { s.dev with discover := false } }
    if s1.dev.reported_size < 4096 then s1
    else
      let s2 := probeAll C io (probeSetup C { s1 with contacted := [] })
      if s2.returned then s2
      else
        let d := discoverDecide C io s2
        if d.2 then discoverFinish io d.1 else d.1

/-- A turn of the loop together with what the other threads (heartbeat timer, receiver,
`ioctl`) did to the device since the turn before. -/
structure Turn where
  others : dnbd3_device_t → dnbd3_device_t
  io : CycleIO

/-- The next turn of the loop. -/
def discoverTurn (C : NetConst) (s : DiscoverState) (t : Turn) : DiscoverState :=
  discoverCycle C t.io { s with dev := t.others s.dev }

/-- A run of the thread: one turn of the loop for every element of `turns`. -/
def discoverRun (C : NetConst) (turns : List Turn) (s : DiscoverState) : DiscoverState :=
  turns.foldl (discoverTurn C) s

/-- The state in which the thread starts on the device `dev`. -/
def discoverInit (C : NetConst) (dev : dnbd3_device_t) (j0 : Int) : DiscoverState :=
  { dev := dev, loc := discoverStart C j0, contacted := [], rounds := 0, returned := false }

/-! ### Examples for the kernel client -/

/-- Constants for the examples: eight slots, 30 heartbeats of startup, protocol version 2 at
least, the magic 0x7319 of the block protocol, and two thirds as `RTT_THRESHOLD_FACTOR`. -/
def demoNet : NetConst :=
  { NUMBER_SERVERS := 8, STARTUP_MODE_DURATION := 30, RTT_UNREACHABLE := 0x7FFFFFF,
    PROBE_COUNT_TIMEOUT := 0, MIN_SUPPORTED_SERVER := 2, dnbd3_packet_magic := 0x7319,
    CMD_SELECT_IMAGE := 2, RTT_THRESHOLD_FACTOR := fun us => us * 2 / 3 }

/-- The host number `n` (an IPv4 address). -/
def demoHost (n : Nat) : sockaddr_storage := { ss_family := 2, data := n }

/-- A device with the image `a`, revision 1, 8192 bytes: the first `n` slots of its list hold
the hosts 1 to `n`, the current server is host `n`, and `hb` heartbeats have passed. -/
def demoDev (n : Nat) (hb : Int) : dnbd3_device_t :=
  { alt_servers := (List.range 8).map
      (fun k => if k < n then { emptySlot with host := demoHost (k + 1) } else emptySlot)
    cur_server_host := demoHost n, cur_server_rtt := 1000, panic := false, panic_count := 0,
    heartbeat_count := hb, discover := true, reported_size := 8192, imgname := some [97], rid := 1,
    update_available := false, capacity := 16, thread_discover := true, better_sock := none,
    failed_all := false }

/-- A `SELECT_IMAGE` reply for the image called `name`, revision 1, 8192 bytes. -/
def demoReply (name : List Nat) : HandshakeIO :=
  { payload_alloc := true, sent := true, header := some (0x7319, 2, 20),
    payload := some { remote_version := 3, name := some name, rid := 1, filesize := 8192 },
    realloc_ok := true }

/-- A turn in which nothing stops the thread, every server contacted answers within half a
millisecond at the clock value `t` (nanoseconds), and no request waits. -/
def demoTurn (t : Int) : Turn :=
  { others := fun d => { d with discover := true }
    io := { stop_top := false, stop_end := false,
            probe := fun _ => { connected := true, hs := demoReply [97], start := t, block := true,
                                stop := t + 500000 },
            queue_head := none, lock_free := true } }

/-- A turn like `demoTurn` in which the server at the first position of the check order answers
after a tenth of a millisecond and every other server after 50 milliseconds. -/
def demoUnevenTurn (t : Int) : Turn :=
  { others := fun d => { d with discover := true }
    io := { stop_top := false, stop_end := false,
            probe := fun j => { connected := true, hs := demoReply [97], start := t, block := true,
                                stop := t + (if j = 0 then 100000 else 50000000) },
            queue_head := none, lock_free := true } }

/-- The state after the probes of a third turn of the thread on a device with the hosts 1 and
2 (host 2 is the current server), during startup: host 1 has answered much faster than
host 2 in all three turns. -/
def demoProbed : DiscoverState :=
  let s := discoverRun demoNet [demoUnevenTurn 1000001000, demoUnevenTurn 2000001000]
    (discoverInit demoNet (demoDev 2 10) 0)
  probeAll demoNet (demoUnevenTurn 3000001000).io
    (probeSetup demoNet { s with dev := { s.dev with discover := false }, contacted := [] })

/-- Every `best_count` of the list is between 0 and 150. -/
def BestCountInv (dev : dnbd3_device_t) : Prop :=
  ∀ a ∈ dev.alt_servers, 0 ≤ a.best_count ∧ a.best_count ≤ 150

/-- The hosts of `l` other than `cur`, as `is_same_server` tells them apart. -/
def otherHosts (cur : sockaddr_storage) (l : List sockaddr_storage) : List sockaddr_storage :=
  l.filter (fun h => !is_same_server cur h)

/-- The state of the thread before turn `j` of the `for` loop over the alt servers, when the
loop was entered in the state `s`. -/
def probeUpTo (C : NetConst) (io : CycleIO) (s : DiscoverState) (j : Nat) : DiscoverState :=
  (List.range j).foldl (probeOne C io) s

/-- The host at position `j` of the check order. -/
def hostAt (s : DiscoverState) (j : Nat) : sockaddr_storage :=
  (s.dev.alt_servers.getD (s.loc.check_order.getD j 0).toNat emptySlot).host

/-- The failure count at position `j` of the check order. -/
def failsAt (s : DiscoverState) (j : Nat) : Int :=
  (s.dev.alt_servers.getD (s.loc.check_order.getD j 0).toNat emptySlot).failures

/-- The window index and the flag `ready` in terms of the number of times the end of the loop
body was reached. -/
def TurnInv (s : DiscoverState) : Prop :=
  0 ≤ s.loc.turn ∧ s.loc.turn < 4 ∧
  ((s.rounds < 2 ∧ s.loc.ready = 0 ∧ s.loc.turn = s.rounds) ∨ (2 ≤ s.rounds ∧ s.loc.ready = 1))


/-! ## Merge request and scan bound (`cowfile.c`, lines 285-299 and 552) -/

/-- The `while` loop of `startMerge`. `calls` lists the outcomes of the calls of
`mergeRequest` made so far; the outcome of a call made inside the loop is not stored. -/
def startMergeLoop (mergeRequest : Nat → Bool) (success : Bool) :
    Nat → Int → List Bool → Option (List Bool)
  | 0, _, _ => none
  | fuel + 1, fails, calls =>
    if fails ≤ 5 ∧ ¬ success then
      startMergeLoop mergeRequest success fuel (i32 (fails + 1))
        (calls ++ [mergeRequest calls.length])
    else some calls

/-- Source `startMerge`. The call number `k` of `mergeRequest` returns `mergeRequest k`; the
result is the list of the outcomes of the calls made (`none` when the fuel does not
suffice). -/
def startMerge (fuel : Nat) (mergeRequest : Nat → Bool) : Option (List Bool) :=
  startMergeLoop mergeRequest (mergeRequest 0) fuel 0 [mergeRequest 0]

/-- The bound `l1MaxOffset` of the scans over the L1 array in `uploaderLoop`,
`cowfile_statUpdater` and `dumpBlockUploads`, computed in `unsigned long`. -/
def l1MaxOffset (K : CowConst) (imageSize : Int) : Int :=
  u64 (1 + u64 (imageSize - 1) / K.COW_L2_STORAGE_CAPACITY)

/-- The size of the padding `cowfile_write` computes for a write that starts beyond the end
of the image (lines 1222-1224), in `size_t`. -/
def gapPadSize (imageSize offset : Int) : Int :=
  u64 (u64 (offset - imageSize) - u64 (u64 (offset - imageSize) + offset) % DNBD3_BLOCK_SIZE)

/-! ## CRC-32 (`crc32.c`) -/

/-- Constant `crc_table` (`crc32.c`, lines 57-491): eight tables of 256 words. -/
def crc_table : List (List Nat) :=
  [[0x00000000, 0x77073096, 0xee0e612c, 0x990951ba, 0x076dc419, 0x706af48f, 0xe963a535, 0x9e6495a3,
    0x0edb8832, 0x79dcb8a4, 0xe0d5e91e, 0x97d2d988, 0x09b64c2b, 0x7eb17cbd, 0xe7b82d07, 0x90bf1d91,
    0x1db71064, 0x6ab020f2, 0xf3b97148, 0x84be41de, 0x1adad47d, 0x6ddde4eb, 0xf4d4b551, 0x83d385c7,
    0x136c9856, 0x646ba8c0, 0xfd62f97a, 0x8a65c9ec, 0x14015c4f, 0x63066cd9, 0xfa0f3d63, 0x8d080df5,
    0x3b6e20c8, 0x4c69105e, 0xd56041e4, 0xa2677172, 0x3c03e4d1, 0x4b04d447, 0xd20d85fd, 0xa50ab56b,
    0x35b5a8fa, 0x42b2986c, 0xdbbbc9d6, 0xacbcf940, 0x32d86ce3, 0x45df5c75, 0xdcd60dcf, 0xabd13d59,
    0x26d930ac, 0x51de003a, 0xc8d75180, 0xbfd06116, 0x21b4f4b5, 0x56b3c423, 0xcfba9599, 0xb8bda50f,
    0x2802b89e, 0x5f058808, 0xc60cd9b2, 0xb10be924, 0x2f6f7c87, 0x58684c11, 0xc1611dab, 0xb6662d3d,
    0x76dc4190, 0x01db7106, 0x98d220bc, 0xefd5102a, 0x71b18589, 0x06b6b51f, 0x9fbfe4a5, 0xe8b8d433,
    0x7807c9a2, 0x0f00f934, 0x9609a88e, 0xe10e9818, 0x7f6a0dbb, 0x086d3d2d, 0x91646c97, 0xe6635c01,
    0x6b6b51f4, 0x1c6c6162, 0x856530d8, 0xf262004e, 0x6c0695ed, 0x1b01a57b, 0x8208f4c1, 0xf50fc457,
    0x65b0d9c6, 0x12b7e950, 0x8bbeb8ea, 0xfcb9887c, 0x62dd1ddf, 0x15da2d49, 0x8cd37cf3, 0xfbd44c65,
    0x4db26158, 0x3ab551ce, 0xa3bc0074, 0xd4bb30e2, 0x4adfa541, 0x3dd895d7, 0xa4d1c46d, 0xd3d6f4fb,
    0x4369e96a, 0x346ed9fc, 0xad678846, 0xda60b8d0, 0x44042d73, 0x33031de5, 0xaa0a4c5f, 0xdd0d7cc9,
    0x5005713c, 0x270241aa, 0xbe0b1010, 0xc90c2086, 0x5768b525, 0x206f85b3, 0xb966d409, 0xce61e49f,
    0x5edef90e, 0x29d9c998, 0xb0d09822, 0xc7d7a8b4, 0x59b33d17, 0x2eb40d81, 0xb7bd5c3b, 0xc0ba6cad,
    0xedb88320, 0x9abfb3b6, 0x03b6e20c, 0x74b1d29a, 0xead54739, 0x9dd277af, 0x04db2615, 0x73dc1683,
    0xe3630b12, 0x94643b84, 0x0d6d6a3e, 0x7a6a5aa8, 0xe40ecf0b, 0x9309ff9d, 0x0a00ae27, 0x7d079eb1,
    0xf00f9344, 0x8708a3d2, 0x1e01f268, 0x6906c2fe, 0xf762575d, 0x806567cb, 0x196c3671, 0x6e6b06e7,
    0xfed41b76, 0x89d32be0, 0x10da7a5a, 0x67dd4acc, 0xf9b9df6f, 0x8ebeeff9, 0x17b7be43, 0x60b08ed5,
    0xd6d6a3e8, 0xa1d1937e, 0x38d8c2c4, 0x4fdff252, 0xd1bb67f1, 0xa6bc5767, 0x3fb506dd, 0x48b2364b,
    0xd80d2bda, 0xaf0a1b4c, 0x36034af6, 0x41047a60, 0xdf60efc3, 0xa867df55, 0x316e8eef, 0x4669be79,
    0xcb61b38c, 0xbc66831a, 0x256fd2a0, 0x5268e236, 0xcc0c7795, 0xbb0b4703, 0x220216b9, 0x5505262f,
    0xc5ba3bbe, 0xb2bd0b28, 0x2bb45a92, 0x5cb36a04, 0xc2d7ffa7, 0xb5d0cf31, 0x2cd99e8b, 0x5bdeae1d,
    0x9b64c2b0, 0xec63f226, 0x756aa39c, 0x026d930a, 0x9c0906a9, 0xeb0e363f, 0x72076785, 0x05005713,
    0x95bf4a82, 0xe2b87a14, 0x7bb12bae, 0x0cb61b38, 0x92d28e9b, 0xe5d5be0d, 0x7cdcefb7, 0x0bdbdf21,
    0x86d3d2d4, 0xf1d4e242, 0x68ddb3f8, 0x1fda836e, 0x81be16cd, 0xf6b9265b, 0x6fb077e1, 0x18b74777,
    0x88085ae6, 0xff0f6a70, 0x66063bca, 0x11010b5c, 0x8f659eff, 0xf862ae69, 0x616bffd3, 0x166ccf45,
    0xa00ae278, 0xd70dd2ee, 0x4e048354, 0x3903b3c2, 0xa7672661, 0xd06016f7, 0x4969474d, 0x3e6e77db,
    0xaed16a4a, 0xd9d65adc, 0x40df0b66, 0x37d83bf0, 0xa9bcae53, 0xdebb9ec5, 0x47b2cf7f, 0x30b5ffe9,
    0xbdbdf21c, 0xcabac28a, 0x53b39330, 0x24b4a3a6, 0xbad03605, 0xcdd70693, 0x54de5729, 0x23d967bf,
    0xb3667a2e, 0xc4614ab8, 0x5d681b02, 0x2a6f2b94, 0xb40bbe37, 0xc30c8ea1, 0x5a05df1b, 0x2d02ef8d],
   [0x00000000, 0x191b3141, 0x32366282, 0x2b2d53c3, 0x646cc504, 0x7d77f445, 0x565aa786, 0x4f4196c7,
    0xc8d98a08, 0xd1c2bb49, 0xfaefe88a, 0xe3f4d9cb, 0xacb54f0c, 0xb5ae7e4d, 0x9e832d8e, 0x87981ccf,
    0x4ac21251, 0x53d92310, 0x78f470d3, 0x61ef4192, 0x2eaed755, 0x37b5e614, 0x1c98b5d7, 0x05838496,
    0x821b9859, 0x9b00a918, 0xb02dfadb, 0xa936cb9a, 0xe6775d5d, 0xff6c6c1c, 0xd4413fdf, 0xcd5a0e9e,
    0x958424a2, 0x8c9f15e3, 0xa7b24620, 0xbea97761, 0xf1e8e1a6, 0xe8f3d0e7, 0xc3de8324, 0xdac5b265,
    0x5d5daeaa, 0x44469feb, 0x6f6bcc28, 0x7670fd69, 0x39316bae, 0x202a5aef, 0x0b07092c, 0x121c386d,
    0xdf4636f3, 0xc65d07b2, 0xed705471, 0xf46b6530, 0xbb2af3f7, 0xa231c2b6, 0x891c9175, 0x9007a034,
    0x179fbcfb, 0x0e848dba, 0x25a9de79, 0x3cb2ef38, 0x73f379ff, 0x6ae848be, 0x41c51b7d, 0x58de2a3c,
    0xf0794f05, 0xe9627e44, 0xc24f2d87, 0xdb541cc6, 0x94158a01, 0x8d0ebb40, 0xa623e883, 0xbf38d9c2,
    0x38a0c50d, 0x21bbf44c, 0x0a96a78f, 0x138d96ce, 0x5ccc0009, 0x45d73148, 0x6efa628b, 0x77e153ca,
    0xbabb5d54, 0xa3a06c15, 0x888d3fd6, 0x91960e97, 0xded79850, 0xc7cca911, 0xece1fad2, 0xf5facb93,
    0x7262d75c, 0x6b79e61d, 0x4054b5de, 0x594f849f, 0x160e1258, 0x0f152319, 0x243870da, 0x3d23419b,
    0x65fd6ba7, 0x7ce65ae6, 0x57cb0925, 0x4ed03864, 0x0191aea3, 0x188a9fe2, 0x33a7cc21, 0x2abcfd60,
    0xad24e1af, 0xb43fd0ee, 0x9f12832d, 0x8609b26c, 0xc94824ab, 0xd05315ea, 0xfb7e4629, 0xe2657768,
    0x2f3f79f6, 0x362448b7, 0x1d091b74, 0x04122a35, 0x4b53bcf2, 0x52488db3, 0x7965de70, 0x607eef31,
    0xe7e6f3fe, 0xfefdc2bf, 0xd5d0917c, 0xcccba03d, 0x838a36fa, 0x9a9107bb, 0xb1bc5478, 0xa8a76539,
    0x3b83984b, 0x2298a90a, 0x09b5fac9, 0x10aecb88, 0x5fef5d4f, 0x46f46c0e, 0x6dd93fcd, 0x74c20e8c,
    0xf35a1243, 0xea412302, 0xc16c70c1, 0xd8774180, 0x9736d747, 0x8e2de606, 0xa500b5c5, 0xbc1b8484,
    0x71418a1a, 0x685abb5b, 0x4377e898, 0x5a6cd9d9, 0x152d4f1e, 0x0c367e5f, 0x271b2d9c, 0x3e001cdd,
    0xb9980012, 0xa0833153, 0x8bae6290, 0x92b553d1, 0xddf4c516, 0xc4eff457, 0xefc2a794, 0xf6d996d5,
    0xae07bce9, 0xb71c8da8, 0x9c31de6b, 0x852aef2a, 0xca6b79ed, 0xd37048ac, 0xf85d1b6f, 0xe1462a2e,
    0x66de36e1, 0x7fc507a0, 0x54e85463, 0x4df36522, 0x02b2f3e5, 0x1ba9c2a4, 0x30849167, 0x299fa026,
    0xe4c5aeb8, 0xfdde9ff9, 0xd6f3cc3a, 0xcfe8fd7b, 0x80a96bbc, 0x99b25afd, 0xb29f093e, 0xab84387f,
    0x2c1c24b0, 0x350715f1, 0x1e2a4632, 0x07317773, 0x4870e1b4, 0x516bd0f5, 0x7a468336, 0x635db277,
    0xcbfad74e, 0xd2e1e60f, 0xf9ccb5cc, 0xe0d7848d, 0xaf96124a, 0xb68d230b, 0x9da070c8, 0x84bb4189,
    0x03235d46, 0x1a386c07, 0x31153fc4, 0x280e0e85, 0x674f9842, 0x7e54a903, 0x5579fac0, 0x4c62cb81,
    0x8138c51f, 0x9823f45e, 0xb30ea79d, 0xaa1596dc, 0xe554001b, 0xfc4f315a, 0xd7626299, 0xce7953d8,
    0x49e14f17, 0x50fa7e56, 0x7bd72d95, 0x62cc1cd4, 0x2d8d8a13, 0x3496bb52, 0x1fbbe891, 0x06a0d9d0,
    0x5e7ef3ec, 0x4765c2ad, 0x6c48916e, 0x7553a02f, 0x3a1236e8, 0x230907a9, 0x0824546a, 0x113f652b,
    0x96a779e4, 0x8fbc48a5, 0xa4911b66, 0xbd8a2a27, 0xf2cbbce0, 0xebd08da1, 0xc0fdde62, 0xd9e6ef23,
    0x14bce1bd, 0x0da7d0fc, 0x268a833f, 0x3f91b27e, 0x70d024b9, 0x69cb15f8, 0x42e6463b, 0x5bfd777a,
    0xdc656bb5, 0xc57e5af4, 0xee530937, 0xf7483876, 0xb809aeb1, 0xa1129ff0, 0x8a3fcc33, 0x9324fd72],
   [0x00000000, 0x01c26a37, 0x0384d46e, 0x0246be59, 0x0709a8dc, 0x06cbc2eb, 0x048d7cb2, 0x054f1685,
    0x0e1351b8, 0x0fd13b8f, 0x0d9785d6, 0x0c55efe1, 0x091af964, 0x08d89353, 0x0a9e2d0a, 0x0b5c473d,
    0x1c26a370, 0x1de4c947, 0x1fa2771e, 0x1e601d29, 0x1b2f0bac, 0x1aed619b, 0x18abdfc2, 0x1969b5f5,
    0x1235f2c8, 0x13f798ff, 0x11b126a6, 0x10734c91, 0x153c5a14, 0x14fe3023, 0x16b88e7a, 0x177ae44d,
    0x384d46e0, 0x398f2cd7, 0x3bc9928e, 0x3a0bf8b9, 0x3f44ee3c, 0x3e86840b, 0x3cc03a52, 0x3d025065,
    0x365e1758, 0x379c7d6f, 0x35dac336, 0x3418a901, 0x3157bf84, 0x3095d5b3, 0x32d36bea, 0x331101dd,
    0x246be590, 0x25a98fa7, 0x27ef31fe, 0x262d5bc9, 0x23624d4c, 0x22a0277b, 0x20e69922, 0x2124f315,
    0x2a78b428, 0x2bbade1f, 0x29fc6046, 0x283e0a71, 0x2d711cf4, 0x2cb376c3, 0x2ef5c89a, 0x2f37a2ad,
    0x709a8dc0, 0x7158e7f7, 0x731e59ae, 0x72dc3399, 0x7793251c, 0x76514f2b, 0x7417f172, 0x75d59b45,
    0x7e89dc78, 0x7f4bb64f, 0x7d0d0816, 0x7ccf6221, 0x798074a4, 0x78421e93, 0x7a04a0ca, 0x7bc6cafd,
    0x6cbc2eb0, 0x6d7e4487, 0x6f38fade, 0x6efa90e9, 0x6bb5866c, 0x6a77ec5b, 0x68315202, 0x69f33835,
    0x62af7f08, 0x636d153f, 0x612bab66, 0x60e9c151, 0x65a6d7d4, 0x6464bde3, 0x662203ba, 0x67e0698d,
    0x48d7cb20, 0x4915a117, 0x4b531f4e, 0x4a917579, 0x4fde63fc, 0x4e1c09cb, 0x4c5ab792, 0x4d98dda5,
    0x46c49a98, 0x4706f0af, 0x45404ef6, 0x448224c1, 0x41cd3244, 0x400f5873, 0x4249e62a, 0x438b8c1d,
    0x54f16850, 0x55330267, 0x5775bc3e, 0x56b7d609, 0x53f8c08c, 0x523aaabb, 0x507c14e2, 0x51be7ed5,
    0x5ae239e8, 0x5b2053df, 0x5966ed86, 0x58a487b1, 0x5deb9134, 0x5c29fb03, 0x5e6f455a, 0x5fad2f6d,
    0xe1351b80, 0xe0f771b7, 0xe2b1cfee, 0xe373a5d9, 0xe63cb35c, 0xe7fed96b, 0xe5b86732, 0xe47a0d05,
    0xef264a38, 0xeee4200f, 0xeca29e56, 0xed60f461, 0xe82fe2e4, 0xe9ed88d3, 0xebab368a, 0xea695cbd,
    0xfd13b8f0, 0xfcd1d2c7, 0xfe976c9e, 0xff5506a9, 0xfa1a102c, 0xfbd87a1b, 0xf99ec442, 0xf85cae75,
    0xf300e948, 0xf2c2837f, 0xf0843d26, 0xf1465711, 0xf4094194, 0xf5cb2ba3, 0xf78d95fa, 0xf64fffcd,
    0xd9785d60, 0xd8ba3757, 0xdafc890e, 0xdb3ee339, 0xde71f5bc, 0xdfb39f8b, 0xddf521d2, 0xdc374be5,
    0xd76b0cd8, 0xd6a966ef, 0xd4efd8b6, 0xd52db281, 0xd062a404, 0xd1a0ce33, 0xd3e6706a, 0xd2241a5d,
    0xc55efe10, 0xc49c9427, 0xc6da2a7e, 0xc7184049, 0xc25756cc, 0xc3953cfb, 0xc1d382a2, 0xc011e895,
    0xcb4dafa8, 0xca8fc59f, 0xc8c97bc6, 0xc90b11f1, 0xcc440774, 0xcd866d43, 0xcfc0d31a, 0xce02b92d,
    0x91af9640, 0x906dfc77, 0x922b422e, 0x93e92819, 0x96a63e9c, 0x976454ab, 0x9522eaf2, 0x94e080c5,
    0x9fbcc7f8, 0x9e7eadcf, 0x9c381396, 0x9dfa79a1, 0x98b56f24, 0x99770513, 0x9b31bb4a, 0x9af3d17d,
    0x8d893530, 0x8c4b5f07, 0x8e0de15e, 0x8fcf8b69, 0x8a809dec, 0x8b42f7db, 0x89044982, 0x88c623b5,
    0x839a6488, 0x82580ebf, 0x801eb0e6, 0x81dcdad1, 0x8493cc54, 0x8551a663, 0x8717183a, 0x86d5720d,
    0xa9e2d0a0, 0xa820ba97, 0xaa6604ce, 0xaba46ef9, 0xaeeb787c, 0xaf29124b, 0xad6fac12, 0xacadc625,
    0xa7f18118, 0xa633eb2f, 0xa4755576, 0xa5b73f41, 0xa0f829c4, 0xa13a43f3, 0xa37cfdaa, 0xa2be979d,
    0xb5c473d0, 0xb40619e7, 0xb640a7be, 0xb782cd89, 0xb2cddb0c, 0xb30fb13b, 0xb1490f62, 0xb08b6555,
    0xbbd72268, 0xba15485f, 0xb853f606, 0xb9919c31, 0xbcde8ab4, 0xbd1ce083, 0xbf5a5eda, 0xbe9834ed],
   [0x00000000, 0xb8bc6765, 0xaa09c88b, 0x12b5afee, 0x8f629757, 0x37def032, 0x256b5fdc, 0x9dd738b9,
    0xc5b428ef, 0x7d084f8a, 0x6fbde064, 0xd7018701, 0x4ad6bfb8, 0xf26ad8dd, 0xe0df7733, 0x58631056,
    0x5019579f, 0xe8a530fa, 0xfa109f14, 0x42acf871, 0xdf7bc0c8, 0x67c7a7ad, 0x75720843, 0xcdce6f26,
    0x95ad7f70, 0x2d111815, 0x3fa4b7fb, 0x8718d09e, 0x1acfe827, 0xa2738f42, 0xb0c620ac, 0x087a47c9,
    0xa032af3e, 0x188ec85b, 0x0a3b67b5, 0xb28700d0, 0x2f503869, 0x97ec5f0c, 0x8559f0e2, 0x3de59787,
    0x658687d1, 0xdd3ae0b4, 0xcf8f4f5a, 0x7733283f, 0xeae41086, 0x525877e3, 0x40edd80d, 0xf851bf68,
    0xf02bf8a1, 0x48979fc4, 0x5a22302a, 0xe29e574f, 0x7f496ff6, 0xc7f50893, 0xd540a77d, 0x6dfcc018,
    0x359fd04e, 0x8d23b72b, 0x9f9618c5, 0x272a7fa0, 0xbafd4719, 0x0241207c, 0x10f48f92, 0xa848e8f7,
    0x9b14583d, 0x23a83f58, 0x311d90b6, 0x89a1f7d3, 0x1476cf6a, 0xaccaa80f, 0xbe7f07e1, 0x06c36084,
    0x5ea070d2, 0xe61c17b7, 0xf4a9b859, 0x4c15df3c, 0xd1c2e785, 0x697e80e0, 0x7bcb2f0e, 0xc377486b,
    0xcb0d0fa2, 0x73b168c7, 0x6104c729, 0xd9b8a04c, 0x446f98f5, 0xfcd3ff90, 0xee66507e, 0x56da371b,
    0x0eb9274d, 0xb6054028, 0xa4b0efc6, 0x1c0c88a3, 0x81dbb01a, 0x3967d77f, 0x2bd27891, 0x936e1ff4,
    0x3b26f703, 0x839a9066, 0x912f3f88, 0x299358ed, 0xb4446054, 0x0cf80731, 0x1e4da8df, 0xa6f1cfba,
    0xfe92dfec, 0x462eb889, 0x549b1767, 0xec277002, 0x71f048bb, 0xc94c2fde, 0xdbf98030, 0x6345e755,
    0x6b3fa09c, 0xd383c7f9, 0xc1366817, 0x798a0f72, 0xe45d37cb, 0x5ce150ae, 0x4e54ff40, 0xf6e89825,
    0xae8b8873, 0x1637ef16, 0x048240f8, 0xbc3e279d, 0x21e91f24, 0x99557841, 0x8be0d7af, 0x335cb0ca,
    0xed59b63b, 0x55e5d15e, 0x47507eb0, 0xffec19d5, 0x623b216c, 0xda874609, 0xc832e9e7, 0x708e8e82,
    0x28ed9ed4, 0x9051f9b1, 0x82e4565f, 0x3a58313a, 0xa78f0983, 0x1f336ee6, 0x0d86c108, 0xb53aa66d,
    0xbd40e1a4, 0x05fc86c1, 0x1749292f, 0xaff54e4a, 0x322276f3, 0x8a9e1196, 0x982bbe78, 0x2097d91d,
    0x78f4c94b, 0xc048ae2e, 0xd2fd01c0, 0x6a4166a5, 0xf7965e1c, 0x4f2a3979, 0x5d9f9697, 0xe523f1f2,
    0x4d6b1905, 0xf5d77e60, 0xe762d18e, 0x5fdeb6eb, 0xc2098e52, 0x7ab5e937, 0x680046d9, 0xd0bc21bc,
    0x88df31ea, 0x3063568f, 0x22d6f961, 0x9a6a9e04, 0x07bda6bd, 0xbf01c1d8, 0xadb46e36, 0x15080953,
    0x1d724e9a, 0xa5ce29ff, 0xb77b8611, 0x0fc7e174, 0x9210d9cd, 0x2aacbea8, 0x38191146, 0x80a57623,
    0xd8c66675, 0x607a0110, 0x72cfaefe, 0xca73c99b, 0x57a4f122, 0xef189647, 0xfdad39a9, 0x45115ecc,
    0x764dee06, 0xcef18963, 0xdc44268d, 0x64f841e8, 0xf92f7951, 0x41931e34, 0x5326b1da, 0xeb9ad6bf,
    0xb3f9c6e9, 0x0b45a18c, 0x19f00e62, 0xa14c6907, 0x3c9b51be, 0x842736db, 0x96929935, 0x2e2efe50,
    0x2654b999, 0x9ee8defc, 0x8c5d7112, 0x34e11677, 0xa9362ece, 0x118a49ab, 0x033fe645, 0xbb838120,
    0xe3e09176, 0x5b5cf613, 0x49e959fd, 0xf1553e98, 0x6c820621, 0xd43e6144, 0xc68bceaa, 0x7e37a9cf,
    0xd67f4138, 0x6ec3265d, 0x7c7689b3, 0xc4caeed6, 0x591dd66f, 0xe1a1b10a, 0xf3141ee4, 0x4ba87981,
    0x13cb69d7, 0xab770eb2, 0xb9c2a15c, 0x017ec639, 0x9ca9fe80, 0x241599e5, 0x36a0360b, 0x8e1c516e,
    0x866616a7, 0x3eda71c2, 0x2c6fde2c, 0x94d3b949, 0x090481f0, 0xb1b8e695, 0xa30d497b, 0x1bb12e1e,
    0x43d23e48, 0xfb6e592d, 0xe9dbf6c3, 0x516791a6, 0xccb0a91f, 0x740cce7a, 0x66b96194, 0xde0506f1],
   [0x00000000, 0x96300777, 0x2c610eee, 0xba510999, 0x19c46d07, 0x8ff46a70, 0x35a563e9, 0xa395649e,
    0x3288db0e, 0xa4b8dc79, 0x1ee9d5e0, 0x88d9d297, 0x2b4cb609, 0xbd7cb17e, 0x072db8e7, 0x911dbf90,
    0x6410b71d, 0xf220b06a, 0x4871b9f3, 0xde41be84, 0x7dd4da1a, 0xebe4dd6d, 0x51b5d4f4, 0xc785d383,
    0x56986c13, 0xc0a86b64, 0x7af962fd, 0xecc9658a, 0x4f5c0114, 0xd96c0663, 0x633d0ffa, 0xf50d088d,
    0xc8206e3b, 0x5e10694c, 0xe44160d5, 0x727167a2, 0xd1e4033c, 0x47d4044b, 0xfd850dd2, 0x6bb50aa5,
    0xfaa8b535, 0x6c98b242, 0xd6c9bbdb, 0x40f9bcac, 0xe36cd832, 0x755cdf45, 0xcf0dd6dc, 0x593dd1ab,
    0xac30d926, 0x3a00de51, 0x8051d7c8, 0x1661d0bf, 0xb5f4b421, 0x23c4b356, 0x9995bacf, 0x0fa5bdb8,
    0x9eb80228, 0x0888055f, 0xb2d90cc6, 0x24e90bb1, 0x877c6f2f, 0x114c6858, 0xab1d61c1, 0x3d2d66b6,
    0x9041dc76, 0x0671db01, 0xbc20d298, 0x2a10d5ef, 0x8985b171, 0x1fb5b606, 0xa5e4bf9f, 0x33d4b8e8,
    0xa2c90778, 0x34f9000f, 0x8ea80996, 0x18980ee1, 0xbb0d6a7f, 0x2d3d6d08, 0x976c6491, 0x015c63e6,
    0xf4516b6b, 0x62616c1c, 0xd8306585, 0x4e0062f2, 0xed95066c, 0x7ba5011b, 0xc1f40882, 0x57c40ff5,
    0xc6d9b065, 0x50e9b712, 0xeab8be8b, 0x7c88b9fc, 0xdf1ddd62, 0x492dda15, 0xf37cd38c, 0x654cd4fb,
    0x5861b24d, 0xce51b53a, 0x7400bca3, 0xe230bbd4, 0x41a5df4a, 0xd795d83d, 0x6dc4d1a4, 0xfbf4d6d3,
    0x6ae96943, 0xfcd96e34, 0x468867ad, 0xd0b860da, 0x732d0444, 0xe51d0333, 0x5f4c0aaa, 0xc97c0ddd,
    0x3c710550, 0xaa410227, 0x10100bbe, 0x86200cc9, 0x25b56857, 0xb3856f20, 0x09d466b9, 0x9fe461ce,
    0x0ef9de5e, 0x98c9d929, 0x2298d0b0, 0xb4a8d7c7, 0x173db359, 0x810db42e, 0x3b5cbdb7, 0xad6cbac0,
    0x2083b8ed, 0xb6b3bf9a, 0x0ce2b603, 0x9ad2b174, 0x3947d5ea, 0xaf77d29d, 0x1526db04, 0x8316dc73,
    0x120b63e3, 0x843b6494, 0x3e6a6d0d, 0xa85a6a7a, 0x0bcf0ee4, 0x9dff0993, 0x27ae000a, 0xb19e077d,
    0x44930ff0, 0xd2a30887, 0x68f2011e, 0xfec20669, 0x5d5762f7, 0xcb676580, 0x71366c19, 0xe7066b6e,
    0x761bd4fe, 0xe02bd389, 0x5a7ada10, 0xcc4add67, 0x6fdfb9f9, 0xf9efbe8e, 0x43beb717, 0xd58eb060,
    0xe8a3d6d6, 0x7e93d1a1, 0xc4c2d838, 0x52f2df4f, 0xf167bbd1, 0x6757bca6, 0xdd06b53f, 0x4b36b248,
    0xda2b0dd8, 0x4c1b0aaf, 0xf64a0336, 0x607a0441, 0xc3ef60df, 0x55df67a8, 0xef8e6e31, 0x79be6946,
    0x8cb361cb, 0x1a8366bc, 0xa0d26f25, 0x36e26852, 0x95770ccc, 0x03470bbb, 0xb9160222, 0x2f260555,
    0xbe3bbac5, 0x280bbdb2, 0x925ab42b, 0x046ab35c, 0xa7ffd7c2, 0x31cfd0b5, 0x8b9ed92c, 0x1daede5b,
    0xb0c2649b, 0x26f263ec, 0x9ca36a75, 0x0a936d02, 0xa906099c, 0x3f360eeb, 0x85670772, 0x13570005,
    0x824abf95, 0x147ab8e2, 0xae2bb17b, 0x381bb60c, 0x9b8ed292, 0x0dbed5e5, 0xb7efdc7c, 0x21dfdb0b,
    0xd4d2d386, 0x42e2d4f1, 0xf8b3dd68, 0x6e83da1f, 0xcd16be81, 0x5b26b9f6, 0xe177b06f, 0x7747b718,
    0xe65a0888, 0x706a0fff, 0xca3b0666, 0x5c0b0111, 0xff9e658f, 0x69ae62f8, 0xd3ff6b61, 0x45cf6c16,
    0x78e20aa0, 0xeed20dd7, 0x5483044e, 0xc2b30339, 0x612667a7, 0xf71660d0, 0x4d476949, 0xdb776e3e,
    0x4a6ad1ae, 0xdc5ad6d9, 0x660bdf40, 0xf03bd837, 0x53aebca9, 0xc59ebbde, 0x7fcfb247, 0xe9ffb530,
    0x1cf2bdbd, 0x8ac2baca, 0x3093b353, 0xa6a3b424, 0x0536d0ba, 0x9306d7cd, 0x2957de54, 0xbf67d923,
    0x2e7a66b3, 0xb84a61c4, 0x021b685d, 0x942b6f2a, 0x37be0bb4, 0xa18e0cc3, 0x1bdf055a, 0x8def022d],
   [0x00000000, 0x41311b19, 0x82623632, 0xc3532d2b, 0x04c56c64, 0x45f4777d, 0x86a75a56, 0xc796414f,
    0x088ad9c8, 0x49bbc2d1, 0x8ae8effa, 0xcbd9f4e3, 0x0c4fb5ac, 0x4d7eaeb5, 0x8e2d839e, 0xcf1c9887,
    0x5112c24a, 0x1023d953, 0xd370f478, 0x9241ef61, 0x55d7ae2e, 0x14e6b537, 0xd7b5981c, 0x96848305,
    0x59981b82, 0x18a9009b, 0xdbfa2db0, 0x9acb36a9, 0x5d5d77e6, 0x1c6c6cff, 0xdf3f41d4, 0x9e0e5acd,
    0xa2248495, 0xe3159f8c, 0x2046b2a7, 0x6177a9be, 0xa6e1e8f1, 0xe7d0f3e8, 0x2483dec3, 0x65b2c5da,
    0xaaae5d5d, 0xeb9f4644, 0x28cc6b6f, 0x69fd7076, 0xae6b3139, 0xef5a2a20, 0x2c09070b, 0x6d381c12,
    0xf33646df, 0xb2075dc6, 0x715470ed, 0x30656bf4, 0xf7f32abb, 0xb6c231a2, 0x75911c89, 0x34a00790,
    0xfbbc9f17, 0xba8d840e, 0x79dea925, 0x38efb23c, 0xff79f373, 0xbe48e86a, 0x7d1bc541, 0x3c2ade58,
    0x054f79f0, 0x447e62e9, 0x872d4fc2, 0xc61c54db, 0x018a1594, 0x40bb0e8d, 0x83e823a6, 0xc2d938bf,
    0x0dc5a038, 0x4cf4bb21, 0x8fa7960a, 0xce968d13, 0x0900cc5c, 0x4831d745, 0x8b62fa6e, 0xca53e177,
    0x545dbbba, 0x156ca0a3, 0xd63f8d88, 0x970e9691, 0x5098d7de, 0x11a9ccc7, 0xd2fae1ec, 0x93cbfaf5,
    0x5cd76272, 0x1de6796b, 0xdeb55440, 0x9f844f59, 0x58120e16, 0x1923150f, 0xda703824, 0x9b41233d,
    0xa76bfd65, 0xe65ae67c, 0x2509cb57, 0x6438d04e, 0xa3ae9101, 0xe29f8a18, 0x21cca733, 0x60fdbc2a,
    0xafe124ad, 0xeed03fb4, 0x2d83129f, 0x6cb20986, 0xab2448c9, 0xea1553d0, 0x29467efb, 0x687765e2,
    0xf6793f2f, 0xb7482436, 0x741b091d, 0x352a1204, 0xf2bc534b, 0xb38d4852, 0x70de6579, 0x31ef7e60,
    0xfef3e6e7, 0xbfc2fdfe, 0x7c91d0d5, 0x3da0cbcc, 0xfa368a83, 0xbb07919a, 0x7854bcb1, 0x3965a7a8,
    0x4b98833b, 0x0aa99822, 0xc9fab509, 0x88cbae10, 0x4f5def5f, 0x0e6cf446, 0xcd3fd96d, 0x8c0ec274,
    0x43125af3, 0x022341ea, 0xc1706cc1, 0x804177d8, 0x47d73697, 0x06e62d8e, 0xc5b500a5, 0x84841bbc,
    0x1a8a4171, 0x5bbb5a68, 0x98e87743, 0xd9d96c5a, 0x1e4f2d15, 0x5f7e360c, 0x9c2d1b27, 0xdd1c003e,
    0x120098b9, 0x533183a0, 0x9062ae8b, 0xd153b592, 0x16c5f4dd, 0x57f4efc4, 0x94a7c2ef, 0xd596d9f6,
    0xe9bc07ae, 0xa88d1cb7, 0x6bde319c, 0x2aef2a85, 0xed796bca, 0xac4870d3, 0x6f1b5df8, 0x2e2a46e1,
    0xe136de66, 0xa007c57f, 0x6354e854, 0x2265f34d, 0xe5f3b202, 0xa4c2a91b, 0x67918430, 0x26a09f29,
    0xb8aec5e4, 0xf99fdefd, 0x3accf3d6, 0x7bfde8cf, 0xbc6ba980, 0xfd5ab299, 0x3e099fb2, 0x7f3884ab,
    0xb0241c2c, 0xf1150735, 0x32462a1e, 0x73773107, 0xb4e17048, 0xf5d06b51, 0x3683467a, 0x77b25d63,
    0x4ed7facb, 0x0fe6e1d2, 0xccb5ccf9, 0x8d84d7e0, 0x4a1296af, 0x0b238db6, 0xc870a09d, 0x8941bb84,
    0x465d2303, 0x076c381a, 0xc43f1531, 0x850e0e28, 0x42984f67, 0x03a9547e, 0xc0fa7955, 0x81cb624c,
    0x1fc53881, 0x5ef42398, 0x9da70eb3, 0xdc9615aa, 0x1b0054e5, 0x5a314ffc, 0x996262d7, 0xd85379ce,
    0x174fe149, 0x567efa50, 0x952dd77b, 0xd41ccc62, 0x138a8d2d, 0x52bb9634, 0x91e8bb1f, 0xd0d9a006,
    0xecf37e5e, 0xadc26547, 0x6e91486c, 0x2fa05375, 0xe836123a, 0xa9070923, 0x6a542408, 0x2b653f11,
    0xe479a796, 0xa548bc8f, 0x661b91a4, 0x272a8abd, 0xe0bccbf2, 0xa18dd0eb, 0x62defdc0, 0x23efe6d9,
    0xbde1bc14, 0xfcd0a70d, 0x3f838a26, 0x7eb2913f, 0xb924d070, 0xf815cb69, 0x3b46e642, 0x7a77fd5b,
    0xb56b65dc, 0xf45a7ec5, 0x370953ee, 0x763848f7, 0xb1ae09b8, 0xf09f12a1, 0x33cc3f8a, 0x72fd2493],
   [0x00000000, 0x376ac201, 0x6ed48403, 0x59be4602, 0xdca80907, 0xebc2cb06, 0xb27c8d04, 0x85164f05,
    0xb851130e, 0x8f3bd10f, 0xd685970d, 0xe1ef550c, 0x64f91a09, 0x5393d808, 0x0a2d9e0a, 0x3d475c0b,
    0x70a3261c, 0x47c9e41d, 0x1e77a21f, 0x291d601e, 0xac0b2f1b, 0x9b61ed1a, 0xc2dfab18, 0xf5b56919,
    0xc8f23512, 0xff98f713, 0xa626b111, 0x914c7310, 0x145a3c15, 0x2330fe14, 0x7a8eb816, 0x4de47a17,
    0xe0464d38, 0xd72c8f39, 0x8e92c93b, 0xb9f80b3a, 0x3cee443f, 0x0b84863e, 0x523ac03c, 0x6550023d,
    0x58175e36, 0x6f7d9c37, 0x36c3da35, 0x01a91834, 0x84bf5731, 0xb3d59530, 0xea6bd332, 0xdd011133,
    0x90e56b24, 0xa78fa925, 0xfe31ef27, 0xc95b2d26, 0x4c4d6223, 0x7b27a022, 0x2299e620, 0x15f32421,
    0x28b4782a, 0x1fdeba2b, 0x4660fc29, 0x710a3e28, 0xf41c712d, 0xc376b32c, 0x9ac8f52e, 0xada2372f,
    0xc08d9a70, 0xf7e75871, 0xae591e73, 0x9933dc72, 0x1c259377, 0x2b4f5176, 0x72f11774, 0x459bd575,
    0x78dc897e, 0x4fb64b7f, 0x16080d7d, 0x2162cf7c, 0xa4748079, 0x931e4278, 0xcaa0047a, 0xfdcac67b,
    0xb02ebc6c, 0x87447e6d, 0xdefa386f, 0xe990fa6e, 0x6c86b56b, 0x5bec776a, 0x02523168, 0x3538f369,
    0x087faf62, 0x3f156d63, 0x66ab2b61, 0x51c1e960, 0xd4d7a665, 0xe3bd6464, 0xba032266, 0x8d69e067,
    0x20cbd748, 0x17a11549, 0x4e1f534b, 0x7975914a, 0xfc63de4f, 0xcb091c4e, 0x92b75a4c, 0xa5dd984d,
    0x989ac446, 0xaff00647, 0xf64e4045, 0xc1248244, 0x4432cd41, 0x73580f40, 0x2ae64942, 0x1d8c8b43,
    0x5068f154, 0x67023355, 0x3ebc7557, 0x09d6b756, 0x8cc0f853, 0xbbaa3a52, 0xe2147c50, 0xd57ebe51,
    0xe839e25a, 0xdf53205b, 0x86ed6659, 0xb187a458, 0x3491eb5d, 0x03fb295c, 0x5a456f5e, 0x6d2fad5f,
    0x801b35e1, 0xb771f7e0, 0xeecfb1e2, 0xd9a573e3, 0x5cb33ce6, 0x6bd9fee7, 0x3267b8e5, 0x050d7ae4,
    0x384a26ef, 0x0f20e4ee, 0x569ea2ec, 0x61f460ed, 0xe4e22fe8, 0xd388ede9, 0x8a36abeb, 0xbd5c69ea,
    0xf0b813fd, 0xc7d2d1fc, 0x9e6c97fe, 0xa90655ff, 0x2c101afa, 0x1b7ad8fb, 0x42c49ef9, 0x75ae5cf8,
    0x48e900f3, 0x7f83c2f2, 0x263d84f0, 0x115746f1, 0x944109f4, 0xa32bcbf5, 0xfa958df7, 0xcdff4ff6,
    0x605d78d9, 0x5737bad8, 0x0e89fcda, 0x39e33edb, 0xbcf571de, 0x8b9fb3df, 0xd221f5dd, 0xe54b37dc,
    0xd80c6bd7, 0xef66a9d6, 0xb6d8efd4, 0x81b22dd5, 0x04a462d0, 0x33cea0d1, 0x6a70e6d3, 0x5d1a24d2,
    0x10fe5ec5, 0x27949cc4, 0x7e2adac6, 0x494018c7, 0xcc5657c2, 0xfb3c95c3, 0xa282d3c1, 0x95e811c0,
    0xa8af4dcb, 0x9fc58fca, 0xc67bc9c8, 0xf1110bc9, 0x740744cc, 0x436d86cd, 0x1ad3c0cf, 0x2db902ce,
    0x4096af91, 0x77fc6d90, 0x2e422b92, 0x1928e993, 0x9c3ea696, 0xab546497, 0xf2ea2295, 0xc580e094,
    0xf8c7bc9f, 0xcfad7e9e, 0x9613389c, 0xa179fa9d, 0x246fb598, 0x13057799, 0x4abb319b, 0x7dd1f39a,
    0x3035898d, 0x075f4b8c, 0x5ee10d8e, 0x698bcf8f, 0xec9d808a, 0xdbf7428b, 0x82490489, 0xb523c688,
    0x88649a83, 0xbf0e5882, 0xe6b01e80, 0xd1dadc81, 0x54cc9384, 0x63a65185, 0x3a181787, 0x0d72d586,
    0xa0d0e2a9, 0x97ba20a8, 0xce0466aa, 0xf96ea4ab, 0x7c78ebae, 0x4b1229af, 0x12ac6fad, 0x25c6adac,
    0x1881f1a7, 0x2feb33a6, 0x765575a4, 0x413fb7a5, 0xc429f8a0, 0xf3433aa1, 0xaafd7ca3, 0x9d97bea2,
    0xd073c4b5, 0xe71906b4, 0xbea740b6, 0x89cd82b7, 0x0cdbcdb2, 0x3bb10fb3, 0x620f49b1, 0x55658bb0,
    0x6822d7bb, 0x5f4815ba, 0x06f653b8, 0x319c91b9, 0xb48adebc, 0x83e01cbd, 0xda5e5abf, 0xed3498be],
   [0x00000000, 0x6567bcb8, 0x8bc809aa, 0xeeafb512, 0x5797628f, 0x32f0de37, 0xdc5f6b25, 0xb938d79d,
    0xef28b4c5, 0x8a4f087d, 0x64e0bd6f, 0x018701d7, 0xb8bfd64a, 0xddd86af2, 0x3377dfe0, 0x56106358,
    0x9f571950, 0xfa30a5e8, 0x149f10fa, 0x71f8ac42, 0xc8c07bdf, 0xada7c767, 0x43087275, 0x266fcecd,
    0x707fad95, 0x1518112d, 0xfbb7a43f, 0x9ed01887, 0x27e8cf1a, 0x428f73a2, 0xac20c6b0, 0xc9477a08,
    0x3eaf32a0, 0x5bc88e18, 0xb5673b0a, 0xd00087b2, 0x6938502f, 0x0c5fec97, 0xe2f05985, 0x8797e53d,
    0xd1878665, 0xb4e03add, 0x5a4f8fcf, 0x3f283377, 0x8610e4ea, 0xe3775852, 0x0dd8ed40, 0x68bf51f8,
    0xa1f82bf0, 0xc49f9748, 0x2a30225a, 0x4f579ee2, 0xf66f497f, 0x9308f5c7, 0x7da740d5, 0x18c0fc6d,
    0x4ed09f35, 0x2bb7238d, 0xc518969f, 0xa07f2a27, 0x1947fdba, 0x7c204102, 0x928ff410, 0xf7e848a8,
    0x3d58149b, 0x583fa823, 0xb6901d31, 0xd3f7a189, 0x6acf7614, 0x0fa8caac, 0xe1077fbe, 0x8460c306,
    0xd270a05e, 0xb7171ce6, 0x59b8a9f4, 0x3cdf154c, 0x85e7c2d1, 0xe0807e69, 0x0e2fcb7b, 0x6b4877c3,
    0xa20f0dcb, 0xc768b173, 0x29c70461, 0x4ca0b8d9, 0xf5986f44, 0x90ffd3fc, 0x7e5066ee, 0x1b37da56,
    0x4d27b90e, 0x284005b6, 0xc6efb0a4, 0xa3880c1c, 0x1ab0db81, 0x7fd76739, 0x9178d22b, 0xf41f6e93,
    0x03f7263b, 0x66909a83, 0x883f2f91, 0xed589329, 0x546044b4, 0x3107f80c, 0xdfa84d1e, 0xbacff1a6,
    0xecdf92fe, 0x89b82e46, 0x67179b54, 0x027027ec, 0xbb48f071, 0xde2f4cc9, 0x3080f9db, 0x55e74563,
    0x9ca03f6b, 0xf9c783d3, 0x176836c1, 0x720f8a79, 0xcb375de4, 0xae50e15c, 0x40ff544e, 0x2598e8f6,
    0x73888bae, 0x16ef3716, 0xf8408204, 0x9d273ebc, 0x241fe921, 0x41785599, 0xafd7e08b, 0xcab05c33,
    0x3bb659ed, 0x5ed1e555, 0xb07e5047, 0xd519ecff, 0x6c213b62, 0x094687da, 0xe7e932c8, 0x828e8e70,
    0xd49eed28, 0xb1f95190, 0x5f56e482, 0x3a31583a, 0x83098fa7, 0xe66e331f, 0x08c1860d, 0x6da63ab5,
    0xa4e140bd, 0xc186fc05, 0x2f294917, 0x4a4ef5af, 0xf3762232, 0x96119e8a, 0x78be2b98, 0x1dd99720,
    0x4bc9f478, 0x2eae48c0, 0xc001fdd2, 0xa566416a, 0x1c5e96f7, 0x79392a4f, 0x97969f5d, 0xf2f123e5,
    0x05196b4d, 0x607ed7f5, 0x8ed162e7, 0xebb6de5f, 0x528e09c2, 0x37e9b57a, 0xd9460068, 0xbc21bcd0,
    0xea31df88, 0x8f566330, 0x61f9d622, 0x049e6a9a, 0xbda6bd07, 0xd8c101bf, 0x366eb4ad, 0x53090815,
    0x9a4e721d, 0xff29cea5, 0x11867bb7, 0x74e1c70f, 0xcdd91092, 0xa8beac2a, 0x46111938, 0x2376a580,
    0x7566c6d8, 0x10017a60, 0xfeaecf72, 0x9bc973ca, 0x22f1a457, 0x479618ef, 0xa939adfd, 0xcc5e1145,
    0x06ee4d76, 0x6389f1ce, 0x8d2644dc, 0xe841f864, 0x51792ff9, 0x341e9341, 0xdab12653, 0xbfd69aeb,
    0xe9c6f9b3, 0x8ca1450b, 0x620ef019, 0x07694ca1, 0xbe519b3c, 0xdb362784, 0x35999296, 0x50fe2e2e,
    0x99b95426, 0xfcdee89e, 0x12715d8c, 0x7716e134, 0xce2e36a9, 0xab498a11, 0x45e63f03, 0x208183bb,
    0x7691e0e3, 0x13f65c5b, 0xfd59e949, 0x983e55f1, 0x2106826c, 0x44613ed4, 0xaace8bc6, 0xcfa9377e,
    0x38417fd6, 0x5d26c36e, 0xb389767c, 0xd6eecac4, 0x6fd61d59, 0x0ab1a1e1, 0xe41e14f3, 0x8179a84b,
    0xd769cb13, 0xb20e77ab, 0x5ca1c2b9, 0x39c67e01, 0x80fea99c, 0xe5991524, 0x0b36a036, 0x6e511c8e,
    0xa7166686, 0xc271da3e, 0x2cde6f2c, 0x49b9d394, 0xf0810409, 0x95e6b8b1, 0x7b490da3, 0x1e2eb11b,
    0x483ed243, 0x2d596efb, 0xc3f6dbe9, 0xa6916751, 0x1fa9b0cc, 0x7ace0c74, 0x9461b966, 0xf10605de]]

/-- Entry `crc_table[k][i]`. -/
def crcTab (k i : Nat) : Nat := (crc_table.getD k []).getD i 0

/-- One byte through the table, as in the two byte loops of `crc32`:
`c = crc_table[0][(c ^ *buf++) & 0xff] ^ (c >> 8)`. -/
def crcByte (c b : Nat) : Nat := crcTab 0 ((c ^^^ b) &&& 0xff) ^^^ (c >>> 8)

/-- A 32-bit word read from four bytes on a little-endian machine (`*buf4++`). -/
def le32 (b0 b1 b2 b3 : Nat) : Nat := b0 + b1 * 2 ^ 8 + b2 * 2 ^ 16 + b3 * 2 ^ 24

/-- One application of the `DOLIT4` of `crc32.c` with the word `w`. -/
def DOLIT4 (c w : Nat) : Nat :=
  crcTab 3 ((c ^^^ w) &&& 0xff) ^^^ crcTab 2 (((c ^^^ w) >>> 8) &&& 0xff)
    ^^^ crcTab 1 (((c ^^^ w) >>> 16) &&& 0xff) ^^^ crcTab 0 ((c ^^^ w) >>> 24)

/-- `DOLIT4` on the first four bytes of `buf`. -/
def lit4 (c : Nat) (buf : List Nat) : Nat :=
  DOLIT4 c (le32 (buf.getD 0 0) (buf.getD 1 0) (buf.getD 2 0) (buf.getD 3 0))

/-- `DOLIT32`: eight times `DOLIT4`, on the first 32 bytes of `buf`. -/
def DOLIT32 (c : Nat) (buf : List Nat) : Nat :=
  lit4 (lit4 (lit4 (lit4 (lit4 (lit4 (lit4 (lit4 c buf) (buf.drop 4)) (buf.drop 8)) (buf.drop 12))
    (buf.drop 16)) (buf.drop 20)) (buf.drop 24)) (buf.drop 28)

/-- The first loop of `crc32`: bytes are taken one by one until the address `addr` of the next
byte is a multiple of 16 (`PCLMUL_ALIGN_MASK` is 15) or the buffer is used up. The result
is the state and the rest of the buffer. -/
def crcAlign : Nat → Nat → List Nat → Nat × List Nat
  | _, c, [] => (c, [])
  | addr, c, b :: rest =>
    if addr % 16 ≠ 0 then crcAlign (addr + 1) (crcByte c b) rest else (c, b :: rest)

/-- The loop `while (len >= 32) { DOLIT32; len -= 32; }`. -/
def crcLoop32 : Nat → Nat → List Nat → Nat × List Nat
  | 0, c, buf => (c, buf)
  | fuel + 1, c, buf =>
    if buf.length ≥ 32 then crcLoop32 fuel (DOLIT32 c buf) (buf.drop 32) else (c, buf)

/-- The loop `while (len >= 4) { DOLIT4; len -= 4; }`. -/
def crcLoop4 : Nat → Nat → List Nat → Nat × List Nat
  | 0, c, buf => (c, buf)
  | fuel + 1, c, buf =>
    if buf.length ≥ 4 then crcLoop4 fuel (lit4 c buf) (buf.drop 4) else (c, buf)

/-- The last loop of `crc32`: the remaining bytes one by one. -/
def crcTail (c : Nat) (buf : List Nat) : Nat := buf.foldl crcByte c

/-- Carry-less product of two 64-bit values (`PCLMULQDQ`): bit `i` of `b` adds `a << i`. -/
def clmul (a b : Nat) : Nat :=
  (List.range 64).foldl (fun acc i => if b.testBit i then acc ^^^ (a <<< i) else acc) 0

/-- Low and high quadword of a 128-bit value. -/
def lo64 (x : Nat) : Nat := x % 2 ^ 64

/-- High quadword of a 128-bit value. -/
def hi64 (x : Nat) : Nat := (x / 2 ^ 64) % 2 ^ 64

/-- Intrinsic `_mm_clmulepi64_si128 (a, b, imm)`: bit 0 of `imm` selects the quadword of `a`,
bit 4 the quadword of `b`. -/
def mm_clmulepi64 (a b imm : Nat) : Nat :=
  clmul (if imm.testBit 0 then hi64 a else lo64 a) (if imm.testBit 4 then hi64 b else lo64 b)

/-- Intrinsic `_mm_loadu_si128`: sixteen bytes, little endian. -/
def mm_loadu (buf : List Nat) : Nat :=
  (List.range 16).foldl (fun acc i => acc + buf.getD i 0 * 2 ^ (8 * i)) 0

/-- One turn of the loop of `crc32pclmul` that folds 64 bytes into the four accumulators. -/
def fold64 (x : Nat × Nat × Nat × Nat) (buf : List Nat) : Nat × Nat × Nat × Nat :=
  let x0 := 0x0154442bd4 + 0x01c6e41596 * 2 ^ 64
  (mm_clmulepi64 x.1 x0 0x11 ^^^ mm_clmulepi64 x.1 x0 0x00 ^^^ mm_loadu buf,
   mm_clmulepi64 x.2.1 x0 0x11 ^^^ mm_clmulepi64 x.2.1 x0 0x00 ^^^ mm_loadu (buf.drop 16),
   mm_clmulepi64 x.2.2.1 x0 0x11 ^^^ mm_clmulepi64 x.2.2.1 x0 0x00 ^^^ mm_loadu (buf.drop 32),
   mm_clmulepi64 x.2.2.2 x0 0x11 ^^^ mm_clmulepi64 x.2.2.2 x0 0x00 ^^^ mm_loadu (buf.drop 48))

/-- The loop `while (len >= 64)` of `crc32pclmul`. -/
def pclLoop64 : Nat → Nat × Nat × Nat × Nat → List Nat → (Nat × Nat × Nat × Nat) × List Nat
  | 0, x, buf => (x, buf)
  | fuel + 1, x, buf =>
    if buf.length ≥ 64 then pclLoop64 fuel (fold64 x buf) (buf.drop 64) else (x, buf)

/-- One fold of 16 bytes: `x1 = clmul(x1, k3k4, 0x11) ^ y ^ clmul(x1, k3k4, 0x00)`. -/
def fold16 (x1 y : Nat) : Nat :=
  let x0 := 0x01751997d0 + 0x00ccaa009e * 2 ^ 64
  mm_clmulepi64 x1 x0 0x11 ^^^ y ^^^ mm_clmulepi64 x1 x0 0x00

/-- The loop `while (len >= 16)` of `crc32pclmul`. -/
def pclLoop16 : Nat → Nat → List Nat → Nat × List Nat
  | 0, x1, buf => (x1, buf)
  | fuel + 1, x1, buf =>
    if buf.length ≥ 16 then pclLoop16 fuel (fold16 x1 (mm_loadu buf)) (buf.drop 16) else (x1, buf)

/-- Source `crc32pclmul`, for a buffer of at least 64 bytes whose length is a multiple
of 16. -/
def crc32pclmul (crc : Nat) (buf : List Nat) : Nat :=
  let k3k4 := 0x01751997d0 + 0x00ccaa009e * 2 ^ 64
  let x1 := mm_loadu buf ^^^ crc
  let x2 := mm_loadu (buf.drop 16)
  let x3 := mm_loadu (buf.drop 32)
  let x4 := mm_loadu (buf.drop 48)
  let r := pclLoop64 buf.length (x1, x2, x3, x4) (buf.drop 64)
  let y1 := fold16 r.1.1 r.1.2.1
  let y2 := fold16 y1 r.1.2.2.1
  let y3 := fold16 y2 r.1.2.2.2
  let s := pclLoop16 buf.length y3 r.2
  -- fold 128 bits to 64 bits
  let x3' := 0xffffffff + 0xffffffff * 2 ^ 64
  let z1 := (s.1 / 2 ^ 64) ^^^ mm_clmulepi64 s.1 k3k4 0x10
  let z2 := (z1 / 2 ^ 32) ^^^ mm_clmulepi64 (z1 &&& x3') 0x0163cd6124 0x00
  -- Barrett reduction to 32 bits
  let poly := 0x01db710641 + 0x01f7011641 * 2 ^ 64
  let t1 := mm_clmulepi64 (z2 &&& x3') poly 0x10
  let t2 := mm_clmulepi64 (t1 &&& x3') poly 0x00
  ((z2 ^^^ t2) / 2 ^ 32) % 2 ^ 32

/-- Source `crc32` for little-endian machines. `buf` is `none` for the `NULL` pointer,
`addr` is the address of the first byte, `pclmul` tells whether the processor has the
carry-less multiplication (on other machines than x86-64 that branch is not compiled:
`pclmul = false`). -/
def crc32 (pclmul : Bool) (crc : Nat) (addr : Nat) (buf : Option (List Nat)) : Nat :=
  match buf with
  | none => 0
  | some bytes =>
    let a := crcAlign addr (crc % 2 ^ 32 ^^^ 0xffffffff) bytes
    let m :=
      if pclmul ∧ a.2.length ≥ 64 then
        (crc32pclmul a.1 (a.2.take (a.2.length / 16 * 16)), a.2.drop (a.2.length / 16 * 16))
      else
        let r := crcLoop32 a.2.length a.1 a.2
        crcLoop4 r.2.length r.1 r.2
    crcTail m.1 m.2 ^^^ 0xffffffff

/-- The reference CRC-32, bit by bit: one shift of the reflected register with the
polynomial 0xEDB88320. -/
def refBit (c : Nat) : Nat := if c % 2 = 1 then (c / 2) ^^^ 0xEDB88320 else c / 2

/-- The reference CRC-32: a byte is added to the register and shifted out in eight steps. -/
def refByte (c b : Nat) : Nat := refBit^[8] (c ^^^ b)

/-- The reference CRC-32 of `buf` continued from `crc`: the register starts as the complement
of `crc`, the result is the complement of the register. -/
def refCrc32 (crc : Nat) (buf : List Nat) : Nat :=
  buf.foldl refByte (crc ^^^ 0xffffffff) ^^^ 0xffffffff

/-! ## Notions used in the statements -/

/-- The L1 slots in use name distinct L2 blocks below `nextL2`. -/
def L1Inv (w : World) : Prop :=
  0 ≤ w.nextL2 ∧ (∀ a, w.l1 a ≠ -1 → 0 ≤ w.l1 a ∧ w.l1 a < w.nextL2) ∧
  ∀ a b, w.l1 a ≠ -1 → w.l1 b ≠ -1 → w.l1 a = w.l1 b → a = b

/-- A call that may allocate: `createL2Block`, or `getBlock` on an entry of an L2 block that
an L1 slot names (`allocateMetaBlockData` is called from `getBlock` only). -/
inductive AllocStep where
  | create (l1Offset : Int)
  | get (l1Offset l2Offset : Int)

/-- One call of a series; a `getBlock` outside an allocated L2 block is not made. -/
def AllocStep.run (env : Env) (w : World) : AllocStep → World
  | AllocStep.create i => createL2Block env w i
  | AllocStep.get i j =>
    if w.l1 i ≠ -1 ∧ 0 ≤ j ∧ j < env.K.COW_L2_SIZE then (getBlock env w i j).1 else w

/-- The entries of the L2 blocks allocated so far. -/
def Allocated (K : CowConst) (w : World) (p : Int × Int) : Prop :=
  0 ≤ p.1 ∧ p.1 < w.nextL2 ∧ 0 ≤ p.2 ∧ p.2 < K.COW_L2_SIZE

/-- Invariant of the allocation of data-file space: the size counter is a positive multiple
of the capacity of an entry, an allocated entry has no offset yet or a multiple of that
capacity between the header and the counter, and no offset is used twice. -/
def AllocInv (K : CowConst) (w : World) : Prop :=
  L1Inv w ∧
  (∃ n : Int, 1 ≤ n ∧ w.dataFileSize = K.COW_METADATA_STORAGE_CAPACITY * n) ∧
  (∀ p, Allocated K w p → (w.entry p).offset = -1 ∨
    ((∃ m : Int, (w.entry p).offset = K.COW_METADATA_STORAGE_CAPACITY * m) ∧
      K.COW_METADATA_STORAGE_CAPACITY ≤ (w.entry p).offset ∧
      (w.entry p).offset < w.dataFileSize)) ∧
  ∀ p q, Allocated K w p → Allocated K w q → (w.entry p).offset ≠ -1 →
    (w.entry p).offset = (w.entry q).offset → p = q

/-- Number of bytes a write reply reports. -/
def FuseReply.written : FuseReply → Option Int
  | FuseReply.write n => some n
  | _ => none

/-- The first `n` bytes of a buffer. -/
def bytes (buf : Int → Nat) (n : Nat) : List Nat := (List.range n).map (fun i => buf i)

/-- A concrete setting: the usual constants, an origin whose bytes are all 0x11, the clock
at 1000, fresh memory filled with 0xAA, every system call succeeding. -/
def demoEnv : Env := okEnv stdConst (fun _ => 17) 1000 (fun _ => 170)

/-- A write buffer of `n` bytes 0x5A (the memory behind it holds 0xAA). -/
def demoData (n : Int) : Int → Nat := fun i => if 0 ≤ i ∧ i < n then 90 else 170

/-- A write as the FUSE layer issues it, followed by the answers to its sub-requests. -/
def demoWrite (w : World) (offset size : Int) : Option World :=
  (cowfile_write 8 demoEnv { w with req := writeRequest (demoData size) offset size demoEnv.fresh }
    offset size).map (completePending demoEnv)

/-- A read, followed by the answers to its sub-requests. -/
def demoRead (w : World) (size offset : Int) : Option World :=
  (cowfile_read 16 demoEnv w size offset).map (completePending demoEnv)

/-- Invariant of the store: the allocation invariant, and the original size is at most
the current size of the image. -/
def StoreInv (K : CowConst) (w : World) : Prop :=
  AllocInv K w ∧ 0 ≤ w.originalImageSize ∧ w.originalImageSize ≤ w.imageSize ∧
  w.imageSize < 2 ^ 63

/-- Bit `n` of the bitmap of the entry `q`, read as 0 when the L2 block of `q` is not
allocated yet. -/
def bitOf (w : World) (q : Int × Int) (n : Int) : Bool :=
  decide (0 ≤ q.1 ∧ q.1 < w.nextL2) && checkBit (w.entry q).bitfield n

/-- The pointer `cowfile_read` would hold for the frame of `offset`: `none` without an L2
block. -/
def frameBlock (K : CowConst) (w : World) (offset : Int) : Option (Int × Int) :=
  if w.l1 (getL1Offset K offset) ≠ -1 then some (w.l1 (getL1Offset K offset), getL2Offset K offset)
  else none

/-- The frame of `offset` is marked present. -/
def framePresent (K : CowConst) (w : World) (offset : Int) : Bool :=
  match frameBlock K w offset with
  | none => false
  | some p => checkBit (w.entry p).bitfield (getBitfieldOffset K offset)

/-- The sub-request `padBlockFromRemote` sends for a frame that lies inside the original
image: the 4096 bytes from the start of the frame of `offset`. -/
def padRequest (fresh buffer : Int → Nat) (size inBlockOffset : Int) (block : Int × Int)
    (offset : Int) : cow_sub_request_t :=
  { size := size, inBlockOffset := inBlockOffset, writeSrc := buffer, buffer := 0,
    block := block, callback := cow_callback.writePaddedBlock,
    dOffset := offset - offset % 4096, dLength := 4096, writeBuffer := fresh }

/-- State of the store after the inner loop of `cowfile_write` has handled a write inside one
frame that is not present: the padding request is on its way; when the write started at the
start of the frame, the (empty) `writeData` has stamped the entry. -/
def afterInner (now : Int) (fresh : Int → Nat) (vb : World) (p : Int × Int) (o s bit r : Int) :
    World :=
  let x : World :=
    { vb with
      req := { vb.req with workCounter := vb.req.workCounter + 1 }
      calls := vb.calls + 1
      pending := vb.pending ++ [padRequest fresh vb.req.writeBuffer s (4096 * bit + r) p o] }
  if r = 0 then x.setEntry p { vb.entry p with timeChanged := now } else x


/-- What each loop of `crc32` leaves: a state and a rest of the buffer that continue to the
same value as the state and the buffer it started from. -/
def LoopOk (c : Nat) (buf : List Nat) (r : Nat × List Nat) : Prop :=
  r.2.foldl crcByte r.1 = buf.foldl crcByte c ∧ r.1 < 2 ^ 32 ∧ ∀ b ∈ r.2, b < 256


/-! ## The two size fields -/

/-- Between two states `originalImageSize` is unchanged and `imageSize` has not decreased. -/
def SizesKept (w w' : World) : Prop :=
  w'.originalImageSize = w.originalImageSize ∧ w.imageSize ≤ w'.imageSize


/-! ## The life of a metadata entry -/

/-- A step in the life of the metadata entries: the clock advances by `d` seconds; `writeData`
writes to an entry; `uploaderLoop` reaches an entry; the transfer at position `i` ends with
the message done and HTTP 200, and `finishUpload` handles it. -/
inductive UpStep where
  | tick (d : Nat)
  | write (buffer : Int → Nat) (size netSize : Int) (block : Int × Int) (inBlockOffset : Int)
  | start (ignoreMinUploadDelay : Bool) (block : Int × Int) (blocknumber : Int)
  | success (i : Nat)

/-- The state of that machine: the store, the clock `time(NULL)`, `totalBlocksUploaded`, the
transfers in flight, each with the bitmap its entry had when it was started, and for every
entry the bitmap it had at the start of the upload whose success last reset its `timeChanged`
(with one transfer per entry at a time that is the last successful upload whenever
`timeChanged` is 0). The two bitmaps are bookkeeping of the statement, not of the code. -/
structure UpState where
  w : World
  now : Int
  total : Int
  flights : List (cow_curl_read_upload_t × (Int → Nat))
  uploaded : Int × Int → Int → Nat

/-- The uploader as `finishUpload` and `uploaderLoop` see it. -/
def UpState.uploader (s : UpState) : Uploader :=
  { cm := s.flights.map Prod.fst, totalBlocksUploaded := s.total }

/-- The message of a transfer that succeeded. -/
def doneMsg (i : Nat) (b : cow_curl_read_upload_t) : CURLMsg :=
  { msg := CURLMSG_DONE, easy_handle := i, res := CURLE_OK, res2 := CURLE_OK, http_code := 200,
    curlUploadBlock := b }

/-- One step of the machine, made of the functions of the source. -/
def UpStep.run (U : UploadConst) (env : Env) (s : UpState) : UpStep → UpState
  | UpStep.tick d => { s with now := s.now + d }
  | UpStep.write buffer size netSize block inBlockOffset =>
    { s with w := writeData { env with now := s.now } s.w buffer size netSize block inBlockOffset }
  | UpStep.start ignoreMinUploadDelay block blocknumber =>
    let u := uploaderLoop_entry U s.now ignoreMinUploadDelay s.w s.uploader block blocknumber
    { s with flights := s.flights ++
        (u.cm.drop s.flights.length).map (fun b => (b, (s.w.entry block).bitfield)) }
  | UpStep.success i =>
    match s.flights.get? i with
    | none => s
    | some f =>
      let r := finishUpload U s.w s.uploader (doneMsg i f.1)
      { s with
        w := r.1
        total := r.2.1.totalBlocksUploaded
        flights := s.flights.eraseIdx i
        uploaded := if (s.w.entry f.1.block).timeChanged = f.1.time
          then Function.update s.uploaded f.1.block f.2 else s.uploaded }

/-- A run of the machine. -/
def upRun (U : UploadConst) (env : Env) (s : UpState) (steps : List UpStep) : UpState :=
  steps.foldl (UpStep.run U env) s

/-- The property of claim C12 in a state: an entry with `timeChanged = 0` has no bit that was
not set when the upload that reset `timeChanged` was started. -/
def CleanMeansUploaded (s : UpState) : Prop :=
  ∀ q n, (s.w.entry q).timeChanged = 0 → checkBit (s.w.entry q).bitfield n = true →
    checkBit (s.uploaded q) n = true

/-- A write is timely when the clock is not 0 and differs from the `timeChanged` that any
transfer of the same entry in flight has captured. -/
def UpStep.Timely (s : UpState) : UpStep → Prop
  | UpStep.write _ _ _ block _ =>
    s.now ≠ 0 ∧ ∀ f ∈ s.flights, f.1.block = block → f.1.time ≠ s.now
  | _ => True

/-- Every write of the run is timely. -/
def TimelyRun (U : UploadConst) (env : Env) : UpState → List UpStep → Prop
  | _, [] => True
  | s, a :: rest => a.Timely s ∧ TimelyRun U env (a.run U env s) rest

/-- A machine state on the store `w` in which nothing is in flight and nothing was uploaded. -/
def upInit (w : World) (now : Int) : UpState :=
  { w := w, now := now, total := 0, flights := [], uploaded := fun _ _ => 0 }

/-- A store with one L2 block whose first entry has its place in the data file. -/
def demoStore : World :=
  (getBlock demoEnv (createL2Block demoEnv (cowfile_init demoEnv 1048576) 0) 0 0).1

/-- Constants for the examples: uploads wait for 60 quiet seconds. -/
def demoUpload : UploadConst := { COW_MIN_UPLOAD_DELAY := 60, COW_SHOW_UL_SPEED := false }

/-- The invariant behind claim C12: the property itself, and for every transfer in flight a
captured `timeChanged` other than 0 which, as long as the entry still has it, means that the
bitmap is the one the transfer was started with. -/
def UpInv (s : UpState) : Prop :=
  CleanMeansUploaded s ∧
  ∀ f ∈ s.flights, f.1.time ≠ 0 ∧
    ((s.w.entry f.1.block).timeChanged = f.1.time → (s.w.entry f.1.block).bitfield = f.2)

instance UpStep.decTimely (s : UpState) (a : UpStep) : Decidable (a.Timely s) := by
  cases a <;> unfold UpStep.Timely <;> infer_instance

instance decTimelyRun (U : UploadConst) (env : Env) :
    ∀ (s : UpState) (steps : List UpStep), Decidable (TimelyRun U env s steps)
  | _, [] => isTrue trivial
  | s, a :: rest =>
    have := decTimelyRun U env (a.run U env s) rest
    inferInstanceAs (Decidable (a.Timely s ∧ TimelyRun U env (a.run U env s) rest))

/-- A frame of 4096 bytes 0x5A, as the buffer of a write. -/
def demoFrame : Int → Nat := fun _ => 90

/-- The store after a frame was written to the first entry of `demoStore` in second 100. -/
def demoWritten : World :=
  writeData { demoEnv with now := 100 } demoStore demoFrame 4096 4096 (0, 0) 0

/-- The record of an upload of the first entry that was enqueued when `timeChanged` was
`time`. -/
def demoRecord (time : Int) : cow_curl_read_upload_t :=
  { time := time, block := (0, 0), position := 0, blocknumber := 0, fails := 0, ulLast := 0 }

/-- The body of the upload of an entry, byte by byte: the `COW_BITFIELD_SIZE` bytes of the
bitmap, then the bytes of the data file from the entry's offset on. -/
def uploadStream (K : CowConst) (w : World) (block : Int × Int) : Int → Nat := fun i =>
  if i < K.COW_BITFIELD_SIZE then (w.entry block).bitfield i
  else w.fhd ((w.entry block).offset + (i - K.COW_BITFIELD_SIZE))

/-- Successive calls of `curlReadCallbackUploadBlock`, one for each pair (`size`, `nmemb`)
of `caps`, each with a fresh buffer: the bytes every call returned, the state and the record. -/
def uploadCalls (env : Env) :
    List (Int × Int) → World → cow_curl_read_upload_t →
      List (List Nat) × World × cow_curl_read_upload_t
  | [], w, b => ([], w, b)
  | c :: rest, w, b =>
    let r := curlReadCallbackUploadBlock env w env.fresh c.1 c.2 b
    let t := uploadCalls env rest r.1 r.2.1
    (bytes r.2.2.1 r.2.2.2.toNat :: t.1, t.2.1, t.2.2)

/-- The number of bytes of an upload: `bitfieldSize + COW_METADATA_STORAGE_CAPACITY`. -/
def uploadSize (K : CowConst) : Int := K.COW_BITFIELD_SIZE + K.COW_METADATA_STORAGE_CAPACITY

/-- The room the buffers of a series of calls offer together (`size * nmemb` each). -/
def capacity (caps : List (Int × Int)) : Int := (caps.map (fun c => c.1 * c.2)).sum

/-! ### Notions for the carry-less multiplication path -/

/-- The register of the reference CRC-32 after 128 shifts: sixteen bytes of zeros fed after
the value `x`, or `x` itself fed as sixteen little-endian bytes from the register 0. -/
def crc128 (x : Nat) : Nat := refBit^[128] x

/-- A function on bit strings that commutes with exclusive or. -/
def XorLinear (f : Nat → Nat) : Prop := ∀ a b, f (a ^^^ b) = f a ^^^ f b

/-- The number whose little-endian bytes are `buf`. -/
def leValue : List Nat → Nat
  | [] => 0
  | b :: rest => b + leValue rest * 2 ^ 8

/-- What one turn of the 64-byte loop of `crc32pclmul` does to one accumulator before the
sixteen new bytes are added: `clmul(x, k1k2, 0x11) ^ clmul(x, k1k2, 0x00)`. -/
def lane64 (x : Nat) : Nat :=
  let x0 := 0x0154442bd4 + 0x01c6e41596 * 2 ^ 64
  mm_clmulepi64 x x0 0x11 ^^^ mm_clmulepi64 x x0 0x00

/-- The end of `crc32pclmul` (from the comment `Fold 128-bits to 64-bits` on) as a function of
the accumulator `x1`. -/
def pclFinish (x1 : Nat) : Nat :=
  let k3k4 := 0x01751997d0 + 0x00ccaa009e * 2 ^ 64
  let x3 := 0xffffffff + 0xffffffff * 2 ^ 64
  let z1 := (x1 / 2 ^ 64) ^^^ mm_clmulepi64 x1 k3k4 0x10
  let z2 := (z1 / 2 ^ 32) ^^^ mm_clmulepi64 (z1 &&& x3) 0x0163cd6124 0x00
  let poly := 0x01db710641 + 0x01f7011641 * 2 ^ 64
  let t1 := mm_clmulepi64 (z2 &&& x3) poly 0x10
  let t2 := mm_clmulepi64 (t1 &&& x3) poly 0x00
  ((z2 ^^^ t2) / 2 ^ 32) % 2 ^ 32

/-- The register that stands for the four accumulators of `crc32pclmul`: the 64 bytes they
hold, fed from the register 0. -/
def acc4 (x : Nat × Nat × Nat × Nat) : Nat :=
  crc128 (crc128 (crc128 (crc128 x.1 ^^^ x.2.1) ^^^ x.2.2.1) ^^^ x.2.2.2)

/-- Eighty bytes for the examples of the carry-less multiplication path. -/
def pclBytes : List Nat := (List.range 80).map (fun i => (i * 37 + 11) % 256)

/-! ### Examples for the later claims -/

/-- The setting of `demoEnv` with a data file that takes 4097 bytes on the first `pwrite`
and fails on every later one. -/
def shortWriteEnv : Env :=
  { demoEnv with pwriteRet := fun k n => if k = 0 then min n 4097 else -1 }

/-- An image of 4096 bytes grown to 16384 bytes by `cowfile_setSize`. -/
def grownStore : Option World := cowfile_setSize 8 demoEnv (cowfile_init demoEnv 4096) 16384

/-- An image whose original size, 5000 bytes, is not a multiple of 4096, grown to 8192 bytes
by `cowfile_setSize`. -/
def unevenStore : Option World := cowfile_setSize 8 demoEnv (cowfile_init demoEnv 5000) 8192

/-- The store after frame 0 of an image of 8192 bytes has been written, with 0xFF in the
byte that follows the 40 bytes of the bitmap of the first entry. -/
def fullStore : Option World :=
  (demoWrite (cowfile_init demoEnv 8192) 0 4096).map (fun w =>
    w.setEntry (0, 0)
      { w.entry (0, 0) with bitfield := fun i => if i = 40 then 255 else (w.entry (0, 0)).bitfield i })

/-! ## Theorems -/


theorem i32_of_range {x : Int} (h0 : -2 ^ 31 ≤ x) (h1 : x < 2 ^ 31) : i32 x = x := by
  unfold i32; omega

theorem u64_of_range {x : Int} (h0 : 0 ≤ x) (h1 : x < 2 ^ 64) : u64 x = x := by
  unfold u64; omega

theorem i64_of_range {x : Int} (h0 : -2 ^ 63 ≤ x) (h1 : x < 2 ^ 63) : i64 x = x := by
  unfold i64; omega

/-- Claim C3. For every entry pointer `block` (`none` is `NULL`), bit index `b` (an `int`) and
absolute offset `o`, `getBlockDataSource` returns `local` exactly when `block` is not `NULL`
and `checkBit` finds bit `b` of its bitmap set; otherwise it returns `zero` exactly when
`o >= originalImageSize`, and `remote` exactly when `o < originalImageSize`. -/
theorem getBlockDataSource_cases (w : World) (block : Option (Int × Int)) (b o : Int)
    (hb0 : -2 ^ 31 ≤ b) (hb1 : b < 2 ^ 31) (ho0 : 0 ≤ o) (ho1 : o < 2 ^ 64) :
    (getBlockDataSource w block b o = dataSource.local_ ↔
        ∃ p, block = some p ∧ checkBit (w.entry p).bitfield b = true) ∧
    (getBlockDataSource w block b o = dataSource.zero ↔
        (¬ ∃ p, block = some p ∧ checkBit (w.entry p).bitfield b = true) ∧ o ≥ w.originalImageSize) ∧
    (getBlockDataSource w block b o = dataSource.remote ↔
        (¬ ∃ p, block = some p ∧ checkBit (w.entry p).bitfield b = true) ∧ ¬ o ≥ w.originalImageSize) := by
  unfold getBlockDataSource
  rw [i32_of_range hb0 hb1, u64_of_range ho0 ho1]
  cases block with
  | none => by_cases h : o ≥ w.originalImageSize <;> simp [h]
  | some p =>
    by_cases hc : checkBit (w.entry p).bitfield b = true
    · simp [hc]
    · by_cases h : o ≥ w.originalImageSize <;> simp [hc, h]



/-- Splitting an offset: frame number, then entry and L1 slot. -/
theorem split_offset (B L o : Int) (hB : 0 < B) (hL : 0 < L) :
    o / (L * (B * 4096)) = o / 4096 / (L * B) ∧
    o % (L * (B * 4096)) / (B * 4096) = o / 4096 % (L * B) / B ∧
    o / 4096 % (L * B) % B = o / 4096 % B := by
  have hLB : 0 < L * B := Int.mul_pos hL hB
  have e1 := Int.ediv_add_emod o 4096
  have e2 := Int.ediv_add_emod (o / 4096) (L * B)
  have e3 := Int.ediv_add_emod (o / 4096 % (L * B)) B
  have r1 := Int.emod_nonneg o (show (4096 : Int) ≠ 0 by norm_num)
  have r1' := Int.emod_lt_of_pos o (show (0 : Int) < 4096 by norm_num)
  have r2 := Int.emod_nonneg (o / 4096) (ne_of_gt hLB)
  have r2' := Int.emod_lt_of_pos (o / 4096) hLB
  have r3 := Int.emod_nonneg (o / 4096 % (L * B)) (ne_of_gt hB)
  have r3' := Int.emod_lt_of_pos (o / 4096 % (L * B)) hB
  have hcap : 0 < L * (B * 4096) := by positivity
  have hcap2 : 0 < B * 4096 := by positivity
  have k1 : o / (L * (B * 4096)) = o / 4096 / (L * B) ∧
      o % (L * (B * 4096)) = (o / 4096 % (L * B)) * 4096 + o % 4096 := by
    apply (Int.ediv_emod_unique hcap).2
    refine ⟨by linear_combination e1 + 4096 * e2, by positivity, ?_⟩
    nlinarith
  refine ⟨k1.1, ?_, Int.emod_emod_of_dvd _ (Dvd.intro_left L rfl)⟩
  rw [k1.2]
  have k2 : ((o / 4096 % (L * B)) * 4096 + o % 4096) / (B * 4096) = o / 4096 % (L * B) / B ∧
      ((o / 4096 % (L * B)) * 4096 + o % 4096) % (B * 4096)
        = (o / 4096 % (L * B) % B) * 4096 + o % 4096 := by
    apply (Int.ediv_emod_unique hcap2).2
    refine ⟨by linear_combination 4096 * e3, by positivity, ?_⟩
    nlinarith
  exact k2.1

/-- The three indices of an offset are exact and recombine to the start of its frame. -/
theorem addressing_facts (K : CowConst) (hK : K.WF) (o : Int) (ho0 : 0 ≤ o)
    (ho1 : o < K.COW_MAX_IMAGE_SIZE) :
    getL1Offset K o = o / K.COW_L2_STORAGE_CAPACITY ∧
    getL2Offset K o = o % K.COW_L2_STORAGE_CAPACITY / K.COW_METADATA_STORAGE_CAPACITY ∧
    getBitfieldOffset K o = o / 4096 % (K.COW_BITFIELD_SIZE * 8) ∧
    (0 ≤ getL2Offset K o ∧ getL2Offset K o < K.COW_L2_SIZE) ∧
    (0 ≤ getBitfieldOffset K o ∧ getBitfieldOffset K o < K.COW_BITFIELD_SIZE * 8) ∧
    DNBD3_BLOCK_SIZE * getBitfieldOffset K o
        + getL2Offset K o * K.COW_METADATA_STORAGE_CAPACITY
        + getL1Offset K o * K.COW_L2_STORAGE_CAPACITY = o - o % 4096 := by
  obtain ⟨hb, hl, hbi, hli, hmax⟩ := hK
  have hB : 0 < K.COW_BITFIELD_SIZE * 8 := by omega
  have hLB : 0 < K.COW_L2_SIZE * (K.COW_BITFIELD_SIZE * 8) := Int.mul_pos hl hB
  obtain ⟨s1, s2, s3⟩ := split_offset (K.COW_BITFIELD_SIZE * 8) K.COW_L2_SIZE o hB hl
  have hf0 : 0 ≤ o / 4096 := Int.ediv_nonneg ho0 (by norm_num)
  have hf1 : o / 4096 < 2 ^ 31 := by
    apply Int.ediv_lt_of_lt_mul (by norm_num)
    simp only [DNBD3_BLOCK_SIZE] at hmax
    omega
  have e2 := Int.ediv_add_emod (o / 4096) (K.COW_L2_SIZE * (K.COW_BITFIELD_SIZE * 8))
  have e3 := Int.ediv_add_emod (o / 4096 % (K.COW_L2_SIZE * (K.COW_BITFIELD_SIZE * 8)))
    (K.COW_BITFIELD_SIZE * 8)
  have e1 := Int.ediv_add_emod o 4096
  have m0 := Int.emod_nonneg (o / 4096) (ne_of_gt hLB)
  have m1 := Int.emod_lt_of_pos (o / 4096) hLB
  have q1a : 0 ≤ o / 4096 / (K.COW_L2_SIZE * (K.COW_BITFIELD_SIZE * 8)) :=
    Int.ediv_nonneg hf0 (le_of_lt hLB)
  have q1b : o / 4096 / (K.COW_L2_SIZE * (K.COW_BITFIELD_SIZE * 8)) ≤ o / 4096 :=
    Int.ediv_le_self _ hf0
  have q2a : 0 ≤ o / 4096 % (K.COW_L2_SIZE * (K.COW_BITFIELD_SIZE * 8)) / (K.COW_BITFIELD_SIZE * 8) :=
    Int.ediv_nonneg m0 (le_of_lt hB)
  have q2b : o / 4096 % (K.COW_L2_SIZE * (K.COW_BITFIELD_SIZE * 8)) / (K.COW_BITFIELD_SIZE * 8)
      < K.COW_L2_SIZE := Int.ediv_lt_of_lt_mul hB m1
  have b0 := Int.emod_nonneg (o / 4096) (ne_of_gt hB)
  have b1 := Int.emod_lt_of_pos (o / 4096) hB
  have g1 : getL1Offset K o = o / 4096 / (K.COW_L2_SIZE * (K.COW_BITFIELD_SIZE * 8)) := by
    unfold getL1Offset CowConst.COW_L2_STORAGE_CAPACITY CowConst.COW_METADATA_STORAGE_CAPACITY
      DNBD3_BLOCK_SIZE
    rw [s1]; exact i32_of_range (by omega) (by omega)
  have g2 : getL2Offset K o
      = o / 4096 % (K.COW_L2_SIZE * (K.COW_BITFIELD_SIZE * 8)) / (K.COW_BITFIELD_SIZE * 8) := by
    unfold getL2Offset CowConst.COW_L2_STORAGE_CAPACITY CowConst.COW_METADATA_STORAGE_CAPACITY
      DNBD3_BLOCK_SIZE
    rw [s2]; exact i32_of_range (by omega) (by omega)
  have g3 : getBitfieldOffset K o = o / 4096 % (K.COW_BITFIELD_SIZE * 8) := by
    unfold getBitfieldOffset DNBD3_BLOCK_SIZE
    rw [i32_of_range (by omega) (by omega), Int.tmod_eq_emod hf0 (le_of_lt hB)]
  refine ⟨?_, ?_, g3, ?_, ?_, ?_⟩
  · rw [g1]; unfold CowConst.COW_L2_STORAGE_CAPACITY CowConst.COW_METADATA_STORAGE_CAPACITY
      DNBD3_BLOCK_SIZE; exact s1.symm
  · rw [g2]; unfold CowConst.COW_L2_STORAGE_CAPACITY CowConst.COW_METADATA_STORAGE_CAPACITY
      DNBD3_BLOCK_SIZE; exact s2.symm
  · rw [g2]; exact ⟨q2a, q2b⟩
  · rw [g3]; exact ⟨b0, b1⟩
  · rw [g1, g2, g3]
    unfold CowConst.COW_L2_STORAGE_CAPACITY CowConst.COW_METADATA_STORAGE_CAPACITY DNBD3_BLOCK_SIZE
    rw [← s3]
    linear_combination 4096 * e3 + 4096 * e2 + e1

/-- Claim C4. For every offset `o` below `COW_MAX_IMAGE_SIZE` the three index functions return
the exact quotients (the casts to `int` lose nothing), the L2 index and the bit index are
in range, and the recombination used by `cowfile_read` gives `o` rounded down to a multiple
of 4096. The constants are arbitrary but usable (`CowConst.WF`). -/
theorem addressing_exact (K : CowConst) (hK : K.WF) (o : Int) (ho0 : 0 ≤ o)
    (ho1 : o < K.COW_MAX_IMAGE_SIZE) :
    getL1Offset K o = o / K.COW_L2_STORAGE_CAPACITY ∧
    getL2Offset K o = o % K.COW_L2_STORAGE_CAPACITY / K.COW_METADATA_STORAGE_CAPACITY ∧
    getBitfieldOffset K o = o / 4096 % (K.COW_BITFIELD_SIZE * 8) ∧
    (0 ≤ getL2Offset K o ∧ getL2Offset K o < K.COW_L2_SIZE) ∧
    (0 ≤ getBitfieldOffset K o ∧ getBitfieldOffset K o < K.COW_BITFIELD_SIZE * 8) ∧
    DNBD3_BLOCK_SIZE * getBitfieldOffset K o
        + getL2Offset K o * K.COW_METADATA_STORAGE_CAPACITY
        + getL1Offset K o * K.COW_L2_STORAGE_CAPACITY = o - o % 4096 :=
  addressing_facts K hK o ho0 ho1

theorem stdConst_wf : stdConst.WF := by
  constructor <;> simp [stdConst, DNBD3_BLOCK_SIZE]

/-- Claim C4 at the last byte of the largest image, with the usual constants. -/
theorem addressing_exact_witness :
    (0 : Int) ≤ 999999999999 ∧ (999999999999 : Int) < stdConst.COW_MAX_IMAGE_SIZE ∧
    getL1Offset stdConst 999999999999 = 745 ∧ getL2Offset stdConst 999999999999 = 59 ∧
    getBitfieldOffset stdConst 999999999999 = 144 := by
  have h := addressing_exact stdConst stdConst_wf 999999999999 (by decide) (by decide)
  refine ⟨by decide, by decide, ?_, ?_, ?_⟩
  · rw [h.1]; decide
  · rw [h.2.1]; decide
  · rw [h.2.2.1]; decide
theorem L1Inv_init (env : Env) (sz : Int) : L1Inv (cowfile_init env sz) := by
  refine ⟨by simp [cowfile_init], ?_, ?_⟩ <;> intros <;> simp_all [cowfile_init]

theorem createL2Block_l1 (env : Env) (w : World) (i a : Int) (h : w.l1 i = -1) :
    (createL2Block env w i).l1 a = if a = i then w.nextL2 else w.l1 a := by
  simp [createL2Block, h, Function.update_apply]

theorem createL2Block_nextL2 (env : Env) (w : World) (i : Int) (h : w.l1 i = -1) :
    (createL2Block env w i).nextL2 = w.nextL2 + 1 := by
  simp [createL2Block, h]

theorem createL2Block_of_ne (env : Env) (w : World) (i : Int) (h : w.l1 i ≠ -1) :
    createL2Block env w i = w := by
  simp [createL2Block, h]

theorem L1Inv_createL2Block (env : Env) (w : World) (i : Int) (hw : L1Inv w) :
    L1Inv (createL2Block env w i) := by
  by_cases h : w.l1 i = -1
  · obtain ⟨h0, h1, h2⟩ := hw
    refine ⟨by rw [createL2Block_nextL2 env w i h]; omega, ?_, ?_⟩
    · intro a ha
      rw [createL2Block_l1 env w i a h] at ha ⊢
      rw [createL2Block_nextL2 env w i h]
      by_cases hai : a = i
      · simp [hai]; omega
      · simp only [hai, if_false] at ha ⊢
        have := h1 a ha; omega
    · intro a b ha hb hab
      rw [createL2Block_l1 env w i a h] at ha hab
      rw [createL2Block_l1 env w i b h] at hb hab
      by_cases hai : a = i <;> by_cases hbi : b = i
      · rw [hai, hbi]
      · simp only [hai, hbi, if_true, if_false] at hb hab
        have := h1 b hb; omega
      · simp only [hai, hbi, if_true, if_false] at ha hab
        have := h1 a ha; omega
      · simp only [hai, hbi, if_false] at ha hb hab
        exact h2 a b ha hb hab
  · rw [createL2Block_of_ne env w i h]; exact hw

theorem L1Inv_foldl (env : Env) (calls : List Int) :
    ∀ w, L1Inv w → L1Inv (calls.foldl (createL2Block env) w) := by
  induction calls with
  | nil => intro w hw; exact hw
  | cons i rest ih => intro w hw; exact ih _ (L1Inv_createL2Block env w i hw)

/-- Claim C6. Called on a slot that holds -1, `createL2Block` stores the old `nextL2` in the slot,
increments `nextL2` by one and leaves every entry of the new L2 block with offset -1,
`timeChanged` 0, `uploads` 0 and an all-zero bitmap; called on a slot in use it changes
nothing. After any series of calls from the state of `cowfile_init`, the slots in use hold
pairwise distinct L2 indices below `nextL2`. -/
theorem createL2Block_spec :
    (∀ (env : Env) (w : World) (i : Int), w.l1 i = -1 →
      (createL2Block env w i).l1 i = w.nextL2 ∧
      (createL2Block env w i).nextL2 = w.nextL2 + 1 ∧
      ∀ j, 0 ≤ j → j < env.K.COW_L2_SIZE →
        ((createL2Block env w i).firstL2 w.nextL2 j).offset = -1 ∧
        ((createL2Block env w i).firstL2 w.nextL2 j).timeChanged = 0 ∧
        ((createL2Block env w i).firstL2 w.nextL2 j).uploads = 0 ∧
        ∀ k, 0 ≤ k → k < env.K.COW_BITFIELD_SIZE →
          ((createL2Block env w i).firstL2 w.nextL2 j).bitfield k = 0) ∧
    (∀ (env : Env) (w : World) (i : Int), w.l1 i ≠ -1 → createL2Block env w i = w) ∧
    (∀ (env : Env) (sz : Int) (calls : List Int),
      (∀ a, (calls.foldl (createL2Block env) (cowfile_init env sz)).l1 a ≠ -1 →
          (calls.foldl (createL2Block env) (cowfile_init env sz)).l1 a
            < (calls.foldl (createL2Block env) (cowfile_init env sz)).nextL2) ∧
      ∀ a b, (calls.foldl (createL2Block env) (cowfile_init env sz)).l1 a ≠ -1 →
          (calls.foldl (createL2Block env) (cowfile_init env sz)).l1 b ≠ -1 → a ≠ b →
          (calls.foldl (createL2Block env) (cowfile_init env sz)).l1 a
            ≠ (calls.foldl (createL2Block env) (cowfile_init env sz)).l1 b) := by
  refine ⟨?_, createL2Block_of_ne, ?_⟩
  · intro env w i h
    refine ⟨by rw [createL2Block_l1 env w i i h]; simp, createL2Block_nextL2 env w i h, ?_⟩
    intro j hj0 hj1
    simp only [createL2Block, h, if_true, Function.update_same, hj0, hj1, and_self, true_and]
    intro k hk0 hk1
    simp [hk0, hk1]
  · intro env sz calls
    obtain ⟨_, h1, h2⟩ := L1Inv_foldl env calls _ (L1Inv_init env sz)
    exact ⟨fun a ha => (h1 a ha).2, fun a b ha hb hab he => hab (h2 a b ha hb he)⟩

theorem cap_pos (K : CowConst) (hK : K.WF) : 0 < K.COW_METADATA_STORAGE_CAPACITY := by
  have := hK.bitfield_pos
  unfold CowConst.COW_METADATA_STORAGE_CAPACITY DNBD3_BLOCK_SIZE; omega

theorem AllocInv_init (env : Env) (sz : Int) : AllocInv env.K (cowfile_init env sz) := by
  refine ⟨L1Inv_init env sz, ⟨1, le_refl _, by simp [cowfile_init]⟩, ?_, ?_⟩
  · intro p hp; simp [Allocated, cowfile_init] at hp; omega
  · intro p q hp; simp [Allocated, cowfile_init] at hp; omega

theorem entry_setEntry (w : World) (p q : Int × Int) (e : cow_block_metadata_t) :
    (w.setEntry p e).entry q = if q = p then e else w.entry q := by
  unfold World.setEntry World.entry
  by_cases h : q = p
  · subst h; simp
  · simp only [h, if_false]
    by_cases h1 : q.1 = p.1
    · have h2 : q.2 ≠ p.2 := fun h2 => h (Prod.ext h1 h2)
      simp [Function.update_apply, h1, h2]
    · simp [Function.update_apply, h1]

/-- What one call of the series does to the entries allocated before it. -/
theorem AllocStep.run_spec (env : Env) (hK : env.K.WF) (w : World) (hw : AllocInv env.K w)
    (s : AllocStep) :
    AllocInv env.K (s.run env w) ∧
    ∀ p, Allocated env.K w p → Allocated env.K (s.run env w) p ∧
      ((w.entry p).offset ≠ -1 → ((s.run env w).entry p).offset = (w.entry p).offset) := by
  have hcap := cap_pos env.K hK
  obtain ⟨hl, ⟨n, hn1, hn⟩, h3, h4⟩ := hw
  cases s with
  | create i =>
    have hr : AllocStep.run env w (AllocStep.create i) = createL2Block env w i := rfl
    rw [hr]
    by_cases h : w.l1 i = -1
    · have hent : ∀ p, (createL2Block env w i).entry p =
          if p.1 = w.nextL2 then (createL2Block env w i).entry p else w.entry p := by
        intro p
        by_cases hp : p.1 = w.nextL2
        · simp [hp]
        · simp [createL2Block, h, World.entry, Function.update_apply, hp]
      have hnew : ∀ p, p.1 = w.nextL2 → 0 ≤ p.2 → p.2 < env.K.COW_L2_SIZE →
          ((createL2Block env w i).entry p).offset = -1 := by
        intro p hp h0 h1
        simp [createL2Block, h, World.entry, hp, h0, h1]
      have hold : ∀ p, Allocated env.K w p → (createL2Block env w i).entry p = w.entry p := by
        intro p hp
        rw [hent p]; have := hp.2.1
        rw [if_neg (by omega)]
      have hdfs : (createL2Block env w i).dataFileSize = w.dataFileSize := by
        simp [createL2Block, h]
      have halloc : ∀ p, Allocated env.K (createL2Block env w i) p →
          Allocated env.K w p ∨ (p.1 = w.nextL2 ∧ 0 ≤ p.2 ∧ p.2 < env.K.COW_L2_SIZE) := by
        intro p hp
        unfold Allocated at hp ⊢
        rw [createL2Block_nextL2 env w i h] at hp
        by_cases hp1 : p.1 = w.nextL2
        · right; exact ⟨hp1, hp.2.2⟩
        · left; omega
      refine ⟨⟨L1Inv_createL2Block env w i hl, ⟨n, hn1, by rw [hdfs]; exact hn⟩, ?_, ?_⟩, ?_⟩
      · intro p hp
        rcases halloc p hp with hp' | ⟨hp1, hp2, hp3⟩
        · rw [hold p hp', hdfs]; exact h3 p hp'
        · left; exact hnew p hp1 hp2 hp3
      · intro p q hp hq hne heq
        rcases halloc p hp with hp' | ⟨hp1, hp2, hp3⟩
        · rcases halloc q hq with hq' | ⟨hq1, hq2, hq3⟩
          · rw [hold p hp'] at hne heq; rw [hold q hq'] at heq
            exact h4 p q hp' hq' hne heq
          · rw [hnew q hq1 hq2 hq3] at heq; exact absurd heq hne
        · exact absurd (hnew p hp1 hp2 hp3) hne
      · intro p hp
        refine ⟨?_, fun _ => by rw [hold p hp]⟩
        unfold Allocated at hp ⊢
        rw [createL2Block_nextL2 env w i h]; omega
    · rw [createL2Block_of_ne env w i h]
      exact ⟨⟨hl, ⟨n, hn1, hn⟩, h3, h4⟩, fun p hp => ⟨hp, fun _ => rfl⟩⟩
  | get i j =>
    by_cases hg : w.l1 i ≠ -1 ∧ 0 ≤ j ∧ j < env.K.COW_L2_SIZE
    · have hr : AllocStep.run env w (AllocStep.get i j) = (getBlock env w i j).1 := by
        show (if w.l1 i ≠ -1 ∧ 0 ≤ j ∧ j < env.K.COW_L2_SIZE then (getBlock env w i j).1 else w) = _
        rw [if_pos hg]
      rw [hr]
      have hp0 : Allocated env.K w (w.l1 i, j) := by
        have := hl.2.1 i hg.1
        exact ⟨this.1, this.2, hg.2.1, hg.2.2⟩
      by_cases ho : (w.entry (w.l1 i, j)).offset = -1
      · have hrun : (getBlock env w i j).1 = allocateMetaBlockData env w (w.l1 i, j) := by
          simp [getBlock, ho]
        rw [hrun]
        have hent : ∀ p, (allocateMetaBlockData env w (w.l1 i, j)).entry p =
            if p = (w.l1 i, j) then { w.entry (w.l1 i, j) with offset := w.dataFileSize }
            else w.entry p := by
          intro p
          have := entry_setEntry w (w.l1 i, j) p { w.entry (w.l1 i, j) with offset := w.dataFileSize }
          simpa [allocateMetaBlockData, World.entry, World.setEntry] using this
        have hdfs : (allocateMetaBlockData env w (w.l1 i, j)).dataFileSize
            = w.dataFileSize + env.K.COW_METADATA_STORAGE_CAPACITY := by
          simp [allocateMetaBlockData]
        have hsame : ∀ p, Allocated env.K (allocateMetaBlockData env w (w.l1 i, j)) p
            ↔ Allocated env.K w p := by
          intro p; simp [Allocated, allocateMetaBlockData, World.setEntry]
        have hL : L1Inv (allocateMetaBlockData env w (w.l1 i, j)) := by
          simpa [L1Inv, allocateMetaBlockData, World.setEntry] using hl
        have hbig : env.K.COW_METADATA_STORAGE_CAPACITY ≤ w.dataFileSize := by
          rw [hn]; nlinarith
        refine ⟨⟨hL, ⟨n + 1, by omega, by rw [hdfs, hn]; ring⟩, ?_, ?_⟩, ?_⟩
        · intro p hp
          rw [hsame] at hp
          rw [hent p, hdfs]
          by_cases hpp : p = (w.l1 i, j)
          · right; simp only [hpp, if_true]
            exact ⟨⟨n, hn⟩, hbig, by omega⟩
          · simp only [hpp, if_false]
            rcases h3 p hp with h | ⟨hm, h1, h2⟩
            · left; exact h
            · right; exact ⟨hm, h1, by omega⟩
        · intro p q hp hq hne heq
          rw [hsame] at hp hq
          rw [hent p] at hne heq; rw [hent q] at heq
          by_cases hpp : p = (w.l1 i, j) <;> by_cases hqq : q = (w.l1 i, j)
          · rw [hpp, hqq]
          · simp only [hpp, hqq, if_true, if_false] at heq
            rcases h3 q hq with h | ⟨_, _, h2⟩
            · rw [h] at heq; omega
            · omega
          · simp only [hpp, hqq, if_true, if_false] at heq hne
            rcases h3 p hp with h | ⟨_, _, h2⟩
            · exact absurd h hne
            · omega
          · simp only [hpp, hqq, if_false] at heq hne
            exact h4 p q hp hq hne heq
        · intro p hp
          refine ⟨(hsame p).2 hp, fun hne => ?_⟩
          rw [hent p]
          by_cases hpp : p = (w.l1 i, j)
          · rw [hpp] at hne; exact absurd ho hne
          · simp [hpp]
      · have hrun : (getBlock env w i j).1 = w := by simp [getBlock, ho]
        rw [hrun]
        exact ⟨⟨hl, ⟨n, hn1, hn⟩, h3, h4⟩, fun p hp => ⟨hp, fun _ => rfl⟩⟩
    · have hr : AllocStep.run env w (AllocStep.get i j) = w := by
        show (if w.l1 i ≠ -1 ∧ 0 ≤ j ∧ j < env.K.COW_L2_SIZE then (getBlock env w i j).1 else w) = w
        rw [if_neg hg]
      rw [hr]
      exact ⟨⟨hl, ⟨n, hn1, hn⟩, h3, h4⟩, fun p hp => ⟨hp, fun _ => rfl⟩⟩

theorem runAlloc_spec (env : Env) (hK : env.K.WF) (steps : List AllocStep) :
    ∀ w, AllocInv env.K w →
      AllocInv env.K (steps.foldl (AllocStep.run env) w) ∧
      ∀ p, Allocated env.K w p → Allocated env.K (steps.foldl (AllocStep.run env) w) p ∧
        ((w.entry p).offset ≠ -1 →
          ((steps.foldl (AllocStep.run env) w).entry p).offset = (w.entry p).offset) := by
  induction steps with
  | nil => intro w hw; exact ⟨hw, fun p hp => ⟨hp, fun _ => rfl⟩⟩
  | cons s rest ih =>
    intro w hw
    obtain ⟨h1, h2⟩ := AllocStep.run_spec env hK w hw s
    obtain ⟨h3, h4⟩ := ih _ h1
    refine ⟨h3, fun p hp => ?_⟩
    obtain ⟨a1, a2⟩ := h2 p hp
    obtain ⟨b1, b2⟩ := h4 p a1
    refine ⟨b1, fun hne => ?_⟩
    simp only [List.foldl_cons]
    rw [b2 (by rw [a2 hne]; exact hne), a2 hne]

/-- Claim C5. Let `w` be reached from the state of `cowfile_init` by any series of `createL2Block`
and `getBlock` calls on entries of allocated L2 blocks. An entry of `w` that has an offset
keeps it through any further series `more` of such calls; every offset handed out is a
multiple of `COW_METADATA_STORAGE_CAPACITY`, at least that capacity (the header) and below
`dataFileSize`; two different entries never overlap in the data file. -/
theorem alloc_offsets (env : Env) (hK : env.K.WF) (sz : Int) (steps more : List AllocStep)
    (w : World) (hw : w = steps.foldl (AllocStep.run env) (cowfile_init env sz)) :
    (∀ p, Allocated env.K w p → (w.entry p).offset ≠ -1 →
      ((more.foldl (AllocStep.run env) w).entry p).offset = (w.entry p).offset) ∧
    (∀ p, Allocated env.K w p → (w.entry p).offset ≠ -1 →
      env.K.COW_METADATA_STORAGE_CAPACITY ∣ (w.entry p).offset ∧
      env.K.COW_METADATA_STORAGE_CAPACITY ≤ (w.entry p).offset ∧
      (w.entry p).offset < w.dataFileSize) ∧
    (∀ p q, Allocated env.K w p → Allocated env.K w q → p ≠ q →
      (w.entry p).offset ≠ -1 → (w.entry q).offset ≠ -1 →
      (w.entry p).offset + env.K.COW_METADATA_STORAGE_CAPACITY ≤ (w.entry q).offset ∨
      (w.entry q).offset + env.K.COW_METADATA_STORAGE_CAPACITY ≤ (w.entry p).offset) := by
  have hcap := cap_pos env.K hK
  have hinv : AllocInv env.K w := by
    rw [hw]; exact (runAlloc_spec env hK steps _ (AllocInv_init env sz)).1
  obtain ⟨hl, hn, h3, h4⟩ := hinv
  refine ⟨fun p hp hne => ((runAlloc_spec env hK more w ⟨hl, hn, h3, h4⟩).2 p hp).2 hne, ?_, ?_⟩
  · intro p hp hne
    rcases h3 p hp with h | ⟨⟨m, hm⟩, h1, h2⟩
    · exact absurd h hne
    · exact ⟨⟨m, hm⟩, h1, h2⟩
  · intro p q hp hq hpq hp1 hq1
    rcases h3 p hp with h | ⟨⟨m, hm⟩, _, _⟩
    · exact absurd h hp1
    rcases h3 q hq with h | ⟨⟨m', hm'⟩, _, _⟩
    · exact absurd h hq1
    have hne : (w.entry p).offset ≠ (w.entry q).offset := fun h => hpq (h4 p q hp hq hp1 h)
    rw [hm, hm'] at hne ⊢
    have hmm : m ≠ m' := fun h => hne (by rw [h])
    rcases lt_or_gt_of_ne hmm with h | h
    · left; nlinarith
    · right; nlinarith


/-! ### Bitmaps -/

theorem testBit_255 (i : Nat) : (255 : Nat).testBit i = decide (i < 8) := by
  have := Nat.testBit_two_pow_sub_one 8 i
  simpa using this

/-- The mask of `setBits`: bits `f` to `t` of a byte (none when `t = f - 1`). -/
theorem setBits_mask (f t : Int) (j : Nat) (hf0 : 0 ≤ f) (hft : f - 1 ≤ t) (ht : t ≤ 7) :
    (((255 >>> (7 - (t - f)).toNat) <<< f.toNat) % 256).testBit j
      = decide (f ≤ (j : Int) ∧ (j : Int) ≤ t) := by
  have h256 : (256 : Nat) = 2 ^ 8 := by norm_num
  rw [h256, Nat.testBit_mod_two_pow, Nat.testBit_shiftLeft, Nat.testBit_shiftRight, testBit_255]
  have e1 : (j ≥ f.toNat) ↔ f ≤ (j : Int) := by omega
  by_cases h1 : j < 8 <;> by_cases h2 : f ≤ (j : Int)
  · have h3 : j ≥ f.toNat := e1.2 h2
    have e2 : ((7 - (t - f)).toNat + (j - f.toNat) < 8) ↔ (j : Int) ≤ t := by omega
    simp only [h1, h2, h3, e2, decide_True, Bool.true_and, true_and]
  · have h3 : ¬ j ≥ f.toNat := fun h => h2 (e1.1 h)
    simp [h1, h2, h3]
  · have : ¬ ((j : Int) ≤ t) := by omega
    simp [h1, this]
  · simp [h1, h2]

theorem setBits_true_testBit (byte : Nat) (f t : Int) (j : Nat) (hf0 : 0 ≤ f) (hft : f - 1 ≤ t)
    (ht : t ≤ 7) :
    (setBits byte f t true).testBit j = (byte.testBit j || decide (f ≤ (j : Int) ∧ (j : Int) ≤ t)) := by
  simp only [setBits, if_true, Nat.testBit_or, setBits_mask f t j hf0 hft ht]

theorem setBits_empty (byte : Nat) (f t : Int) (hf0 : 0 ≤ f) (hft : t = f - 1) (ht : t ≤ 7) :
    setBits byte f t true = byte := by
  apply Nat.eq_of_testBit_eq
  intro j
  rw [setBits_true_testBit byte f t j hf0 (by omega) ht]
  have : ¬ (f ≤ (j : Int) ∧ (j : Int) ≤ t) := by omega
  simp [this]

theorem checkBit_eq_testBit (bf : Int → Nat) (n : Int) (hn : 0 ≤ n) :
    checkBit bf n = (bf (n / 8)).testBit (n % 8).toNat := by
  unfold checkBit
  rw [Int.tdiv_eq_ediv hn (by norm_num), Int.tmod_eq_emod hn (by norm_num),
    Nat.testBit_to_div_mod, Nat.shiftRight_eq_div_pow]
  by_cases h : bf (n / 8) / 2 ^ (n % 8).toNat % 2 = 1 <;> simp [h]

/-- Setting one bit: `setBitsInBitfield` with `from = to`. -/
theorem setBitsInBitfield_one (bf : Int → Nat) (b : Int) (hb : 0 ≤ b) :
    setBitsInBitfield bf b b true
      = Function.update bf (b / 8) (setBits (bf (b / 8)) (b % 8) (b % 8) true) := by
  simp only [setBitsInBitfield, Int.tdiv_eq_ediv hb (by norm_num : (0:Int) ≤ 8)]
  have h1 : (b / 8 - b / 8 + 1).toNat = 1 := by simp
  rw [h1]
  simp only [setBitsLoop]
  have h2 : b - b / 8 * 8 = b % 8 := by omega
  have h3 : min 7 (b % 8) = b % 8 := by omega
  rw [h2, h3]

/-- Nothing is set when `to = from - 1` (a write of no bytes). -/
theorem setBitsInBitfield_none (bf : Int → Nat) (b : Int) (hb : 0 ≤ b) :
    setBitsInBitfield bf b (b - 1) true = bf := by
  simp only [setBitsInBitfield]
  rw [Int.tdiv_eq_ediv hb (by norm_num : (0:Int) ≤ 8)]
  by_cases h0 : b = 0
  · subst h0
    have h1 : (((0:Int) - 1).tdiv 8 - 0 / 8 + 1).toNat = 1 := by decide
    rw [h1]
    simp only [setBitsLoop]
    rw [setBits_empty _ _ _ (by decide) (by decide) (by decide)]
    exact Function.update_eq_self _ _
  · rw [Int.tdiv_eq_ediv (by omega) (by norm_num : (0:Int) ≤ 8)]
    by_cases h8 : b % 8 = 0
    · have : ((b - 1) / 8 - b / 8 + 1).toNat = 0 := by omega
      rw [this]; rfl
    · have : ((b - 1) / 8 - b / 8 + 1).toNat = 1 := by omega
      rw [this]
      simp only [setBitsLoop]
      rw [setBits_empty _ _ _ (by omega) (by omega) (by omega)]
      exact Function.update_eq_self _ _

/-- Reading a bitmap in which one bit has been set. -/
theorem checkBit_set_one (bf : Int → Nat) (b n : Int) (hb : 0 ≤ b) (hn : 0 ≤ n) :
    checkBit (setBitsInBitfield bf b b true) n = (checkBit bf n || decide (n = b)) := by
  rw [setBitsInBitfield_one bf b hb, checkBit_eq_testBit _ n hn, checkBit_eq_testBit _ n hn]
  by_cases h : n / 8 = b / 8
  · rw [h, Function.update_same, setBits_true_testBit _ _ _ _ (by omega) (by omega) (by omega)]
    congr 1
    have : ((n % 8).toNat : Int) = n % 8 := by omega
    rw [this]
    by_cases hnb : n = b
    · simp [hnb]
    · have : ¬ (b % 8 ≤ n % 8 ∧ n % 8 ≤ b % 8) := by omega
      simp [hnb, this]
  · rw [Function.update_noteq h]
    have : n ≠ b := fun e => h (by rw [e])
    simp [this]


/-! ### Writing -/

theorem writeDataLoop_ok (K : CowConst) (origin : Int → Nat) (now : Int) (fresh : Int → Nat)
    (buffer : Int → Nat) (size : Int) (block : Int × Int) (ibo : Int) (w : World) (fuel : Nat)
    (hs : 0 < size) (hoff : 0 ≤ (w.entry block).offset + ibo) :
    writeDataLoop (okEnv K origin now fresh) buffer size block ibo (fuel + 1) w 0
      = ({ w with
            calls := w.calls + 1
            fhd := fun p => if (w.entry block).offset + ibo ≤ p ∧ p < (w.entry block).offset + ibo + size
              then buffer (p - ((w.entry block).offset + ibo)) else w.fhd p }, size) := by
  have h1 : ¬ ((w.entry block).offset + ibo < 0) := by omega
  have h2 : size ≠ -1 := by omega
  have h3 : size ≠ 0 := by omega
  have h4 : ¬ size < 0 := by omega
  cases fuel with
  | zero => simp [writeDataLoop, pwrite, okEnv, hs, h1, h2, h3, h4]
  | succ n => simp [writeDataLoop, pwrite, okEnv, hs, h1, h2, h3, h4]

/-- A write of one whole frame that succeeds. -/
theorem writeData_frame (K : CowConst) (origin : Int → Nat) (now : Int) (fresh : Int → Nat)
    (buffer : Int → Nat) (net : Int) (block : Int × Int) (k : Int) (w : World)
    (hk0 : 0 ≤ k) (hk1 : k < 2 ^ 31) (hoff : 0 ≤ (w.entry block).offset) :
    writeData (okEnv K origin now fresh) w buffer DNBD3_BLOCK_SIZE net block (4096 * k)
      = ({ w with
            calls := w.calls + 1
            fhd := fun p => if (w.entry block).offset + 4096 * k ≤ p
                ∧ p < (w.entry block).offset + 4096 * k + 4096
              then buffer (p - ((w.entry block).offset + 4096 * k)) else w.fhd p
            req := { w.req with bytesWorkedOn := w.req.bytesWorkedOn + net } }).setEntry block
          { w.entry block with
            bitfield := setBitsInBitfield (w.entry block).bitfield k k true
            timeChanged := now } := by
  have e1 : i32 (u64 (4096 * k) / DNBD3_BLOCK_SIZE) = k := by
    unfold i32 u64 DNBD3_BLOCK_SIZE; omega
  have e2 : i32 (u64 (4096 * k + DNBD3_BLOCK_SIZE - 1) / DNBD3_BLOCK_SIZE) = k := by
    unfold i32 u64 DNBD3_BLOCK_SIZE; omega
  have hl := writeDataLoop_ok K origin now fresh buffer DNBD3_BLOCK_SIZE block (4096 * k) w 4095
    (by decide) (by omega)
  have ht : DNBD3_BLOCK_SIZE.toNat = 4095 + 1 := by decide
  unfold writeData
  rw [ht, hl]
  simp only [e1, e2]
  simp [World.entry, World.setEntry, okEnv, DNBD3_BLOCK_SIZE]

/-- A write of no bytes: only the time stamp changes. -/
theorem writeData_nothing (env : Env) (buffer : Int → Nat) (block : Int × Int) (k : Int)
    (w : World) (hk0 : 0 ≤ k) (hk1 : k < 2 ^ 31) :
    writeData env w buffer 0 0 block (4096 * k)
      = w.setEntry block { w.entry block with timeChanged := env.now } := by
  have e1 : i32 (u64 (4096 * k) / DNBD3_BLOCK_SIZE) = k := by
    unfold i32 u64 DNBD3_BLOCK_SIZE; omega
  have e2 : i32 (u64 (4096 * k + 0 - 1) / DNBD3_BLOCK_SIZE) = k - 1 := by
    unfold i32 u64 DNBD3_BLOCK_SIZE; omega
  unfold writeData
  simp only [Int.toNat_zero, writeDataLoop, e1, e2, setBitsInBitfield_none _ k hk0]
  simp [World.entry, World.setEntry]

/-- The request `padBlockFromRemote` sends for a frame that lies, with the 4 KiB after
`offset`, inside the original image. -/
theorem padBlockFromRemote_remote (K : CowConst) (origin : Int → Nat) (now : Int)
    (fresh : Int → Nat) (w : World) (offset : Int) (buffer : Int → Nat) (size : Int)
    (block : Int × Int) (ibo : Int) (h0 : 0 ≤ offset)
    (h1 : offset + 4096 ≤ w.originalImageSize) (h2 : w.originalImageSize < 2 ^ 63) :
    padBlockFromRemote (okEnv K origin now fresh) w offset buffer size block ibo
      = { w with
          req := { w.req with workCounter := w.req.workCounter + 1 }
          calls := w.calls + 1
          pending := w.pending ++ [padRequest fresh buffer size ibo block offset] } := by
  have a1 : ¬ offset > i64 w.originalImageSize := by unfold i64; omega
  have a2 : ¬ w.originalImageSize < u64 (offset + 4096) := by
    unfold u64; omega
  simp [padBlockFromRemote, a1, a2, connection_read, okEnv, DNBD3_BLOCK_SIZE, padRequest]


/-- The inner loop of `cowfile_write` for a write that starts inside a frame and ends in it. -/
theorem writeInner_head (K : CowConst) (origin : Int → Nat) (now : Int) (fresh : Int → Nat)
    (v vb : World) (p : Int × Int) (o s l1o l2o bit r : Int) (fuel : Nat)
    (hg : getBlock (okEnv K origin now fresh) v l1o l2o = (vb, p))
    (hl2 : l2o < K.COW_L2_SIZE)
    (hdec : o - (l1o * K.COW_L2_STORAGE_CAPACITY + l2o * K.COW_METADATA_STORAGE_CAPACITY)
      = 4096 * bit + r)
    (hbit0 : 0 ≤ bit) (hbit1 : bit < K.COW_BITFIELD_SIZE * 8) (hbit2 : bit < 2 ^ 31)
    (hr : o % 4096 = r) (hr0 : 0 < r) (hs : 1 ≤ s) (hrs : r + s ≤ 4096) (ho : 0 ≤ o)
    (hclear : checkBit (vb.entry p).bitfield bit = false)
    (horig : o + 4096 ≤ vb.originalImageSize) (horig2 : vb.originalImageSize < 2 ^ 63) :
    writeInner (okEnv K origin now fresh) o (o + s) l1o (fuel + 2) v o l2o
      = some ({ vb with
                req := { vb.req with workCounter := vb.req.workCounter + 1 }
                calls := vb.calls + 1
                pending := vb.pending ++ [padRequest fresh vb.req.writeBuffer s (4096 * bit + r) p o] },
              o + s, l2o) := by
  have hcap : 4096 * bit + r + s ≤ K.COW_METADATA_STORAGE_CAPACITY := by
    unfold CowConst.COW_METADATA_STORAGE_CAPACITY DNBD3_BLOCK_SIZE; omega
  have c1 : o < o + s := by omega
  have c2 : ¬ (o + s < o + s) := by omega
  have m1 : min (o + s - o) (K.COW_METADATA_STORAGE_CAPACITY - (4096 * bit + r)) = s := by omega
  have m2 : min s (4096 - r) = s := by omega
  have d1 : (4096 * bit + r) / 4096 = bit := by omega
  have i1 : i32 bit = bit := by unfold i32; omega
  have hr' : ¬ r = 0 := by omega
  have hpad := padBlockFromRemote_remote K origin now fresh vb o
    (fun i => vb.req.writeBuffer (i + (o - o))) s p (4096 * bit + r) ho horig horig2
  have hbuf : (fun i => vb.req.writeBuffer (i + (o - o))) = vb.req.writeBuffer := by
    funext i; simp
  rw [hbuf] at hpad
  rw [writeInner]
  simp only [okEnv] at hg ⊢
  simp only [hg, hdec, c1, hl2, and_self, if_true, DNBD3_BLOCK_SIZE, hr, m1, m2, d1, i1, hclear,
    ne_eq, hr', not_false_eq_true, hbuf]
  simp only [okEnv, DNBD3_BLOCK_SIZE] at hpad
  rw [hpad, writeInner]
  simp [c2]


/-- The inner loop of `cowfile_write` for a write that starts at the start of a frame and
ends inside it. -/
theorem writeInner_tail (K : CowConst) (origin : Int → Nat) (now : Int) (fresh : Int → Nat)
    (v vb : World) (p : Int × Int) (o s l1o l2o bit : Int) (fuel : Nat)
    (hg : getBlock (okEnv K origin now fresh) v l1o l2o = (vb, p))
    (hl2 : l2o < K.COW_L2_SIZE)
    (hdec : o - (l1o * K.COW_L2_STORAGE_CAPACITY + l2o * K.COW_METADATA_STORAGE_CAPACITY)
      = 4096 * bit)
    (hbit0 : 0 ≤ bit) (hbit1 : bit < K.COW_BITFIELD_SIZE * 8) (hbit2 : bit < 2 ^ 31)
    (hr : o % 4096 = 0) (hs : 1 ≤ s) (hrs : s < 4096) (ho : 0 ≤ o)
    (hclear : checkBit (vb.entry p).bitfield bit = false)
    (horig : o + 4096 ≤ vb.originalImageSize) (horig2 : vb.originalImageSize < 2 ^ 63) :
    writeInner (okEnv K origin now fresh) o (o + s) l1o (fuel + 2) v o l2o
      = some (({ vb with
                req := { vb.req with workCounter := vb.req.workCounter + 1 }
                calls := vb.calls + 1
                pending := vb.pending ++ [padRequest fresh vb.req.writeBuffer s (4096 * bit) p o] }
                ).setEntry p { vb.entry p with timeChanged := now },
              o + s, l2o + 1) := by
  have hcap : 4096 * bit + s ≤ K.COW_METADATA_STORAGE_CAPACITY := by
    unfold CowConst.COW_METADATA_STORAGE_CAPACITY DNBD3_BLOCK_SIZE; omega
  have c1 : o < o + s := by omega
  have c2 : ¬ (o + 0 + s < o + s) := by omega
  have m1 : min (o + s - o) (K.COW_METADATA_STORAGE_CAPACITY - 4096 * bit) = s := by omega
  have m1' : min s (K.COW_METADATA_STORAGE_CAPACITY - 4096 * bit) = s := by omega
  have e1 : (o + s) % 4096 = s := by omega
  have e2 : o + s - s = o := by omega
  have e3 : s - s = 0 := by omega
  have e4 : o + s - o = s := by omega
  have hs' : ¬ s = 0 := by omega
  have d1 : (4096 * bit) / 4096 = bit := by omega
  have i1 : i32 bit = bit := by unfold i32; omega
  have hpad := padBlockFromRemote_remote K origin now fresh vb o
    (fun i => vb.req.writeBuffer (i + (o - o))) s p (4096 * bit) ho horig horig2
  have hbuf : (fun i => vb.req.writeBuffer (i + (o - o))) = vb.req.writeBuffer := by
    funext i; simp
  rw [hbuf] at hpad
  simp only [okEnv, DNBD3_BLOCK_SIZE] at hpad
  rw [writeInner]
  simp only [okEnv] at hg ⊢
  simp only [hg, hdec, c1, hl2, and_self, if_true, DNBD3_BLOCK_SIZE, hr, m1, m1', d1, i1, hclear,
    ne_eq, not_true_eq_false, false_and, if_false, e1, e2, e4, e3, hs', not_false_eq_true,
    decide_True, Bool.not_false, Bool.and_self, hbuf]
  rw [writeData_nothing _ _ p bit _ hbit0 hbit2, hpad, writeInner]
  simp [c2, World.entry, World.setEntry]


theorem writeInner_frame (K : CowConst) (origin : Int → Nat) (now : Int) (fresh : Int → Nat)
    (v vb : World) (p : Int × Int) (o s l1o l2o bit r : Int) (fuel : Nat)
    (hg : getBlock (okEnv K origin now fresh) v l1o l2o = (vb, p))
    (hl2 : l2o < K.COW_L2_SIZE)
    (hdec : o - (l1o * K.COW_L2_STORAGE_CAPACITY + l2o * K.COW_METADATA_STORAGE_CAPACITY)
      = 4096 * bit + r)
    (hbit0 : 0 ≤ bit) (hbit1 : bit < K.COW_BITFIELD_SIZE * 8) (hbit2 : bit < 2 ^ 31)
    (hr : o % 4096 = r) (hs : 1 ≤ s) (hs2 : s < 4096) (hrs : r + s ≤ 4096) (ho : 0 ≤ o)
    (hclear : checkBit (vb.entry p).bitfield bit = false)
    (horig : o + 4096 ≤ vb.originalImageSize) (horig2 : vb.originalImageSize < 2 ^ 63) :
    ∃ l2', writeInner (okEnv K origin now fresh) o (o + s) l1o (fuel + 2) v o l2o
      = some (afterInner now fresh vb p o s bit r, o + s, l2') := by
  by_cases h0 : r = 0
  · subst h0
    refine ⟨l2o + 1, ?_⟩
    rw [writeInner_tail K origin now fresh v vb p o s l1o l2o bit fuel hg hl2 (by simpa using hdec)
      hbit0 hbit1 hbit2 hr hs hs2 ho hclear horig horig2]
    simp [afterInner]
  · refine ⟨l2o, ?_⟩
    rw [writeInner_head K origin now fresh v vb p o s l1o l2o bit r fuel hg hl2 hdec
      hbit0 hbit1 hbit2 hr (by omega) hs hrs ho hclear horig horig2]
    simp [afterInner, h0]

/-- The data loop of `cowfile_write` for such a write, from the state `u` in which the request
of the FUSE layer is installed. -/
theorem cowfile_write_data_frame (K : CowConst) (origin : Int → Nat) (now : Int) (fresh : Int → Nat)
    (u vb : World) (p : Int × Int) (o s bit r : Int) (fuel : Nat)
    (hg : getBlock (okEnv K origin now fresh)
      (if u.l1 (getL1Offset K o) = -1 then createL2Block (okEnv K origin now fresh) u (getL1Offset K o)
       else u) (getL1Offset K o) (getL2Offset K o) = (vb, p))
    (hl2 : getL2Offset K o < K.COW_L2_SIZE)
    (hdec : o - (getL1Offset K o * K.COW_L2_STORAGE_CAPACITY
      + getL2Offset K o * K.COW_METADATA_STORAGE_CAPACITY) = 4096 * bit + r)
    (hbit0 : 0 ≤ bit) (hbit1 : bit < K.COW_BITFIELD_SIZE * 8) (hbit2 : bit < 2 ^ 31)
    (hr : o % 4096 = r) (hs : 1 ≤ s) (hs2 : s < 4096) (hrs : r + s ≤ 4096) (ho : 0 ≤ o)
    (ho63 : o + s < 2 ^ 63)
    (hclear : checkBit (vb.entry p).bitfield bit = false)
    (horig : o + 4096 ≤ vb.originalImageSize) (horig2 : vb.originalImageSize < 2 ^ 63)
    (hwc : vb.req.workCounter = 1) :
    cowfile_write_data (fuel + 2) (okEnv K origin now fresh) u o s
      = some (let a := afterInner now fresh vb p o s bit r
              { a with req := { a.req with workCounter := 1 } }) := by
  obtain ⟨l2', hin⟩ := writeInner_frame K origin now fresh _ vb p o s _ _ bit r fuel hg hl2 hdec
    hbit0 hbit1 hbit2 hr hs hs2 hrs ho hclear horig horig2
  have e64 : i64 (o + s) = o + s := by unfold i64; omega
  have c1 : o < o + s := by omega
  have c2 : ¬ (o + s < o + s) := by omega
  unfold cowfile_write_data
  rw [e64, writeOuter]
  simp only [okEnv] at hin ⊢
  simp only [c1, if_true, hin, writeOuter, c2, if_false, Option.map_some']
  have hw2 : (afterInner now fresh vb p o s bit r).req.workCounter = 2 := by
    unfold afterInner
    by_cases h0 : r = 0 <;> simp [h0, World.setEntry, hwc]
  simp [releaseWrite, hw2]


/-- The answer to the padding request arrives: the frame is merged and written, the bit is
set and the FUSE request is answered. -/
theorem completePending_frame (K : CowConst) (origin : Int → Nat) (now : Int) (fresh : Int → Nat)
    (vb : World) (p : Int × Int) (o s bit r : Int)
    (hbit0 : 0 ≤ bit) (hbit2 : bit < 2 ^ 31) (hr0 : 0 ≤ r) (hr1 : r < 4096)
    (hoff : 0 ≤ (vb.entry p).offset) (hpend : vb.pending = [])
    (herr : vb.req.errorCode = 0) :
    ∃ W, completePending (okEnv K origin now fresh)
        (let a := afterInner now fresh vb p o s bit r
         { a with req := { a.req with workCounter := 1 } }) = W ∧
      W.l1 = vb.l1 ∧ W.nextL2 = vb.nextL2 ∧ W.pending = [] ∧
      W.replies = vb.replies ++ [FuseReply.write (vb.req.bytesWorkedOn + s)] ∧
      W.imageSize = max vb.imageSize (u64 (vb.req.bytesWorkedOn + s + vb.req.fuseRequestOffset)) ∧
      W.originalImageSize = vb.originalImageSize ∧
      (∀ q, W.entry q = if q = p then
          { vb.entry p with
            bitfield := setBitsInBitfield (vb.entry p).bitfield bit bit true
            timeChanged := now }
        else vb.entry q) ∧
      (∀ x, W.fhd x =
        if (vb.entry p).offset + 4096 * bit ≤ x ∧ x < (vb.entry p).offset + 4096 * bit + 4096 then
          (if r ≤ x - ((vb.entry p).offset + 4096 * bit) ∧ x - ((vb.entry p).offset + 4096 * bit) < r + s
           then vb.req.writeBuffer (x - ((vb.entry p).offset + 4096 * bit) - r)
           else origin (o - o % 4096 + (x - ((vb.entry p).offset + 4096 * bit))))
        else vb.fhd x) := by
  refine ⟨_, rfl, ?_⟩
  have e1 : (4096 * bit + r) % 4096 = r := by omega
  have e2 : 4096 * bit + r - r = 4096 * bit := by omega
  have hfr := fun (w : World) (buffer : Int → Nat) (h : 0 ≤ (w.entry p).offset) =>
    writeData_frame K origin now fresh buffer s p bit w hbit0 hbit2 h
  simp only [DNBD3_BLOCK_SIZE] at hfr
  have hfin : ∀ (e : cow_block_metadata_t),
      (∀ (q : ℤ × ℤ), Function.update vb.firstL2 p.1 (Function.update (vb.firstL2 p.1) p.2 e) q.1 q.2
        = if q = p then e else vb.firstL2 q.1 q.2) := by
    intro e q
    have := entry_setEntry vb p q e
    simpa [World.entry, World.setEntry] using this
  by_cases h0 : r = 0
  · subst h0
    simp only [completePending, afterInner, if_true, World.setEntry, hpend, List.nil_append,
      List.foldl_cons, List.foldl_nil, cowfile_handleCallback, padRequest, writePaddedBlock,
      DNBD3_BLOCK_SIZE, e1, e2]
    rw [hfr _ _ (by simpa [World.entry] using hoff)]
    simp only [releaseWrite, finishWriteRequest, herr, World.entry, World.setEntry, okEnv,
      Function.update_idem, Function.update_same, if_true, ne_eq, not_true_eq_false, if_false,
      true_and]
    refine ⟨hfin _, fun x => ?_⟩
    split_ifs <;> first | rfl | omega
  · simp only [completePending, afterInner, h0, if_false, World.setEntry, hpend, List.nil_append,
      List.foldl_cons, List.foldl_nil, cowfile_handleCallback, padRequest, writePaddedBlock,
      DNBD3_BLOCK_SIZE, e1, e2]
    rw [hfr _ _ (by simpa [World.entry] using hoff)]
    simp only [releaseWrite, finishWriteRequest, herr, World.entry, World.setEntry, okEnv,
      Function.update_idem, Function.update_same, if_true, ne_eq, not_true_eq_false, if_false,
      true_and]
    refine ⟨hfin _, fun x => ?_⟩
    split_ifs <;> first | rfl | omega



theorem checkBit_zero (bf : Int → Nat) (n : Int) (hn : 0 ≤ n) (h : bf (n / 8) = 0) :
    checkBit bf n = false := by
  rw [checkBit_eq_testBit bf n hn, h]; simp

/-- The entry `cowfile_write` works on for the frame of `o`: the L2 block is created when
missing, the entry gets its place in the data file. -/
theorem write_prep (K : CowConst) (hK : K.WF) (origin : Int → Nat) (now : Int) (fresh : Int → Nat)
    (u : World) (o : Int) (hinv : AllocInv K u)
    (hl2 : 0 ≤ getL2Offset K o ∧ getL2Offset K o < K.COW_L2_SIZE)
    (hbit : 0 ≤ getBitfieldOffset K o ∧ getBitfieldOffset K o < K.COW_BITFIELD_SIZE * 8)
    (hnp : framePresent K u o = false) :
    ∃ vb p, getBlock (okEnv K origin now fresh)
        (if u.l1 (getL1Offset K o) = -1
          then createL2Block (okEnv K origin now fresh) u (getL1Offset K o) else u)
        (getL1Offset K o) (getL2Offset K o) = (vb, p) ∧
      vb.l1 (getL1Offset K o) ≠ -1 ∧ p = (vb.l1 (getL1Offset K o), getL2Offset K o) ∧
      0 ≤ (vb.entry p).offset ∧
      checkBit (vb.entry p).bitfield (getBitfieldOffset K o) = false ∧
      (0 ≤ p.1 ∧ p.1 < vb.nextL2) ∧
      (∀ q n, 0 ≤ q.2 → q.2 < K.COW_L2_SIZE → 0 ≤ n → n < K.COW_BITFIELD_SIZE * 8 →
        bitOf vb q n = bitOf u q n) ∧
      vb.req = u.req ∧ vb.pending = u.pending ∧ vb.replies = u.replies ∧
      vb.originalImageSize = u.originalImageSize ∧ vb.imageSize = u.imageSize ∧ vb.fhd = u.fhd := by
  have hcap := cap_pos K hK
  have hv : (if u.l1 (getL1Offset K o) = -1
      then createL2Block (okEnv K origin now fresh) u (getL1Offset K o) else u)
      = createL2Block (okEnv K origin now fresh) u (getL1Offset K o) := by
    by_cases h : u.l1 (getL1Offset K o) = -1
    · simp [h]
    · simp [h, createL2Block_of_ne _ u _ h]
  rw [hv]
  unfold framePresent frameBlock at hnp
  generalize getL1Offset K o = l1o at *
  generalize getL2Offset K o = l2o at *
  generalize getBitfieldOffset K o = bit at *
  have hinvv : AllocInv K (createL2Block (okEnv K origin now fresh) u l1o) :=
    (AllocStep.run_spec (okEnv K origin now fresh) hK u hinv (AllocStep.create l1o)).1
  -- the state after `createL2Block`
  have hvl1 : (createL2Block (okEnv K origin now fresh) u l1o).l1 l1o ≠ -1 := by
    by_cases h : u.l1 l1o = -1
    · rw [createL2Block_l1 _ u l1o l1o h]; simp; have := hinv.1.1; omega
    · rw [createL2Block_of_ne _ u _ h]; exact h
  have hvbits : ∀ q n, 0 ≤ q.2 → q.2 < K.COW_L2_SIZE → 0 ≤ n → n < K.COW_BITFIELD_SIZE * 8 →
      bitOf (createL2Block (okEnv K origin now fresh) u l1o) q n = bitOf u q n := by
    intro q n hq0 hq1 hn0 hn1
    by_cases h : u.l1 l1o = -1
    · unfold bitOf
      rw [createL2Block_nextL2 _ u l1o h]
      by_cases hq : q.1 = u.nextL2
      · have h1 : ¬ (0 ≤ q.1 ∧ q.1 < u.nextL2) := by omega
        have h2 : checkBit ((createL2Block (okEnv K origin now fresh) u l1o).entry q).bitfield n
            = false := by
          apply checkBit_zero _ _ hn0
          have a1 : 0 ≤ n / 8 := by omega
          have a2 : n / 8 < K.COW_BITFIELD_SIZE := by omega
          simp [createL2Block, h, World.entry, hq, hq0, hq1, okEnv, a1, a2]
        simp [h1, h2]
      · have h1 : (0 ≤ q.1 ∧ q.1 < u.nextL2 + 1) ↔ (0 ≤ q.1 ∧ q.1 < u.nextL2) := by omega
        have h2 : (createL2Block (okEnv K origin now fresh) u l1o).entry q = u.entry q := by
          simp [createL2Block, h, World.entry, Function.update_apply, hq]
        simp only [h1, h2]
    · rw [createL2Block_of_ne _ u _ h]
  have hvrest : (createL2Block (okEnv K origin now fresh) u l1o).req = u.req ∧
      (createL2Block (okEnv K origin now fresh) u l1o).pending = u.pending ∧
      (createL2Block (okEnv K origin now fresh) u l1o).replies = u.replies ∧
      (createL2Block (okEnv K origin now fresh) u l1o).originalImageSize = u.originalImageSize ∧
      (createL2Block (okEnv K origin now fresh) u l1o).imageSize = u.imageSize ∧
      (createL2Block (okEnv K origin now fresh) u l1o).fhd = u.fhd := by
    by_cases h : u.l1 l1o = -1
    · simp [createL2Block, h]
    · rw [createL2Block_of_ne _ u _ h]; simp
  have hvclear : checkBit ((createL2Block (okEnv K origin now fresh) u l1o).entry
      ((createL2Block (okEnv K origin now fresh) u l1o).l1 l1o, l2o)).bitfield bit = false := by
    by_cases h : u.l1 l1o = -1
    · apply checkBit_zero _ _ hbit.1
      have a1 : 0 ≤ bit / 8 := by omega
      have a2 : bit / 8 < K.COW_BITFIELD_SIZE := by omega
      simp [createL2Block, h, World.entry, hl2.1, hl2.2, okEnv, a1, a2]
    · rw [createL2Block_of_ne _ u _ h]
      simpa [h] using hnp
  generalize createL2Block (okEnv K origin now fresh) u l1o = v at *
  obtain ⟨hL, ⟨nn, hn1, hn⟩, h3, h4⟩ := hinvv
  have hp : Allocated K v (v.l1 l1o, l2o) := by
    have := hL.2.1 l1o hvl1
    exact ⟨this.1, this.2, hl2.1, hl2.2⟩
  have hdf : K.COW_METADATA_STORAGE_CAPACITY ≤ v.dataFileSize := by rw [hn]; nlinarith
  by_cases hoff : (v.entry (v.l1 l1o, l2o)).offset = -1
  · have hent : ∀ q, (allocateMetaBlockData (okEnv K origin now fresh) v (v.l1 l1o, l2o)).entry q =
        if q = (v.l1 l1o, l2o) then { v.entry (v.l1 l1o, l2o) with offset := v.dataFileSize }
        else v.entry q := by
      intro q
      have := entry_setEntry v (v.l1 l1o, l2o) q
        { v.entry (v.l1 l1o, l2o) with offset := v.dataFileSize }
      simpa [allocateMetaBlockData, World.entry, World.setEntry] using this
    refine ⟨allocateMetaBlockData (okEnv K origin now fresh) v (v.l1 l1o, l2o), (v.l1 l1o, l2o),
      by simp [getBlock, hoff], by simpa [allocateMetaBlockData, World.setEntry] using hvl1,
      by simp [allocateMetaBlockData, World.setEntry], ?_, ?_, ?_, ?_, ?_⟩
    · rw [hent]; simp; omega
    · rw [hent]; simpa using hvclear
    · simpa [allocateMetaBlockData, World.setEntry] using ⟨hp.1, hp.2.1⟩
    · intro q n hq0 hq1 hn0 hn1'
      rw [← hvbits q n hq0 hq1 hn0 hn1']
      unfold bitOf
      rw [hent q]
      by_cases hq : q = (v.l1 l1o, l2o)
      · simp [hq, allocateMetaBlockData, World.setEntry]
      · simp [hq, allocateMetaBlockData, World.setEntry]
    · simpa [allocateMetaBlockData, World.setEntry] using hvrest
  · refine ⟨v, (v.l1 l1o, l2o), by simp [getBlock, hoff], hvl1, rfl, ?_, hvclear, ⟨hp.1, hp.2.1⟩,
      hvbits, hvrest⟩
    rcases h3 _ hp with h | ⟨_, h, _⟩
    · exact absurd h hoff
    · omega



/-- Claim C7. A write of `s` bytes (1 to 4095) at `o` that stays inside one 4 KiB frame, where the
frame is not marked present and the frame and the 4 KiB after it lie below
`originalImageSize`: after the padding read has been answered, the 4096 bytes of the frame
in the data file are the frame of the origin with the bytes `[o mod 4096, o mod 4096 + s)`
replaced by the written bytes, the bit of the frame is the only bit of any bitmap that has
changed (it is 1), the entry's `timeChanged` is the current time (not 0), and the write is
answered with `s` bytes. Every system call succeeds; the loops need a fuel of 2. -/
theorem padded_write_one_frame (K : CowConst) (hK : K.WF) (origin : Int → Nat) (now : Int)
    (fresh data : Int → Nat) (w : World) (o s : Int) (fuel : Nat)
    (hnow : now ≠ 0) (hinv : StoreInv K w) (hpend : w.pending = [])
    (ho : 0 ≤ o) (hs1 : 1 ≤ s) (hs2 : s < 4096) (hin : o % 4096 + s ≤ 4096)
    (hmax : o + s ≤ K.COW_MAX_IMAGE_SIZE)
    (horig : o - o % 4096 + 8192 ≤ w.originalImageSize)
    (hnp : framePresent K w o = false) :
    ∃ W, (cowfile_write (fuel + 2) (okEnv K origin now fresh)
          { w with req := writeRequest data o s fresh } o s).map
          (completePending (okEnv K origin now fresh)) = some W ∧
      W.l1 (getL1Offset K o) ≠ -1 ∧
      (∀ i, 0 ≤ i → i < 4096 →
        W.fhd ((W.entry (W.l1 (getL1Offset K o), getL2Offset K o)).offset
            + 4096 * getBitfieldOffset K o + i)
          = if o % 4096 ≤ i ∧ i < o % 4096 + s then data (i - o % 4096)
            else origin (o - o % 4096 + i)) ∧
      (∀ q n, 0 ≤ q.2 → q.2 < K.COW_L2_SIZE → 0 ≤ n → n < K.COW_BITFIELD_SIZE * 8 →
        bitOf W q n = (bitOf w q n
          || decide (q = (W.l1 (getL1Offset K o), getL2Offset K o) ∧ n = getBitfieldOffset K o))) ∧
      (W.entry (W.l1 (getL1Offset K o), getL2Offset K o)).timeChanged ≠ 0 ∧
      W.replies = w.replies ++ [FuseReply.write s] ∧ W.pending = [] := by
  obtain ⟨hA, horig0, hle, h63⟩ := hinv
  obtain ⟨-, -, -, hl2, hbit, hsum⟩ := addressing_facts K hK o ho (by omega)
  have hbi := hK.bits_int
  have hmaxi := hK.max_int
  simp only [DNBD3_BLOCK_SIZE] at hsum hmaxi
  have hr0 := Int.emod_nonneg o (show (4096 : Int) ≠ 0 by norm_num)
  have hr1 := Int.emod_lt_of_pos o (show (0 : Int) < 4096 by norm_num)
  obtain ⟨vb, p, hg, hvl1, hp, hoff, hclear, hpa, hbits, hreq, hpd, hrep, hor, him, hfhd⟩ :=
    write_prep K hK origin now fresh { w with req := writeRequest data o s fresh } o hA hl2 hbit hnp
  have hpre : ¬ (o > i64 w.imageSize) := by unfold i64; omega
  have hwd := cowfile_write_data_frame K origin now fresh
    { w with req := writeRequest data o s fresh } vb p o s (getBitfieldOffset K o) (o % 4096) fuel
    hg hl2.2 (by linarith) hbit.1 hbit.2 (by omega) rfl hs1 hs2 hin ho (by omega) hclear
    (by rw [hor]; show o + 4096 ≤ w.originalImageSize; omega)
    (by rw [hor]; show w.originalImageSize < 2 ^ 63; omega)
    (by rw [hreq]; rfl)
  obtain ⟨W, hW, hWl1, hWn, hWp, hWr, -, -, hWe, hWf⟩ :=
    completePending_frame K origin now fresh vb p o s (getBitfieldOffset K o) (o % 4096)
      hbit.1 (by omega) hr0 hr1 hoff (by rw [hpd]; exact hpend) (by rw [hreq]; rfl)
  have hpW : (W.l1 (getL1Offset K o), getL2Offset K o) = p := by rw [hWl1, hp]
  refine ⟨W, ?_, by rw [hWl1]; exact hvl1, ?_, ?_, ?_, ?_, hWp⟩
  · rw [cowfile_write]
    simp only [hpre, if_false, Option.some_bind]
    rw [hwd]
    simp only [Option.map_some', hW]
  · intro i hi0 hi1
    rw [hpW, hWe p, if_pos rfl, hWf]
    have hbuf : vb.req.writeBuffer = data := by rw [hreq]; rfl
    simp only [hbuf]
    split_ifs <;> first | rfl | omega | (congr 1; omega)
  · intro q n hq0 hq1 hn0 hn1
    have hb : bitOf vb q n = bitOf w q n := hbits q n hq0 hq1 hn0 hn1
    rw [hpW, ← hb]
    unfold bitOf
    rw [hWn, hWe q]
    by_cases hq : q = p
    · subst hq
      simp only [if_true, checkBit_set_one _ _ _ hbit.1 hn0, true_and]
      have : (0 ≤ q.1 ∧ q.1 < vb.nextL2) := hpa
      simp [this]
    · simp [hq]
  · rw [hpW, hWe p, if_pos rfl]; exact hnow
  · rw [hWr, hrep, hreq]; simp [writeRequest]


/-! ### Truncation -/


/-- Claim C10, as amended. After `cowfile_setSize (n)` with `n < originalImageSize` (in a store
with `originalImageSize <= imageSize`) the call returns, `originalImageSize` and `imageSize`
are `n`, no bitmap has changed, and for every offset `o >= n` the source of the data is
never `remote`: it is `zero` when the bit of the frame is not set or there is no entry, and
`local` when the bit is still set. -/
theorem setSize_shrink_source (fuel : Nat) (env : Env) (w : World) (n o b : Int)
    (block : Option (Int × Int)) (hinv : w.originalImageSize ≤ w.imageSize)
    (hn0 : 0 ≤ n) (hn : n < w.originalImageSize) (ho : n ≤ o) (ho1 : o < 2 ^ 64) :
    ∃ w', cowfile_setSize fuel env w n = some w' ∧
      w'.originalImageSize = n ∧ w'.imageSize = n ∧ w'.l1 = w.l1 ∧ w'.firstL2 = w.firstL2 ∧
      getBlockDataSource w' block b o ≠ dataSource.remote ∧
      (getBlockDataSource w' block b o = dataSource.zero ↔
        ¬ ∃ p, block = some p ∧ checkBit (w.entry p).bitfield (i32 b) = true) ∧
      (getBlockDataSource w' block b o = dataSource.local_ ↔
        ∃ p, block = some p ∧ checkBit (w.entry p).bitfield (i32 b) = true) := by
  have h1 : ¬ w.imageSize < n := by omega
  refine ⟨setSizeTail w n, by simp [cowfile_setSize, h1], by simp [setSizeTail, hn],
    by simp [setSizeTail], by simp [setSizeTail], by simp [setSizeTail], ?_⟩
  have hu : u64 o ≥ (setSizeTail w n).originalImageSize := by
    rw [u64_of_range (by omega) ho1]; simp [setSizeTail, hn]; exact ho
  have he : ∀ p, (setSizeTail w n).entry p = w.entry p := fun p => by simp [setSizeTail, World.entry]
  unfold getBlockDataSource
  cases block with
  | none => simp [hu]
  | some p =>
    simp only [he p]
    by_cases hc : checkBit (w.entry p).bitfield (i32 b) = true
    · simp [hc]
    · simp [hc, hu]


/-! ### The code on concrete inputs -/

/-- Claim C9 on a concrete input. The image has 4096 bytes; one byte is written at offset 12288.
The request ends without error, but the reply reports 8193 bytes (the 8192 bytes that
`cowfile_write` wrote to fill the gap are counted) and `imageSize` becomes 20481, not
`max (4096, 12288 + 1) = 12289`. -/
theorem write_beyond_end_reports_padding :
    (demoWrite (cowfile_init demoEnv 4096) 12288 1).map
      (fun w => (w.replies.map FuseReply.written, w.imageSize, w.req.errorCode))
      = some ([some 8193], 20481, 0) := by
  decide!

/-- Claim C8 on concrete inputs. The original image has 8192 bytes. For one byte written at
offset 8191 the padding request starts at 4096 and asks for 4095 bytes, not 4096. For one
byte written at offset 8190 it asks for 4094 bytes: after the write the frame in the data
file ends with the origin byte 0x11 at 8189, the written 0x5A at 8190 and, at 8191, the
0xAA of the fresh buffer where the origin has 0x11. -/
theorem pad_request_at_last_byte :
    ((cowfile_write 8 demoEnv
        { cowfile_init demoEnv 8192 with req := writeRequest (demoData 1) 8191 1 demoEnv.fresh }
        8191 1).map (fun w => w.pending.map (fun s => (s.dOffset, s.dLength)))
      = some [(4096, 4095)]) ∧
    ((demoWrite (cowfile_init demoEnv 8192) 8190 1).map
        (fun w => (bytes (fun i => w.fhd ((w.entry (0, 0)).offset + 8188 + i)) 4))
      = some [17, 17, 90, 170]) := by
  decide!

/-- Claim C1 on a concrete input. An image of 8192 bytes is cut to 5096 bytes by
`cowfile_setSize`; ten bytes 0x5A are written at offset 7096 and, when the write has been
answered, the same ten bytes are read. The read is served from the data file and returns
ten times 0x11, the origin's bytes: the frame written for the gap, merged with the origin
when the padding request is answered, has replaced the written bytes. -/
theorem write_then_read_differs :
    ((((cowfile_setSize 8 demoEnv (cowfile_init demoEnv 8192) 5096).bind
        (fun w => demoWrite w 7096 10)).bind (fun w => demoRead w 10 7096)).map
      (fun w => (w.served, bytes w.req.readBuffer 10)))
      = some ([(dataSource.local_, 7096, 10)], [17, 17, 17, 17, 17, 17, 17, 17, 17, 17]) := by
  decide!

/-- Claim C10 fails as stated. A frame is written at offset 4096 of an image of 8192 bytes, then
the image is cut to 4096 bytes. `originalImageSize` is 4096, but a read of the byte at
offset 4096 is served from the data file and returns the 0x5A written before. -/
theorem read_after_shrink_is_local :
    ((((demoWrite (cowfile_init demoEnv 8192) 4096 4096).bind
        (fun w => cowfile_setSize 8 demoEnv w 4096)).bind (fun w => demoRead w 1 4096)).map
      (fun w => (w.originalImageSize, w.served, bytes w.req.readBuffer 1)))
      = some (4096, [(dataSource.local_, 4096, 1)], [90]) := by
  decide!


/-- The state of `cowfile_init` satisfies the invariant of the store. -/
theorem StoreInv_init_demo (sz : Int) (h0 : 0 ≤ sz) (h1 : sz < 2 ^ 63) :
    StoreInv stdConst (cowfile_init demoEnv sz) :=
  ⟨AllocInv_init demoEnv sz, h0, le_refl _, h1⟩

/-- Claim C7 on its own example: the byte 0x5A written at offset 1234 of an image of 1 MiB. The
frame stored at the start of the first entry holds 0x5A at 1234 and the origin's 0x11 next
to it; bit 0 of the first entry is set and no other bit of any bitmap is. -/
theorem padded_write_one_frame_witness :
    ∃ W, (cowfile_write (6 + 2) (okEnv stdConst (fun _ => 17) 1000 (fun _ => 170))
          { cowfile_init demoEnv 1048576 with req := writeRequest (demoData 1) 1234 1 (fun _ => 170) }
          1234 1).map (completePending (okEnv stdConst (fun _ => 17) 1000 (fun _ => 170))) = some W ∧
      W.fhd ((W.entry (0, 0)).offset + 1234) = 90 ∧
      W.fhd ((W.entry (0, 0)).offset + 1233) = 17 ∧
      W.fhd ((W.entry (0, 0)).offset + 1235) = 17 ∧
      (∀ q n, 0 ≤ q.2 → q.2 < 1024 → 0 ≤ n → n < 320 →
        bitOf W q n = decide (q = (0, 0) ∧ n = 0)) ∧
      (W.entry (0, 0)).timeChanged ≠ 0 := by
  obtain ⟨W, hW, -, hdata, hbits, htime, -, -⟩ :=
    padded_write_one_frame stdConst stdConst_wf (fun _ => 17) 1000 (fun _ => 170) (demoData 1)
      (cowfile_init demoEnv 1048576) 1234 1 6 (by decide)
      (StoreInv_init_demo 1048576 (by decide) (by decide)) rfl (by decide) (by decide) (by decide)
      (by decide) (by decide) (by decide) (by decide)
  have hl1 : W.l1 (getL1Offset stdConst 1234) = 0 := by
    have e : ((cowfile_write (6 + 2) (okEnv stdConst (fun _ => 17) 1000 (fun _ => 170))
          { cowfile_init demoEnv 1048576 with req := writeRequest (demoData 1) 1234 1 (fun _ => 170) }
          1234 1).map (completePending (okEnv stdConst (fun _ => 17) 1000 (fun _ => 170)))).map
          (fun w => w.l1 (getL1Offset stdConst 1234)) = some 0 := by decide!
    rw [hW] at e
    simpa using e
  have hl2 : getL2Offset stdConst 1234 = 0 := by decide
  have hb : getBitfieldOffset stdConst 1234 = 0 := by decide
  rw [hl1, hl2, hb] at hdata hbits
  rw [hl1, hl2] at htime
  refine ⟨W, hW, ?_, ?_, ?_, ?_, htime⟩
  · have := hdata 1234 (by decide) (by decide)
    simpa [demoData] using this
  · have := hdata 1233 (by decide) (by decide)
    simpa using this
  · have := hdata 1235 (by decide) (by decide)
    simpa using this
  · intro q n h0 h1 h2 h3
    rw [hbits q n h0 h1 h2 h3]
    have : bitOf (cowfile_init demoEnv 1048576) q n = false := by
      simp [bitOf, cowfile_init]
    rw [this, Bool.false_or]

/-- Claim C10, as amended, on an image of 8192 bytes cut to 4096: offset 5000 reads as zero. -/
theorem setSize_shrink_source_witness :
    ∃ w', cowfile_setSize 1 demoEnv (cowfile_init demoEnv 8192) 4096 = some w' ∧
      getBlockDataSource w' none 1 5000 = dataSource.zero := by
  obtain ⟨w', h1, _, _, _, _, _, hz, _⟩ := setSize_shrink_source 1 demoEnv
    (cowfile_init demoEnv 8192) 4096 5000 1 none (by decide) (by decide) (by decide) (by decide)
    (by decide)
  exact ⟨w', h1, hz.2 (by simp)⟩

/-- Claim C3 without an entry, past the end of the original image. -/
theorem getBlockDataSource_cases_witness :
    getBlockDataSource (cowfile_init demoEnv 8192) none 3 9000 = dataSource.zero :=
  (getBlockDataSource_cases (cowfile_init demoEnv 8192) none 3 9000 (by decide) (by decide)
    (by decide) (by decide)).2.1.2 ⟨by simp, by decide⟩

/-- Claim C5 on a short series: the offset of entry (0, 0) survives three more calls. -/
theorem alloc_offsets_witness :
    (([AllocStep.get 0 0, AllocStep.create 1, AllocStep.get 1 5].foldl (AllocStep.run demoEnv)
        ([AllocStep.create 0, AllocStep.get 0 0, AllocStep.get 0 1].foldl (AllocStep.run demoEnv)
          (cowfile_init demoEnv 8192))).entry (0, 0)).offset
      = (([AllocStep.create 0, AllocStep.get 0 0, AllocStep.get 0 1].foldl (AllocStep.run demoEnv)
          (cowfile_init demoEnv 8192)).entry (0, 0)).offset :=
  (alloc_offsets demoEnv stdConst_wf 8192 [AllocStep.create 0, AllocStep.get 0 0, AllocStep.get 0 1]
    [AllocStep.get 0 0, AllocStep.create 1, AllocStep.get 1 5] _ rfl).1 (0, 0)
    (by unfold Allocated; decide!) (by decide!)

/-! ### CRC-32 -/

theorem refBit_xor (a b : Nat) : refBit (a ^^^ b) = refBit a ^^^ refBit b := by
  unfold refBit
  rw [Nat.xor_mod_two_eq, Nat.xor_div_two]
  rcases Nat.mod_two_eq_zero_or_one a with ha | ha <;>
    rcases Nat.mod_two_eq_zero_or_one b with hb | hb
  · have : (a + b) % 2 = 0 := by omega
    simp [ha, hb, this]
  · have : (a + b) % 2 = 1 := by omega
    simp [ha, hb, this, Nat.xor_assoc]
  · have : (a + b) % 2 = 1 := by omega
    simp only [ha, hb, this, if_true, if_false, one_ne_zero, zero_ne_one]
    rw [Nat.xor_assoc, Nat.xor_assoc, Nat.xor_comm (b / 2)]
  · have : (a + b) % 2 = 0 := by omega
    simp only [ha, hb, this, if_true, if_false, one_ne_zero, zero_ne_one]
    rw [Nat.xor_assoc, Nat.xor_comm (b / 2), ← Nat.xor_assoc 3988292384, Nat.xor_self,
      Nat.zero_xor]

theorem refBit_iter_xor (n : Nat) (a b : Nat) :
    refBit^[n] (a ^^^ b) = refBit^[n] a ^^^ refBit^[n] b := by
  induction n generalizing a b with
  | zero => rfl
  | succ n ih => simp only [Function.iterate_succ, Function.comp, refBit_xor, ih]

theorem refBit_iter_shift (k y : Nat) : refBit^[k] (y * 2 ^ k) = y := by
  induction k generalizing y with
  | zero => simp
  | succ k ih =>
    rw [Function.iterate_succ, Function.comp]
    have e : y * 2 ^ (k + 1) = 2 * (y * 2 ^ k) := by ring
    have h1 : y * 2 ^ (k + 1) % 2 = 0 := by rw [e]; omega
    have h2 : y * 2 ^ (k + 1) / 2 = y * 2 ^ k := by rw [e]; omega
    unfold refBit
    simp only [h1, zero_ne_one, if_false, h2]
    exact ih y

theorem refBit_lt (c : Nat) (h : c < 2 ^ 32) : refBit c < 2 ^ 32 := by
  unfold refBit
  split
  · exact Nat.xor_lt_two_pow (by omega) (by norm_num)
  · omega

theorem refBit_iter_lt (n c : Nat) (h : c < 2 ^ 32) : refBit^[n] c < 2 ^ 32 := by
  induction n generalizing c with
  | zero => exact h
  | succ n ih => rw [Function.iterate_succ, Function.comp]; exact ih _ (refBit_lt c h)

/-- The four tables of the little-endian code hold the register after 8, 16, 24 and 32
shifts of an index. -/
theorem crcTab_values : ∀ i, i < 256 →
    crcTab 0 i = refBit^[8] i ∧ crcTab 1 i = refBit^[16] i ∧
    crcTab 2 i = refBit^[24] i ∧ crcTab 3 i = refBit^[32] i := by
  decide!


/-- A number is its low `k` bits and the rest, without common bits. -/
theorem split_low (x k : Nat) : x = (x % 2 ^ k) ^^^ ((x / 2 ^ k) * 2 ^ k) := by
  apply Nat.eq_of_testBit_eq
  intro i
  rw [Nat.testBit_xor, Nat.testBit_mod_two_pow, ← Nat.shiftRight_eq_div_pow, ← Nat.shiftLeft_eq,
    Nat.testBit_shiftLeft, Nat.testBit_shiftRight]
  by_cases h : i < k
  · have : ¬ i ≥ k := by omega
    simp [h, this]
  · have h' : i ≥ k := by omega
    have e : k + (i - k) = i := by omega
    simp [h, h', e]

theorem add_shift_eq_xor (a y k : Nat) (h : a < 2 ^ k) : a + y * 2 ^ k = a ^^^ (y * 2 ^ k) := by
  have h1 : (a + y * 2 ^ k) % 2 ^ k = a := by
    rw [Nat.add_mul_mod_self_right]; exact Nat.mod_eq_of_lt h
  have h2 : (a + y * 2 ^ k) / 2 ^ k = y := by
    rw [Nat.add_mul_div_right _ _ (by positivity), Nat.div_eq_of_lt h, Nat.zero_add]
  have := split_low (a + y * 2 ^ k) k
  rw [h1, h2] at this
  exact this

theorem xor_div_two_pow (a b k : Nat) : (a ^^^ b) / 2 ^ k = a / 2 ^ k ^^^ b / 2 ^ k := by
  apply Nat.eq_of_testBit_eq
  intro i
  simp only [← Nat.shiftRight_eq_div_pow, Nat.testBit_xor, Nat.testBit_shiftRight]

/-- Eight more shifts: the low byte goes through the table, the rest moves down. -/
theorem refBit_iter_byte (n x : Nat) :
    refBit^[n + 8] x = refBit^[n + 8] (x % 256) ^^^ refBit^[n] (x / 256) := by
  have h := split_low x 8
  have e256 : (2 : Nat) ^ 8 = 256 := by norm_num
  rw [e256] at h
  conv_lhs => rw [h]
  rw [refBit_iter_xor]
  congr 1
  rw [Function.iterate_add_apply]
  have := refBit_iter_shift 8 (x / 256)
  rw [e256] at this
  rw [this]

/-- The table step is the reference step. -/
theorem crcByte_eq_refByte (c b : Nat) (hb : b < 256) : crcByte c b = refByte c b := by
  unfold crcByte refByte
  have h := refBit_iter_byte 0 (c ^^^ b)
  simp only [Nat.zero_add, Function.iterate_zero, id] at h
  rw [h]
  have hm : (c ^^^ b) &&& 0xff = (c ^^^ b) % 256 := Nat.and_pow_two_sub_one_eq_mod _ 8
  have hlt : (c ^^^ b) % 256 < 256 := Nat.mod_lt _ (by norm_num)
  rw [hm, (crcTab_values _ hlt).1]
  congr 1
  have := xor_div_two_pow c b 8
  have e256 : (2 : Nat) ^ 8 = 256 := by norm_num
  rw [e256] at this
  rw [this, Nat.div_eq_of_lt hb, Nat.xor_zero, Nat.shiftRight_eq_div_pow]


/-- The word step `DOLIT4` is 32 shifts of the register with the word added. -/
theorem DOLIT4_eq (c w : Nat) (h : c ^^^ w < 2 ^ 32) : DOLIT4 c w = refBit^[32] (c ^^^ w) := by
  unfold DOLIT4
  generalize c ^^^ w = x at h
  have m0 : x &&& 0xff = x % 256 := Nat.and_pow_two_sub_one_eq_mod _ 8
  have m1 : (x >>> 8) &&& 0xff = x / 256 % 256 := by
    rw [Nat.shiftRight_eq_div_pow]; exact Nat.and_pow_two_sub_one_eq_mod _ 8
  have m2 : (x >>> 16) &&& 0xff = x / 256 / 256 % 256 := by
    rw [Nat.shiftRight_eq_div_pow, Nat.div_div_eq_div_mul]
    exact Nat.and_pow_two_sub_one_eq_mod _ 8
  have m3 : x >>> 24 = x / 256 / 256 / 256 := by
    rw [Nat.shiftRight_eq_div_pow, Nat.div_div_eq_div_mul, Nat.div_div_eq_div_mul]
  have l3 : x / 256 / 256 / 256 < 256 := by omega
  rw [m0, m1, m2, m3, (crcTab_values _ (Nat.mod_lt _ (by norm_num))).2.2.2,
    (crcTab_values _ (Nat.mod_lt _ (by norm_num))).2.2.1,
    (crcTab_values _ (Nat.mod_lt _ (by norm_num))).2.1, (crcTab_values _ l3).1]
  rw [refBit_iter_byte 24 x, refBit_iter_byte 16 (x / 256), refBit_iter_byte 8 (x / 256 / 256)]
  simp only [Nat.xor_assoc]

/-- Eight shifts after `n`: a byte added to the register is a byte added `n` bits up
before. -/
theorem refByte_iter (n X b : Nat) :
    refByte (refBit^[n] X) b = refBit^[8 + n] (X ^^^ b * 2 ^ n) := by
  unfold refByte
  rw [Function.iterate_add_apply, refBit_iter_xor n, refBit_iter_shift]

theorem le32_eq_xor (b0 b1 b2 b3 : Nat) (h0 : b0 < 256) (h1 : b1 < 256) (h2 : b2 < 256) :
    le32 b0 b1 b2 b3 = b0 ^^^ b1 * 2 ^ 8 ^^^ b2 * 2 ^ 16 ^^^ b3 * 2 ^ 24 := by
  unfold le32
  rw [add_shift_eq_xor _ b3 24 (by omega), add_shift_eq_xor _ b2 16 (by omega),
    add_shift_eq_xor b0 b1 8 (by omega)]

theorem le32_lt (b0 b1 b2 b3 : Nat) (h0 : b0 < 256) (h1 : b1 < 256) (h2 : b2 < 256)
    (h3 : b3 < 256) : le32 b0 b1 b2 b3 < 2 ^ 32 := by
  unfold le32; omega

/-- Four bytes through the reference are one word through `DOLIT4`. -/
theorem DOLIT4_bytes (c b0 b1 b2 b3 : Nat) (hc : c < 2 ^ 32) (h0 : b0 < 256) (h1 : b1 < 256)
    (h2 : b2 < 256) (h3 : b3 < 256) :
    DOLIT4 c (le32 b0 b1 b2 b3) = refByte (refByte (refByte (refByte c b0) b1) b2) b3 := by
  rw [DOLIT4_eq c _ (Nat.xor_lt_two_pow hc (le32_lt b0 b1 b2 b3 h0 h1 h2 h3)),
    le32_eq_xor b0 b1 b2 b3 h0 h1 h2]
  have e0 : refByte c b0 = refBit^[8] (c ^^^ b0) := rfl
  rw [e0, refByte_iter 8, refByte_iter (8 + 8), refByte_iter (8 + (8 + 8))]
  simp only [Nat.xor_assoc]


theorem crcByte_lt (c b : Nat) (hc : c < 2 ^ 32) (hb : b < 256) : crcByte c b < 2 ^ 32 := by
  rw [crcByte_eq_refByte c b hb]
  exact refBit_iter_lt 8 _ (Nat.xor_lt_two_pow hc (by omega))

theorem foldl_crcByte_lt (buf : List Nat) : ∀ c, c < 2 ^ 32 → (∀ b ∈ buf, b < 256) →
    buf.foldl crcByte c < 2 ^ 32 := by
  induction buf with
  | nil => intro c hc _; exact hc
  | cons b rest ih =>
    intro c hc hb
    exact ih _ (crcByte_lt c b hc (hb b (List.mem_cons_self _ _)))
      (fun x hx => hb x (List.mem_cons_of_mem _ hx))

theorem foldl_crcByte_eq_ref (buf : List Nat) : ∀ c, (∀ b ∈ buf, b < 256) →
    buf.foldl crcByte c = buf.foldl refByte c := by
  induction buf with
  | nil => intro c _; rfl
  | cons b rest ih =>
    intro c hb
    simp only [List.foldl_cons]
    rw [crcByte_eq_refByte c b (hb b (List.mem_cons_self _ _))]
    exact ih _ (fun x hx => hb x (List.mem_cons_of_mem _ hx))

/-- `DOLIT4` on the first four bytes of a buffer is four byte steps. -/
theorem lit4_eq (c : Nat) (buf : List Nat) (hc : c < 2 ^ 32) (hlen : 4 ≤ buf.length)
    (hb : ∀ b ∈ buf, b < 256) : lit4 c buf = (buf.take 4).foldl crcByte c := by
  match buf, hlen, hb with
  | b0 :: b1 :: b2 :: b3 :: rest, _, hb =>
    have h0 : b0 < 256 := hb b0 (by simp)
    have h1 : b1 < 256 := hb b1 (by simp)
    have h2 : b2 < 256 := hb b2 (by simp)
    have h3 : b3 < 256 := hb b3 (by simp)
    simp only [lit4, List.getD_cons_zero, List.getD_cons_succ, List.take_succ_cons, List.take_zero,
      List.foldl_cons, List.foldl_nil]
    rw [DOLIT4_bytes c b0 b1 b2 b3 hc h0 h1 h2 h3, crcByte_eq_refByte c b0 h0,
      crcByte_eq_refByte _ b1 h1, crcByte_eq_refByte _ b2 h2, crcByte_eq_refByte _ b3 h3]

/-- `DOLIT4` on the bytes `k .. k+3`, after the bytes before them. -/
theorem lit4_step (c : Nat) (buf : List Nat) (k : Nat) (hc : c < 2 ^ 32)
    (hlen : k + 4 ≤ buf.length) (hb : ∀ b ∈ buf, b < 256) :
    lit4 ((buf.take k).foldl crcByte c) (buf.drop k) = (buf.take (k + 4)).foldl crcByte c := by
  have hbt : ∀ b ∈ buf.take k, b < 256 := fun b h => hb b (List.mem_of_mem_take h)
  have hbd : ∀ b ∈ buf.drop k, b < 256 := fun b h => hb b (List.mem_of_mem_drop h)
  rw [lit4_eq _ _ (foldl_crcByte_lt _ c hc hbt) (by rw [List.length_drop]; omega) hbd,
    List.take_add, List.foldl_append]

theorem DOLIT32_eq (c : Nat) (buf : List Nat) (hc : c < 2 ^ 32) (hlen : 32 ≤ buf.length)
    (hb : ∀ b ∈ buf, b < 256) : DOLIT32 c buf = (buf.take 32).foldl crcByte c := by
  unfold DOLIT32
  have s0 := lit4_step c buf 0 hc (by omega) hb
  simp only [List.take_zero, List.foldl_nil, List.drop_zero, Nat.zero_add] at s0
  rw [s0, lit4_step c buf 4 hc (by omega) hb, lit4_step c buf 8 hc (by omega) hb,
    lit4_step c buf 12 hc (by omega) hb, lit4_step c buf 16 hc (by omega) hb,
    lit4_step c buf 20 hc (by omega) hb, lit4_step c buf 24 hc (by omega) hb,
    lit4_step c buf 28 hc (by omega) hb]

theorem crcAlign_ok (buf : List Nat) : ∀ addr c, c < 2 ^ 32 → (∀ b ∈ buf, b < 256) →
    LoopOk c buf (crcAlign addr c buf) := by
  induction buf with
  | nil => intro addr c hc hb; exact ⟨rfl, hc, hb⟩
  | cons b rest ih =>
    intro addr c hc hb
    unfold crcAlign
    by_cases h : addr % 16 ≠ 0
    · rw [if_pos h]
      exact ih _ _ (crcByte_lt c b hc (hb b (List.mem_cons_self _ _)))
        (fun x hx => hb x (List.mem_cons_of_mem _ hx))
    · rw [if_neg h]; exact ⟨rfl, hc, hb⟩

theorem crcLoop4_ok (fuel : Nat) : ∀ c buf, c < 2 ^ 32 → (∀ b ∈ buf, b < 256) →
    LoopOk c buf (crcLoop4 fuel c buf) := by
  induction fuel with
  | zero => intro c buf hc hb; exact ⟨rfl, hc, hb⟩
  | succ n ih =>
    intro c buf hc hb
    unfold crcLoop4
    by_cases h : buf.length ≥ 4
    · rw [if_pos h]
      have hbt : ∀ b ∈ buf.take 4, b < 256 := fun b h => hb b (List.mem_of_mem_take h)
      have hbd : ∀ b ∈ buf.drop 4, b < 256 := fun b h => hb b (List.mem_of_mem_drop h)
      rw [lit4_eq c buf hc h hb]
      obtain ⟨h1, h2, h3⟩ := ih _ (buf.drop 4) (foldl_crcByte_lt _ c hc hbt) hbd
      refine ⟨?_, h2, h3⟩
      rw [h1, ← List.foldl_append, List.take_append_drop]
    · rw [if_neg h]; exact ⟨rfl, hc, hb⟩

theorem crcLoop32_ok (fuel : Nat) : ∀ c buf, c < 2 ^ 32 → (∀ b ∈ buf, b < 256) →
    LoopOk c buf (crcLoop32 fuel c buf) := by
  induction fuel with
  | zero => intro c buf hc hb; exact ⟨rfl, hc, hb⟩
  | succ n ih =>
    intro c buf hc hb
    unfold crcLoop32
    by_cases h : buf.length ≥ 32
    · rw [if_pos h]
      have hbt : ∀ b ∈ buf.take 32, b < 256 := fun b h => hb b (List.mem_of_mem_take h)
      have hbd : ∀ b ∈ buf.drop 32, b < 256 := fun b h => hb b (List.mem_of_mem_drop h)
      rw [DOLIT32_eq c buf hc h hb]
      obtain ⟨h1, h2, h3⟩ := ih _ (buf.drop 32) (foldl_crcByte_lt _ c hc hbt) hbd
      refine ⟨?_, h2, h3⟩
      rw [h1, ← List.foldl_append, List.take_append_drop]
    · rw [if_neg h]; exact ⟨rfl, hc, hb⟩

/-- The table-driven `crc32` is the byte loop over the whole buffer. -/
theorem crc32_table_fold (crc addr : Nat) (buf : List Nat) (hcrc : crc < 2 ^ 32)
    (hb : ∀ b ∈ buf, b < 256) :
    crc32 false crc addr (some buf) = buf.foldl crcByte (crc ^^^ 0xffffffff) ^^^ 0xffffffff := by
  have hc : crc ^^^ 0xffffffff < 2 ^ 32 := Nat.xor_lt_two_pow hcrc (by norm_num)
  obtain ⟨a1, a2, a3⟩ := crcAlign_ok buf addr _ hc hb
  obtain ⟨b1, b2, b3⟩ := crcLoop32_ok (crcAlign addr (crc ^^^ 0xffffffff) buf).2.length _ _ a2 a3
  obtain ⟨c1, _, _⟩ := crcLoop4_ok
    (crcLoop32 (crcAlign addr (crc ^^^ 0xffffffff) buf).2.length
      (crcAlign addr (crc ^^^ 0xffffffff) buf).1 (crcAlign addr (crc ^^^ 0xffffffff) buf).2).2.length
    _ _ b2 b3
  simp only [crc32, Nat.mod_eq_of_lt hcrc, Bool.false_eq_true, false_and, if_false, crcTail]
  rw [c1, b1, a1]


/-- Claim C2. For every 32-bit `crc`, every address `addr` of the first byte and every byte string
`buf`, the table-driven little-endian `crc32` (without the carry-less multiplication) is
the reference CRC-32 computed bit by bit with the reflected polynomial 0xEDB88320, input
and output complemented, continued from `crc`; and the CRC-32 of "123456789" is
0xCBF43926. -/
theorem crc32_table_correct (crc addr : Nat) (buf : List Nat) (hcrc : crc < 2 ^ 32)
    (hb : ∀ b ∈ buf, b < 256) :
    crc32 false crc addr (some buf) = refCrc32 crc buf ∧
    crc32 false 0 addr (some [0x31, 0x32, 0x33, 0x34, 0x35, 0x36, 0x37, 0x38, 0x39]) = 0xCBF43926 := by
  constructor
  · rw [crc32_table_fold crc addr buf hcrc hb, foldl_crcByte_eq_ref buf _ hb]; rfl
  · rw [crc32_table_fold 0 addr _ (by norm_num) (by decide), foldl_crcByte_eq_ref _ _ (by decide)]
    decide!

/-- Claim C2 on six bytes that start at address 5. -/
theorem crc32_table_correct_witness :
    crc32 false 0x12345678 5 (some [1, 2, 3, 255, 0, 77]) = refCrc32 0x12345678 [1, 2, 3, 255, 0, 77] :=
  (crc32_table_correct 0x12345678 5 [1, 2, 3, 255, 0, 77] (by decide) (by decide)).1

/-! ### The size fields (`originalImageSize`, `imageSize`) -/

theorem SizesKept.refl (w : World) : SizesKept w w := ⟨rfl, le_refl _⟩

theorem SizesKept.trans {a b c : World} (h1 : SizesKept a b) (h2 : SizesKept b c) :
    SizesKept a c := ⟨h2.1.trans h1.1, le_trans h1.2 h2.2⟩

theorem setEntry_sizes (w : World) (p : Int × Int) (e : cow_block_metadata_t) :
    SizesKept w (w.setEntry p e) := ⟨rfl, le_refl _⟩

theorem pwrite_sizes (env : Env) (w : World) (buf : Int → Nat) (count offset : Int) :
    SizesKept w (pwrite env w buf count offset).1 := by
  unfold pwrite; dsimp only; split <;> exact ⟨rfl, le_refl _⟩

theorem pread_sizes (env : Env) (w : World) (dst count offset : Int) :
    SizesKept w (pread env w dst count offset).1 := by
  unfold pread; dsimp only; split <;> exact ⟨rfl, le_refl _⟩

theorem connection_read_sizes (env : Env) (w : World) (s : cow_sub_request_t) :
    SizesKept w (connection_read env w s).1 := by
  unfold connection_read; dsimp only; split <;> exact ⟨rfl, le_refl _⟩

theorem writeDataLoop_sizes (env : Env) (buffer : Int → Nat) (size : Int) (block : Int × Int)
    (ibo : Int) (fuel : Nat) : ∀ (w : World) (total : Int),
    SizesKept w (writeDataLoop env buffer size block ibo fuel w total).1 := by
  induction fuel with
  | zero => intro w total; exact SizesKept.refl w
  | succ n ih =>
    intro w total
    unfold writeDataLoop
    have hp := pwrite_sizes env w (fun i => buffer (i + total)) (size - total)
      ((w.entry block).offset + ibo + total)
    split
    · dsimp only
      split
      · exact hp
      · split
        · exact hp
        · exact hp.trans (ih _ _)
    · exact SizesKept.refl w

theorem writeData_sizes (env : Env) (w : World) (buffer : Int → Nat) (size netSize : Int)
    (block : Int × Int) (ibo : Int) :
    SizesKept w (writeData env w buffer size netSize block ibo) := by
  have h := writeDataLoop_sizes env buffer size block ibo size.toNat w 0
  unfold writeData
  exact ⟨h.1, h.2⟩

theorem getBlock_sizes (env : Env) (w : World) (l1Offset l2Offset : Int) :
    SizesKept w (getBlock env w l1Offset l2Offset).1 := by
  unfold getBlock; dsimp only; split <;> exact ⟨rfl, le_refl _⟩

theorem createL2Block_sizes (env : Env) (w : World) (l1Offset : Int) :
    SizesKept w (createL2Block env w l1Offset) := by
  unfold createL2Block; split <;> exact ⟨rfl, le_refl _⟩

theorem finishWriteRequest_sizes (w : World) : SizesKept w (finishWriteRequest w) := by
  unfold finishWriteRequest; split
  · exact ⟨rfl, le_refl _⟩
  · exact ⟨rfl, le_max_left _ _⟩

theorem releaseWrite_sizes (w : World) : SizesKept w (releaseWrite w) := by
  unfold releaseWrite; dsimp only; split
  · exact (finishWriteRequest_sizes _)
  · exact ⟨rfl, le_refl _⟩

theorem writePaddedBlock_sizes (env : Env) (w : World) (s : cow_sub_request_t) :
    SizesKept w (writePaddedBlock env w s) := by
  unfold writePaddedBlock
  exact (writeData_sizes _ _ _ _ _ _ _).trans (releaseWrite_sizes _)

theorem padBlockFromRemote_sizes (env : Env) (w : World) (offset : Int) (buffer : Int → Nat)
    (size : Int) (block : Int × Int) (ibo : Int) :
    SizesKept w (padBlockFromRemote env w offset buffer size block ibo) := by
  have key : ∀ s : cow_sub_request_t, SizesKept w
      (let r := connection_read env
          { w with req := { w.req with workCounter := w.req.workCounter + 1 } } s
       if r.2 then r.1 else releaseWrite { r.1 with req := { r.1.req with errorCode := EIO } }) := by
    intro s
    have h := connection_read_sizes env
      { w with req := { w.req with workCounter := w.req.workCounter + 1 } } s
    dsimp only
    split
    · exact h
    · exact SizesKept.trans h (releaseWrite_sizes _)
  unfold padBlockFromRemote
  by_cases h : offset > i64 w.originalImageSize
  · rw [if_pos h]; exact writeData_sizes _ _ _ _ _ _ _
  · rw [if_neg h]; exact key _

theorem writeInner_sizes (env : Env) (offset endOffset l1Offset : Int) (fuel : Nat) :
    ∀ (w : World) (cur l2 : Int) (r : World × Int × Int),
      writeInner env offset endOffset l1Offset fuel w cur l2 = some r → SizesKept w r.1 := by
  induction fuel with
  | zero => intro w cur l2 r h; simp [writeInner] at h
  | succ n ih =>
    intro w cur l2 r h
    unfold writeInner at h
    have hg := getBlock_sizes env w l1Offset l2
    split at h
    · dsimp only at h
      split at h
      · exact (hg.trans (padBlockFromRemote_sizes _ _ _ _ _ _ _)).trans (ih _ _ _ _ h)
      · refine SizesKept.trans ?_ (ih _ _ _ _ h)
        refine SizesKept.trans ?_ (writeData_sizes _ _ _ _ _ _ _)
        split
        · exact hg.trans (padBlockFromRemote_sizes _ _ _ _ _ _ _)
        · exact hg
    · injection h with h; subst h; exact SizesKept.refl w

theorem writeOuter_sizes (env : Env) (offset endOffset : Int) (fuel : Nat) (n : Nat) :
    ∀ (w : World) (cur l1 l2 : Int) (r : World),
      writeOuter env offset endOffset fuel n w cur l1 l2 = some r → SizesKept w r := by
  induction n with
  | zero => intro w cur l1 l2 r h; simp [writeOuter] at h
  | succ n ih =>
    intro w cur l1 l2 r h
    unfold writeOuter at h
    split at h
    · dsimp only at h
      have hc : SizesKept w (if w.l1 l1 = -1 then createL2Block env w l1 else w) := by
        split
        · exact createL2Block_sizes env w l1
        · exact SizesKept.refl w
      split at h
      · exact absurd h (by simp)
      · rename_i r1 hr1
        exact (hc.trans (writeInner_sizes _ _ _ _ _ _ _ _ _ hr1)).trans (ih _ _ _ _ _ h)
    · injection h with h; subst h; exact SizesKept.refl w

theorem cowfile_write_data_sizes (fuel : Nat) (env : Env) (w : World) (offset size : Int)
    (r : World) (h : cowfile_write_data fuel env w offset size = some r) : SizesKept w r := by
  unfold cowfile_write_data at h
  rw [Option.map_eq_some'] at h
  obtain ⟨a, ha, rfl⟩ := h
  exact (writeOuter_sizes _ _ _ _ _ _ _ _ _ _ ha).trans (releaseWrite_sizes a)

theorem cowfile_write_sizes (fuel : Nat) : ∀ (env : Env) (w : World) (offset size : Int)
    (r : World), cowfile_write fuel env w offset size = some r → SizesKept w r := by
  induction fuel with
  | zero => intro env w offset size r h; simp [cowfile_write] at h
  | succ n ih =>
    intro env w offset size r h
    unfold cowfile_write at h
    dsimp only at h
    rw [Option.bind_eq_some] at h
    obtain ⟨a, ha, hb⟩ := h
    refine SizesKept.trans ?_ (cowfile_write_data_sizes _ _ _ _ _ _ hb)
    split at ha
    · have h1 := ih _ _ _ _ _ ha
      exact h1
    · injection ha with ha; subst ha; exact SizesKept.refl w

theorem readRemoteData_sizes (w : World) (s : cow_sub_request_t) :
    SizesKept w (readRemoteData w s) := by
  unfold readRemoteData; dsimp only; split <;> exact ⟨rfl, le_refl _⟩

theorem cowfile_handleCallback_sizes (env : Env) (w : World) (s : cow_sub_request_t) :
    SizesKept w (cowfile_handleCallback env w s) := by
  unfold cowfile_handleCallback
  split
  · exact writePaddedBlock_sizes env w _
  · exact readRemoteData_sizes _ s

theorem foldl_handleCallback_sizes (env : Env) (l : List cow_sub_request_t) :
    ∀ w : World, SizesKept w (l.foldl (cowfile_handleCallback env) w) := by
  induction l with
  | nil => intro w; exact SizesKept.refl w
  | cons s t ih =>
    intro w
    exact (cowfile_handleCallback_sizes env w s).trans (ih _)

theorem completePending_sizes (env : Env) (w : World) : SizesKept w (completePending env w) := by
  unfold completePending
  exact foldl_handleCallback_sizes env w.pending { w with pending := [] }

theorem readRemote_sizes (env : Env) (w : World) (offset size buffer : Int) :
    SizesKept w (readRemote env w offset size buffer) := by
  have h := connection_read_sizes env
    { w with req := { w.req with workCounter := w.req.workCounter + 1 } }
    { size := 0, inBlockOffset := 0, writeSrc := env.fresh, buffer := buffer, block := (0, 0),
      callback := cow_callback.readRemoteData, dOffset := offset, dLength := u32 size,
      writeBuffer := env.fresh }
  unfold readRemote
  dsimp only
  split
  · exact h
  · split <;> exact h

theorem readLocalLoop_sizes (env : Env) (dst sizeToRead localRead : Int) (fuel : Nat) :
    ∀ (w : World) (total : Int),
      SizesKept w (readLocalLoop env dst sizeToRead localRead fuel w total).1 := by
  induction fuel with
  | zero => intro w total; exact SizesKept.refl w
  | succ n ih =>
    intro w total
    unfold readLocalLoop
    have hp := pread_sizes env w dst sizeToRead localRead
    split
    · dsimp only
      split
      · exact hp
      · split
        · exact hp
        · exact hp.trans (ih _ _)
    · exact SizesKept.refl w

theorem serveSegment_sizes (env : Env) (w : World) (offset : Int) (st : ReadLoop)
    (sizeToRead : Int) (r : World × Bool)
    (h : serveSegment env w offset st sizeToRead = some r) : SizesKept w r.1 := by
  unfold serveSegment at h
  dsimp only at h
  split at h
  · injection h with h; subst h
    exact readRemote_sizes env _ _ _ _
  · split at h
    · exact absurd h (by simp)
    · injection h with h; subst h; exact ⟨rfl, le_refl _⟩
  · split at h
    · exact absurd h (by simp)
    · rename_i p hp
      have hl := fun lr => readLocalLoop_sizes env (st.lastReadOffset - offset) sizeToRead lr
        sizeToRead.toNat
        { w with served := w.served ++ [(st.dataState, st.lastReadOffset, sizeToRead)] } 0
      split at h
      · injection h with h; subst h; exact ⟨(hl _).1, (hl _).2⟩
      · injection h with h; subst h; exact hl _

theorem afterRead_sizes (env : Env) (w : World) (offset : Int) (st3 st5 : ReadLoop) (n : Int)
    (c : Prop) [Decidable c] (w1 : World) (st4 : ReadLoop) (ok : Bool)
    (h : (if c then (serveSegment env w offset st3 n).map (fun r => (r.1, st5, r.2))
          else some (w, st3, true)) = some (w1, st4, ok)) : SizesKept w w1 := by
  by_cases hc : c
  · rw [if_pos hc, Option.map_eq_some'] at h
    obtain ⟨a, ha, hb⟩ := h
    have h2 := serveSegment_sizes _ _ _ _ _ _ ha
    injection hb with hb1 hb2
    rw [← hb1]; exact h2
  · rw [if_neg hc] at h
    injection h with h
    injection h with e1 e2
    rw [← e1]; exact SizesKept.refl w

theorem readLoop_sizes (env : Env) (offset endOffset : Int) (fuel : Nat) :
    ∀ (w : World) (st : ReadLoop) (r : World),
      readLoop env offset endOffset fuel w st = some r → SizesKept w r := by
  induction fuel with
  | zero => intro w st r h; simp [readLoop] at h
  | succ n ih =>
    intro w st r h
    unfold readLoop at h
    split at h
    · dsimp only at h
      split at h
      · exact absurd h (by simp)
      · rename_i w1 st4 ok hafter
        have h1 : SizesKept w w1 := afterRead_sizes _ _ _ _ _ _ _ _ _ _ hafter
        split at h
        · split at h
          · split at h
            · exact (h1.trans (getBlock_sizes env w1 _ _)).trans (ih _ _ _ h)
            · exact h1.trans (ih _ _ _ h)
          · exact h1.trans (ih _ _ _ h)
        · injection h with h; subst h; exact h1
    · injection h with h; subst h; exact SizesKept.refl w

theorem cowfile_read_sizes (fuel : Nat) (env : Env) (w : World) (size offset : Int) (r : World)
    (h : cowfile_read fuel env w size offset = some r) : SizesKept w r := by
  unfold cowfile_read at h
  dsimp only at h
  rw [Option.map_eq_some'] at h
  obtain ⟨a, ha, hb⟩ := h
  have h1 := readLoop_sizes _ _ _ _ _ _ _ ha
  have h0 : SizesKept w a := by
    refine SizesKept.trans ?_ h1
    split
    · exact ⟨(getBlock_sizes env _ _ _).1, (getBlock_sizes env _ _ _).2⟩
    · exact ⟨rfl, le_refl _⟩
  rw [← hb]
  split
  · split <;> exact h0
  · exact h0

theorem setSizeLoop_sizes (env : Env) (l1End l2End : Int) (fuel : Nat) :
    ∀ (w : World) (l1 l2 : Int) (r : World),
      setSizeLoop env l1End l2End fuel w l1 l2 = some r → SizesKept w r := by
  induction fuel with
  | zero => intro w l1 l2 r h; simp [setSizeLoop] at h
  | succ n ih =>
    intro w l1 l2 r h
    unfold setSizeLoop at h
    split at h
    · split at h
      · exact ih _ _ _ _ h
      · dsimp only at h
        split at h
        · exact SizesKept.trans ((getBlock_sizes env w l1 l2).trans (setEntry_sizes _ _ _))
            (ih _ _ _ _ h)
        · exact SizesKept.trans ((getBlock_sizes env w l1 l2).trans (setEntry_sizes _ _ _))
            (ih _ _ _ _ h)
    · injection h with h; subst h; exact SizesKept.refl w

theorem cowfile_setSize_sizes (fuel : Nat) (env : Env) (w : World) (size : Int) (r : World)
    (h : cowfile_setSize fuel env w size = some r) :
    SizesKept w r ∨
    (r.originalImageSize = min w.originalImageSize size ∧ r.imageSize = size) := by
  have tail : ∀ a : World, a.originalImageSize = w.originalImageSize →
      (setSizeTail a size).originalImageSize = min w.originalImageSize size
        ∧ (setSizeTail a size).imageSize = size := by
    intro a ha
    refine ⟨?_, rfl⟩
    show (if size < a.originalImageSize then size else a.originalImageSize) = _
    rw [ha]
    split
    · exact (min_eq_right (le_of_lt ‹_›)).symm
    · exact (min_eq_left (not_lt.mp ‹_›)).symm
  unfold cowfile_setSize at h
  split at h
  · dsimp only at h
    split at h
    · have hp := fun o => (getBlock_sizes env w (getL1Offset env.K w.imageSize)
          (getL2Offset env.K w.imageSize)).trans
            (pwrite_sizes env _ (fun _ => 0) (4096 - size % 4096) o)
      split at h
      · injection h with h; subst h
        exact Or.inl ⟨(hp _).1, (hp _).2⟩
      · rw [Option.map_eq_some'] at h
        obtain ⟨a, ha, rfl⟩ := h
        right
        apply tail
        split at ha
        · exact ((setSizeLoop_sizes _ _ _ _ _ _ _ _ ha).1).trans (hp _).1
        · exact ((setSizeLoop_sizes _ _ _ _ _ _ _ _ ha).1).trans (hp _).1
    · rw [Option.map_eq_some'] at h
      obtain ⟨a, ha, rfl⟩ := h
      exact Or.inr (tail a (setSizeLoop_sizes _ _ _ _ _ _ _ _ ha).1)
  · injection h with h; subst h
    exact Or.inr (tail w rfl)

/-- Claim C11. `originalImageSize ≤ imageSize` holds after `cowfile_init`, and in a state where
it holds it still holds after `cowfile_setSize` and after `finishWriteRequest`; `cowfile_setSize`
does not raise `originalImageSize`, and `finishWriteRequest`, a whole `cowfile_write`, the
completion of the requests in flight and `cowfile_read` leave `originalImageSize` as it is and
do not lower `imageSize`. -/
theorem sizes_invariant (env : Env) (w : World) (h : w.originalImageSize ≤ w.imageSize) :
    (∀ n, (cowfile_init env n).originalImageSize ≤ (cowfile_init env n).imageSize) ∧
    (∀ fuel size r, cowfile_setSize fuel env w size = some r →
        r.originalImageSize ≤ r.imageSize ∧ r.originalImageSize ≤ w.originalImageSize) ∧
    ((finishWriteRequest w).originalImageSize ≤ (finishWriteRequest w).imageSize
        ∧ SizesKept w (finishWriteRequest w)) ∧
    (∀ fuel offset size r, cowfile_write fuel env w offset size = some r → SizesKept w r) ∧
    SizesKept w (completePending env w) ∧
    (∀ fuel size offset r, cowfile_read fuel env w size offset = some r → SizesKept w r) := by
  refine ⟨fun n => le_refl _, ?_, ?_, ?_, completePending_sizes env w, ?_⟩
  · intro fuel size r hr
    rcases cowfile_setSize_sizes fuel env w size r hr with hk | ⟨h1, h2⟩
    · exact ⟨by rw [hk.1]; exact le_trans h hk.2, le_of_eq hk.1⟩
    · rw [h1, h2]; exact ⟨min_le_right _ _, min_le_left _ _⟩
  · have hk := finishWriteRequest_sizes w
    exact ⟨by rw [hk.1]; exact le_trans h hk.2, hk⟩
  · intro fuel offset size r hr; exact cowfile_write_sizes fuel env w offset size r hr
  · intro fuel size offset r hr; exact cowfile_read_sizes fuel env w size offset r hr

/-- Claim C11 on an image of 8192 bytes: cutting it to 5096 bytes and writing one byte at
offset 100 both return, and the sizes are ordered afterwards. -/
theorem sizes_invariant_witness :
    (∃ r, cowfile_setSize 8 demoEnv (cowfile_init demoEnv 8192) 5096 = some r ∧
      r.originalImageSize ≤ r.imageSize ∧ r.originalImageSize ≤ 8192) ∧
    (∃ r, cowfile_write 8 demoEnv (cowfile_init demoEnv 8192) 100 1 = some r ∧
      SizesKept (cowfile_init demoEnv 8192) r) := by
  have h := sizes_invariant demoEnv (cowfile_init demoEnv 8192) (le_refl _)
  have hs : (cowfile_setSize 8 demoEnv (cowfile_init demoEnv 8192) 5096).isSome = true := by
    decide!
  have hw : (cowfile_write 8 demoEnv (cowfile_init demoEnv 8192) 100 1).isSome = true := by
    decide!
  obtain ⟨r, hr⟩ := Option.isSome_iff_exists.mp hs
  obtain ⟨r2, hr2⟩ := Option.isSome_iff_exists.mp hw
  exact ⟨⟨r, hr, h.2.1 8 5096 r hr⟩, ⟨r2, hr2, h.2.2.2.1 8 100 1 r2 hr2⟩⟩

/-! ### The uploader -/

theorem writeDataLoop_firstL2 (env : Env) (buffer : Int → Nat) (size : Int) (block : Int × Int)
    (ibo : Int) (fuel : Nat) : ∀ (w : World) (total : Int),
    (writeDataLoop env buffer size block ibo fuel w total).1.firstL2 = w.firstL2 := by
  induction fuel with
  | zero => intro w total; rfl
  | succ n ih =>
    intro w total
    unfold writeDataLoop
    have hp : (pwrite env w (fun i => buffer (i + total)) (size - total)
        ((w.entry block).offset + ibo + total)).1.firstL2 = w.firstL2 := by
      unfold pwrite; dsimp only; split <;> rfl
    split
    · dsimp only
      split
      · exact hp
      · split
        · exact hp
        · rw [ih]; exact hp
    · rfl

/-- What `writeData` does to the entries: the entry written to gets bits and the clock value,
every other entry is as before. -/
theorem writeData_entry (env : Env) (w : World) (buffer : Int → Nat) (size netSize : Int)
    (block : Int × Int) (ibo : Int) (q : Int × Int) :
    (writeData env w buffer size netSize block ibo).entry q =
      if q = block then
        { w.entry block with
          bitfield := setBitsInBitfield (w.entry block).bitfield
            (i32 (u64 ibo / DNBD3_BLOCK_SIZE))
            (i32 (u64 (ibo + (writeDataLoop env buffer size block ibo size.toNat w 0).2 - 1)
              / DNBD3_BLOCK_SIZE)) true
          timeChanged := env.now }
      else w.entry q := by
  have h := writeDataLoop_firstL2 env buffer size block ibo size.toNat w 0
  have he : ∀ p, (writeDataLoop env buffer size block ibo size.toNat w 0).1.entry p = w.entry p := by
    intro p; unfold World.entry; rw [h]
  unfold writeData
  dsimp only
  rw [entry_setEntry]
  have he' : ∀ p, ({ (writeDataLoop env buffer size block ibo size.toNat w 0).1 with
      req := { (writeDataLoop env buffer size block ibo size.toNat w 0).1.req with
        bytesWorkedOn := (writeDataLoop env buffer size block ibo size.toNat w 0).1.req.bytesWorkedOn
          + netSize } } : World).entry p = w.entry p := fun p => he p
  split
  · rw [he']
  · exact he' q

/-- Claim C13. For a transfer that succeeded (both `curl_easy_getinfo` calls fine, HTTP 200,
message done) `finishUpload` puts `timeChanged` to 0 exactly when it still has the captured
value and leaves it otherwise, adds one to `uploads` and to `totalBlocksUploaded`, returns
true, keeps the offset and the bitmap of the entry, keeps every other entry and takes the
transfer off the multi handle. -/
theorem finishUpload_success (U : UploadConst) (w : World) (u : Uploader) (msg : CURLMsg)
    (hres : msg.res = CURLE_OK) (hres2 : msg.res2 = CURLE_OK) (hcode : msg.http_code = 200)
    (hmsg : msg.msg = CURLMSG_DONE)
    (hup : 0 ≤ (w.entry msg.curlUploadBlock.block).uploads
      ∧ (w.entry msg.curlUploadBlock.block).uploads + 1 < 2 ^ 64)
    (htot : 0 ≤ u.totalBlocksUploaded ∧ u.totalBlocksUploaded + 1 < 2 ^ 64) :
    let e := w.entry msg.curlUploadBlock.block
    let r := finishUpload U w u msg
    let e' := r.1.entry msg.curlUploadBlock.block
    e'.timeChanged = (if e.timeChanged = msg.curlUploadBlock.time then 0 else e.timeChanged) ∧
    e'.uploads = e.uploads + 1 ∧
    r.2.1.totalBlocksUploaded = u.totalBlocksUploaded + 1 ∧
    r.2.2 = true ∧
    e'.offset = e.offset ∧ e'.bitfield = e.bitfield ∧
    (∀ q, q ≠ msg.curlUploadBlock.block → r.1.entry q = w.entry q) ∧
    r.2.1.cm = u.cm.eraseIdx msg.easy_handle := by
  have hc : ¬ (msg.res ≠ CURLE_OK ∨ msg.res2 ≠ CURLE_OK ∨ msg.http_code ≠ 200
      ∨ msg.msg ≠ CURLMSG_DONE) := by
    simp [hres, hres2, hcode, hmsg]
  have e1 : u64 ((w.entry msg.curlUploadBlock.block).uploads + 1)
      = (w.entry msg.curlUploadBlock.block).uploads + 1 := by
    unfold u64; exact Int.emod_eq_of_lt (by omega) hup.2
  have e2 : u64 (u.totalBlocksUploaded + 1) = u.totalBlocksUploaded + 1 := by
    unfold u64; exact Int.emod_eq_of_lt (by omega) htot.2
  dsimp only
  unfold finishUpload
  rw [if_neg hc]
  dsimp only
  rw [entry_setEntry, if_pos rfl]
  refine ⟨?_, ?_, e2, rfl, ?_, ?_, ?_, rfl⟩
  · split <;> rfl
  · dsimp only; split <;> exact e1
  · split <;> rfl
  · split <;> rfl
  · intro q hq; rw [entry_setEntry, if_neg hq]

/-- Claim C13 on an entry written in second 100: a transfer that captured 100 resets
`timeChanged`, one that captured 99 does not; both count as an upload. -/
theorem finishUpload_success_witness :
    ((finishUpload demoUpload demoWritten { cm := [demoRecord 100], totalBlocksUploaded := 7 }
        (doneMsg 0 (demoRecord 100))).1.entry (0, 0)).timeChanged = 0 ∧
    ((finishUpload demoUpload demoWritten { cm := [demoRecord 100], totalBlocksUploaded := 7 }
        (doneMsg 0 (demoRecord 100))).1.entry (0, 0)).uploads = 1 ∧
    (finishUpload demoUpload demoWritten { cm := [demoRecord 100], totalBlocksUploaded := 7 }
        (doneMsg 0 (demoRecord 100))).2.1.totalBlocksUploaded = 8 := by
  have h := finishUpload_success demoUpload demoWritten
    { cm := [demoRecord 100], totalBlocksUploaded := 7 } (doneMsg 0 (demoRecord 100))
    rfl rfl rfl rfl (by decide!) (by decide)
  have ht : (demoWritten.entry (0, 0)).timeChanged = 100 := by decide!
  have hu : (demoWritten.entry (0, 0)).uploads = 0 := by decide!
  obtain ⟨h1, h2, h3, -⟩ := h
  refine ⟨?_, ?_, h3⟩
  · have e1 : (if (demoWritten.entry (0, 0)).timeChanged = 100 then (0 : Int)
        else (demoWritten.entry (0, 0)).timeChanged) = 0 := by rw [if_pos ht]
    exact h1.trans e1
  · have e2 : (demoWritten.entry (0, 0)).uploads + 1 = 1 := by rw [hu]; rfl
    exact h2.trans e2

/-- The entries after `finishUpload` has handled a transfer that succeeded. -/
theorem finishUpload_done_entry (U : UploadConst) (w : World) (u : Uploader) (i : Nat)
    (b : cow_curl_read_upload_t) (q : Int × Int) :
    ((finishUpload U w u (doneMsg i b)).1.entry q).bitfield = (w.entry q).bitfield ∧
    ((finishUpload U w u (doneMsg i b)).1.entry q).timeChanged =
      (if q = b.block ∧ (w.entry q).timeChanged = b.time then 0 else (w.entry q).timeChanged) := by
  have hc : ¬ ((doneMsg i b).res ≠ CURLE_OK ∨ (doneMsg i b).res2 ≠ CURLE_OK
      ∨ (doneMsg i b).http_code ≠ 200 ∨ (doneMsg i b).msg ≠ CURLMSG_DONE) := by
    simp [doneMsg]
  unfold finishUpload
  rw [if_neg hc]
  simp only [doneMsg, entry_setEntry]
  by_cases hq : q = b.block
  · subst hq
    by_cases ht : (w.entry b.block).timeChanged = b.time
    · simp [ht]
    · simp [ht]
  · simp [hq]

theorem UpInv_step (U : UploadConst) (env : Env) (s : UpState) (a : UpStep)
    (hs : UpInv s) (ha : a.Timely s) : UpInv (a.run U env s) := by
  cases a with
  | tick d => exact hs
  | write buffer size netSize block ibo =>
    obtain ⟨hnow, hfl⟩ := ha
    have hent : ∀ q, q ≠ block → ((UpStep.write buffer size netSize block ibo).run U env s).w.entry q
        = s.w.entry q := by
      intro q hq
      show (writeData _ _ _ _ _ _ _).entry q = _
      rw [writeData_entry, if_neg hq]
    have htc : (((UpStep.write buffer size netSize block ibo).run U env s).w.entry block).timeChanged
        = s.now := by
      show ((writeData _ _ _ _ _ _ _).entry block).timeChanged = _
      rw [writeData_entry, if_pos rfl]
    refine ⟨?_, ?_⟩
    · intro q n h0 hb
      by_cases hq : q = block
      · subst hq; rw [htc] at h0; exact absurd h0 hnow
      · rw [hent q hq] at h0 hb
        exact hs.1 q n h0 hb
    · intro f hf
      have hf' : f ∈ s.flights := hf
      refine ⟨(hs.2 f hf').1, ?_⟩
      by_cases hq : f.1.block = block
      · intro h
        rw [hq, htc] at h
        exact absurd h.symm (hfl f hf' hq)
      · rw [hent _ hq]; exact (hs.2 f hf').2
  | start ignore block blocknumber =>
    refine ⟨hs.1, ?_⟩
    intro f hf
    have hf' : f ∈ s.flights ++
        ((uploaderLoop_entry U s.now ignore s.w s.uploader block blocknumber).cm.drop
          s.flights.length).map (fun b => (b, (s.w.entry block).bitfield)) := hf
    rw [List.mem_append] at hf'
    rcases hf' with h | h
    · exact hs.2 f h
    · have hlen : (s.uploader.cm).length = s.flights.length := by
        simp [UpState.uploader]
      unfold uploaderLoop_entry at h
      split at h
      · rw [← hlen, List.drop_length] at h; simp at h
      · split at h
        · rename_i htc
          split at h
          · unfold addUpload at h
            rw [List.drop_left' hlen] at h
            simp only [List.map_cons, List.map_nil, List.mem_singleton] at h
            subst h
            show (ite _ _ _ : cow_curl_read_upload_t).time ≠ 0 ∧
              ((s.w.entry (ite _ _ _ : cow_curl_read_upload_t).block).timeChanged
                  = (ite _ _ _ : cow_curl_read_upload_t).time →
                (s.w.entry (ite _ _ _ : cow_curl_read_upload_t).block).bitfield = _)
            split <;> exact ⟨htc, fun _ => rfl⟩
          · rw [← hlen, List.drop_length] at h; simp at h
        · rw [← hlen, List.drop_length] at h; simp at h
  | success i =>
    show UpInv (match s.flights.get? i with
      | none => s
      | some f => _)
    cases hget : s.flights.get? i with
    | none => exact hs
    | some f =>
      have hfm : f ∈ s.flights := List.get?_mem hget
      have hE := finishUpload_done_entry U s.w s.uploader i f.1
      dsimp only
      refine ⟨?_, ?_⟩
      · intro q n h0 hb
        have h0' : ((finishUpload U s.w s.uploader (doneMsg i f.1)).1.entry q).timeChanged = 0 := h0
        have hb' : checkBit ((finishUpload U s.w s.uploader (doneMsg i f.1)).1.entry q).bitfield n
            = true := hb
        rw [(hE q).2] at h0'
        rw [(hE q).1] at hb'
        show checkBit ((if (s.w.entry f.1.block).timeChanged = f.1.time
          then Function.update s.uploaded f.1.block f.2 else s.uploaded) q) n = true
        by_cases hc : q = f.1.block ∧ (s.w.entry q).timeChanged = f.1.time
        · obtain ⟨hq, ht⟩ := hc
          subst hq
          rw [if_pos ht, Function.update_same]
          rw [← (hs.2 f hfm).2 ht]; exact hb'
        · rw [if_neg hc] at h0'
          have := hs.1 q n h0' hb'
          by_cases ht : (s.w.entry f.1.block).timeChanged = f.1.time
          · rw [if_pos ht]
            have hq : q ≠ f.1.block := fun hq => hc ⟨hq, by rw [hq]; exact ht⟩
            rw [Function.update_noteq hq]; exact this
          · rw [if_neg ht]; exact this
      · intro g hg
        have hg' : g ∈ s.flights := List.mem_of_mem_eraseIdx hg
        refine ⟨(hs.2 g hg').1, ?_⟩
        intro h
        have h' : ((finishUpload U s.w s.uploader (doneMsg i f.1)).1.entry g.1.block).timeChanged
            = g.1.time := h
        show ((finishUpload U s.w s.uploader (doneMsg i f.1)).1.entry g.1.block).bitfield = g.2
        rw [(hE _).1]
        rw [(hE _).2] at h'
        split at h'
        · exact absurd h'.symm (hs.2 g hg').1
        · exact (hs.2 g hg').2 h'

theorem UpInv_run (U : UploadConst) (env : Env) (steps : List UpStep) :
    ∀ s : UpState, UpInv s → TimelyRun U env s steps → UpInv (upRun U env s steps) := by
  induction steps with
  | nil => intro s hs _; exact hs
  | cons a rest ih =>
    intro s hs ht
    exact ih _ (UpInv_step U env s a hs ht.1) ht.2

/-- Claim C12, as amended. From a state in which nothing is in flight and the property holds,
along every run of writes, upload starts and successful uploads under a non-decreasing clock
in which no write happens at clock value 0 or at the `timeChanged` captured by a transfer of
the same entry still in flight, an entry with `timeChanged = 0` has only bits that were set
when the upload that reset `timeChanged` was started. -/
theorem clean_means_uploaded (U : UploadConst) (env : Env) (s : UpState) (steps : List UpStep)
    (hfl : s.flights = []) (h0 : CleanMeansUploaded s) (ht : TimelyRun U env s steps) :
    CleanMeansUploaded (upRun U env s steps) :=
  (UpInv_run U env steps s ⟨h0, by rw [hfl]; intro f hf; simp at hf⟩ ht).1

/-- Claim C12 fails as stated. In second 100 frame 0 of an entry is written, the final drain
(`uploaderLoop` with `ignoreMinUploadDelay`) starts the upload of the entry, and frame 1 is
written, still in second 100. When the transfer succeeds `finishUpload` finds the captured
value 100 in `timeChanged` and resets it: `timeChanged` is 0, bit 1 is set, and bit 1 was not
set when the upload was started. -/
theorem same_second_write_left_clean :
    let s := upRun demoUpload demoEnv (upInit demoStore 100)
      [UpStep.write demoFrame 4096 4096 (0, 0) 0, UpStep.start true (0, 0) 0,
       UpStep.write demoFrame 4096 4096 (0, 0) 4096, UpStep.success 0]
    (s.w.entry (0, 0)).timeChanged = 0 ∧ checkBit (s.w.entry (0, 0)).bitfield 1 = true ∧
      checkBit (s.uploaded (0, 0)) 1 = false ∧ ¬ CleanMeansUploaded s := by
  have h1 : ((upRun demoUpload demoEnv (upInit demoStore 100)
      [UpStep.write demoFrame 4096 4096 (0, 0) 0, UpStep.start true (0, 0) 0,
       UpStep.write demoFrame 4096 4096 (0, 0) 4096, UpStep.success 0]).w.entry (0, 0)).timeChanged
      = 0 := by decide!
  have h2 : checkBit ((upRun demoUpload demoEnv (upInit demoStore 100)
      [UpStep.write demoFrame 4096 4096 (0, 0) 0, UpStep.start true (0, 0) 0,
       UpStep.write demoFrame 4096 4096 (0, 0) 4096, UpStep.success 0]).w.entry (0, 0)).bitfield 1
      = true := by decide!
  have h3 : checkBit ((upRun demoUpload demoEnv (upInit demoStore 100)
      [UpStep.write demoFrame 4096 4096 (0, 0) 0, UpStep.start true (0, 0) 0,
       UpStep.write demoFrame 4096 4096 (0, 0) 4096, UpStep.success 0]).uploaded (0, 0)) 1
      = false := by decide!
  refine ⟨h1, h2, h3, fun h => ?_⟩
  have h4 := h (0, 0) 1 h1 h2
  rw [h3] at h4
  exact absurd h4 (by decide)

theorem checkBit_zero_map (n : Int) : checkBit (fun _ => 0) n = false := by
  simp [checkBit]

theorem getBlock_bitfield (env : Env) (w : World) (l1Offset l2Offset : Int) (q : Int × Int) :
    ((getBlock env w l1Offset l2Offset).1.entry q).bitfield = (w.entry q).bitfield := by
  unfold getBlock
  dsimp only
  split
  · show (((w.setEntry _ _).entry q)).bitfield = _
    rw [entry_setEntry]
    split
    · rename_i h; rw [h]
    · rfl
  · rfl

theorem createL2Block_bitfield_zero (env : Env) (w : World) (l1Offset : Int) (q : Int × Int)
    (h : (w.entry q).bitfield = fun _ => 0) :
    ((createL2Block env w l1Offset).entry q).bitfield = fun _ => 0 := by
  unfold createL2Block
  split
  · show ((Function.update w.firstL2 w.nextL2 _) q.1 q.2).bitfield = _
    by_cases hq : q.1 = w.nextL2
    · rw [hq, Function.update_same]
      have h' : (w.firstL2 w.nextL2 q.2).bitfield = fun _ => 0 := by
        rw [← hq]; exact h
      split
      · funext j
        show (if 0 ≤ j ∧ j < env.K.COW_BITFIELD_SIZE then 0 else (w.firstL2 w.nextL2 q.2).bitfield j) = 0
        rw [h']; simp
      · exact h'
    · rw [Function.update_noteq hq]; exact h
  · exact h

theorem demoStore_bits (q : Int × Int) (n : Int) :
    checkBit (demoStore.entry q).bitfield n = false := by
  have h : (demoStore.entry q).bitfield = fun _ => 0 := by
    unfold demoStore
    rw [getBlock_bitfield]
    exact createL2Block_bitfield_zero _ _ _ _ rfl
  rw [h]; exact checkBit_zero_map n

/-- Claim C12, as amended, on a run: an entry is written in second 100 and, once it is quiet
for 61 seconds, uploaded; a write in second 161 arrives before the transfer ends, so
`timeChanged` stays; 61 seconds later the entry is uploaded again and is clean. -/
theorem clean_means_uploaded_witness :
    let s := upRun demoUpload demoEnv (upInit demoStore 100)
      [UpStep.write demoFrame 4096 4096 (0, 0) 0, UpStep.tick 61, UpStep.start false (0, 0) 0,
       UpStep.write demoFrame 4096 4096 (0, 0) 4096, UpStep.success 0, UpStep.tick 61,
       UpStep.start false (0, 0) 0, UpStep.success 0]
    (s.w.entry (0, 0)).timeChanged = 0 ∧ checkBit (s.w.entry (0, 0)).bitfield 1 = true ∧
      CleanMeansUploaded s :=
  ⟨by decide!, by decide!,
    clean_means_uploaded demoUpload demoEnv (upInit demoStore 100) _ rfl
      (fun q n _ hb => absurd hb (by
        have e : (upInit demoStore 100).w = demoStore := rfl
        rw [e, demoStore_bits]; decide))
      (by decide!)⟩

/-- One call of `curlReadCallbackUploadBlock` at a position inside the stream, when `pread`
delivers what it is asked for: the call returns as many bytes as the buffer takes and the
stream still has, they are the next bytes of the stream, and only the position and the
number of system calls change. -/
theorem callback_step (env : Env) (hK : env.K.WF) (hread : ∀ n c, c ≤ env.preadRet n c)
    (w : World) (ptr : Int → Nat) (size nmemb : Int) (b : cow_curl_read_upload_t)
    (hoff : 0 ≤ (w.entry b.block).offset)
    (hp0 : 0 ≤ b.position)
    (hp1 : b.position ≤ env.K.COW_BITFIELD_SIZE + env.K.COW_METADATA_STORAGE_CAPACITY)
    (hc0 : 0 ≤ size * nmemb) (hc1 : size * nmemb < 2 ^ 64) :
    let r := curlReadCallbackUploadBlock env w ptr size nmemb b
    let len := min (size * nmemb)
      (env.K.COW_BITFIELD_SIZE + env.K.COW_METADATA_STORAGE_CAPACITY - b.position)
    r.2.2.2 = len ∧
    r.2.1 = { b with position := b.position + len } ∧
    r.1.firstL2 = w.firstL2 ∧ r.1.fhd = w.fhd ∧
    ∀ i, 0 ≤ i → i < len → r.2.2.1 i = uploadStream env.K w b.block (b.position + i) := by
  obtain ⟨hbs0, hl0, hbs1, hl1, hmax⟩ := hK
  have hcap : env.K.COW_METADATA_STORAGE_CAPACITY = env.K.COW_BITFIELD_SIZE * 8 * 4096 := rfl
  have hcap0 : 0 < env.K.COW_METADATA_STORAGE_CAPACITY := by rw [hcap]; omega
  have hcap1 : env.K.COW_METADATA_STORAGE_CAPACITY < 2 ^ 44 := by rw [hcap]; omega
  generalize hC : env.K.COW_METADATA_STORAGE_CAPACITY = CAP at *
  generalize hB : env.K.COW_BITFIELD_SIZE = BS at *
  generalize hcp : size * nmemb = cap at *
  have u64id : ∀ x : Int, 0 ≤ x → x < 2 ^ 64 → u64 x = x := fun x h0 h1 => by
    unfold u64; exact Int.emod_eq_of_lt h0 h1
  have i64id : ∀ x : Int, 0 ≤ x → x < 2 ^ 63 → i64 x = x := fun x h0 h1 => by
    unfold i64; omega
  have prd : ∀ (buf : Int → Nat) (dst count offset : Int), 0 ≤ count → 0 ≤ offset →
      preadInto env w buf dst count offset =
        ({ w with calls := w.calls + 1 },
          (fun i => if dst ≤ i ∧ i < dst + count then w.fhd (offset + (i - dst)) else buf i),
          count) := by
    intro buf dst count offset h0 h1
    have hr := hread w.calls count
    unfold preadInto
    have hn : ¬ (offset < 0 ∨ env.preadRet w.calls count < 0) := by omega
    simp only [hn, if_false, min_eq_right hr]
  dsimp only
  unfold curlReadCallbackUploadBlock
  simp only [hB, hC, hcp]
  rw [u64id BS (by omega) (by omega), u64id cap hc0 hc1]
  by_cases hA : b.position < BS
  · rw [if_pos hA]
    rw [u64id (BS - b.position) (by omega) (by omega)]
    dsimp only
    by_cases hA1 : cap < BS - b.position
    · have m1 : min (BS - b.position) cap = cap := min_eq_right (le_of_lt hA1)
      rw [m1, u64id (b.position + cap) (by omega) (by omega)]
      rw [if_neg (by omega)]
      have m2 : min cap (BS + CAP - b.position) = cap := min_eq_left (by omega)
      rw [m2]
      refine ⟨rfl, rfl, rfl, rfl, ?_⟩
      intro i hi0 hi1
      simp only [uploadStream, hB]
      rw [if_pos ⟨hi0, hi1⟩, if_pos (by omega)]
    · have m1 : min (BS - b.position) cap = BS - b.position := min_eq_left (by omega)
      rw [m1, u64id (b.position + (BS - b.position)) (by omega) (by omega)]
      rw [if_pos (by omega)]
      have e0 : b.position + (BS - b.position) - BS = 0 := by omega
      rw [e0, Int.sub_zero, u64id CAP (by omega) (by omega),
        u64id (cap - (BS - b.position)) (by omega) (by omega), i64id 0 (le_refl _) (by omega)]
      rw [prd _ _ _ _ (le_min (by omega) (by omega)) (by omega)]
      dsimp only
      rw [u64id (min CAP (cap - (BS - b.position))) (le_min (by omega) (by omega))
        (lt_of_le_of_lt (min_le_left _ _) (by omega))]
      simp only [ne_eq, not_true_eq_false, if_false]
      have hlen : BS - b.position + min CAP (cap - (BS - b.position))
          = min cap (BS + CAP - b.position) := by
        rcases le_total CAP (cap - (BS - b.position)) with h | h
        · rw [min_eq_left h, min_eq_right (by omega)]; omega
        · rw [min_eq_right h, min_eq_left (by omega)]; omega
      rw [u64id _ (by rw [hlen]; exact le_min hc0 (by omega))
        (by rw [hlen]; exact lt_of_le_of_lt (min_le_left _ _) hc1)]
      rw [u64id (b.position + (BS - b.position) + min CAP (cap - (BS - b.position)))
        (by have := le_min (a := CAP) (b := cap - (BS - b.position)) (c := 0) (by omega) (by omega); omega)
        (by have := min_le_left CAP (cap - (BS - b.position)); omega)]
      refine ⟨hlen, ?_, trivial, trivial, ?_⟩
      · rw [← hlen]
        have : b.position + (BS - b.position) + min CAP (cap - (BS - b.position))
            = b.position + (BS - b.position + min CAP (cap - (BS - b.position))) := by omega
        rw [this]
      · intro i hi0 hi1
        rw [← hlen] at hi1
        simp only [uploadStream, hB]
        by_cases hi : i < BS - b.position
        · rw [if_neg (by omega), if_pos ⟨hi0, hi⟩, if_pos (by omega)]
        · rw [if_pos ⟨by omega, by omega⟩, if_neg (by omega)]
          congr 1; omega
  · rw [if_neg hA]
    dsimp only
    rw [if_pos (by omega)]
    rw [u64id (CAP - (b.position - BS)) (by omega) (by omega), Int.sub_zero, u64id cap hc0 hc1,
      i64id (b.position - BS) (by omega) (by omega)]
    rw [prd _ _ _ _ (le_min (by omega) hc0) (by omega)]
    dsimp only
    rw [u64id (min (CAP - (b.position - BS)) cap) (le_min (by omega) hc0)
      (lt_of_le_of_lt (min_le_right _ _) hc1)]
    simp only [ne_eq, not_true_eq_false, if_false, Int.zero_add]
    have hlen : min (CAP - (b.position - BS)) cap = min cap (BS + CAP - b.position) := by
      rw [min_comm]; congr 1; omega
    rw [u64id _ (by rw [hlen]; exact le_min hc0 (by omega))
      (by rw [hlen]; exact lt_of_le_of_lt (min_le_left _ _) hc1)]
    rw [u64id (b.position + min (CAP - (b.position - BS)) cap)
      (by have := le_min (a := CAP - (b.position - BS)) (b := cap) (c := 0) (by omega) hc0; omega)
      (by have := min_le_left (CAP - (b.position - BS)) cap; omega)]
    refine ⟨hlen, by rw [hlen], trivial, trivial, ?_⟩
    intro i hi0 hi1
    rw [← hlen] at hi1
    simp only [uploadStream, hB]
    rw [if_pos ⟨hi0, by omega⟩, if_neg (by omega)]
    congr 1; omega

theorem bytes_eq (f : Int → Nat) (n : Nat) :
    bytes f n = (List.range n).map (fun i : Nat => f (i : Int)) := by
  unfold bytes
  simp only [List.pure_def, List.bind_eq_flatMap, ← List.map_eq_flatMap, List.map_map]
  rfl

theorem bytes_congr (f g : Int → Nat) (n : Nat) (h : ∀ i : Int, 0 ≤ i → i < n → f i = g i) :
    bytes f n = bytes g n := by
  rw [bytes_eq, bytes_eq]
  apply List.map_congr_left
  intro i hi
  rw [List.mem_range] at hi
  exact h i (by omega) (by omega)

theorem bytes_add (f : Int → Nat) (a b : Nat) :
    bytes f (a + b) = bytes f a ++ bytes (fun i => f (a + i)) b := by
  rw [bytes_eq, bytes_eq, bytes_eq, List.range_add, List.map_append, List.map_map]
  congr 1

theorem bytes_length (f : Int → Nat) (n : Nat) : (bytes f n).length = n := by
  rw [bytes_eq]; simp

theorem uploadStream_congr (K : CowConst) (w w' : World) (block : Int × Int)
    (h1 : w'.firstL2 = w.firstL2) (h2 : w'.fhd = w.fhd) :
    uploadStream K w' block = uploadStream K w block := by
  unfold uploadStream World.entry
  rw [h1, h2]

theorem capacity_nonneg (caps : List (Int × Int))
    (h : ∀ c ∈ caps, 0 < c.1 * c.2 ∧ c.1 * c.2 < 2 ^ 64) : 0 ≤ capacity caps := by
  induction caps with
  | nil => simp [capacity]
  | cons c rest ih =>
    have h1 := (h c (List.mem_cons_self _ _)).1
    have h2 := ih (fun d hd => h d (List.mem_cons_of_mem _ hd))
    unfold capacity at h2 ⊢
    simp only [List.map_cons, List.sum_cons]
    omega

theorem capacity_cons (c : Int × Int) (rest : List (Int × Int)) :
    capacity (c :: rest) = c.1 * c.2 + capacity rest := by
  simp [capacity]

/-- A series of calls that starts anywhere in the stream. -/
theorem uploadCalls_from (env : Env) (hK : env.K.WF) (hread : ∀ n c, c ≤ env.preadRet n c)
    (caps : List (Int × Int)) :
    ∀ (w : World) (b : cow_curl_read_upload_t), 0 ≤ (w.entry b.block).offset →
      0 ≤ b.position → b.position ≤ uploadSize env.K →
      (∀ c ∈ caps, 0 < c.1 * c.2 ∧ c.1 * c.2 < 2 ^ 64) →
      (uploadCalls env caps w b).1.flatten
        = bytes (fun i => uploadStream env.K w b.block (b.position + i))
            (min (uploadSize env.K - b.position) (capacity caps)).toNat ∧
      (uploadCalls env caps w b).2.2.position
        = b.position + min (uploadSize env.K - b.position) (capacity caps) ∧
      (uploadCalls env caps w b).2.2.block = b.block ∧
      (uploadCalls env caps w b).2.1.firstL2 = w.firstL2 ∧
      (uploadCalls env caps w b).2.1.fhd = w.fhd ∧
      List.Forall₂ (fun out c => (out.length : Int) ≤ c.1 * c.2) (uploadCalls env caps w b).1 caps := by
  induction caps with
  | nil =>
    intro w b _ hp0 hp1 _
    have m : min (uploadSize env.K - b.position) 0 = 0 := min_eq_right (by omega)
    have c0 : capacity [] = 0 := rfl
    simp only [uploadCalls, c0, m, List.flatten_nil, Int.toNat_zero, Int.add_zero]
    refine ⟨?_, ?_, ?_, ?_, ?_, List.Forall₂.nil⟩ <;> first | rfl | trivial
  | cons c rest ih =>
    intro w b hoff hp0 hp1 hcaps
    have hc := hcaps c (List.mem_cons_self _ _)
    have hrest : ∀ d ∈ rest, 0 < d.1 * d.2 ∧ d.1 * d.2 < 2 ^ 64 :=
      fun d hd => hcaps d (List.mem_cons_of_mem _ hd)
    have hsum := capacity_nonneg rest hrest
    obtain ⟨s1, s2, s3, s4, s5⟩ := callback_step env hK hread w env.fresh c.1 c.2 b hoff hp0 hp1
      (le_of_lt hc.1) hc.2
    have hT : env.K.COW_BITFIELD_SIZE + env.K.COW_METADATA_STORAGE_CAPACITY = uploadSize env.K :=
      rfl
    rw [hT] at s1 s2 s5
    generalize uploadSize env.K = T at *
    generalize hS : capacity rest = S at *
    generalize hL : min (c.1 * c.2) (T - b.position) = L at *
    have hL0 : 0 ≤ L := by rw [← hL]; exact le_min (le_of_lt hc.1) (by omega)
    have hL1 : L ≤ T - b.position := by rw [← hL]; exact min_le_right _ _
    have hL2 : L ≤ c.1 * c.2 := by rw [← hL]; exact min_le_left _ _
    have hentry : (curlReadCallbackUploadBlock env w env.fresh c.1 c.2 b).1.entry b.block
        = w.entry b.block := by unfold World.entry; rw [s3]
    have ih' := ih (curlReadCallbackUploadBlock env w env.fresh c.1 c.2 b).1
      (curlReadCallbackUploadBlock env w env.fresh c.1 c.2 b).2.1
      (by rw [s2]; exact hentry ▸ hoff) (by rw [s2]; show 0 ≤ b.position + L; omega)
      (by rw [s2]; show b.position + L ≤ T; omega) hrest
    obtain ⟨i1, i2, i3, i4, i5, i6⟩ := ih'
    have hn : min (T - b.position) (c.1 * c.2 + S) = L + min (T - (b.position + L)) S := by
      rw [← hL]
      rcases le_total (c.1 * c.2) (T - b.position) with h | h
      · rw [min_eq_left h]
        rcases le_total (T - (b.position + c.1 * c.2)) S with h' | h'
        · rw [min_eq_left h', min_eq_left (by omega)]; omega
        · rw [min_eq_right h', min_eq_right (by omega)]
      · rw [min_eq_right h, min_eq_left (by omega), min_eq_left (by omega)]; omega
    have hM0 : 0 ≤ min (T - (b.position + L)) S := le_min (by omega) hsum
    have hb1p : (curlReadCallbackUploadBlock env w env.fresh c.1 c.2 b).2.1.position
        = b.position + L := by rw [s2]
    have hb1b : (curlReadCallbackUploadBlock env w env.fresh c.1 c.2 b).2.1.block = b.block := by
      rw [s2]
    rw [hb1p, hb1b] at i1
    rw [hb1p] at i2
    rw [hb1b] at i3
    simp only [uploadCalls, List.flatten_cons, capacity_cons, hS]
    rw [hn]
    refine ⟨?_, ?_, i3, ?_, ?_, ?_⟩
    · rw [i1, s1, Int.toNat_add hL0 hM0, bytes_add]
      congr 1
      · exact bytes_congr _ _ _ (fun i hi0 hi1 => s5 i hi0 (by omega))
      · rw [uploadStream_congr env.K w _ b.block s3 s4]
        apply bytes_congr
        intro i _ _
        show uploadStream env.K w b.block (b.position + L + i) = _
        rw [Int.toNat_of_nonneg hL0]; congr 1; omega
    · rw [i2]
      show b.position + L + min (T - (b.position + L)) S = _
      omega
    · rw [i4, s3]
    · rw [i5, s4]
    · refine List.Forall₂.cons ?_ i6
      rw [bytes_length, s1, Int.toNat_of_nonneg hL0]; exact hL2

/-- Claim C14. A record at position 0, an entry with a place in the data file, a `pread` that
delivers what it is asked for, and any series of buffers of non-zero capacity: the bytes the
calls of `curlReadCallbackUploadBlock` return, one after the other, are the first bytes of the
stream (the bitmap, then the `COW_METADATA_STORAGE_CAPACITY` bytes of the data file from the
entry's offset on), as many as the buffers take, at most `bitfieldSize +
COW_METADATA_STORAGE_CAPACITY`; the position is that number; no call returns more than its
capacity; and once the whole stream is out, a call returns 0. -/
theorem upload_stream (env : Env) (hK : env.K.WF) (hread : ∀ n c, c ≤ env.preadRet n c)
    (w : World) (b : cow_curl_read_upload_t) (caps : List (Int × Int))
    (hoff : 0 ≤ (w.entry b.block).offset) (hpos : b.position = 0)
    (hcaps : ∀ c ∈ caps, 0 < c.1 * c.2 ∧ c.1 * c.2 < 2 ^ 64) :
    (uploadCalls env caps w b).1.flatten
      = bytes (uploadStream env.K w b.block) (min (uploadSize env.K) (capacity caps)).toNat ∧
    bytes (uploadStream env.K w b.block) (uploadSize env.K).toNat
      = bytes (w.entry b.block).bitfield env.K.COW_BITFIELD_SIZE.toNat
        ++ bytes (fun i => w.fhd ((w.entry b.block).offset + i))
            env.K.COW_METADATA_STORAGE_CAPACITY.toNat ∧
    (uploadCalls env caps w b).2.2.position = min (uploadSize env.K) (capacity caps) ∧
    List.Forall₂ (fun out c => (out.length : Int) ≤ c.1 * c.2) (uploadCalls env caps w b).1 caps ∧
    (uploadSize env.K ≤ capacity caps → ∀ (ptr : Int → Nat) (size nmemb : Int),
      0 ≤ size * nmemb → size * nmemb < 2 ^ 64 →
      (curlReadCallbackUploadBlock env (uploadCalls env caps w b).2.1 ptr size nmemb
        (uploadCalls env caps w b).2.2).2.2.2 = 0) := by
  have hbs0 := hK.bitfield_pos
  have hcap0 : 0 ≤ env.K.COW_METADATA_STORAGE_CAPACITY := by
    have : env.K.COW_METADATA_STORAGE_CAPACITY = env.K.COW_BITFIELD_SIZE * 8 * 4096 := rfl
    omega
  have hT0 : 0 ≤ uploadSize env.K := by unfold uploadSize; omega
  obtain ⟨h1, h2, h3, h4, h5, h6⟩ := uploadCalls_from env hK hread caps w b hoff
    (by rw [hpos]) (by rw [hpos]; exact hT0) hcaps
  rw [hpos] at h1 h2
  simp only [Int.sub_zero, Int.zero_add] at h1 h2
  refine ⟨h1, ?_, h2, h6, ?_⟩
  · have e : (uploadSize env.K).toNat
        = env.K.COW_BITFIELD_SIZE.toNat + env.K.COW_METADATA_STORAGE_CAPACITY.toNat := by
      unfold uploadSize; omega
    rw [e, bytes_add]
    congr 1
    · apply bytes_congr
      intro i _ hi
      unfold uploadStream
      rw [if_pos (by omega)]
    · apply bytes_congr
      intro i hi0 _
      unfold uploadStream
      rw [if_neg (by omega)]
      congr 1; omega
  · intro hfull ptr size nmemb hs0 hs1
    have hp : (uploadCalls env caps w b).2.2.position = uploadSize env.K := by
      rw [h2, min_eq_left hfull]
    have hent : (uploadCalls env caps w b).2.1.entry (uploadCalls env caps w b).2.2.block
        = w.entry b.block := by
      unfold World.entry; rw [h4, h3]
    obtain ⟨s1, -⟩ := callback_step env hK hread (uploadCalls env caps w b).2.1 ptr size nmemb
      (uploadCalls env caps w b).2.2 (by rw [hent]; exact hoff) (by rw [hp]; exact hT0)
      (by rw [hp]; exact le_refl _) hs0 hs1
    rw [s1, hp]
    have : env.K.COW_BITFIELD_SIZE + env.K.COW_METADATA_STORAGE_CAPACITY - uploadSize env.K = 0 := by
      unfold uploadSize; omega
    rw [this]
    exact min_eq_right hs0

/-- Claim C14 on the entry written in second 100, with a buffer of 16 and one of 100 bytes: the
two calls return the first 116 bytes of the stream; its first byte is the bitmap byte with
bit 0, byte 40 is the first byte 0x5A of the data. -/
theorem upload_stream_witness :
    (uploadCalls demoEnv [(1, 16), (1, 100)] demoWritten (demoRecord 100)).1.flatten
      = bytes (uploadStream stdConst demoWritten (0, 0)) 116 ∧
    (uploadCalls demoEnv [(1, 16), (1, 100)] demoWritten (demoRecord 100)).1.map List.length
      = [16, 100] ∧
    (bytes (uploadStream stdConst demoWritten (0, 0)) 116).take 2 = [1, 0] ∧
    (bytes (uploadStream stdConst demoWritten (0, 0)) 116).drop 39 = 0 :: List.replicate 76 90 := by
  have h := (upload_stream demoEnv stdConst_wf (fun _ c => le_refl c) demoWritten (demoRecord 100)
    [(1, 16), (1, 100)] (by decide!) rfl (by decide)).1
  have e : (min (uploadSize demoEnv.K) (capacity [(1, 16), (1, 100)])).toNat = 116 := by decide
  rw [e] at h
  exact ⟨h, by decide!, by decide!, by decide!⟩

/-! ### The kernel client -/

/-- What `dnbd3_execute_handshake` checks on a device that has an image (`reported_size` other
than 0): it returns 1 exactly when the reply came whole with the right magic and command,
the version is new enough, a name and a revision id other than 0 were supplied, and revision
id and file size are those of the device. The name itself is not compared. The device is
never changed. -/
theorem handshake_on_switch (C : NetConst) (dev : dnbd3_device_t) (io : HandshakeIO) (old : Int)
    (h : dev.reported_size ≠ 0) :
    (dnbd3_execute_handshake C dev io old).1 = dev ∧
    ((dnbd3_execute_handshake C dev io old).2.1 = 1 ↔
      io.payload_alloc = true ∧ io.sent = true ∧
      (∃ magic cmd size, io.header = some (magic, cmd, size) ∧ magic = C.dnbd3_packet_magic
        ∧ cmd = C.CMD_SELECT_IMAGE ∧ 4 ≤ size) ∧
      ∃ p name, io.payload = some p ∧ C.MIN_SUPPORTED_SERVER ≤ p.remote_version
        ∧ p.name = some name ∧ p.rid ≠ 0 ∧ p.rid = dev.rid ∧ p.filesize = dev.reported_size) := by
  unfold dnbd3_execute_handshake
  have hi : decide (dev.reported_size = 0) = false := by simp [h]
  simp only [hi]
  cases hp : io.payload_alloc <;> simp
  cases hs : io.sent <;> simp
  cases hh : io.header with
  | none => simp
  | some x =>
    obtain ⟨magic, cmd, size⟩ := x
    simp only
    by_cases hm : magic ≠ C.dnbd3_packet_magic ∨ cmd ≠ C.CMD_SELECT_IMAGE ∨ size < 4
    · rw [if_pos hm]
      simp
      intro a b c
      rcases hm with hm | hm | hm
      · exact absurd a hm
      · exact absurd b hm
      · omega
    · rw [if_neg hm]
      have hm' : magic = C.dnbd3_packet_magic ∧ cmd = C.CMD_SELECT_IMAGE ∧ 4 ≤ size := by
        refine ⟨?_, ?_, ?_⟩
        · by_contra h1; exact hm (Or.inl h1)
        · by_contra h1; exact hm (Or.inr (Or.inl h1))
        · by_contra h1; exact hm (Or.inr (Or.inr (by omega)))
      cases hpl : io.payload with
      | none => simp
      | some p =>
        simp only
        by_cases hv : p.remote_version < C.MIN_SUPPORTED_SERVER
        · rw [if_pos hv]
          have hv' : ¬ C.MIN_SUPPORTED_SERVER ≤ p.remote_version := not_le.mpr hv
          simp [hv']
        · rw [if_neg hv]
          have hv' : C.MIN_SUPPORTED_SERVER ≤ p.remote_version := not_lt.mp hv
          cases hn : p.name with
          | none => simp [hn]
          | some name =>
            simp only
            by_cases hr : p.rid = 0
            · rw [if_pos hr]; simp [hr, hn]
            · rw [if_neg hr]
              try simp only [Bool.false_eq_true, false_and, if_false]
              by_cases hr2 : p.rid = dev.rid
              · by_cases hf : p.filesize = dev.reported_size
                · simp [hr2, hf, hm', hv', hr, hn]
                  exact ⟨⟨C.dnbd3_packet_magic, C.CMD_SELECT_IMAGE, size, ⟨rfl, rfl, rfl⟩, rfl, rfl,
                    hm'.2.2⟩, fun h0 => hr (hr2.trans h0)⟩
                · simp [hr2, hf, hm', hv', hr, hn]
              · by_cases hf : p.filesize = dev.reported_size <;> simp [hr2, hf, hm', hv', hr, hn]

/-- Claim C17 on a concrete input. The device has the image `a`, revision 1, 8192 bytes. A
server answers the `SELECT_IMAGE` of a probe with the name `b`, revision 1, 8192 bytes:
`dnbd3_execute_handshake` returns 1, the reply is accepted. -/
theorem handshake_accepts_other_name :
    (demoDev 1 100).imgname = some [97] ∧ (demoDev 1 100).reported_size ≠ 0 ∧
    (dnbd3_execute_handshake demoNet (demoDev 1 100) (demoReply [98]) 0).2.1 = 1 := by
  decide

theorem shuffleLoop_turn (C : NetConst) (n : Nat) : ∀ l : DiscoverLocals,
    (shuffleLoop C n l).turn = l.turn ∧ (shuffleLoop C n l).ready = l.ready := by
  induction n with
  | zero => intro l; exact ⟨rfl, rfl⟩
  | succ n ih =>
    intro l
    unfold shuffleLoop
    split
    · exact ih _
    · exact ⟨rfl, rfl⟩

theorem probeSetup_turn (C : NetConst) (s : DiscoverState) :
    (probeSetup C s).loc.turn = s.loc.turn ∧ (probeSetup C s).loc.ready = s.loc.ready ∧
    (probeSetup C s).rounds = s.rounds ∧ (probeSetup C s).returned = s.returned := by
  unfold probeSetup
  dsimp only
  split_ifs <;> first
    | exact ⟨rfl, rfl, rfl, rfl⟩
    | exact ⟨(shuffleLoop_turn C _ _).1, (shuffleLoop_turn C _ _).2, rfl, rfl⟩

theorem probeError_turn (C : NetConst) (s : DiscoverState) (i : Nat) (h : sockaddr_storage) :
    (probeError C s i h).loc = s.loc ∧ (probeError C s i h).rounds = s.rounds := ⟨rfl, rfl⟩

theorem probeContact_turn (C : NetConst) (s : DiscoverState) (i : Nat) (h : sockaddr_storage)
    (p : ProbeIO) :
    (probeContact C s i h p).loc.turn = s.loc.turn ∧ (probeContact C s i h p).loc.ready = s.loc.ready ∧
    (probeContact C s i h p).rounds = s.rounds := by
  unfold probeContact
  dsimp only
  split
  · exact ⟨rfl, rfl, rfl⟩
  · split
    · exact ⟨rfl, rfl, rfl⟩
    · split
      · exact ⟨rfl, rfl, rfl⟩
      · split <;> exact ⟨rfl, rfl, rfl⟩

theorem probeOne_turn (C : NetConst) (io : CycleIO) (s : DiscoverState) (j : Nat) :
    (probeOne C io s j).loc.turn = s.loc.turn ∧ (probeOne C io s j).loc.ready = s.loc.ready ∧
    (probeOne C io s j).rounds = s.rounds := by
  unfold probeOne
  dsimp only
  split
  · exact ⟨rfl, rfl, rfl⟩
  · split
    · exact ⟨rfl, rfl, rfl⟩
    · split
      · exact ⟨rfl, rfl, rfl⟩
      · split
        · exact ⟨rfl, rfl, rfl⟩
        · exact probeContact_turn C _ _ _ _

theorem probeFold_turn (C : NetConst) (io : CycleIO) (l : List Nat) : ∀ s : DiscoverState,
    (l.foldl (probeOne C io) s).loc.turn = s.loc.turn ∧
    (l.foldl (probeOne C io) s).loc.ready = s.loc.ready ∧
    (l.foldl (probeOne C io) s).rounds = s.rounds := by
  induction l with
  | nil => intro s; exact ⟨rfl, rfl, rfl⟩
  | cons a t ih =>
    intro s
    obtain ⟨h1, h2, h3⟩ := probeOne_turn C io s a
    obtain ⟨i1, i2, i3⟩ := ih (probeOne C io s a)
    exact ⟨i1.trans h1, i2.trans h2, i3.trans h3⟩

theorem probeAll_turn (C : NetConst) (io : CycleIO) (s : DiscoverState) :
    (probeAll C io s).loc.turn = s.loc.turn ∧ (probeAll C io s).loc.ready = s.loc.ready ∧
    (probeAll C io s).rounds = s.rounds := by
  unfold probeAll
  dsimp only
  split
  · exact probeFold_turn C io _ s
  · exact probeFold_turn C io _ s

theorem hungCheck_turn (io : CycleIO) (loc : DiscoverLocals) (dc : Bool) :
    (hungCheck io loc dc).turn = loc.turn ∧ (hungCheck io loc dc).ready = loc.ready := by
  unfold hungCheck
  split
  · split <;> exact ⟨rfl, rfl⟩
  · exact ⟨rfl, rfl⟩

theorem discoverDecide_turn (C : NetConst) (io : CycleIO) (s : DiscoverState) :
    (discoverDecide C io s).1.loc.turn = s.loc.turn ∧
    (discoverDecide C io s).1.loc.ready = s.loc.ready ∧
    (discoverDecide C io s).1.rounds = s.rounds ∧
    (discoverDecide C io s).1.returned = s.returned := by
  unfold discoverDecide
  dsimp only
  split
  · exact ⟨rfl, rfl, rfl, rfl⟩
  · exact ⟨(hungCheck_turn io _ _).1, (hungCheck_turn io _ _).2, rfl, rfl⟩

theorem discoverFinish_inv (io : CycleIO) (s : DiscoverState) (h : TurnInv s) :
    TurnInv (discoverFinish io s) ∧ s.rounds ≤ (discoverFinish io s).rounds := by
  have key : ∀ t1 : Int,
      t1 = (if s.loc.ready = 0 ∨ ktime_to_us s.loc.start % 16 ≠ 0
        then Int.tmod (s.loc.turn + 1) 4 else s.loc.turn) →
      0 ≤ t1 ∧ t1 < 4 ∧
        ((s.rounds + 1 < 2 ∧ (if t1 = 2 then 1 else s.loc.ready) = 0
            ∧ t1 = ((s.rounds + 1 : Nat) : Int))
          ∨ (2 ≤ s.rounds + 1 ∧ (if t1 = 2 then 1 else s.loc.ready) = 1)) := by
    intro t1 ht1
    obtain ⟨h0, h1, h2⟩ := h
    have hm0 : 0 ≤ Int.tmod (s.loc.turn + 1) 4 := Int.tmod_nonneg _ (by omega)
    have hm1 : Int.tmod (s.loc.turn + 1) 4 < 4 := Int.tmod_lt_of_pos _ (by omega)
    rcases h2 with ⟨a, b, c⟩ | ⟨a, b⟩
    · rw [if_pos (Or.inl b)] at ht1
      have e : Int.tmod (s.loc.turn + 1) 4 = s.loc.turn + 1 :=
        Int.tmod_eq_of_lt (by omega) (by omega)
      rw [e] at ht1
      have hr : (((s.rounds + 1 : Nat) : Int)) = (s.rounds : Int) + 1 := by push_cast; rfl
      rw [hr]
      by_cases h2 : s.rounds = 1
      · have : t1 = 2 := by omega
        rw [if_pos this]
        exact ⟨by omega, by omega, Or.inr ⟨by omega, rfl⟩⟩
      · have : t1 ≠ 2 := by omega
        rw [if_neg this]
        exact ⟨by omega, by omega, Or.inl ⟨by omega, b, by omega⟩⟩
    · have hr : 0 ≤ t1 ∧ t1 < 4 := by
        rw [ht1]; split
        · exact ⟨hm0, hm1⟩
        · exact ⟨h0, h1⟩
      refine ⟨hr.1, hr.2, Or.inr ⟨by omega, ?_⟩⟩
      split
      · rfl
      · exact b
  unfold discoverFinish
  split
  · exact ⟨h, le_refl _⟩
  · exact ⟨key _ rfl, Nat.le_succ _⟩

theorem keep_TurnInv (s s' : DiscoverState) (h : TurnInv s) (h1 : s'.loc.turn = s.loc.turn)
    (h2 : s'.loc.ready = s.loc.ready) (h3 : s'.rounds = s.rounds) : TurnInv s' := by
  unfold TurnInv at *
  rw [h1, h2, h3]; exact h

theorem discoverCycle_inv (C : NetConst) (io : CycleIO) (s : DiscoverState) (h : TurnInv s) :
    TurnInv (discoverCycle C io s) ∧ s.rounds ≤ (discoverCycle C io s).rounds := by
  unfold discoverCycle
  split
  · exact ⟨h, le_refl _⟩
  · split
    · exact ⟨h, le_refl _⟩
    · split
      · exact ⟨h, le_refl _⟩
      · dsimp only
        split
        · exact ⟨h, le_refl _⟩
        · have hs := probeSetup_turn C
            { dev := { s.dev with discover := false }, loc := s.loc, contacted := [],
              rounds := s.rounds, returned := s.returned }
          have ha := probeAll_turn C io (probeSetup C
            { dev := { s.dev with discover := false }, loc := s.loc, contacted := [],
              rounds := s.rounds, returned := s.returned })
          have h2 : TurnInv (probeAll C io (probeSetup C
            { dev := { s.dev with discover := false }, loc := s.loc, contacted := [],
              rounds := s.rounds, returned := s.returned })) :=
            keep_TurnInv s _ h (ha.1.trans hs.1) (ha.2.1.trans hs.2.1) (ha.2.2.trans hs.2.2.1)
          have hr2 : (probeAll C io (probeSetup C
            { dev := { s.dev with discover := false }, loc := s.loc, contacted := [],
              rounds := s.rounds, returned := s.returned })).rounds = s.rounds :=
            ha.2.2.trans hs.2.2.1
          split
          · exact ⟨h2, le_of_eq hr2.symm⟩
          · have hd := discoverDecide_turn C io (probeAll C io (probeSetup C
              { dev := { s.dev with discover := false }, loc := s.loc, contacted := [],
                rounds := s.rounds, returned := s.returned }))
            have h3 := keep_TurnInv _ _ h2 hd.1 hd.2.1 hd.2.2.1
            split
            · have hf := discoverFinish_inv io _ h3
              exact ⟨hf.1, le_trans (le_of_eq (hr2.symm.trans hd.2.2.1.symm)) hf.2⟩
            · exact ⟨h3, le_of_eq (hr2.symm.trans hd.2.2.1.symm)⟩

theorem discoverRun_inv (C : NetConst) (turns : List Turn) : ∀ s : DiscoverState, TurnInv s →
    TurnInv (discoverRun C turns s) ∧ s.rounds ≤ (discoverRun C turns s).rounds := by
  induction turns with
  | nil => intro s h; exact ⟨h, le_refl _⟩
  | cons t rest ih =>
    intro s h
    have h1 := discoverCycle_inv C t.io { s with dev := t.others s.dev } h
    have h2 := ih _ h1.1
    exact ⟨h2.1, le_trans h1.2 h2.2⟩

/-- Claim C19. Within one run of the thread, whatever the other threads and the network do:
`turn` is 0, 1, 2 or 3 at the end of every turn of the loop; `ready` is 0 at the start; it is
1 exactly when the end of the loop body (lines 370-374) has been reached twice or more, that
is from the end of the second turn in which the device was probed, a server answered and
no change of server was made; until then `turn` counts these turns, so two slots of the window
have been written; and `ready` does not go back to 0. -/
theorem turn_and_ready (C : NetConst) (dev : dnbd3_device_t) (j0 : Int) (turns more : List Turn) :
    (discoverInit C dev j0).loc.turn = 0 ∧ (discoverInit C dev j0).loc.ready = 0 ∧
    0 ≤ (discoverRun C turns (discoverInit C dev j0)).loc.turn ∧
    (discoverRun C turns (discoverInit C dev j0)).loc.turn < 4 ∧
    (discoverRun C turns (discoverInit C dev j0)).loc.ready
      = (if 2 ≤ (discoverRun C turns (discoverInit C dev j0)).rounds then 1 else 0) ∧
    ((discoverRun C turns (discoverInit C dev j0)).rounds < 2 →
      (discoverRun C turns (discoverInit C dev j0)).loc.turn
        = (discoverRun C turns (discoverInit C dev j0)).rounds) ∧
    ((discoverRun C turns (discoverInit C dev j0)).loc.ready = 1 →
      (discoverRun C more (discoverRun C turns (discoverInit C dev j0))).loc.ready = 1) := by
  have h0 : TurnInv (discoverInit C dev j0) :=
    ⟨le_refl _, show (0 : Int) < 4 by decide, Or.inl ⟨show 0 < 2 by decide, rfl, rfl⟩⟩
  obtain ⟨⟨a, b, c⟩, _⟩ := discoverRun_inv C turns _ h0
  have hm := discoverRun_inv C more _ ⟨a, b, c⟩
  refine ⟨rfl, rfl, a, b, ?_, ?_, ?_⟩
  · rcases c with ⟨c1, c2, _⟩ | ⟨c1, c2⟩
    · rw [if_neg (by omega)]; exact c2
    · rw [if_pos c1]; exact c2
  · intro hlt
    rcases c with ⟨_, _, c3⟩ | ⟨c1, _⟩
    · exact c3
    · omega
  · intro hr
    rcases c with ⟨_, c2, _⟩ | ⟨c1, _⟩
    · rw [c2] at hr; exact absurd hr (by decide)
    · obtain ⟨⟨_, _, d⟩, hle⟩ := hm
      rcases d with ⟨d1, _, _⟩ | ⟨_, d2⟩
      · omega
      · exact d2

theorem get_existing_alt_lt (addr : sockaddr_storage) (dev : dnbd3_device_t) (k : Nat)
    (h : get_existing_alt_from_addr addr dev = some k) : k < dev.alt_servers.length := by
  unfold get_existing_alt_from_addr at h
  have := List.mem_of_find?_eq_some h
  exact List.mem_range.mp this

theorem getD_mem_of_lt (l : List dnbd3_alt_server_t) (k : Nat) (h : k < l.length) :
    l.getD k emptySlot ∈ l := by
  rw [List.getD_eq_getElem _ _ h]
  exact List.getElem_mem h

theorem getD_set_same (l : List dnbd3_alt_server_t) (k : Nat) (a : dnbd3_alt_server_t)
    (h : k < l.length) : (l.set k a).getD k emptySlot = a := by
  rw [List.getD_eq_getElem _ _ (by rw [List.length_set]; exact h)]
  simp

/-- The value `do_change` has after lines 331-343 when no hung request is found: 1 exactly
when the change on grounds of the RTT was decided. -/
theorem hungCheck_no_hung (io : CycleIO) (loc : DiscoverLocals) (dc : Bool)
    (hhung : ∀ r, io.queue_head = some r → r ≠ loc.last_request) :
    (hungCheck io loc dc).do_change ≠ 0 ↔ dc = true := by
  unfold hungCheck
  split
  · rename_i hc
    cases hq : io.queue_head with
    | none => simp [hc.2.1]
    | some r =>
      have := hhung r hq
      simp [this, hc.2.1]
  · cases dc <;> simp

/-- Claim C15. After the probes of a turn outside panic mode in which a server answered (and
the thread is not told to stop), when no hung request is found: `do_change` is set exactly
when `ready` is set, the best server is not the current one, the start time in microseconds
is not a multiple of 4 (its two low bits are not both 0) and `RTT_THRESHOLD_FACTOR` of the
current RTT exceeds the best RTT plus the threshold; the threshold is 1500 minus ten times
the `best_count` the best server has after its win, or 1500 when the best server is not in
the list any more. -/
theorem change_on_rtt (C : NetConst) (io : CycleIO) (s : DiscoverState)
    (hpanic : s.dev.panic = false) (hbest : s.loc.best_server.ss_family ≠ 0)
    (hstop : io.stop_end = false) (hthread : s.dev.thread_discover = true)
    (hhung : ∀ r, io.queue_head = some r → r ≠ s.loc.last_request)
    (hrtt : 0 ≤ s.loc.best_rtt ∧ s.loc.best_rtt < 2 ^ 63)
    (hcount : ∀ a ∈ s.dev.alt_servers, 0 ≤ a.best_count ∧ a.best_count ≤ 150) :
    (discoverDecide C io s).2 = true ∧
    ((discoverDecide C io s).1.loc.do_change ≠ 0 ↔
      s.loc.ready ≠ 0 ∧ s.loc.best_server ≠ s.dev.cur_server_host ∧
      ktime_to_us s.loc.start % 4 ≠ 0 ∧
      C.RTT_THRESHOLD_FACTOR s.dev.cur_server_rtt > s.loc.best_rtt +
        (match get_existing_alt_from_addr s.loc.best_server s.dev with
         | some k => 1500 - 10 * ((discoverDecide C io s).1.dev.alt_servers.getD k emptySlot).best_count
         | none => 1500)) ∧
    (s.loc.ready = 0 ∨ s.loc.best_server = s.dev.cur_server_host →
      (discoverDecide C io s).1.loc.do_change = 0) := by
  have hp : panicStep C s.dev = s.dev := by unfold panicStep; rw [hpanic]; rfl
  have hc : ¬ (s.loc.best_server.ss_family = 0 ∨ io.stop_end = true
      ∨ ¬ (panicStep C s.dev).thread_discover = true) := by
    rw [hp, hstop, hthread]; simp [hbest]
  have hd : discoverDecide C io s =
      ({ s with dev := { s.dev with alt_servers := (bestWins s.dev s.loc.best_server).1 }
                loc := hungCheck io s.loc
                  (rttChange C s.loc s.dev (bestWins s.dev s.loc.best_server).2) }, true) := by
    unfold discoverDecide
    dsimp only
    rw [if_neg hc, hp]
  have hthr : ∃ thr : Int, 0 ≤ thr ∧ thr ≤ 1500 ∧ (bestWins s.dev s.loc.best_server).2 = thr ∧
      (match get_existing_alt_from_addr s.loc.best_server s.dev with
         | some k => 1500 - 10 * ((bestWins s.dev s.loc.best_server).1.getD k emptySlot).best_count
         | none => 1500) = thr := by
    unfold bestWins
    cases hk : get_existing_alt_from_addr s.loc.best_server s.dev with
    | none => exact ⟨1500, by decide, le_refl _, rfl, rfl⟩
    | some k =>
      have hlt := get_existing_alt_lt _ _ _ hk
      have hb := hcount _ (getD_mem_of_lt _ _ hlt)
      dsimp only
      rw [getD_set_same _ _ _ hlt]
      dsimp only
      split
      · refine ⟨1500 - 10 * ((s.dev.alt_servers.getD k emptySlot).best_count + 3), by omega,
          by omega, ?_, rfl⟩
        unfold i32; omega
      · refine ⟨1500 - 10 * (s.dev.alt_servers.getD k emptySlot).best_count, by omega,
          by omega, ?_, rfl⟩
        unfold i32; omega
  obtain ⟨thr, t0, t1, e1, e2⟩ := hthr
  have hiff : rttChange C s.loc s.dev thr = true ↔
      s.loc.ready ≠ 0 ∧ s.loc.best_server ≠ s.dev.cur_server_host ∧
      ktime_to_us s.loc.start % 4 ≠ 0 ∧
      C.RTT_THRESHOLD_FACTOR s.dev.cur_server_rtt > s.loc.best_rtt + thr := by
    have hu : u64 (s.loc.best_rtt + thr) = s.loc.best_rtt + thr := by
      unfold u64; exact Int.emod_eq_of_lt (by omega) (by omega)
    unfold rttChange is_same_server
    rw [hu]
    simp only [Bool.and_eq_true, decide_eq_true_eq, Bool.not_eq_true', decide_eq_false_iff_not]
    tauto
  rw [hd]
  dsimp only
  rw [e1, e2]
  refine ⟨rfl, ?_, ?_⟩
  · rw [hungCheck_no_hung io s.loc _ hhung]; exact hiff
  · intro h
    by_contra hne
    have := (hiff.mp ((hungCheck_no_hung io s.loc _ hhung).mp hne))
    rcases h with h | h
    · exact this.1 h
    · exact this.2.1 h

/-- Claim C15 on the state `demoProbed`: `ready` is set, host 1 is the best server and not the
current one, the start time is 3000001 microseconds, and two thirds of the current RTT
exceed the best RTT plus the threshold: the change is requested. -/
theorem change_on_rtt_witness :
    demoProbed.loc.ready = 1 ∧ demoProbed.loc.best_server = demoHost 1 ∧
    demoProbed.dev.cur_server_host = demoHost 2 ∧
    (discoverDecide demoNet (demoUnevenTurn 3000001000).io demoProbed).1.loc.do_change ≠ 0 := by
  have h := (change_on_rtt demoNet (demoUnevenTurn 3000001000).io demoProbed (by decide!)
    (by decide!) rfl (by decide!) (by intro r hr; cases hr) (by decide!) (by decide!)).2.1
  exact ⟨by decide!, by decide!, by decide!, h.mpr (by decide!)⟩

/-- The handshake leaves the list of alt servers, the panic flag and the current server as
they are. -/
theorem handshake_keeps (C : NetConst) (dev : dnbd3_device_t) (io : HandshakeIO) (old : Int) :
    (dnbd3_execute_handshake C dev io old).1.alt_servers = dev.alt_servers ∧
    (dnbd3_execute_handshake C dev io old).1.panic = dev.panic ∧
    (dnbd3_execute_handshake C dev io old).1.cur_server_host = dev.cur_server_host := by
  unfold dnbd3_execute_handshake
  split
  · exact ⟨rfl, rfl, rfl⟩
  · dsimp only
    split
    · exact ⟨rfl, rfl, rfl⟩
    · split
      · exact ⟨rfl, rfl, rfl⟩
      · split
        · exact ⟨rfl, rfl, rfl⟩
        · split
          · exact ⟨rfl, rfl, rfl⟩
          · split
            · exact ⟨rfl, rfl, rfl⟩
            · split
              · exact ⟨rfl, rfl, rfl⟩
              · split
                · exact ⟨rfl, rfl, rfl⟩
                · split
                  · exact ⟨rfl, rfl, rfl⟩
                  · split
                    · split
                      · exact ⟨rfl, rfl, rfl⟩
                      · split
                        · exact ⟨rfl, rfl, rfl⟩
                        · exact ⟨rfl, rfl, rfl⟩
                    · split
                      · exact ⟨rfl, rfl, rfl⟩
                      · split
                        · exact ⟨rfl, rfl, rfl⟩
                        · exact ⟨rfl, rfl, rfl⟩

theorem mem_set_inv {P : dnbd3_alt_server_t → Prop} (l : List dnbd3_alt_server_t) (k : Nat)
    (a : dnbd3_alt_server_t) (hl : ∀ x ∈ l, P x) (ha : P a) : ∀ x ∈ l.set k a, P x := by
  intro x hx
  rcases List.mem_or_eq_of_mem_set hx with h | h
  · exact hl x h
  · rw [h]; exact ha

theorem getD_inv {P : dnbd3_alt_server_t → Prop} (l : List dnbd3_alt_server_t) (k : Nat)
    (hl : ∀ x ∈ l, P x) (he : P emptySlot) : P (l.getD k emptySlot) := by
  by_cases h : k < l.length
  · exact hl _ (getD_mem_of_lt l k h)
  · rw [List.getD_eq_default _ _ (by omega)]; exact he

theorem emptySlot_count : 0 ≤ emptySlot.best_count ∧ emptySlot.best_count ≤ 150 := by decide

theorem probeError_count (C : NetConst) (s : DiscoverState) (i : Nat) (h : sockaddr_storage)
    (hs : BestCountInv s.dev) : BestCountInv (probeError C s i h).dev := by
  have ha := getD_inv (P := fun a => 0 ≤ a.best_count ∧ a.best_count ≤ 150) s.dev.alt_servers i hs
    emptySlot_count
  unfold probeError BestCountInv
  dsimp only
  split
  · apply mem_set_inv _ _ _ hs
    unfold probeFailed
    dsimp only
    split <;> omega
  · exact hs

theorem probeSucceeded_count (s : DiscoverState) (i : Nat) (h : sockaddr_storage) (p : ProbeIO)
    (hs : BestCountInv s.dev) : BestCountInv (probeSucceeded s i h p).dev := by
  have ha := getD_inv (P := fun a => 0 ≤ a.best_count ∧ a.best_count ≤ 150) s.dev.alt_servers i hs
    emptySlot_count
  unfold probeSucceeded BestCountInv
  dsimp only
  split
  · apply mem_set_inv _ _ _ hs
    unfold probeAnswered
    dsimp only
    split <;> omega
  · exact hs

theorem probeContact_count (C : NetConst) (s : DiscoverState) (i : Nat) (h : sockaddr_storage)
    (p : ProbeIO) (hs : BestCountInv s.dev) : BestCountInv (probeContact C s i h p).dev := by
  have hk : BestCountInv (dnbd3_execute_handshake C s.dev p.hs s.loc.remote_version).1 := by
    unfold BestCountInv; rw [(handshake_keeps C s.dev p.hs _).1]; exact hs
  unfold probeContact
  dsimp only
  split
  · exact probeError_count C _ i h hs
  · split
    · exact probeError_count C _ i h hk
    · split
      · exact hk
      · split
        · exact probeError_count C _ i h hk
        · exact probeSucceeded_count _ i h p hk

theorem probeOne_count (C : NetConst) (io : CycleIO) (s : DiscoverState) (j : Nat)
    (hs : BestCountInv s.dev) : BestCountInv (probeOne C io s j).dev := by
  unfold probeOne
  dsimp only
  split
  · exact hs
  · split
    · exact hs
    · split
      · exact hs
      · split
        · exact hs
        · exact probeContact_count C _ _ _ _ hs

theorem probeFold_count (C : NetConst) (io : CycleIO) (l : List Nat) : ∀ s : DiscoverState,
    BestCountInv s.dev → BestCountInv (l.foldl (probeOne C io) s).dev := by
  induction l with
  | nil => intro s h; exact h
  | cons a t ih => intro s h; exact ih _ (probeOne_count C io s a h)

theorem probeAll_count (C : NetConst) (io : CycleIO) (s : DiscoverState)
    (hs : BestCountInv s.dev) : BestCountInv (probeAll C io s).dev := by
  unfold probeAll
  dsimp only
  split
  · exact probeFold_count C io _ s hs
  · exact probeFold_count C io _ s hs

theorem probeSetup_dev (C : NetConst) (s : DiscoverState) : (probeSetup C s).dev = s.dev := by
  unfold probeSetup
  dsimp only
  split_ifs <;> rfl

theorem panicStep_alts (C : NetConst) (dev : dnbd3_device_t) :
    (panicStep C dev).alt_servers = dev.alt_servers := by
  unfold panicStep; split <;> rfl

theorem bestWins_count (dev : dnbd3_device_t) (b : sockaddr_storage) (hs : BestCountInv dev) :
    ∀ a ∈ (bestWins dev b).1, 0 ≤ a.best_count ∧ a.best_count ≤ 150 := by
  have ha := fun k => getD_inv (P := fun a => 0 ≤ a.best_count ∧ a.best_count ≤ 150)
    dev.alt_servers k hs emptySlot_count
  unfold bestWins
  split
  · rename_i k _
    apply mem_set_inv _ _ _ hs
    have := ha k
    dsimp only
    split <;> omega
  · exact hs

theorem discoverDecide_count (C : NetConst) (io : CycleIO) (s : DiscoverState)
    (hs : BestCountInv s.dev) : BestCountInv (discoverDecide C io s).1.dev := by
  have hp : BestCountInv (panicStep C s.dev) := by
    unfold BestCountInv; rw [panicStep_alts]; exact hs
  unfold discoverDecide
  dsimp only
  split
  · exact hp
  · exact bestWins_count _ _ hp

theorem discoverFinish_count (io : CycleIO) (s : DiscoverState) (hs : BestCountInv s.dev) :
    BestCountInv (discoverFinish io s).dev := by
  unfold discoverFinish
  split
  · exact hs
  · exact hs

theorem discoverCycle_count (C : NetConst) (io : CycleIO) (s : DiscoverState)
    (hs : BestCountInv s.dev) : BestCountInv (discoverCycle C io s).dev := by
  unfold discoverCycle
  split
  · exact hs
  · split
    · exact hs
    · split
      · exact hs
      · dsimp only
        split
        · exact hs
        · have h2 : BestCountInv (probeAll C io (probeSetup C
              { dev := { s.dev with discover := false }, loc := s.loc, contacted := [],
                rounds := s.rounds, returned := s.returned })).dev := by
            apply probeAll_count
            rw [probeSetup_dev]
            exact hs
          split
          · exact h2
          · split
            · exact discoverFinish_count io _ (discoverDecide_count C io _ h2)
            · exact discoverDecide_count C io _ h2

/-- Claim C16, as amended. From a list in which every `best_count` is 0, over every run of the
thread (whatever the network does, and whatever the other threads do to the device as long as
they leave every `best_count` between 0 and 150), every `best_count` stays between 0 and
150. -/
theorem best_count_range (C : NetConst) (turns : List Turn) (s : DiscoverState)
    (h0 : ∀ a ∈ s.dev.alt_servers, a.best_count = 0)
    (hothers : ∀ t ∈ turns, ∀ d, BestCountInv d → BestCountInv (t.others d)) :
    BestCountInv (discoverRun C turns s).dev := by
  have hs : BestCountInv s.dev := fun a ha => by rw [h0 a ha]; decide
  clear h0
  induction turns generalizing s with
  | nil => exact hs
  | cons t rest ih =>
    apply ih
    · exact fun u hu => hothers u (List.mem_cons_of_mem _ hu)
    · exact discoverCycle_count C t.io _ (hothers t (List.mem_cons_self _ _) _ hs)

/-- Claim C16 fails as stated. One server, which answers in every turn and so is the best of
every turn: after 147 turns of the thread its `best_count` is 149. -/
theorem best_count_reaches_149 :
    ((discoverRun demoNet ((List.range 147).map (fun k => demoTurn (1000001000 + k * 1000000000)))
        (discoverInit demoNet (demoDev 1 10) 0)).dev.alt_servers.map (fun a => a.best_count))
      = [149, 0, 0, 0, 0, 0, 0, 0] := by
  decide!

/-- Claim C16, as amended, on the same run continued to 200 turns. -/
theorem best_count_range_witness :
    BestCountInv (discoverRun demoNet
      ((List.range 200).map (fun k => demoTurn (1000001000 + k * 1000000000)))
      (discoverInit demoNet (demoDev 1 10) 0)).dev :=
  best_count_range demoNet _ _ (by decide!)
    (by
      intro t ht d hd
      rw [List.mem_map] at ht
      obtain ⟨k, _, rfl⟩ := ht
      exact hd)

theorem shuffleLoop_isize (C : NetConst) (n : Nat) : ∀ l : DiscoverLocals,
    (shuffleLoop C n l).isize = l.isize := by
  induction n with
  | zero => intro l; rfl
  | succ n ih =>
    intro l
    unfold shuffleLoop
    split
    · exact ih _
    · rfl

theorem probeSetup_budget (C : NetConst) (s : DiscoverState) :
    (probeSetup C s).dev = s.dev ∧ (probeSetup C s).contacted = s.contacted ∧
    (probeSetup C s).loc.isize =
      (if s.dev.heartbeat_count < C.STARTUP_MODE_DURATION ∨ s.dev.panic then
        (C.NUMBER_SERVERS : Int) else 3) := by
  unfold probeSetup
  dsimp only
  by_cases hm : s.dev.heartbeat_count < C.STARTUP_MODE_DURATION ∨ s.dev.panic
  · simp only [if_pos hm]
    split
    · exact ⟨rfl, rfl, shuffleLoop_isize C _ _⟩
    · exact ⟨rfl, rfl, rfl⟩
  · simp only [if_neg hm]
    split
    · exact ⟨rfl, rfl, shuffleLoop_isize C _ _⟩
    · exact ⟨rfl, rfl, rfl⟩

/-- What a contact changes of the budget and of the bookkeeping: the host is noted, the budget
is left alone. -/
theorem probeContact_budget (C : NetConst) (s : DiscoverState) (i : Nat) (h : sockaddr_storage)
    (p : ProbeIO) :
    (probeContact C s i h p).loc.isize = s.loc.isize ∧
    (probeContact C s i h p).contacted = s.contacted ++ [h] ∧
    (s.dev.panic = false → (probeContact C s i h p).dev.panic = false ∧
      (probeContact C s i h p).dev.cur_server_host = s.dev.cur_server_host) := by
  have hk := handshake_keeps C s.dev p.hs s.loc.remote_version
  unfold probeContact
  dsimp only
  split
  · exact ⟨rfl, rfl, fun hp => ⟨hp, rfl⟩⟩
  · split
    · exact ⟨rfl, rfl, fun hp => ⟨hk.2.1.trans hp, hk.2.2⟩⟩
    · split
      · rename_i hpan
        refine ⟨rfl, rfl, fun hp => ?_⟩
        rw [hk.2.1, hp] at hpan
        exact absurd hpan (by decide)
      · split
        · exact ⟨rfl, rfl, fun hp => ⟨hk.2.1.trans hp, hk.2.2⟩⟩
        · exact ⟨rfl, rfl, fun hp => ⟨hk.2.1.trans hp, hk.2.2⟩⟩

theorem otherHosts_append (cur h : sockaddr_storage) (l : List sockaddr_storage) :
    (otherHosts cur (l ++ [h])).length =
      (otherHosts cur l).length + (if is_same_server cur h then 0 else 1) := by
  unfold otherHosts
  rw [List.filter_append, List.length_append]
  by_cases hc : is_same_server cur h = true
  · simp [hc]
  · simp [hc]

/-- One turn of the loop in steady state: the budget goes down by one at most, and the hosts
contacted other than the current server together with what is left of the budget stay within
the bound `b`. -/
theorem probeOne_steady (C : NetConst) (io : CycleIO) (s : DiscoverState) (j : Nat) (b : Int)
    (hp : s.dev.panic = false) (hlo : -(2 ^ 31 : Int) < s.loc.isize) (hhi : s.loc.isize ≤ b)
    (hb : b < 2 ^ 31)
    (hlen : ((otherHosts s.dev.cur_server_host s.contacted).length : Int) ≤ b)
    (hsum : ((otherHosts s.dev.cur_server_host s.contacted).length : Int) + s.loc.isize ≤ b) :
    (probeOne C io s j).dev.panic = false ∧
    (probeOne C io s j).dev.cur_server_host = s.dev.cur_server_host ∧
    s.loc.isize - 1 ≤ (probeOne C io s j).loc.isize ∧ (probeOne C io s j).loc.isize ≤ b ∧
    ((otherHosts s.dev.cur_server_host (probeOne C io s j).contacted).length : Int) ≤ b ∧
    ((otherHosts s.dev.cur_server_host (probeOne C io s j).contacted).length : Int)
      + (probeOne C io s j).loc.isize ≤ b := by
  have hi : i32 (s.loc.isize - 1) = s.loc.isize - 1 := by
    unfold i32
    have h31 : (2 : Int) ^ 31 = 2147483648 := by norm_num
    have h32 : (2 : Int) ^ 32 = 4294967296 := by norm_num
    rw [h31] at hlo hb
    simp only [h31, h32]
    omega
  unfold probeOne
  dsimp only
  split
  · exact ⟨hp, rfl, by omega, hhi, hlen, hsum⟩
  · split
    · refine ⟨hp, rfl, ?_, ?_, hlen, hsum⟩ <;> dsimp only <;> omega
    · split
      · refine ⟨hp, rfl, ?_, ?_, hlen, hsum⟩ <;> dsimp only <;> omega
      · split
        · refine ⟨hp, rfl, ?_, ?_, hlen, ?_⟩ <;> dsimp only <;> rw [hi] <;> omega
        · rename_i hcond
          obtain ⟨c1, c2, c3⟩ := probeContact_budget C
            { s with loc := { s.loc with j := j, i := (s.loc.check_order.getD j 0).toNat,
                                         isize := i32 (s.loc.isize - 1) } }
            (s.loc.check_order.getD j 0).toNat
            (s.dev.alt_servers.getD (s.loc.check_order.getD j 0).toNat emptySlot).host (io.probe j)
          obtain ⟨c3, c4⟩ := c3 hp
          dsimp only at c1 c2 c3 c4 hcond
          replace c1 := c1.trans hi
          refine ⟨c3, c4, ?_, ?_, ?_, ?_⟩
          · rw [c1]
          · rw [c1]; omega
          · rw [c2, otherHosts_append]
            split
            · simpa using hlen
            · rename_i hsame
              have : ¬ s.loc.isize ≤ 0 := fun h0 => hcond ⟨h0, hsame⟩
              push_cast
              omega
          · rw [c2, otherHosts_append, c1]
            split
            · push_cast; omega
            · rename_i hsame
              have : ¬ s.loc.isize ≤ 0 := fun h0 => hcond ⟨h0, hsame⟩
              push_cast
              omega

theorem probeFold_steady (C : NetConst) (io : CycleIO) (b : Int) (hb : b < 2 ^ 31)
    (cur : sockaddr_storage) (l : List Nat) : ∀ s : DiscoverState,
    s.dev.panic = false → s.dev.cur_server_host = cur →
    -(2 ^ 31 : Int) + l.length < s.loc.isize → s.loc.isize ≤ b →
    ((otherHosts cur s.contacted).length : Int) ≤ b →
    ((otherHosts cur s.contacted).length : Int) + s.loc.isize ≤ b →
    ((otherHosts cur (l.foldl (probeOne C io) s).contacted).length : Int) ≤ b := by
  induction l with
  | nil => intro s _ _ _ _ h _; exact h
  | cons a t ih =>
    intro s hp hc hlo hhi hlen hsum
    subst hc
    have hl : ((a :: t).length : Int) = t.length + 1 := by simp
    rw [hl] at hlo
    obtain ⟨h1, h2, h3, h4, h5, h6⟩ := probeOne_steady C io s a b hp (by omega) hhi hb hlen hsum
    exact ih (probeOne C io s a) h1 h2 (by omega) h4 h5 h6

/-- What a turn of the loop does to the budget, in every mode. -/
theorem probeOne_isize (C : NetConst) (io : CycleIO) (s : DiscoverState) (j : Nat)
    (hlo : 0 < s.loc.isize) (hhi : s.loc.isize < 2 ^ 31) :
    s.loc.isize - 1 ≤ (probeOne C io s j).loc.isize ∧
    (probeOne C io s j).loc.isize ≤ s.loc.isize := by
  have hi : i32 (s.loc.isize - 1) = s.loc.isize - 1 := by
    unfold i32
    have h31 : (2 : Int) ^ 31 = 2147483648 := by norm_num
    have h32 : (2 : Int) ^ 32 = 4294967296 := by norm_num
    rw [h31] at hhi
    simp only [h31, h32]
    omega
  unfold probeOne
  dsimp only
  split
  · omega
  · split
    · dsimp only; omega
    · split
      · dsimp only; omega
      · split
        · dsimp only
          rw [hi]
          omega
        · rw [(probeContact_budget C _ _ _ _).1]
          dsimp only
          rw [hi]
          omega

theorem probeUpTo_succ (C : NetConst) (io : CycleIO) (s : DiscoverState) (j : Nat) :
    probeUpTo C io s (j + 1) = probeOne C io (probeUpTo C io s j) j := by
  unfold probeUpTo
  rw [List.range_succ, List.foldl_append]
  rfl

theorem probeUpTo_isize (C : NetConst) (io : CycleIO) (s : DiscoverState)
    (hs : s.loc.isize = C.NUMBER_SERVERS) (hn : (C.NUMBER_SERVERS : Int) < 2 ^ 31) (j : Nat)
    (hj : j ≤ C.NUMBER_SERVERS) :
    (C.NUMBER_SERVERS : Int) - j ≤ (probeUpTo C io s j).loc.isize ∧
    (probeUpTo C io s j).loc.isize ≤ C.NUMBER_SERVERS := by
  induction j with
  | zero =>
    have : probeUpTo C io s 0 = s := rfl
    rw [this, hs]
    exact ⟨by simp, le_refl _⟩
  | succ j ih =>
    obtain ⟨i1, i2⟩ := ih (by omega)
    rw [probeUpTo_succ]
    obtain ⟨h1, h2⟩ := probeOne_isize C io (probeUpTo C io s j) j (by omega) (by omega)
    push_cast
    constructor <;> omega

/-- With budget left, a slot that is neither empty nor passed over for its failures is
contacted. -/
theorem probeOne_contacts (C : NetConst) (io : CycleIO) (s : DiscoverState) (j : Nat)
    (hb : 0 < s.loc.isize) (hr : s.returned = false) (he : (hostAt s j).ss_family ≠ 0)
    (hf : ¬ (s.dev.panic = false ∧ failsAt s j > 50 ∧ ktime_to_us s.loc.start % 8 ≠ 0)) :
    (probeOne C io s j).contacted = s.contacted ++ [hostAt s j] := by
  unfold hostAt at he ⊢
  unfold failsAt at hf
  have h1 : ¬ s.returned = true := by rw [hr]; decide
  have h3 : ¬ (¬ s.dev.panic = true ∧
      (s.dev.alt_servers.getD (s.loc.check_order.getD j 0).toNat emptySlot).failures > 50 ∧
      ktime_to_us s.loc.start % 8 ≠ 0) :=
    fun h => hf ⟨Bool.eq_false_iff.mpr h.1, h.2.1, h.2.2⟩
  have h4 : ¬ (s.loc.isize ≤ 0 ∧ ¬ is_same_server s.dev.cur_server_host
      (s.dev.alt_servers.getD (s.loc.check_order.getD j 0).toNat emptySlot).host = true) :=
    fun h => absurd h.1 (by omega)
  unfold probeOne
  dsimp only
  rw [if_neg h1, if_neg he, if_neg h3, if_neg h4, (probeContact_budget C _ _ _ _).2.1]

theorem probeAll_contacted (C : NetConst) (io : CycleIO) (s : DiscoverState) :
    (probeAll C io s).contacted = (probeUpTo C io s C.NUMBER_SERVERS).contacted := by
  unfold probeAll probeUpTo
  dsimp only
  split <;> rfl

/-- Claim C18, as amended. For every content of the list, every check order and whatever the
network does: in steady state one pass over the list contacts at most three servers other
than the current server; in startup or panic mode the budget `isize` is positive before
every turn of the pass, so that every slot reached before the thread returns that is neither
empty nor passed over for its failure count is contacted. -/
theorem probe_budget (C : NetConst) (io : CycleIO) (s : DiscoverState)
    (hn : (C.NUMBER_SERVERS : Int) < 2 ^ 31) (hc : s.contacted = []) :
    (s.dev.panic = false → C.STARTUP_MODE_DURATION ≤ s.dev.heartbeat_count →
      (otherHosts s.dev.cur_server_host (probeAll C io (probeSetup C s)).contacted).length ≤ 3) ∧
    (s.dev.heartbeat_count < C.STARTUP_MODE_DURATION ∨ s.dev.panic = true →
      ∀ j, j < C.NUMBER_SERVERS →
        0 < (probeUpTo C io (probeSetup C s) j).loc.isize ∧
        ((probeUpTo C io (probeSetup C s) j).returned = false →
          (hostAt (probeUpTo C io (probeSetup C s) j) j).ss_family ≠ 0 →
          ¬ ((probeUpTo C io (probeSetup C s) j).dev.panic = false ∧
              failsAt (probeUpTo C io (probeSetup C s) j) j > 50 ∧
              ktime_to_us (probeUpTo C io (probeSetup C s) j).loc.start % 8 ≠ 0) →
          (probeOne C io (probeUpTo C io (probeSetup C s) j) j).contacted =
            (probeUpTo C io (probeSetup C s) j).contacted ++
              [hostAt (probeUpTo C io (probeSetup C s) j) j])) := by
  obtain ⟨hd, hct, his⟩ := probeSetup_budget C s
  constructor
  · intro hp hh
    have hm : ¬ (s.dev.heartbeat_count < C.STARTUP_MODE_DURATION ∨ s.dev.panic = true) := by
      rw [hp]
      intro h
      rcases h with h | h
      · omega
      · exact absurd h (by decide)
    rw [if_neg hm] at his
    rw [probeAll_contacted]
    have h31 : (2 : Int) ^ 31 = 2147483648 := by norm_num
    rw [h31] at hn
    have hlen : (List.range C.NUMBER_SERVERS).length = C.NUMBER_SERVERS := List.length_range _
    have h0 : (otherHosts s.dev.cur_server_host (probeSetup C s).contacted).length = 0 := by
      rw [hct, hc]; rfl
    have := probeFold_steady C io 3 (by norm_num) s.dev.cur_server_host
      (List.range C.NUMBER_SERVERS) (probeSetup C s) (by rw [hd]; exact hp) (by rw [hd])
      (by rw [hlen, his, h31]; omega) (by rw [his]) (by rw [h0]; norm_num)
      (by rw [h0, his]; norm_num)
    unfold probeUpTo
    exact_mod_cast this
  · intro hm j hj
    rw [if_pos hm] at his
    obtain ⟨h1, _⟩ := probeUpTo_isize C io (probeSetup C s) his hn j (by omega)
    have hpos : 0 < (probeUpTo C io (probeSetup C s) j).loc.isize := by omega
    have h31 : (2 : Int) ^ 31 = 2147483648 := by norm_num
    exact ⟨hpos, fun hr he hf => probeOne_contacts C io _ j hpos hr he hf⟩

/-- Claim C18 fails as stated. A device in steady state (100 heartbeats, no panic) with the
hosts 1 to 4 in its list, host 4 being the current server: when every server answers, one
pass contacts all four. -/
theorem steady_state_contacts_four :
    (demoDev 4 100).panic = false ∧
    demoNet.STARTUP_MODE_DURATION ≤ (demoDev 4 100).heartbeat_count ∧
    (probeAll demoNet (demoTurn 1000001000).io
      (probeSetup demoNet (discoverInit demoNet (demoDev 4 100) 0))).contacted.length = 4 := by
  decide!

/-- Claim C18, as amended, on the device of the counterexample (three servers contacted besides
the current one) and on the same device during startup (budget left before the last
turn). -/
theorem probe_budget_witness :
    (otherHosts (demoHost 4) (probeAll demoNet (demoTurn 1000001000).io
      (probeSetup demoNet (discoverInit demoNet (demoDev 4 100) 0))).contacted).length ≤ 3 ∧
    0 < (probeUpTo demoNet (demoTurn 1000001000).io
      (probeSetup demoNet (discoverInit demoNet (demoDev 4 10) 0)) 7).loc.isize :=
  ⟨(probe_budget demoNet (demoTurn 1000001000).io (discoverInit demoNet (demoDev 4 100) 0)
      (by decide) rfl).1 rfl (by decide),
   ((probe_budget demoNet (demoTurn 1000001000).io (discoverInit demoNet (demoDev 4 10) 0)
      (by decide) rfl).2 (Or.inl (by decide)) 7 (by decide)).1⟩


/-! ### The carry-less multiplication path of CRC-32 -/

theorem xor_mod_two_pow (a b k : Nat) : (a ^^^ b) % 2 ^ k = a % 2 ^ k ^^^ b % 2 ^ k := by
  apply Nat.eq_of_testBit_eq
  intro i
  simp only [Nat.testBit_xor, Nat.testBit_mod_two_pow]
  by_cases h : i < k <;> simp [h]

theorem xor_shiftLeft (a b i : Nat) : (a ^^^ b) <<< i = a <<< i ^^^ b <<< i := by
  apply Nat.eq_of_testBit_eq
  intro j
  simp only [Nat.testBit_xor, Nat.testBit_shiftLeft]
  by_cases h : j ≥ i <;> simp [h]

theorem xor_xor_xor (p q r s : Nat) : (p ^^^ q) ^^^ (r ^^^ s) = (p ^^^ r) ^^^ (q ^^^ s) := by
  ac_rfl

theorem XorLinear.zero {f : Nat → Nat} (h : XorLinear f) : f 0 = 0 := by
  have := h 0 0
  rw [Nat.xor_self] at this
  have e : f 0 ^^^ f 0 = 0 := Nat.xor_self _
  rw [e] at this
  exact this

theorem XorLinear.comp {f g : Nat → Nat} (hf : XorLinear f) (hg : XorLinear g) :
    XorLinear (fun x => f (g x)) := by
  intro a b
  show f (g (a ^^^ b)) = f (g a) ^^^ f (g b)
  rw [hg, hf]

theorem XorLinear.xor {f g : Nat → Nat} (hf : XorLinear f) (hg : XorLinear g) :
    XorLinear (fun x => f x ^^^ g x) := by
  intro a b
  show f (a ^^^ b) ^^^ g (a ^^^ b) = (f a ^^^ g a) ^^^ (f b ^^^ g b)
  rw [hf, hg, xor_xor_xor]

theorem xorLinear_div (k : Nat) : XorLinear (fun x => x / 2 ^ k) :=
  fun a b => xor_div_two_pow a b k

theorem xorLinear_mod (k : Nat) : XorLinear (fun x => x % 2 ^ k) :=
  fun a b => xor_mod_two_pow a b k

theorem xorLinear_and (m : Nat) : XorLinear (fun x => x &&& m) :=
  fun _ _ => Nat.and_xor_distrib_right

theorem xorLinear_iter (n : Nat) : XorLinear (fun x => refBit^[n] x) :=
  fun a b => refBit_iter_xor n a b

theorem xorLinear_crc128 : XorLinear crc128 := xorLinear_iter 128

theorem xorLinear_lo64 : XorLinear lo64 := xorLinear_mod 64

theorem xorLinear_hi64 : XorLinear hi64 :=
  XorLinear.comp (f := fun x => x % 2 ^ 64) (g := fun x => x / 2 ^ 64) (xorLinear_mod 64)
    (xorLinear_div 64)

theorem clmul_fold_xor (b : Nat) (l : List Nat) : ∀ a c p q : Nat,
    l.foldl (fun acc i => if b.testBit i then acc ^^^ ((a ^^^ c) <<< i) else acc) (p ^^^ q) =
    l.foldl (fun acc i => if b.testBit i then acc ^^^ (a <<< i) else acc) p ^^^
    l.foldl (fun acc i => if b.testBit i then acc ^^^ (c <<< i) else acc) q := by
  induction l with
  | nil => intro a c p q; rfl
  | cons i t ih =>
    intro a c p q
    simp only [List.foldl_cons]
    by_cases h : b.testBit i = true
    · simp only [h, if_true]
      rw [xor_shiftLeft, xor_xor_xor]
      exact ih a c _ _
    · simp only [h]
      exact ih a c p q

theorem xorLinear_clmul (b : Nat) : XorLinear (fun a => clmul a b) := by
  intro a c
  have := clmul_fold_xor b (List.range 64) a c 0 0
  rw [Nat.xor_self] at this
  exact this

theorem clmul_fold_lt (a b : Nat) (ha : a < 2 ^ 64) (l : List Nat) : ∀ p : Nat,
    (∀ i ∈ l, i < 64) → p < 2 ^ 128 →
    l.foldl (fun acc i => if b.testBit i then acc ^^^ (a <<< i) else acc) p < 2 ^ 128 := by
  induction l with
  | nil => intro p _ hp; exact hp
  | cons i t ih =>
    intro p hl hp
    simp only [List.foldl_cons]
    apply ih _ (fun j hj => hl j (List.mem_cons_of_mem _ hj))
    split
    · apply Nat.xor_lt_two_pow hp
      rw [Nat.shiftLeft_eq]
      have hi : i < 64 := hl i (List.mem_cons_self _ _)
      calc a * 2 ^ i < 2 ^ 64 * 2 ^ i := Nat.mul_lt_mul_of_pos_right ha (by positivity)
        _ = 2 ^ (64 + i) := by rw [pow_add]
        _ ≤ 2 ^ 128 := Nat.pow_le_pow_right (by norm_num) (by omega)
    · exact hp

theorem clmul_lt (a b : Nat) (ha : a < 2 ^ 64) : clmul a b < 2 ^ 128 :=
  clmul_fold_lt a b ha _ 0 (fun i hi => List.mem_range.mp hi) (by norm_num)

theorem lo64_lt (x : Nat) : lo64 x < 2 ^ 64 := Nat.mod_lt _ (by norm_num)

theorem hi64_lt (x : Nat) : hi64 x < 2 ^ 64 := Nat.mod_lt _ (by norm_num)

theorem mm_clmul_00 (a b : Nat) : mm_clmulepi64 a b 0x00 = clmul (lo64 a) (lo64 b) := by
  simp [mm_clmulepi64]

theorem mm_clmul_11 (a b : Nat) : mm_clmulepi64 a b 0x11 = clmul (hi64 a) (hi64 b) := by
  have h0 : Nat.testBit 0x11 0 = true := by decide
  have h4 : Nat.testBit 0x11 4 = true := by decide
  simp only [mm_clmulepi64, h0, h4, if_true]

theorem mm_clmul_10 (a b : Nat) : mm_clmulepi64 a b 0x10 = clmul (lo64 a) (hi64 b) := by
  have h0 : Nat.testBit 0x10 0 = false := by decide
  have h4 : Nat.testBit 0x10 4 = true := by decide
  simp only [mm_clmulepi64, h0, h4, if_true, Bool.false_eq_true, if_false]

theorem mm_clmul_lt (a b imm : Nat) : mm_clmulepi64 a b imm < 2 ^ 128 := by
  unfold mm_clmulepi64
  split
  · exact clmul_lt _ _ (hi64_lt a)
  · exact clmul_lt _ _ (lo64_lt a)

theorem xorLinear_mm_clmul (b imm : Nat) : XorLinear (fun a => mm_clmulepi64 a b imm) := by
  unfold mm_clmulepi64
  by_cases h : imm.testBit 0 = true
  · simp only [h, if_true]
    exact XorLinear.comp (f := fun a => clmul a _) (g := hi64) (xorLinear_clmul _) xorLinear_hi64
  · simp only [h]
    exact XorLinear.comp (f := fun a => clmul a _) (g := lo64) (xorLinear_clmul _) xorLinear_lo64

theorem fold16_zero (x y : Nat) : fold16 x y = fold16 x 0 ^^^ y := by
  unfold fold16
  simp only [Nat.xor_zero]
  ac_rfl

theorem xorLinear_fold16 : XorLinear (fun x => fold16 x 0) := by
  unfold fold16
  simp only [Nat.xor_zero]
  exact XorLinear.xor (xorLinear_mm_clmul _ _) (xorLinear_mm_clmul _ _)

theorem xorLinear_lane64 : XorLinear lane64 := by
  unfold lane64
  exact XorLinear.xor (xorLinear_mm_clmul _ _) (xorLinear_mm_clmul _ _)

theorem fold16_lt (x y : Nat) (hy : y < 2 ^ 128) : fold16 x y < 2 ^ 128 := by
  unfold fold16
  exact Nat.xor_lt_two_pow (Nat.xor_lt_two_pow (mm_clmul_lt _ _ _) hy) (mm_clmul_lt _ _ _)

theorem lane64_lt (x : Nat) : lane64 x < 2 ^ 128 := by
  unfold lane64
  exact Nat.xor_lt_two_pow (mm_clmul_lt _ _ _) (mm_clmul_lt _ _ _)

theorem xorLinear_pclFinish : XorLinear pclFinish := by
  have l1 : XorLinear (fun x1 => (x1 / 2 ^ 64)
      ^^^ mm_clmulepi64 x1 (0x01751997d0 + 0x00ccaa009e * 2 ^ 64) 0x10) :=
    XorLinear.xor (xorLinear_div 64) (xorLinear_mm_clmul _ _)
  have l2 : XorLinear (fun z1 => (z1 / 2 ^ 32)
      ^^^ mm_clmulepi64 (z1 &&& (0xffffffff + 0xffffffff * 2 ^ 64)) 0x0163cd6124 0x00) :=
    XorLinear.xor (xorLinear_div 32)
      (XorLinear.comp (f := fun a => mm_clmulepi64 a 0x0163cd6124 0x00)
        (g := fun z => z &&& (0xffffffff + 0xffffffff * 2 ^ 64))
        (xorLinear_mm_clmul _ _) (xorLinear_and _))
  have l3 : XorLinear (fun z2 => mm_clmulepi64 (z2 &&& (0xffffffff + 0xffffffff * 2 ^ 64))
      (0x01db710641 + 0x01f7011641 * 2 ^ 64) 0x10) :=
    XorLinear.comp (f := fun a => mm_clmulepi64 a (0x01db710641 + 0x01f7011641 * 2 ^ 64) 0x10)
      (g := fun z => z &&& (0xffffffff + 0xffffffff * 2 ^ 64))
      (xorLinear_mm_clmul _ _) (xorLinear_and _)
  have l4 : XorLinear (fun t1 => mm_clmulepi64 (t1 &&& (0xffffffff + 0xffffffff * 2 ^ 64))
      (0x01db710641 + 0x01f7011641 * 2 ^ 64) 0x00) :=
    XorLinear.comp (f := fun a => mm_clmulepi64 a (0x01db710641 + 0x01f7011641 * 2 ^ 64) 0x00)
      (g := fun z => z &&& (0xffffffff + 0xffffffff * 2 ^ 64))
      (xorLinear_mm_clmul _ _) (xorLinear_and _)
  have l5 : XorLinear (fun x => (x / 2 ^ 32) % 2 ^ 32) :=
    XorLinear.comp (f := fun x => x % 2 ^ 32) (g := fun x => x / 2 ^ 32) (xorLinear_mod 32)
      (xorLinear_div 32)
  have l34 := XorLinear.comp l4 l3
  have l6 := XorLinear.comp l5 (XorLinear.xor (f := fun z2 => z2) (fun _ _ => rfl) l34)
  have l7 := XorLinear.comp l6 (XorLinear.comp l2 l1)
  intro a b
  exact l7 a b

/-- Two functions that commute with exclusive or and agree on the powers of two below `2 ^ n`
agree on every number below `2 ^ n`. -/
theorem xorLinear_ext (f g : Nat → Nat) (hf : XorLinear f) (hg : XorLinear g) (n : Nat)
    (h : ∀ i, i < n → f (2 ^ i) = g (2 ^ i)) : ∀ x, x < 2 ^ n → f x = g x := by
  induction n with
  | zero =>
    intro x hx
    have : x = 0 := by simpa using hx
    rw [this, hf.zero, hg.zero]
  | succ n ih =>
    intro x hx
    have hx2 := split_low x n
    have hlo : x % 2 ^ n < 2 ^ n := Nat.mod_lt _ (by positivity)
    have hhi : x / 2 ^ n < 2 := by
      rw [Nat.div_lt_iff_lt_mul (by positivity)]
      rw [pow_succ] at hx
      omega
    have e1 := ih (fun i hi => h i (by omega)) _ hlo
    rw [hx2, hf, hg, e1]
    congr 1
    rcases Nat.lt_succ_iff.mp hhi with h01
    interval_cases hq : x / 2 ^ n
    · simp [hf.zero, hg.zero]
    · simpa using h n (by omega)

theorem fold16_basis : ∀ i, i < 128 → crc128 (fold16 (2 ^ i) 0) = crc128 (crc128 (2 ^ i)) := by
  decide!

theorem lane64_basis : ∀ i, i < 128 →
    crc128 (lane64 (2 ^ i)) = crc128 (crc128 (crc128 (crc128 (crc128 (2 ^ i))))) := by
  decide!

theorem pclFinish_basis : ∀ i, i < 128 → pclFinish (2 ^ i) = crc128 (2 ^ i) := by
  decide!

/-- Folding an accumulator over sixteen bytes stands for sixteen bytes of zeros fed after
it. -/
theorem fold16_key (x y : Nat) (hx : x < 2 ^ 128) : crc128 (fold16 x y) = crc128 (crc128 x ^^^ y) := by
  have key : crc128 (fold16 x 0) = crc128 (crc128 x) :=
    xorLinear_ext (fun x => crc128 (fold16 x 0)) (fun x => crc128 (crc128 x))
      (XorLinear.comp xorLinear_crc128 xorLinear_fold16)
      (XorLinear.comp xorLinear_crc128 xorLinear_crc128) 128 fold16_basis x hx
  have h1 : crc128 (fold16 x 0 ^^^ y) = crc128 (fold16 x 0) ^^^ crc128 y := xorLinear_crc128 _ _
  have h2 : crc128 (crc128 x ^^^ y) = crc128 (crc128 x) ^^^ crc128 y := xorLinear_crc128 _ _
  rw [fold16_zero, h1, h2, key]

/-- Folding an accumulator over 64 bytes stands for 64 bytes of zeros fed after it. -/
theorem lane64_key (x : Nat) (hx : x < 2 ^ 128) :
    crc128 (lane64 x) = crc128 (crc128 (crc128 (crc128 (crc128 x)))) :=
  xorLinear_ext (fun x => crc128 (lane64 x))
    (fun x => crc128 (crc128 (crc128 (crc128 (crc128 x)))))
    (XorLinear.comp xorLinear_crc128 xorLinear_lane64)
    (XorLinear.comp xorLinear_crc128 (XorLinear.comp xorLinear_crc128
      (XorLinear.comp xorLinear_crc128 (XorLinear.comp xorLinear_crc128 xorLinear_crc128))))
    128 lane64_basis x hx

/-- The end of `crc32pclmul` is the register after the sixteen bytes of the accumulator. -/
theorem pclFinish_key (x : Nat) (hx : x < 2 ^ 128) : pclFinish x = crc128 x :=
  xorLinear_ext pclFinish crc128 xorLinear_pclFinish xorLinear_crc128 128 pclFinish_basis x hx

theorem leValue_append (l1 l2 : List Nat) :
    leValue (l1 ++ l2) = leValue l1 + leValue l2 * 2 ^ (8 * l1.length) := by
  induction l1 with
  | nil => simp [leValue]
  | cons b t ih =>
    show leValue (b :: (t ++ l2)) = leValue (b :: t) + leValue l2 * 2 ^ (8 * (t.length + 1))
    simp only [leValue]
    rw [ih]
    ring

theorem leValue_lt (l : List Nat) (hb : ∀ b ∈ l, b < 256) : leValue l < 2 ^ (8 * l.length) := by
  induction l with
  | nil => simp [leValue]
  | cons b t ih =>
    have h1 := hb b (List.mem_cons_self _ _)
    have h2 := ih (fun x hx => hb x (List.mem_cons_of_mem _ hx))
    simp only [leValue, List.length_cons]
    have e : 2 ^ (8 * (t.length + 1)) = 2 ^ (8 * t.length) * 2 ^ 8 := by ring
    rw [e]
    have e8 : (2 : Nat) ^ 8 = 256 := by norm_num
    rw [e8]
    generalize 2 ^ (8 * t.length) = P at h2 ⊢
    omega

theorem loadu_fold (buf : List Nat) (n : Nat) :
    (List.range n).foldl (fun acc i => acc + buf.getD i 0 * 2 ^ (8 * i)) 0
      = leValue (buf.take n) := by
  induction n with
  | zero => simp [leValue]
  | succ n ih =>
    rw [List.range_succ, List.foldl_append, ih]
    simp only [List.foldl_cons, List.foldl_nil]
    by_cases h : n < buf.length
    · have e : buf.take (n + 1) = buf.take n ++ [buf.getD n 0] := by
        rw [List.take_succ]
        simp [List.getD_eq_getElem?_getD, List.getElem?_eq_getElem h]
      rw [e, leValue_append]
      simp [leValue, List.length_take, Nat.min_eq_left (Nat.le_of_lt h)]
    · have h1 : buf.take (n + 1) = buf := List.take_of_length_le (by omega)
      have h2 : buf.take n = buf := List.take_of_length_le (by omega)
      have h3 : buf.getD n 0 = 0 := List.getD_eq_default _ _ (by omega)
      rw [h1, h2, h3]
      simp

theorem mm_loadu_eq (buf : List Nat) : mm_loadu buf = leValue (buf.take 16) :=
  loadu_fold buf 16

theorem mm_loadu_lt (buf : List Nat) (hb : ∀ b ∈ buf, b < 256) : mm_loadu buf < 2 ^ 128 := by
  rw [mm_loadu_eq]
  have h := leValue_lt (buf.take 16) (fun b h => hb b (List.mem_of_mem_take h))
  have hl : (buf.take 16).length ≤ 16 := by simp
  exact lt_of_lt_of_le h (Nat.pow_le_pow_right (by norm_num) (by omega))

theorem leValue_split16 (buf : List Nat) (hb : ∀ b ∈ buf, b < 256) (hl : 16 ≤ buf.length) :
    leValue buf = mm_loadu buf ^^^ leValue (buf.drop 16) * 2 ^ 128 := by
  have h := leValue_append (buf.take 16) (buf.drop 16)
  rw [List.take_append_drop] at h
  have hlen : (buf.take 16).length = 16 := by simp [hl]
  rw [hlen] at h
  rw [h, mm_loadu_eq]
  have hlt := leValue_lt (buf.take 16) (fun b h => hb b (List.mem_of_mem_take h))
  rw [hlen] at hlt
  exact add_shift_eq_xor _ _ 128 hlt

/-- The byte loop of the reference is the bit loop over the little-endian value of the
buffer. -/
theorem foldl_refByte_bits (buf : List Nat) : ∀ c, (∀ b ∈ buf, b < 256) →
    buf.foldl refByte c = refBit^[8 * buf.length] (c ^^^ leValue buf) := by
  induction buf with
  | nil => intro c _; simp [leValue]
  | cons b t ih =>
    intro c hb
    have h1 := hb b (List.mem_cons_self _ _)
    simp only [List.foldl_cons, List.length_cons, leValue]
    rw [ih _ (fun x hx => hb x (List.mem_cons_of_mem _ hx))]
    have e : 8 * (t.length + 1) = 8 * t.length + 8 := by ring
    rw [e, Function.iterate_add_apply, add_shift_eq_xor b _ 8 (by omega), ← Nat.xor_assoc,
      refBit_iter_xor 8, refBit_iter_shift]
    rfl

/-- Sixteen bytes of the buffer go into the register. -/
theorem peel16 (a : Nat) (buf : List Nat) (hb : ∀ b ∈ buf, b < 256) (hl : 16 ≤ buf.length) :
    refBit^[8 * buf.length] (a ^^^ leValue buf) =
      refBit^[8 * (buf.drop 16).length] (crc128 (a ^^^ mm_loadu buf) ^^^ leValue (buf.drop 16)) := by
  have e : 8 * buf.length = 8 * (buf.drop 16).length + 128 := by
    rw [List.length_drop]; omega
  rw [e, Function.iterate_add_apply, leValue_split16 buf hb hl, ← Nat.xor_assoc,
    refBit_iter_xor 128, refBit_iter_shift]
  rfl

theorem pclLoop16_ok (fuel : Nat) : ∀ (y : Nat) (buf : List Nat), buf.length ≤ fuel →
    y < 2 ^ 128 → (∀ b ∈ buf, b < 256) → buf.length % 16 = 0 →
    (pclLoop16 fuel y buf).1 < 2 ^ 128 ∧
    crc128 (pclLoop16 fuel y buf).1 = refBit^[8 * buf.length] (crc128 y ^^^ leValue buf) := by
  induction fuel with
  | zero =>
    intro y buf hf hy _ _
    have : buf = [] := List.length_eq_zero.mp (by omega)
    subst this
    exact ⟨hy, by simp [pclLoop16, leValue]⟩
  | succ n ih =>
    intro y buf hf hy hb h16
    unfold pclLoop16
    by_cases h : buf.length ≥ 16
    · rw [if_pos h]
      have hbd : ∀ b ∈ buf.drop 16, b < 256 := fun b h => hb b (List.mem_of_mem_drop h)
      have hm := mm_loadu_lt buf hb
      obtain ⟨i1, i2⟩ := ih (fold16 y (mm_loadu buf)) (buf.drop 16)
        (by rw [List.length_drop]; omega) (fold16_lt _ _ hm) hbd
        (by rw [List.length_drop]; omega)
      refine ⟨i1, ?_⟩
      rw [i2, fold16_key y _ hy, peel16 _ buf hb h]
    · rw [if_neg h]
      have : buf = [] := List.length_eq_zero.mp (by omega)
      subst this
      exact ⟨hy, by simp [leValue]⟩

theorem drop16_drop (buf : List Nat) (k : Nat) : (buf.drop k).drop 16 = buf.drop (k + 16) := by
  rw [List.drop_drop, Nat.add_comm]

/-- Four times sixteen bytes of the buffer go into the register. -/
theorem peel64 (a : Nat) (buf : List Nat) (hb : ∀ b ∈ buf, b < 256) (hl : 64 ≤ buf.length) :
    refBit^[8 * buf.length] (a ^^^ leValue buf) =
      refBit^[8 * (buf.drop 64).length]
        (crc128 (crc128 (crc128 (crc128 (a ^^^ mm_loadu buf) ^^^ mm_loadu (buf.drop 16))
          ^^^ mm_loadu (buf.drop 32)) ^^^ mm_loadu (buf.drop 48)) ^^^ leValue (buf.drop 64)) := by
  have hd : ∀ k, ∀ b ∈ buf.drop k, b < 256 := fun k b h => hb b (List.mem_of_mem_drop h)
  rw [peel16 a buf hb (by omega),
    peel16 _ (buf.drop 16) (hd 16) (by rw [List.length_drop]; omega), drop16_drop,
    peel16 _ (buf.drop 32) (hd 32) (by rw [List.length_drop]; omega), drop16_drop,
    peel16 _ (buf.drop 48) (hd 48) (by rw [List.length_drop]; omega), drop16_drop]

theorem fold64_eq (x : Nat × Nat × Nat × Nat) (buf : List Nat) :
    fold64 x buf = (lane64 x.1 ^^^ mm_loadu buf, lane64 x.2.1 ^^^ mm_loadu (buf.drop 16),
      lane64 x.2.2.1 ^^^ mm_loadu (buf.drop 32), lane64 x.2.2.2 ^^^ mm_loadu (buf.drop 48)) := rfl

/-- One turn of the 64-byte loop in terms of the register: the accumulators folded and the
new bytes added stand for the old accumulators followed by the new bytes. -/
theorem acc4_fold64 (x : Nat × Nat × Nat × Nat) (buf : List Nat) (h1 : x.1 < 2 ^ 128)
    (h2 : x.2.1 < 2 ^ 128) (h3 : x.2.2.1 < 2 ^ 128) (h4 : x.2.2.2 < 2 ^ 128) :
    acc4 (fold64 x buf) =
      crc128 (crc128 (crc128 (crc128 (acc4 x ^^^ mm_loadu buf) ^^^ mm_loadu (buf.drop 16))
          ^^^ mm_loadu (buf.drop 32)) ^^^ mm_loadu (buf.drop 48)) := by
  have glin : ∀ a b, crc128 (a ^^^ b) = crc128 a ^^^ crc128 b := xorLinear_crc128
  rw [fold64_eq]
  unfold acc4
  dsimp only
  repeat rw [glin]
  rw [lane64_key x.1 h1, lane64_key x.2.1 h2, lane64_key x.2.2.1 h3, lane64_key x.2.2.2 h4]
  generalize crc128 (crc128 (crc128 (crc128 (crc128 (crc128 (crc128 (crc128 x.1))))))) = a1
  generalize crc128 (crc128 (crc128 (crc128 (crc128 (crc128 (crc128 x.2.1)))))) = a2
  generalize crc128 (crc128 (crc128 (crc128 (crc128 (crc128 x.2.2.1))))) = a3
  generalize crc128 (crc128 (crc128 (crc128 (crc128 x.2.2.2)))) = a4
  generalize crc128 (crc128 (crc128 (crc128 (mm_loadu buf)))) = b1
  generalize crc128 (crc128 (crc128 (mm_loadu (buf.drop 16)))) = b2
  generalize crc128 (crc128 (mm_loadu (buf.drop 32))) = b3
  generalize crc128 (mm_loadu (buf.drop 48)) = b4
  ac_rfl

theorem pclLoop64_ok (fuel : Nat) : ∀ (x : Nat × Nat × Nat × Nat) (buf : List Nat),
    buf.length ≤ fuel → x.1 < 2 ^ 128 → x.2.1 < 2 ^ 128 → x.2.2.1 < 2 ^ 128 →
    x.2.2.2 < 2 ^ 128 → (∀ b ∈ buf, b < 256) → buf.length % 16 = 0 →
    (pclLoop64 fuel x buf).2.length < 64 ∧ (pclLoop64 fuel x buf).2.length % 16 = 0 ∧
    (∀ b ∈ (pclLoop64 fuel x buf).2, b < 256) ∧
    (pclLoop64 fuel x buf).1.1 < 2 ^ 128 ∧ (pclLoop64 fuel x buf).1.2.1 < 2 ^ 128 ∧
    (pclLoop64 fuel x buf).1.2.2.1 < 2 ^ 128 ∧ (pclLoop64 fuel x buf).1.2.2.2 < 2 ^ 128 ∧
    refBit^[8 * (pclLoop64 fuel x buf).2.length]
        (acc4 (pclLoop64 fuel x buf).1 ^^^ leValue (pclLoop64 fuel x buf).2)
      = refBit^[8 * buf.length] (acc4 x ^^^ leValue buf) := by
  induction fuel with
  | zero =>
    intro x buf hf h1 h2 h3 h4 hb h16
    have : buf = [] := List.length_eq_zero.mp (by omega)
    subst this
    exact ⟨Nat.zero_lt_succ _, rfl, hb, h1, h2, h3, h4, rfl⟩
  | succ n ih =>
    intro x buf hf h1 h2 h3 h4 hb h16
    unfold pclLoop64
    by_cases h : buf.length ≥ 64
    · rw [if_pos h]
      have hd : ∀ k, ∀ b ∈ buf.drop k, b < 256 := fun k b h => hb b (List.mem_of_mem_drop h)
      have hm : ∀ k, mm_loadu (buf.drop k) < 2 ^ 128 := fun k => mm_loadu_lt _ (hd k)
      have hx := fold64_eq x buf
      obtain ⟨i1, i2, i3, i4, i5, i6, i7, i8⟩ := ih (fold64 x buf) (buf.drop 64)
        (by rw [List.length_drop]; omega)
        (by rw [hx]; exact Nat.xor_lt_two_pow (lane64_lt _) (mm_loadu_lt _ hb))
        (by rw [hx]; exact Nat.xor_lt_two_pow (lane64_lt _) (hm 16))
        (by rw [hx]; exact Nat.xor_lt_two_pow (lane64_lt _) (hm 32))
        (by rw [hx]; exact Nat.xor_lt_two_pow (lane64_lt _) (hm 48))
        (hd 64) (by rw [List.length_drop]; omega)
      refine ⟨i1, i2, i3, i4, i5, i6, i7, ?_⟩
      rw [i8, acc4_fold64 x buf h1 h2 h3 h4, peel64 _ buf hb h]
    · rw [if_neg h]
      exact ⟨Nat.lt_of_not_le h, h16, hb, h1, h2, h3, h4, rfl⟩

theorem crc32pclmul_unfold (c : Nat) (buf : List Nat) :
    crc32pclmul c buf =
      pclFinish (pclLoop16 buf.length
        (fold16 (fold16 (fold16
          (pclLoop64 buf.length (mm_loadu buf ^^^ c, mm_loadu (buf.drop 16),
            mm_loadu (buf.drop 32), mm_loadu (buf.drop 48)) (buf.drop 64)).1.1
          (pclLoop64 buf.length (mm_loadu buf ^^^ c, mm_loadu (buf.drop 16),
            mm_loadu (buf.drop 32), mm_loadu (buf.drop 48)) (buf.drop 64)).1.2.1)
          (pclLoop64 buf.length (mm_loadu buf ^^^ c, mm_loadu (buf.drop 16),
            mm_loadu (buf.drop 32), mm_loadu (buf.drop 48)) (buf.drop 64)).1.2.2.1)
          (pclLoop64 buf.length (mm_loadu buf ^^^ c, mm_loadu (buf.drop 16),
            mm_loadu (buf.drop 32), mm_loadu (buf.drop 48)) (buf.drop 64)).1.2.2.2)
        (pclLoop64 buf.length (mm_loadu buf ^^^ c, mm_loadu (buf.drop 16),
            mm_loadu (buf.drop 32), mm_loadu (buf.drop 48)) (buf.drop 64)).2).1 := rfl

/-- The three folds after the 64-byte loop bring the four accumulators into one. -/
theorem acc4_fold16 (x : Nat × Nat × Nat × Nat) (h1 : x.1 < 2 ^ 128) (h2 : x.2.1 < 2 ^ 128)
    (h3 : x.2.2.1 < 2 ^ 128) :
    crc128 (fold16 (fold16 (fold16 x.1 x.2.1) x.2.2.1) x.2.2.2) = acc4 x := by
  unfold acc4
  rw [fold16_key _ _ (fold16_lt _ _ h3), fold16_key _ _ (fold16_lt _ _ h2), fold16_key _ _ h1]

/-- The carry-less multiplication path computes what the byte loop over the table
computes. -/
theorem crc32pclmul_fold (c : Nat) (buf : List Nat) (hc : c < 2 ^ 32) (hb : ∀ b ∈ buf, b < 256)
    (hlen : 64 ≤ buf.length) (h16 : buf.length % 16 = 0) :
    crc32pclmul c buf = buf.foldl crcByte c := by
  have hd : ∀ k, ∀ b ∈ buf.drop k, b < 256 := fun k b h => hb b (List.mem_of_mem_drop h)
  have hm : ∀ k, mm_loadu (buf.drop k) < 2 ^ 128 := fun k => mm_loadu_lt _ (hd k)
  have hc128 : c < 2 ^ 128 := lt_of_lt_of_le hc (Nat.pow_le_pow_right (by norm_num) (by norm_num))
  obtain ⟨r1, r2, r3, r4, r5, r6, r7, r8⟩ := pclLoop64_ok buf.length
    (mm_loadu buf ^^^ c, mm_loadu (buf.drop 16), mm_loadu (buf.drop 32), mm_loadu (buf.drop 48))
    (buf.drop 64) (by rw [List.length_drop]; omega)
    (Nat.xor_lt_two_pow (mm_loadu_lt _ hb) hc128) (hm 16) (hm 32) (hm 48) (hd 64)
    (by rw [List.length_drop]; omega)
  rw [crc32pclmul_unfold]
  generalize pclLoop64 buf.length
    (mm_loadu buf ^^^ c, mm_loadu (buf.drop 16), mm_loadu (buf.drop 32), mm_loadu (buf.drop 48))
    (buf.drop 64) = r at r1 r2 r3 r4 r5 r6 r7 r8 ⊢
  have hy3 : fold16 (fold16 (fold16 r.1.1 r.1.2.1) r.1.2.2.1) r.1.2.2.2 < 2 ^ 128 :=
    fold16_lt _ _ r7
  obtain ⟨s1, s2⟩ := pclLoop16_ok buf.length _ r.2 (by omega) hy3 r3 r2
  rw [pclFinish_key _ s1, s2, acc4_fold16 r.1 r4 r5 r6, r8]
  rw [foldl_crcByte_eq_ref buf c hb, foldl_refByte_bits buf c hb, peel64 c buf hb hlen]
  unfold acc4
  rw [Nat.xor_comm c (mm_loadu buf)]

/-- The function `crc32` on the path with the carry-less multiplication is the byte loop over
the whole buffer. -/
theorem crc32_pclmul_fold (crc addr : Nat) (buf : List Nat) (hcrc : crc < 2 ^ 32)
    (hb : ∀ b ∈ buf, b < 256) :
    crc32 true crc addr (some buf) = buf.foldl crcByte (crc ^^^ 0xffffffff) ^^^ 0xffffffff := by
  have hc : crc ^^^ 0xffffffff < 2 ^ 32 := Nat.xor_lt_two_pow hcrc (by norm_num)
  obtain ⟨a1, a2, a3⟩ := crcAlign_ok buf addr _ hc hb
  by_cases h : (crcAlign addr (crc ^^^ 0xffffffff) buf).2.length ≥ 64
  · simp only [crc32, Nat.mod_eq_of_lt hcrc, true_and, if_pos h, crcTail]
    generalize crcAlign addr (crc ^^^ 0xffffffff) buf = a at a1 a2 a3 h ⊢
    have hbt : ∀ b ∈ a.2.take (a.2.length / 16 * 16), b < 256 :=
      fun b h => a3 b (List.mem_of_mem_take h)
    have hl : (a.2.take (a.2.length / 16 * 16)).length = a.2.length / 16 * 16 := by
      rw [List.length_take]; omega
    rw [crc32pclmul_fold a.1 _ a2 hbt (by rw [hl]; omega) (by rw [hl]; omega),
      ← List.foldl_append, List.take_append_drop, a1]
  · have e : crc32 true crc addr (some buf) = crc32 false crc addr (some buf) := by
      simp only [crc32, Nat.mod_eq_of_lt hcrc, true_and, if_neg h, false_and, if_false,
        Bool.false_eq_true]
    rw [e, crc32_table_fold crc addr buf hcrc hb]

/-- Claim C20. For every 32-bit state `c` and every buffer of at least 64 bytes whose length
is a multiple of 16, `crc32pclmul` (with the exact carry-less product of two 64-bit values
and 128-bit exclusive or and shifts) gives the state the table-driven byte loop
`c = crc_table[0][(c ^ byte) & 0xff] ^ (c >> 8)` gives on the same bytes; hence `crc32`
returns the same value on both paths, for every 32-bit `crc`, every address and every
buffer (and 0 for the `NULL` buffer on both). -/
theorem pclmul_agrees (c : Nat) (buf : List Nat) (hc : c < 2 ^ 32) (hb : ∀ b ∈ buf, b < 256)
    (hlen : 64 ≤ buf.length) (h16 : buf.length % 16 = 0) :
    crc32pclmul c buf = buf.foldl crcByte c ∧
    (∀ crc addr : Nat, ∀ bytes : List Nat, crc < 2 ^ 32 → (∀ b ∈ bytes, b < 256) →
      crc32 true crc addr (some bytes) = crc32 false crc addr (some bytes)) ∧
    (∀ crc addr : Nat, crc32 true crc addr none = crc32 false crc addr none) := by
  refine ⟨crc32pclmul_fold c buf hc hb hlen h16, ?_, fun _ _ => rfl⟩
  intro crc addr bytes hcrc hbytes
  rw [crc32_pclmul_fold crc addr bytes hcrc hbytes, crc32_table_fold crc addr bytes hcrc hbytes]

/-- Claim C20 on eighty bytes: from the state 0x12345678 both computations agree, and `crc32`
agrees with itself on both paths for the buffer at address 3. -/
theorem pclmul_agrees_witness :
    crc32pclmul 0x12345678 pclBytes = pclBytes.foldl crcByte 0x12345678 ∧
    crc32 true 0 3 (some pclBytes) = crc32 false 0 3 (some pclBytes) :=
  ⟨(pclmul_agrees 0x12345678 pclBytes (by decide) (by decide!) (by decide!) (by decide!)).1,
   (pclmul_agrees 0x12345678 pclBytes (by decide) (by decide!) (by decide!) (by decide!)).2.1
      0 3 pclBytes (by decide) (by decide!)⟩

/-! ### Bitmaps, for both values -/

/-- The effect of `setBits` on a bit of the byte, for both values. -/
theorem setBits_testBit (byte : Nat) (f t : Int) (v : Bool) (j : Nat) (hf0 : 0 ≤ f)
    (hft : f - 1 ≤ t) (ht : t ≤ 7) (hj : j < 8) :
    (setBits byte f t v).testBit j
      = if f ≤ (j : Int) ∧ (j : Int) ≤ t then v else byte.testBit j := by
  cases v
  · have hm : ((255 >>> (7 - (t - f)).toNat) <<< f.toNat) % 256 < 2 ^ 8 :=
      Nat.mod_lt _ (by norm_num)
    have e : 255 - ((255 >>> (7 - (t - f)).toNat) <<< f.toNat) % 256
        = 2 ^ 8 - (((255 >>> (7 - (t - f)).toNat) <<< f.toNat) % 256 + 1) := by
      have : (2 : Nat) ^ 8 = 256 := by norm_num
      omega
    simp only [setBits, Bool.false_eq_true, if_false, Nat.testBit_and]
    rw [e, Nat.testBit_two_pow_sub_succ hm, setBits_mask f t j hf0 hft ht]
    by_cases h : f ≤ (j : Int) ∧ (j : Int) ≤ t
    · simp [h]
    · simp [h, hj]
  · rw [setBits_true_testBit byte f t j hf0 hft ht]
    by_cases h : f ≤ (j : Int) ∧ (j : Int) ≤ t
    · simp [h]
    · simp [h]

/-- The bytes after the loop of `setBitsInBitfield`: each byte from `i` on, `n` of them, has
gone through `setBits` once, the others are as before. -/
theorem setBitsLoop_apply (t : Int) (v : Bool) (n : Nat) : ∀ (i f : Int) (bf : Int → Nat) (j : Int),
    setBitsLoop t v n i f bf j
      = if i ≤ j ∧ j < i + n then
          setBits (bf j) ((if j = i then f else j * 8) - j * 8) (min 7 (t - j * 8)) v
        else bf j := by
  induction n with
  | zero =>
    intro i f bf j
    have : ¬ (i ≤ j ∧ j < i + ((0 : Nat) : Int)) := by omega
    simp only [setBitsLoop, if_neg this]
  | succ n ih =>
    intro i f bf j
    simp only [setBitsLoop]
    rw [ih]
    by_cases hji : j = i
    · subst hji
      have h1 : ¬ (j + 1 ≤ j ∧ j < j + 1 + (n : Int)) := by omega
      have h2 : j ≤ j ∧ j < j + ((n + 1 : Nat) : Int) := by push_cast; omega
      rw [if_neg h1, if_pos h2, Function.update_same, if_pos rfl]
    · rw [Function.update_noteq hji]
      by_cases h : i + 1 ≤ j ∧ j < i + 1 + (n : Int)
      · have h2 : i ≤ j ∧ j < i + ((n + 1 : Nat) : Int) := by push_cast; omega
        have h3 : j ≠ i + 1 ∨ j = i + 1 := by omega
        rw [if_pos h, if_pos h2, if_neg hji]
        by_cases h4 : j = i + 1
        · rw [if_pos h4, h4]
        · rw [if_neg h4]
      · have h2 : ¬ (i ≤ j ∧ j < i + ((n + 1 : Nat) : Int)) := by push_cast; omega
        rw [if_neg h, if_neg h2]

/-- The bytes after `setBitsInBitfield`. -/
theorem setBitsInBitfield_apply (bf : Int → Nat) (f t : Int) (v : Bool) (hf0 : 0 ≤ f)
    (hft : f ≤ t) (j : Int) :
    setBitsInBitfield bf f t v j
      = if f / 8 ≤ j ∧ j ≤ t / 8 then
          setBits (bf j) (max f (j * 8) - j * 8) (min 7 (t - j * 8)) v
        else bf j := by
  simp only [setBitsInBitfield, Int.tdiv_eq_ediv hf0 (by norm_num : (0 : Int) ≤ 8),
    Int.tdiv_eq_ediv (le_trans hf0 hft) (by norm_num : (0 : Int) ≤ 8)]
  rw [setBitsLoop_apply]
  have hn : (((t / 8 - f / 8 + 1).toNat : Nat) : Int) = t / 8 - f / 8 + 1 := by omega
  rw [hn]
  by_cases h : f / 8 ≤ j ∧ j ≤ t / 8
  · have h2 : f / 8 ≤ j ∧ j < f / 8 + (t / 8 - f / 8 + 1) := by omega
    rw [if_pos h, if_pos h2]
    congr 1
    by_cases h3 : j = f / 8
    · rw [if_pos h3]; omega
    · rw [if_neg h3]; omega
  · have h2 : ¬ (f / 8 ≤ j ∧ j < f / 8 + (t / 8 - f / 8 + 1)) := by omega
    rw [if_neg h, if_neg h2]

/-- Claim C22. For every bitmap, every `0 ≤ from ≤ to` and every value `v`: after
`setBitsInBitfield (bitfield, from, to, v)` the bit `n` reads as `v` for `from ≤ n ≤ to` and
as before for every other `n ≥ 0`; the bytes outside `from / 8 .. to / 8` are not written, and each
byte inside has gone through `setBits` (one fetch-or or fetch-and) exactly once. -/
theorem setBitsInBitfield_spec (bf : Int → Nat) (f t : Int) (v : Bool) (hf0 : 0 ≤ f)
    (hft : f ≤ t) :
    (∀ n, 0 ≤ n → checkBit (setBitsInBitfield bf f t v) n
        = if f ≤ n ∧ n ≤ t then v else checkBit bf n) ∧
    (∀ j, j < f / 8 ∨ t / 8 < j → setBitsInBitfield bf f t v j = bf j) ∧
    (∀ j, f / 8 ≤ j → j ≤ t / 8 → setBitsInBitfield bf f t v j
        = setBits (bf j) (max f (j * 8) - j * 8) (min 7 (t - j * 8)) v) := by
  refine ⟨?_, ?_, ?_⟩
  · intro n hn
    rw [checkBit_eq_testBit _ n hn, checkBit_eq_testBit _ n hn, setBitsInBitfield_apply bf f t v hf0 hft]
    have hb : ((n % 8).toNat : Int) = n % 8 := by omega
    by_cases h : f / 8 ≤ n / 8 ∧ n / 8 ≤ t / 8
    · rw [if_pos h, setBits_testBit _ _ _ _ _ (by omega) (by omega) (by omega) (by omega), hb]
      by_cases h2 : f ≤ n ∧ n ≤ t
      · have h3 : max f (n / 8 * 8) - n / 8 * 8 ≤ n % 8 ∧ n % 8 ≤ min 7 (t - n / 8 * 8) := by omega
        rw [if_pos h2, if_pos h3]
      · have h3 : ¬ (max f (n / 8 * 8) - n / 8 * 8 ≤ n % 8 ∧ n % 8 ≤ min 7 (t - n / 8 * 8)) := by
          omega
        rw [if_neg h2, if_neg h3]
    · have h2 : ¬ (f ≤ n ∧ n ≤ t) := by omega
      rw [if_neg h, if_neg h2]
  · intro j hj
    rw [setBitsInBitfield_apply bf f t v hf0 hft, if_neg (by omega)]
  · intro j h1 h2
    rw [setBitsInBitfield_apply bf f t v hf0 hft, if_pos ⟨h1, h2⟩]

/-- Claim C22 on a bitmap of 40 bytes 0xFF: the bits 5 to 18 are cleared. -/
theorem setBitsInBitfield_spec_witness :
    checkBit (setBitsInBitfield (fun _ => 255) 5 18 false) 4 = true ∧
    checkBit (setBitsInBitfield (fun _ => 255) 5 18 false) 5 = false ∧
    checkBit (setBitsInBitfield (fun _ => 255) 5 18 false) 18 = false ∧
    checkBit (setBitsInBitfield (fun _ => 255) 5 18 false) 19 = true ∧
    setBitsInBitfield (fun _ => 255) 5 18 false 3 = 255 := by
  obtain ⟨h1, h2, _⟩ := setBitsInBitfield_spec (fun _ => 255) 5 18 false (by decide) (by decide)
  refine ⟨?_, ?_, ?_, ?_, h2 3 (by decide)⟩
  · rw [h1 4 (by decide)]; decide
  · rw [h1 5 (by decide)]; decide
  · rw [h1 18 (by decide)]; decide
  · rw [h1 19 (by decide)]; decide

/-! ### CRC-32 in steps -/

/-- On both of its paths `crc32` is the byte loop over the whole buffer. -/
theorem crc32_fold (p : Bool) (crc addr : Nat) (buf : List Nat) (hcrc : crc < 2 ^ 32)
    (hb : ∀ b ∈ buf, b < 256) :
    crc32 p crc addr (some buf) = buf.foldl crcByte (crc ^^^ 0xffffffff) ^^^ 0xffffffff := by
  cases p
  · exact crc32_table_fold crc addr buf hcrc hb
  · exact crc32_pclmul_fold crc addr buf hcrc hb

theorem crc32_lt (p : Bool) (crc addr : Nat) (buf : List Nat) (hcrc : crc < 2 ^ 32)
    (hb : ∀ b ∈ buf, b < 256) : crc32 p crc addr (some buf) < 2 ^ 32 := by
  rw [crc32_fold p crc addr buf hcrc hb]
  exact Nat.xor_lt_two_pow
    (foldl_crcByte_lt buf _ (Nat.xor_lt_two_pow hcrc (by norm_num)) hb) (by norm_num)

/-- Claim C30. For every 32-bit `c` and all byte strings `a` and `b`, wherever they lie in
memory and whichever path each call takes: `crc32` of `b` continued from `crc32` of `a`
is `crc32` of `a ++ b`, and `crc32` of no bytes is `c`. -/
theorem crc32_incremental (p q r : Bool) (c addrA addrB addrAB : Nat) (a b : List Nat)
    (hc : c < 2 ^ 32) (ha : ∀ x ∈ a, x < 256) (hb : ∀ x ∈ b, x < 256) :
    crc32 p (crc32 q c addrA (some a)) addrB (some b) = crc32 r c addrAB (some (a ++ b)) ∧
    crc32 p c addrA (some []) = c := by
  have hab : ∀ x ∈ a ++ b, x < 256 := by
    intro x hx
    rcases List.mem_append.mp hx with h | h
    · exact ha x h
    · exact hb x h
  have cancel : ∀ x : Nat, x ^^^ 0xffffffff ^^^ 0xffffffff = x := by
    intro x
    rw [Nat.xor_assoc, Nat.xor_self, Nat.xor_zero]
  constructor
  · rw [crc32_fold p _ addrB b (crc32_lt q c addrA a hc ha) hb, crc32_fold q c addrA a hc ha,
      crc32_fold r c addrAB _ hc hab, cancel, List.foldl_append]
  · rw [crc32_fold p c addrA [] hc (by simp)]
    exact cancel c

/-- Claim C30 on "1234" and "56789" at odd addresses: the check value 0xCBF43926 of
"123456789" is reached in two steps. -/
theorem crc32_incremental_witness :
    crc32 true (crc32 false 0 1 (some [0x31, 0x32, 0x33, 0x34])) 7
        (some [0x35, 0x36, 0x37, 0x38, 0x39])
      = crc32 false 0 0 (some ([0x31, 0x32, 0x33, 0x34] ++ [0x35, 0x36, 0x37, 0x38, 0x39])) ∧
    crc32 true 0 1 (some []) = 0 :=
  crc32_incremental true false false 0 1 7 0 [0x31, 0x32, 0x33, 0x34]
    [0x35, 0x36, 0x37, 0x38, 0x39] (by decide) (by decide) (by decide)

/-! ### The later claims on concrete inputs -/

/-- Claim C26 on a concrete input. The first call of `mergeRequest` fails and the second one,
the first retry, succeeds: `startMerge` goes on and calls five more times, seven calls in
all. -/
theorem startMerge_goes_on_after_success :
    startMerge 10 (fun k => decide (k = 1))
      = some [false, true, false, false, false, false, false] := by
  decide

/-- After a first failure `startMerge` makes six more calls, whatever their outcomes; after a
first success it makes none. -/
theorem startMerge_calls (m : Nat → Bool) (k : Nat) :
    (m 0 = false → startMerge (k + 7) m = some [false, m 1, m 2, m 3, m 4, m 5, m 6]) ∧
    (m 0 = true → startMerge (k + 1) m = some [true]) := by
  constructor
  · intro h
    unfold startMerge
    rw [h]
    rfl
  · intro h
    unfold startMerge
    rw [h]
    rfl

/-- Claim C28 on a concrete input. After `cowfile_setSize` to 0 the image size is 0 and the
bound `l1MaxOffset` is 13743895348, while the L1 array has 746 slots. -/
theorem l1MaxOffset_after_truncate :
    (cowfile_setSize 1 demoEnv (cowfile_init demoEnv 8192) 0).map
        (fun w => (w.imageSize, l1MaxOffset stdConst w.imageSize)) = some (0, 13743895348) ∧
    l1Size stdConst = 746 := by
  decide!

/-- For an image that is not empty and not larger than `COW_MAX_IMAGE_SIZE` the bound of the
scans is inside the L1 array. -/
theorem l1MaxOffset_le (K : CowConst) (hK : K.WF) (s : Int) (h1 : 0 < s)
    (h2 : s ≤ K.COW_MAX_IMAGE_SIZE) : l1MaxOffset K s ≤ l1Size K := by
  have hl2 : 0 < K.COW_L2_STORAGE_CAPACITY := by
    unfold CowConst.COW_L2_STORAGE_CAPACITY
    exact Int.mul_pos hK.l2_pos (cap_pos K hK)
  have hm := hK.max_int
  unfold DNBD3_BLOCK_SIZE at hm
  unfold l1MaxOffset l1Size
  generalize K.COW_L2_STORAGE_CAPACITY = C at hl2 ⊢
  have e1 : u64 (s - 1) = s - 1 := u64_of_range (by omega) (by omega)
  have hq0 : 0 ≤ (s - 1) / C := Int.ediv_nonneg (by omega) (by omega)
  have hq1 : (s - 1) / C ≤ s - 1 := Int.ediv_le_self _ (by omega)
  have e2 : u64 (1 + (s - 1) / C) = 1 + (s - 1) / C := u64_of_range (by omega) (by omega)
  rw [e1, e2]
  have e3 : 1 + (s - 1) / C = (s - 1 + C) / C := by
    rw [Int.add_ediv_of_dvd_right (dvd_refl _), Int.ediv_self (by omega)]
    ring
  rw [e3]
  exact Int.ediv_le_ediv hl2 (by omega)

/-- Claim C23 on a concrete input. Frame 0 of an image of 8192 bytes is written, so its bit is
set; then the image is grown to 16384 bytes. The bit of frame 0, which lies below the old
end, is cleared, and a read of the first four bytes is served from the origin and returns
0x11, not the 0x5A written. The same happens when the image is grown to 10000 bytes. -/
theorem setSize_grow_clears_below_old_end :
    (demoWrite (cowfile_init demoEnv 8192) 0 4096).map (fun w => (bitOf w (0, 0) 0, w.imageSize))
      = some (true, 8192) ∧
    ((demoWrite (cowfile_init demoEnv 8192) 0 4096).bind
        (fun w => cowfile_setSize 8 demoEnv w 16384)).map
        (fun w => (bitOf w (0, 0) 0, w.imageSize)) = some (false, 16384) ∧
    (((demoWrite (cowfile_init demoEnv 8192) 0 4096).bind
        (fun w => cowfile_setSize 8 demoEnv w 16384)).bind (fun w => demoRead w 4 0)).map
        (fun w => (w.served, bytes w.req.readBuffer 4))
      = some ([(dataSource.remote, 0, 4)], [17, 17, 17, 17]) ∧
    ((demoWrite (cowfile_init demoEnv 8192) 0 4096).bind
        (fun w => cowfile_setSize 8 demoEnv w 10000)).map
        (fun w => (bitOf w (0, 0) 0, w.imageSize)) = some (false, 10000) := by
  decide!

/-- Claim C27 on a concrete input. `setBitsInBitfield` with `to = COW_BITFIELD_SIZE * 8`
writes the byte with index `COW_BITFIELD_SIZE`; in `cowfile_setSize` that clears the lowest
bit of the byte that follows the bitmap of the entry. -/
theorem setSize_writes_past_bitmap :
    setBitsInBitfield (fun _ => 255) 0 (stdConst.COW_BITFIELD_SIZE * 8) false
        stdConst.COW_BITFIELD_SIZE = 254 ∧
    fullStore.map (fun w => (w.entry (0, 0)).bitfield 40) = some 255 ∧
    (fullStore.bind (fun w => cowfile_setSize 8 demoEnv w 16384)).map
        (fun w => (w.entry (0, 0)).bitfield 40) = some 254 := by
  decide!

/-- Claim C24 on a concrete input. Two frames (8192 bytes 0x5A) are written at offset 0; the
first `pwrite` takes 4097 bytes, the second fails. The bits of both frames are set, although
of the second frame only the first byte is in the data file (the byte after it is still 0);
the request ends with an error. -/
theorem writeData_marks_partial_frame :
    (cowfile_write 8 shortWriteEnv
        { cowfile_init demoEnv 8192 with req := writeRequest (demoData 8192) 0 8192 demoEnv.fresh }
        0 8192).map
      (fun w => (bitOf w (0, 0) 0, bitOf w (0, 0) 1, w.fhd ((w.entry (0, 0)).offset + 4096),
        w.fhd ((w.entry (0, 0)).offset + 4097), w.req.errorCode))
      = some (true, true, 90, 0, 5) := by
  decide!

/-- The first lines of `cowfile_write`: the call to itself for the gap, with the size of the
padding. -/
theorem cowfile_write_gap (fuel : Nat) (env : Env) (w : World) (offset size : Int) :
    cowfile_write (fuel + 1) env w offset size
      = (if offset > i64 w.imageSize then
          cowfile_write fuel env
            { w with req := { w.req with workCounter := w.req.workCounter + 1 } }
            (i64 w.imageSize) (gapPadSize w.imageSize offset)
        else some w).bind (fun w2 => cowfile_write_data (fuel + 1) env w2 offset size) := rfl

/-- Claim C25 on concrete inputs. The image has 4096 bytes. One byte 0x5A is written at offset
12288: the bytes of the gap read back as 0x5A and 0xAA, the content of the write buffer and
of the memory behind it, not as 0. For a write at offset 4097 the padding size is computed
as 2^64 - 1, where the gap has one byte. -/
theorem gap_holds_write_buffer :
    ((demoWrite (cowfile_init demoEnv 4096) 12288 1).bind (fun w => demoRead w 4 4096)).map
        (fun w => (w.served, bytes w.req.readBuffer 4))
      = some ([(dataSource.local_, 4096, 4)], [90, 170, 170, 170]) ∧
    gapPadSize 4096 4097 = 18446744073709551615 := by
  decide!

/-- Claim C29 on concrete inputs. The image of 4096 bytes is grown to 16384 bytes and one byte
is written at offset 5000, inside frame 1: the bits of frame 1 and of frame 2 are set. When
frame 2 has been written before (4096 bytes 0x5A at offset 8192), its first 904 bytes are
zeros afterwards: a read at 8191 returns 0 for the byte 8192. -/
theorem zero_fill_spills_into_next_frame :
    (grownStore.bind (fun w => demoWrite w 5000 1)).map
        (fun w => (List.range 4).map (fun n => bitOf w (0, 0) n))
      = some [false, true, true, false] ∧
    ((grownStore.bind (fun w => demoWrite w 8192 4096)).bind (fun w => demoWrite w 5000 1)).map
        (fun w => (w.fhd ((w.entry (0, 0)).offset + 5000), w.fhd ((w.entry (0, 0)).offset + 8192),
          w.fhd ((w.entry (0, 0)).offset + 9095), w.fhd ((w.entry (0, 0)).offset + 9096)))
      = some (90, 0, 0, 90) ∧
    (((grownStore.bind (fun w => demoWrite w 8192 4096)).bind
        (fun w => demoWrite w 5000 1)).bind (fun w => demoRead w 2 8191)).map
        (fun w => (w.served, bytes w.req.readBuffer 2))
      = some ([(dataSource.local_, 8191, 2)], [0, 0]) := by
  decide!

/-- Claim C21 on a concrete input. The original size of the image is 5000, its size 8192. For
a read of 100 bytes at offset 6000 the source of the first segment is taken at 6000
(zero), the source of the same frame is then taken at its start 4096 (remote), and the
segment is served with the length 4096 - 6000: `cowfile_read` does not return, whatever
the fuel. The read of the same length at 4096 is served in one segment. -/
theorem read_behind_uneven_original :
    unevenStore.map (fun w => (w.imageSize, w.originalImageSize,
        getBlockDataSource w none 1 6000, getBlockDataSource w none 1 4096))
      = some (8192, 5000, dataSource.zero, dataSource.remote) ∧
    (∀ fuel, unevenStore.bind (fun w => cowfile_read fuel demoEnv w 100 6000) = none) ∧
    (unevenStore.bind (fun w => cowfile_read 16 demoEnv w 100 4096)).map (fun w => w.served)
      = some [(dataSource.remote, 4096, 100)] := by
  refine ⟨by decide!, ?_, by decide!⟩
  intro fuel
  match fuel with
  | 0 => rfl
  | 1 => rfl
  | _ + 2 => rfl

end Dnbd3
